import Mathlib

/-!
# A shallow embedding of the demand-paging simulator

The simulator of `vmsim.c`, `mmu.c` and `bs.c` is embedded as state-passing
functions over an explicit `State` that collects the file-level variables of
the three translation units.

Conventions of the embedding:

* the two `mmap`ed regions are byte maps `Nat → Byte`, addressed by the offset
  from the region base; a pointer into real memory is the offset it names;
* a buffer argument (`void*`) is a byte map indexed from its first byte, the
  size travels separately, as in the source;
* a page-table entry is four bytes of real memory in little-endian order;
* values of the unsigned 32-bit types `vmsim_addr_t`, `pt_entry_t` and
  `unsigned int` are natural numbers reduced modulo `2^32` wherever the source
  computes one; `int` arithmetic is exact (signed overflow is undefined in C)
  and is reduced modulo `2^32` where it is converted to an unsigned type;
* a failed `assert` is `Fault.assertion`; a raw access (pointer dereference,
  `memset`, array indexing) outside the mapped extent, through a null or an
  uninitialised pointer, or a division by zero is `Fault.undefined`;
* `uint64_t` and `size_t` values are natural numbers; the one subtraction the
  source makes on them (`real_size - PT_AREA_SIZE`) is reduced modulo `2^64`;
* the recursion of `mmu_translate` and the loop of `find_lru` are bounded by
  a fuel argument; `Fault.fuel` means the bound was reached.
-/

namespace VMSim

/-- One byte of a simulated region. -/
abbrev Byte := Fin 256

/-- A byte-addressable region, indexed by the offset from its base. -/
abbrev Mem := Nat → Byte

/-- Ways in which a run of the simulator stops without a result. -/
inductive Fault where
  | assertion
  | undefined
  | fuel
  deriving DecidableEq

/-- The number of values of an unsigned 32-bit integer. -/
def U32 : Nat := 4294967296

/-- The number of values of an unsigned 64-bit integer. -/
def U64 : Nat := 18446744073709551616

/-- Source macro `KB(n)`. -/
def KB (n : Nat) : Nat := n * 1024

/-- Source macro `MB(n)`. -/
def MB (n : Nat) : Nat := KB n * 1024

/-- Source macro `GB(n)`. -/
def GB (n : Nat) : Nat := MB n * 1024

/-- Source constant of `vmsim.c`. -/
def DEFAULT_REAL_MEMORY_SIZE : Nat := MB 4 + KB 16

/-- Source constant of `vmsim.c`. -/
def PAGESIZE : Nat := KB 4

/-- Source constant of `vmsim.c`. -/
def PT_AREA_SIZE : Nat := MB 4 + KB 4

/-- Source constant of `vmsim.c`. -/
def OFFSET_MASK : Nat := PAGESIZE - 1

/-- Source constant of `vmsim.c`: `~OFFSET_MASK` as an unsigned 32-bit value. -/
def PAGE_NUMBER_MASK : Nat := U32 - 1 - OFFSET_MASK

/-- Source constant of `bs.c`. -/
def DEFAULT_BACKING_STORE_SIZE : Nat := GB 1

/-- Source constant of `bs.c`. -/
def BLOCK_SIZE : Nat := KB 4

/-- Modelled from the spec: the header `mmu.h` that defines the status bits of
a page-table entry is not among the sources; the spec places RESIDENT,
REFERENCED and DIRTY at fixed low bit positions below the block-number field
(which starts at bit 10). RESIDENT is bit 0. -/
def PTE_RESIDENT_BIT : Nat := 1

/-- Modelled from the spec: see `PTE_RESIDENT_BIT`. REFERENCED is bit 1. -/
def PTE_REFERENCED_BIT : Nat := 2

/-- Modelled from the spec: see `PTE_RESIDENT_BIT`. DIRTY is bit 2. -/
def PTE_DIRTY_BIT : Nat := 4

/-- Source macro `GET_UPPER_INDEX`. -/
def GET_UPPER_INDEX (addr : Nat) : Nat := (addr >>> 22) &&& 0x3ff

/-- Source macro `GET_LOWER_INDEX`. -/
def GET_LOWER_INDEX (addr : Nat) : Nat := (addr >>> 12) &&& 0x3ff

/-- Source macro `GET_OFFSET`. -/
def GET_OFFSET (addr : Nat) : Nat := addr &&& OFFSET_MASK

/-- Source macro `GET_PAGE_ADDR`. -/
def GET_PAGE_ADDR (addr : Nat) : Nat := addr &&& PAGE_NUMBER_MASK

/-- Source macro `IS_ALIGNED`. -/
def IS_ALIGNED (addr : Nat) : Bool := addr &&& OFFSET_MASK == 0

/-- Source macro `IS_RESIDENT`, as a truth value. -/
def IS_RESIDENT (pte : Nat) : Bool := pte &&& PTE_RESIDENT_BIT != 0

/-- Source macro `IS_REFERENCED`, as a truth value. -/
def IS_REFERENCED (pte : Nat) : Bool := pte &&& PTE_REFERENCED_BIT != 0

/-- Source macro `IS_DIRTY`, as a truth value. -/
def IS_DIRTY (pte : Nat) : Bool := pte &&& PTE_DIRTY_BIT != 0

/-- Source macro `SET_RESIDENT`: the value assigned. -/
def SET_RESIDENT (pte : Nat) : Nat := pte ||| PTE_RESIDENT_BIT

/-- Source macro `SET_REFERENCED`: the value assigned. -/
def SET_REFERENCED (pte : Nat) : Nat := pte ||| PTE_REFERENCED_BIT

/-- Source macro `SET_DIRTY`: the value assigned. -/
def SET_DIRTY (pte : Nat) : Nat := pte ||| PTE_DIRTY_BIT

/-- Source macro `CLEAR_RESIDENT`: the value assigned. -/
def CLEAR_RESIDENT (pte : Nat) : Nat := pte &&& (U32 - 1 - PTE_RESIDENT_BIT)

/-- Source macro `CLEAR_REFERENCED`: the value assigned. -/
def CLEAR_REFERENCED (pte : Nat) : Nat := pte &&& (U32 - 1 - PTE_REFERENCED_BIT)

/-- The file-level variables of `vmsim.c`, `mmu.c` and `bs.c`, the contents of
the two mapped regions, and the two environment variables read at start-up. -/
structure State where
  /-- Value of `VMSIM_REAL_MEM_SIZE`, when set. -/
  env_real_mem_size : Option Nat
  /-- Value of `VMSIM_BS_SIZE`, when set. -/
  env_bs_size : Option Nat
  /-- Whether `real_base` is non-null. -/
  real_base : Bool
  /-- The address at which `mmap` places real memory, the value of the pointer
  `real_base` once it is non-null. It comes from the environment; like every
  user-space address of the 64-bit platforms the code is written for, it lies
  below `2^47`. Only the bounds test of the raw accesses reads it. -/
  real_map_addr : Fin 140737488355328
  /-- The pointer `real_limit`, as an offset from `real_base`. -/
  real_limit : Nat
  real_size : Nat
  /-- Contents of the real-memory region. -/
  real : Mem
  pt_free_addr : Nat
  real_free_addr : Nat
  upper_pt : Nat
  sim_free_addr : Nat
  next_block_number : Nat
  /-- The array `entries`: slot number to the pointer stored there (as an
  offset into real memory); `none` is a slot never assigned. -/
  entries : Nat → Option Nat
  /-- Whether `entries` is non-null. -/
  entries_base : Bool
  num_entries : Nat
  current_page_number : Nat
  /-- The variable `upper_pt_addr` of `mmu.c`. -/
  upper_pt_addr : Nat
  /-- Whether `bs_base` is non-null. -/
  bs_base : Bool
  /-- The pointer `bs_limit`, as an offset from `bs_base`. -/
  bs_limit : Nat
  bs_size : Nat
  /-- Contents of the backing-store region. -/
  bs : Mem
  /-- Ghost field, read by no operation: the block numbers handed to the
  backing store by the calls of `from_mm_to_bs` so far, oldest first. -/
  evicted : List Nat

/-- Length of an anonymous mapping of `size` bytes: whole pages of 4096. -/
def mapped_len (size : Nat) : Nat := (size + 4095) / 4096 * 4096

/-- Extent of real memory that a raw access may touch. -/
def State.real_mapped (s : State) : Nat :=
  if s.real_base then mapped_len s.real_size else 0

/-- Extent of the backing store that a raw access may touch. -/
def State.bs_mapped (s : State) : Nat :=
  if s.bs_base then mapped_len s.bs_size else 0

/-- The four bytes of a 32-bit value, least significant first. -/
def bytes32 (v : Nat) : Nat → Byte := fun i => Fin.ofNat (v / 256 ^ i)

/-- The 32-bit value held in the first four bytes of a buffer. -/
def le32 (buf : Nat → Byte) : Nat :=
  (buf 0).val + 256 * (buf 1).val + 65536 * (buf 2).val + 16777216 * (buf 3).val

/-- The bytes of a region seen from offset `a`. -/
def Mem.at (m : Mem) (a : Nat) : Nat → Byte := fun i => m (a + i)

/-- The page-table entry stored at offset `a` of a region. -/
def Mem.pte (m : Mem) (a : Nat) : Nat := le32 (m.at a)

/-- Effect of `memcpy(dst + a, buf, size)` on the region `dst`. -/
def Mem.copy_in (dst : Mem) (a : Nat) (buf : Nat → Byte) (size : Nat) : Mem :=
  fun x => if a ≤ x ∧ x < a + size then buf (x - a) else dst x

/-- Effect of `memset(m + a, 0, size)` on the region `m`. -/
def Mem.zero (m : Mem) (a size : Nat) : Mem :=
  fun x => if a ≤ x ∧ x < a + size then 0 else m x

/-- The address of the real-memory mapping in the states built by `boot`,
a page-aligned user-space address. The statements about the raw accesses are
made for every address a state can hold. -/
def REAL_MAP_ADDR : Fin 140737488355328 := ⟨139637976727552, by decide⟩

/-- The state of the three translation units when the process starts. -/
def boot (env_real_mem_size env_bs_size : Option Nat) : State where
  env_real_mem_size := env_real_mem_size
  env_bs_size := env_bs_size
  real_base := false
  real_map_addr := REAL_MAP_ADDR
  real_limit := 0
  real_size := DEFAULT_REAL_MEMORY_SIZE
  real := fun _ => 0
  pt_free_addr := PAGESIZE
  real_free_addr := PT_AREA_SIZE
  upper_pt := 0
  sim_free_addr := 0
  next_block_number := 1
  entries := fun _ => none
  entries_base := false
  num_entries := (DEFAULT_REAL_MEMORY_SIZE - PT_AREA_SIZE) / PAGESIZE
  current_page_number := 0
  upper_pt_addr := 0
  bs_base := false
  bs_limit := 0
  bs_size := DEFAULT_BACKING_STORE_SIZE
  bs := fun _ => 0
  evicted := []

/-- The C macro `assert`. -/
def c_assert (c : Bool) : Except Fault Unit :=
  if c then .ok () else .error .assertion

/-- Source function `vmsim_read_real`: the buffer after the copy. The end of
the range is the sum `(intptr_t) ptr + size`, formed in 64 bits: it wraps for a
`size` close to `2^64`, the wrapped end is below `real_limit`, the assertion
passes and `memcpy` runs past real memory. The pointer `real_limit` is
`real_base + real_size`, kept as the offset `real_size`. -/
def vmsim_read_real (s : State) (buffer : Nat → Byte) (real_addr size : Nat) :
    Except Fault (Nat → Byte) :=
  let ptr := s.real_map_addr.val + real_addr
  let end_ptr := (ptr + size) % U64
  if end_ptr ≤ s.real_map_addr.val + s.real_limit then
    if real_addr + size ≤ s.real_limit then
      .ok (fun i => if i < size then s.real (real_addr + i) else buffer i)
    else .error .undefined
  else .error .assertion

/-- Source function `vmsim_write_real`; the bounds test is that of
`vmsim_read_real`. -/
def vmsim_write_real (s : State) (buffer : Nat → Byte) (real_addr size : Nat) :
    Except Fault State :=
  let ptr := s.real_map_addr.val + real_addr
  let end_ptr := (ptr + size) % U64
  if end_ptr ≤ s.real_map_addr.val + s.real_limit then
    if real_addr + size ≤ s.real_limit then
      .ok { s with real := s.real.copy_in real_addr buffer size }
    else .error .undefined
  else .error .assertion

/-- The call `vmsim_read_real(&pte, addr, sizeof(pte))` on a local variable
holding `init`: the value of the variable afterwards. -/
def read_pte (s : State) (init addr : Nat) : Except Fault Nat := do
  let buf ← vmsim_read_real s (bytes32 init) addr 4
  pure (le32 buf)

/-- The call `vmsim_write_real(&pte, addr, sizeof(pte))`. -/
def write_pte (s : State) (pte addr : Nat) : Except Fault State :=
  vmsim_write_real s (bytes32 pte) addr 4

/-- The raw read `*p` of a `pt_entry_t*` pointing at offset `p` of real memory. -/
def deref_pte (s : State) (p : Nat) : Except Fault Nat :=
  if p + 4 ≤ s.real_mapped then .ok (s.real.pte p) else .error .undefined

/-- The raw call `memset(real_base + a, 0, PAGESIZE)`. -/
def memset_page (s : State) (a : Nat) : Except Fault State :=
  if a + PAGESIZE ≤ s.real_mapped then .ok { s with real := s.real.zero a PAGESIZE }
  else .error .undefined

/-- The size in bytes of the block that `vmsim_init` allocates for the
directory `entries`: `sizeof(vmsim_addr_t) * num_entries`, with the 4-byte
`vmsim_addr_t`. -/
def State.entries_bytes (s : State) : Nat := 4 * s.num_entries

/-- Whether element `i` of `entries` lies inside the block allocated for the
directory: the elements are pointers (`pt_entry_t*`) of 8 bytes, element `i`
takes the bytes `8 i` to `8 i + 7`. -/
def State.slot_allocated (s : State) (i : Nat) : Bool := decide (8 * i + 8 ≤ s.entries_bytes)

/-- The array read `entries[i]`, for the directory taken as an array of
`num_entries` pointers. The block behind it is smaller (`State.entries_bytes`):
a slot for which `State.slot_allocated` is false lies outside the block, and
this function does not tell such a read from one inside it. -/
def get_entry (s : State) (i : Nat) : Except Fault Nat :=
  if s.entries_base && decide (i < s.num_entries) then
    match s.entries i with
    | some p => .ok p
    | none => .error .undefined
  else .error .undefined

/-- The array write `entries[i] = p`, for the directory taken as an array of
`num_entries` pointers (see `get_entry`). -/
def set_entry (s : State) (i p : Nat) : Except Fault State :=
  if s.entries_base && decide (i < s.num_entries) then
    .ok { s with entries := fun j => if j = i then some p else s.entries j }
  else .error .undefined

/-- Source function `get_block_ptr`: the offset of the block from `bs_base`,
or `none` for the null pointer. The product is computed in `unsigned int`. -/
def get_block_ptr (s : State) (block_number : Nat) : Option Nat :=
  let off := (block_number * BLOCK_SIZE) % U32
  if off ≥ s.bs_limit then none else some off

/-- Source function `bs_read`. -/
def bs_read (s : State) (buffer block_number : Nat) : Except Fault (Bool × State) :=
  match get_block_ptr s block_number with
  | none => .ok (false, s)
  | some off =>
    if off + BLOCK_SIZE ≤ s.bs_mapped then do
      let s1 ← vmsim_write_real s (s.bs.at off) buffer BLOCK_SIZE
      pure (true, s1)
    else .error .undefined

/-- Source function `bs_write`. -/
def bs_write (s : State) (buffer block_number : Nat) : Except Fault (Bool × State) :=
  match get_block_ptr s block_number with
  | none => .ok (false, s)
  | some off =>
    if off + BLOCK_SIZE ≤ s.bs_mapped then do
      let buf ← vmsim_read_real s (s.bs.at off) buffer BLOCK_SIZE
      pure (true, { s with bs := s.bs.copy_in off buf BLOCK_SIZE })
    else .error .undefined

/-- Source function `bs_init`. The call of `mmap` is taken to succeed; it
fails for a size of 0, and the source does not detect that (`MAP_FAILED` is not
`NULL`). -/
def bs_init (s : State) : State :=
  if s.bs_base then s
  else
    let size := match s.env_bs_size with
      | some n => n
      | none => s.bs_size
    { s with bs_size := size, bs_base := true, bs_limit := size, bs := fun _ => 0 }

/-- Source function `mmu_init`. -/
def mmu_init (s : State) (new_upper_pt_addr : Nat) : State :=
  { s with upper_pt_addr := new_upper_pt_addr }

/-- Source function `allocate_pt`. -/
def allocate_pt (s : State) : Except Fault (Nat × State) :=
  let new_pt_addr := s.pt_free_addr
  let s1 := { s with pt_free_addr := (s.pt_free_addr + PAGESIZE) % U32 }
  if !IS_ALIGNED new_pt_addr then .error .assertion
  else if ¬ s1.pt_free_addr ≤ PT_AREA_SIZE then .error .assertion
  else do
    let s2 ← memset_page s1 new_pt_addr
    pure (new_pt_addr, s2)

/-- Source function `find_lru`, from the test of its loop on: `entry` is the
local variable of that name, the first argument bounds the iterations left. -/
def find_lru_loop : Nat → State → Nat → Except Fault (Nat × State)
  | fuel, s, entry =>
    if IS_REFERENCED entry then
      match fuel with
      | 0 => .error .fuel
      | fuel + 1 => do
        let cleared_entry := CLEAR_REFERENCED entry
        let destination_address ← get_entry s s.current_page_number
        let s1 ← write_pte s cleared_entry destination_address
        if s1.num_entries = 0 then .error .undefined
        else
          let s2 := { s1 with
            current_page_number := (s1.current_page_number + 1) % s1.num_entries }
          let p ← get_entry s2 s2.current_page_number
          let entry2 ← deref_pte s2 p
          find_lru_loop fuel s2 entry2
    else do
      let p ← get_entry s s.current_page_number
      pure (p, s)

/-- Source function `find_lru`: the pointer returned, as an offset into real
memory. -/
def find_lru (fuel : Nat) (s : State) : Except Fault (Nat × State) := do
  let p ← get_entry s s.current_page_number
  let entry ← deref_pte s p
  find_lru_loop fuel s entry

/-- Source function `from_mm_to_bs`. -/
def from_mm_to_bs (s : State) (entry_ptr : Nat) : Except Fault (Nat × State) := do
  let entry ← deref_pte s entry_ptr
  let free_slot_address := GET_PAGE_ADDR entry
  let (_, s1) ← bs_write s free_slot_address (s.next_block_number % U32)
  let entry1 := (entry &&& 0x3ff) ||| ((s1.next_block_number <<< 10) % U32)
  let s2 := { s1 with
    next_block_number := s1.next_block_number + 1
    evicted := s1.evicted ++ [s1.next_block_number] }
  let entry2 := CLEAR_RESIDENT entry1
  let s3 ← memset_page s2 free_slot_address
  let s4 ← write_pte s3 entry2 entry_ptr
  pure (free_slot_address, s4)

/-- Source function `from_bs_to_mm`. -/
def from_bs_to_mm (s : State) (entry_address real_address : Nat) : Except Fault State := do
  let entry ← read_pte s 0 entry_address
  let block_number := (entry &&& 0xfffc00) >>> 10
  let (_, s1) ← bs_read s real_address block_number
  let entry1 := (entry &&& 0x3ff) ||| real_address
  let entry2 := SET_RESIDENT entry1
  let s2 ← write_pte s1 entry2 entry_address
  let page_number := ((real_address + U32 - PT_AREA_SIZE) % U32) / PAGESIZE
  set_entry s2 page_number entry_address

/-- Source function `swap_pages`. -/
def swap_pages (s : State) (bs_page mm_page : Nat) : Except Fault State := do
  let (freed_slot, s1) ← from_mm_to_bs s mm_page
  from_bs_to_mm s1 bs_page freed_slot

/-- Source function `allocate_real_page`. -/
def allocate_real_page (fuel : Nat) (s : State) : Except Fault (Nat × State) :=
  let new_real_addr := s.real_free_addr
  let s1 := { s with real_free_addr := (s.real_free_addr + PAGESIZE) % U32 }
  if !IS_ALIGNED new_real_addr then .error .assertion
  else if s1.real_free_addr > s1.real_size then do
    let (entry, s2) ← find_lru fuel s1
    from_mm_to_bs s2 entry
  else do
    let s2 ← memset_page s1 new_real_addr
    pure (new_real_addr, s2)

/-- Source function `vmsim_init`. -/
def vmsim_init (s : State) : Except Fault State :=
  if s.real_base then .ok s
  else do
    let size := match s.env_real_mem_size with
      | some n => n
      | none => s.real_size
    let s1 := { s with
      real_size := size, real_base := true, real_limit := size, real := fun _ => 0 }
    let (pt, s2) ← allocate_pt s1
    let s3 := { s2 with upper_pt := pt, sim_free_addr := PAGESIZE }
    let s4 := bs_init (mmu_init s3 s3.upper_pt)
    pure { s4 with
      num_entries := ((s4.real_size + U64 - PT_AREA_SIZE) % U64) / PAGESIZE
      entries := fun _ => none
      entries_base := true }

/-- Source function `vmsim_map_fault`. -/
def vmsim_map_fault (fuel : Nat) (s : State) (sim_addr : Nat) : Except Fault State := do
  c_assert (s.upper_pt != 0)
  let upper_index := GET_UPPER_INDEX sim_addr
  let upper_pte_addr := (s.upper_pt + upper_index * 4) % U32
  let upper_pte0 ← read_pte s 0 upper_pte_addr
  let (upper_pte, s1) ←
    (if upper_pte0 = 0 then
      (do
        let (pt, sa) ← allocate_pt s
        c_assert (pt != 0)
        let sb ← write_pte sa pt upper_pte_addr
        pure (pt, sb))
    else pure (upper_pte0, s))
  let lower_pt := GET_PAGE_ADDR upper_pte
  let lower_index := GET_LOWER_INDEX sim_addr
  let lower_pte_addr := (lower_pt + lower_index * 4) % U32
  let lower_pte0 ← read_pte s1 0 lower_pte_addr
  let (lower_pte, s2) ←
    (if lower_pte0 = 0 then
      (do
        let (real_addr, sa) ← allocate_real_page fuel s1
        let pte := SET_RESIDENT real_addr
        let sb ← write_pte sa pte lower_pte_addr
        let page_number := ((real_addr + U32 - PT_AREA_SIZE) % U32) / PAGESIZE
        let sc ← set_entry sb page_number lower_pte_addr
        pure (pte, sc))
    else pure (lower_pte0, s1))
  if !IS_RESIDENT lower_pte then
    let (lru_page, s3) ← find_lru fuel s2
    swap_pages s3 lower_pte_addr lru_page
  else pure s2

/-- Source function `mmu_translate`; the first argument bounds the depth of
its recursion and the iterations of each victim search. -/
def mmu_translate : Nat → State → Nat → Bool → Except Fault (Nat × State)
  | 0, _, _, _ => .error .fuel
  | fuel + 1, s, sim_addr, write_operation => do
    c_assert (s.upper_pt_addr != 0)
    let upper_index := GET_UPPER_INDEX sim_addr
    let upper_pte_addr := (s.upper_pt_addr + upper_index * 4) % U32
    let upper_pte ← read_pte s 0 upper_pte_addr
    if upper_pte = 0 then
      let s1 ← vmsim_map_fault (fuel + 1) s sim_addr
      mmu_translate fuel s1 sim_addr write_operation
    else
      let lower_pt_addr := GET_PAGE_ADDR upper_pte
      let lower_index := GET_LOWER_INDEX sim_addr
      let lower_pte_addr := (lower_pt_addr + lower_index * 4) % U32
      let lower_pte ← read_pte s 0 lower_pte_addr
      if lower_pte = 0 || !IS_RESIDENT lower_pte then
        let s1 ← vmsim_map_fault (fuel + 1) s sim_addr
        mmu_translate fuel s1 sim_addr write_operation
      else
        let lower_pte1 := SET_REFERENCED lower_pte
        let lower_pte2 := if write_operation then SET_DIRTY lower_pte1 else lower_pte1
        let s1 ← write_pte s lower_pte2 lower_pte_addr
        let real_addr := GET_PAGE_ADDR lower_pte2 ||| GET_OFFSET sim_addr
        pure (real_addr, s1)

/-- Source function `vmsim_map`. -/
def vmsim_map (fuel : Nat) (s : State) (sim_addr : Nat) (write_operation : Bool) :
    Except Fault (Nat × State) := do
  let s1 ← vmsim_init s
  c_assert s1.real_base
  mmu_translate fuel s1 sim_addr write_operation

/-- Source function `vmsim_read`: the buffer after the call and the state. -/
def vmsim_read (fuel : Nat) (s : State) (buffer : Nat → Byte) (addr size : Nat) :
    Except Fault ((Nat → Byte) × State) := do
  let (real_addr, s1) ← vmsim_map fuel s addr false
  let buf ← vmsim_read_real s1 buffer real_addr size
  pure (buf, s1)

/-- Source function `vmsim_write`. -/
def vmsim_write (fuel : Nat) (s : State) (buffer : Nat → Byte) (addr size : Nat) :
    Except Fault State := do
  let (real_addr, s1) ← vmsim_map fuel s addr true
  vmsim_write_real s1 buffer real_addr size

/-- Source function `vmsim_alloc`. -/
def vmsim_alloc (s : State) (size : Nat) : Except Fault (Nat × State) := do
  let s1 ← vmsim_init s
  let addr := s1.sim_free_addr
  pure (addr, { s1 with sim_free_addr := (s1.sim_free_addr + size) % U32 })

/-- Source function `vmsim_free`. -/
def vmsim_free (s : State) (_ptr : Nat) : State := s

/-- The entry that directory slot `i` points at (0 for a slot never assigned). -/
def State.slot_pte (s : State) (i : Nat) : Nat :=
  match s.entries i with
  | some p => s.real.pte p
  | none => 0

/-- The directory is usable by the victim search: the array and real memory
exist, every one of the `num_entries` slots holds a pointer to four bytes
inside real memory, and different slots point at disjoint entries. -/
structure DirOK (s : State) : Prop where
  ebase : s.entries_base = true
  rbase : s.real_base = true
  limit : s.real_limit ≤ s.real_size
  slots : ∀ i, i < s.num_entries → ∃ p ∈ s.entries i, p + 4 ≤ s.real_limit
  apart : ∀ i, i < s.num_entries → ∀ j, j < s.num_entries → i ≠ j →
    ∀ p ∈ s.entries i, ∀ q ∈ s.entries j, p + 4 ≤ q ∨ q + 4 ≤ p

/-- Every one of the `num_entries` directory slots refers to an entry: the
array and real memory exist and each slot holds a pointer to four bytes inside
real memory (two slots may hold the same pointer). -/
structure SlotsOK (s : State) : Prop where
  ebase : s.entries_base = true
  rbase : s.real_base = true
  limit : s.real_limit ≤ s.real_size
  slots : ∀ i, i < s.num_entries → ∃ p ∈ s.entries i, p + 4 ≤ s.real_limit

/-- The state in which the first `vmsim_init` of a process leaves the
simulator, for the given values of the two environment variables, written out
field by field (`vmsim_init_boot` shows that `vmsim_init` returns it). -/
def init_state (env_real_mem_size env_bs_size : Option Nat) : State where
  env_real_mem_size := env_real_mem_size
  env_bs_size := env_bs_size
  real_base := true
  real_map_addr := REAL_MAP_ADDR
  real_limit := env_real_mem_size.getD DEFAULT_REAL_MEMORY_SIZE
  real_size := env_real_mem_size.getD DEFAULT_REAL_MEMORY_SIZE
  real := Mem.zero (fun _ => 0) 4096 4096
  pt_free_addr := 8192
  real_free_addr := 4198400
  upper_pt := 4096
  sim_free_addr := 4096
  next_block_number := 1
  entries := fun _ => none
  entries_base := true
  num_entries :=
    ((env_real_mem_size.getD DEFAULT_REAL_MEMORY_SIZE + U64 - 4198400) % U64) / 4096
  current_page_number := 0
  upper_pt_addr := 4096
  bs_base := true
  bs_limit := env_bs_size.getD DEFAULT_BACKING_STORE_SIZE
  bs_size := env_bs_size.getD DEFAULT_BACKING_STORE_SIZE
  bs := fun _ => 0
  evicted := []

set_option maxRecDepth 10000 in
/-- States the simulator can be in after initialisation: the state left by the
first `vmsim_init` of a process, and every state a public operation returns
from such a state. -/
inductive Reachable : State → Prop
  | init (er eb : Option Nat) (s : State) :
      vmsim_init (boot er eb) = .ok s → Reachable s
  | reinit (s s1 : State) : Reachable s → vmsim_init s = .ok s1 → Reachable s1
  | translate (fuel : Nat) (s : State) (a : Nat) (w : Bool) (r : Nat) (s1 : State) :
      Reachable s → a < U32 → mmu_translate fuel s a w = .ok (r, s1) → Reachable s1
  | map (fuel : Nat) (s : State) (a : Nat) (w : Bool) (r : Nat) (s1 : State) :
      Reachable s → a < U32 → vmsim_map fuel s a w = .ok (r, s1) → Reachable s1
  | read (fuel : Nat) (s : State) (buf : Nat → Byte) (a n : Nat) (out : Nat → Byte)
      (s1 : State) :
      Reachable s → a < U32 → vmsim_read fuel s buf a n = .ok (out, s1) → Reachable s1
  | write (fuel : Nat) (s : State) (buf : Nat → Byte) (a n : Nat) (s1 : State) :
      Reachable s → a < U32 → vmsim_write fuel s buf a n = .ok s1 → Reachable s1
  | alloc (s : State) (n a : Nat) (s1 : State) :
      Reachable s → vmsim_alloc s n = .ok (a, s1) → Reachable s1
  | free (s : State) (p : Nat) : Reachable s → Reachable (vmsim_free s p)

/-- The variables that only initialisation sets have the same values in `s`
and in `t`. -/
def Fixed (s t : State) : Prop :=
  t.env_real_mem_size = s.env_real_mem_size ∧ t.env_bs_size = s.env_bs_size ∧
  t.real_base = s.real_base ∧ t.real_limit = s.real_limit ∧ t.real_size = s.real_size ∧
  t.upper_pt = s.upper_pt ∧ t.upper_pt_addr = s.upper_pt_addr ∧
  t.entries_base = s.entries_base ∧ t.num_entries = s.num_entries ∧
  t.bs_base = s.bs_base ∧ t.bs_limit = s.bs_limit ∧ t.bs_size = s.bs_size

/-- Between `s` and `t` exactly `n` evictions took place, and they were given
the block numbers `s.next_block_number`, ..., `s.next_block_number + n - 1`. -/
def Evicts (s t : State) (n : Nat) : Prop :=
  t.evicted = s.evicted ++ List.range' s.next_block_number n ∧
  t.next_block_number = s.next_block_number + n

/-- The state after a list of accesses `(address, is_write)` made through
`vmsim_map`, in order; an access that does not return leaves the state as it
was. -/
def after_accesses (s : State) (l : List (Nat × Bool)) : State :=
  l.foldl (fun s aw =>
    match vmsim_map 8 s aw.1 aw.2 with
    | .ok (_, s1) => s1
    | .error _ => s) s

/-- The default configuration after its three frames were filled by a write
to page 1, a read of page 2 and a write to page 3. -/
def three_pages : State :=
  after_accesses (init_state none none) [(0x1000, true), (0x2000, false), (0x3000, true)]

/-- The state `three_pages` after a further read of page 4, which finds no
free frame. -/
def four_pages : State := after_accesses three_pages [(0x4000, false)]

/-- An initialised simulator whose backing store was configured with 6000
bytes, a capacity that is not a whole number of blocks. -/
def odd_store : State := init_state none (some 6000)

/-- The default real memory with a backing store of 4096 bytes (block 0 only),
after its three frames were filled. -/
def small_store : State :=
  after_accesses (init_state none (some 4096))
    [(0x1000, true), (0x2000, false), (0x3000, true)]

/-- A simulator with a backing store of 8 GiB in which the byte 171 was
written at simulated address 0x1000. -/
def written_page : State :=
  match vmsim_write 8 (init_state none (some 8589934592)) (fun _ => 171) 0x1000 1 with
  | .ok t => t
  | .error _ => init_state none (some 8589934592)

/-- The state `written_page` with the block counter at 2^20, a block number
inside the 8 GiB store whose byte offset does not fit 32 bits. -/
def wrapped_store : State := { written_page with next_block_number := 1048576 }

/-- The state `written_page` with the block counter at 2^14, after the
eviction of the page at simulated address 0x1000 (its entry is at 8196, its
frame at 4198400). -/
def reload_state : State :=
  match from_mm_to_bs { written_page with next_block_number := 16384 } 8196 with
  | .ok (_, t) => t
  | .error _ => written_page

/-- The upper-table entry that `mmu_translate` and `vmsim_map_fault` read for
`sim_addr`. -/
def State.upper_pte (s : State) (sim_addr : Nat) : Nat :=
  s.real.pte ((s.upper_pt_addr + GET_UPPER_INDEX sim_addr * 4) % U32)

/-- The location of the lower-table entry that `mmu_translate` and
`vmsim_map_fault` read for `sim_addr`. -/
def State.lower_pte_addr (s : State) (sim_addr : Nat) : Nat :=
  (GET_PAGE_ADDR (s.upper_pte sim_addr) + GET_LOWER_INDEX sim_addr * 4) % U32

/-- The lower-table entry of the page of `sim_addr`. -/
def State.lower_pte (s : State) (sim_addr : Nat) : Nat :=
  s.real.pte (s.lower_pte_addr sim_addr)

/-- Entry `u` of the root table, which initialisation puts at real address
4096: zero, or the address of the lower table for upper index `u`. -/
def Mem.table (m : Mem) (u : Nat) : Nat := m.pte (4096 + u * 4)

/-- Entry `l` of the lower table for upper index `u`. -/
def Mem.entry (m : Mem) (u l : Nat) : Nat := m.pte (m.table u + l * 4)

/-- The number of frames of the general pool handed out so far. -/
def State.frames (s : State) : Nat :=
  min ((s.real_free_addr - PT_AREA_SIZE) / PAGESIZE) s.num_entries

/-- The scalar part of the invariant: the configuration variables are as
initialisation left them, real memory is at most `2^32 - 4096` bytes, the two
bump cursors are page-aligned and inside their ranges, the clock hand is a
slot number (or 0 when there is no slot), the block counter is at least 1. -/
structure CfgOK (s : State) : Prop where
  rbase : s.real_base = true
  limit : s.real_limit = s.real_size
  size_hi : s.real_size + 4096 ≤ 4294967296
  upt : s.upper_pt = 4096
  upta : s.upper_pt_addr = 4096
  ebase : s.entries_base = true
  nent : s.num_entries = ((s.real_size + U64 - 4198400) % U64) / 4096
  pfa_al : s.pt_free_addr % 4096 = 0
  pfa_lo : 8192 ≤ s.pt_free_addr
  pfa_hi : s.pt_free_addr ≤ 4198400
  pfa_map : s.pt_free_addr ≤ s.real_mapped
  rfa_al : s.real_free_addr % 4096 = 0
  rfa_lo : 4198400 ≤ s.real_free_addr
  rfa_hi : s.real_free_addr + 4096 ≤ 4294967296
  small : 4198400 ≤ s.real_size ∨ s.real_free_addr = 4198400
  hand : s.current_page_number < s.num_entries ∨ s.current_page_number = 0
  nbn : 1 ≤ s.next_block_number

/-- The part of the invariant about the page tables and the directory. With
`hole = none` it holds between the public operations; with `hole = some i` it
describes the simulator inside a fault, when frame `i` has been taken (fresh,
or from a victim) and not yet given to the faulting page.

* a non-zero root entry is the address of a lower table below the page-table
  cursor, different indices have different tables, and every table below the
  cursor belongs to an index;
* a resident entry names a frame handed out, other than the hole, whose
  directory slot points back at the entry;
* a non-zero entry that is not resident carries, above its low ten bits, a
  block number given to an earlier eviction (modulo `2^22`);
* every directory slot of a frame handed out, other than the hole, points at
  a resident entry naming that frame, and the slots of frames not handed out
  were never set. -/
structure TabOK (s : State) (hole : Option Nat) : Prop where
  tab_rng : ∀ u, u < 1024 → s.real.table u ≠ 0 →
    8192 ≤ s.real.table u ∧ s.real.table u + 4096 ≤ s.pt_free_addr ∧
    s.real.table u % 4096 = 0
  tab_inj : ∀ u v, u < 1024 → v < 1024 → s.real.table u ≠ 0 →
    s.real.table u = s.real.table v → u = v
  tab_all : ∀ a, 8192 ≤ a → a + 4096 ≤ s.pt_free_addr → a % 4096 = 0 →
    ∃ u, u < 1024 ∧ s.real.table u = a
  ent : ∀ u l, u < 1024 → l < 1024 → s.real.table u ≠ 0 → s.real.entry u l % 2 = 1 →
    ∃ i, i < s.frames ∧ some i ≠ hole ∧
      s.real.entry u l / 4096 * 4096 = 4198400 + 4096 * i ∧
      s.entries i = some (s.real.table u + l * 4)
  swp : ∀ u l, u < 1024 → l < 1024 → s.real.table u ≠ 0 → s.real.entry u l ≠ 0 →
    s.real.entry u l % 2 = 0 →
    ∃ b, 1 ≤ b ∧ b < s.next_block_number ∧ s.real.entry u l / 1024 = b % 4194304
  dir : ∀ i, i < s.frames → some i ≠ hole →
    ∃ u l, u < 1024 ∧ l < 1024 ∧ s.real.table u ≠ 0 ∧
      s.entries i = some (s.real.table u + l * 4) ∧ s.real.entry u l % 2 = 1 ∧
      s.real.entry u l / 4096 * 4096 = 4198400 + 4096 * i
  dir_none : ∀ i, s.frames ≤ i → s.entries i = none
  hole_lt : ∀ i, hole = some i → i < s.frames

/-- The invariant of the simulator, see `CfgOK` and `TabOK`. -/
structure InvG (s : State) (hole : Option Nat) : Prop where
  cfg : CfgOK s
  tab : TabOK s hole

/-- What a victim search or a translation of a resident page may change
between `s` and `t`: the clock hand, the REFERENCED and DIRTY bits of resident
entries, and nothing else. -/
structure Touch (s t : State) : Prop where
  fixed : Fixed s t
  pfa : t.pt_free_addr = s.pt_free_addr
  rfa : t.real_free_addr = s.real_free_addr
  sfa : t.sim_free_addr = s.sim_free_addr
  nbn : t.next_block_number = s.next_block_number
  ent : t.entries = s.entries
  bs : t.bs = s.bs
  evicted : t.evicted = s.evicted
  tab : ∀ u, u < 1024 → t.real.table u = s.real.table u
  low : ∀ u l, u < 1024 → l < 1024 → s.real.table u ≠ 0 →
    t.real.entry u l = s.real.entry u l ∨
    (s.real.entry u l % 2 = 1 ∧ t.real.entry u l % 2 = 1 ∧
      t.real.entry u l / 8 = s.real.entry u l / 8)
  data : ∀ x, 4198400 ≤ x → t.real x = s.real x

end VMSim

set_option maxRecDepth 10000

namespace VMSim

/-- The accesses `(address, is_write)` of a list made in order through
`vmsim_map`, each with the bound `fuel`; the run stops at the first access
that does not return. -/
def run_accesses (fuel : Nat) (s : State) : List (Nat × Bool) → Except Fault State
  | [] => .ok s
  | aw :: l => do
    let (_, s1) ← vmsim_map fuel s aw.1 aw.2
    run_accesses fuel s1 l

/-- The victim search started in `s` passes exactly `d` slots: the `d` slots
from the clock hand on point at entries with REFERENCED set and, unless that
is a full turn, the slot after them points at an entry with REFERENCED
clear. -/
structure Passes (s : State) (d : Nat) : Prop where
  le : d ≤ s.num_entries
  refd : ∀ j, j < d →
    IS_REFERENCED (s.slot_pte ((s.current_page_number + j) % s.num_entries)) = true
  stop : d < s.num_entries →
    IS_REFERENCED (s.slot_pte ((s.current_page_number + d) % s.num_entries)) = false

/-- The difference between `s` and `t` made by a victim search that passes
`d` slots followed by the eviction of the page in the slot it stops at: the
entries of the slots passed lose REFERENCED, the victim's entry carries the
block number of the counter above its status bits (RESIDENT and REFERENCED
clear), the victim's frame is zero-filled after its bytes went to the block of
that number, and nothing else changes in the tables, the frames and the
store. -/
structure Evict (s t : State) (d : Nat) : Prop where
  fixed : Fixed s t
  pfa : t.pt_free_addr = s.pt_free_addr
  hand : t.current_page_number = (s.current_page_number + d) % s.num_entries
  nbn : t.next_block_number = s.next_block_number + 1
  evicted : t.evicted = s.evicted ++ [s.next_block_number]
  dir : t.entries = s.entries
  tab : ∀ u, u < 1024 → t.real.table u = s.real.table u
  victim : ∀ u l, u < 1024 → l < 1024 → s.real.table u ≠ 0 →
    s.entries ((s.current_page_number + d) % s.num_entries) = some (s.real.table u + l * 4) →
    t.real.entry u l =
      (s.next_block_number % 4194304) * 1024 + s.real.entry u l % 1024 / 4 * 4
  swept : ∀ u l j, u < 1024 → l < 1024 → s.real.table u ≠ 0 → j < d →
    (s.current_page_number + j) % s.num_entries ≠
      (s.current_page_number + d) % s.num_entries →
    s.entries ((s.current_page_number + j) % s.num_entries) = some (s.real.table u + l * 4) →
    t.real.entry u l = CLEAR_REFERENCED (s.real.entry u l)
  low : ∀ u l, u < 1024 → l < 1024 → s.real.table u ≠ 0 →
    (∀ j, j ≤ d →
      s.entries ((s.current_page_number + j) % s.num_entries) ≠
        some (s.real.table u + l * 4)) →
    t.real.entry u l = s.real.entry u l
  data : ∀ x, 4198400 ≤ x → t.real x =
    if 4198400 + 4096 * ((s.current_page_number + d) % s.num_entries) ≤ x ∧
        x < 4198400 + 4096 * ((s.current_page_number + d) % s.num_entries) + 4096
      then 0 else s.real x
  store_keep : ∀ y, y < (s.next_block_number * 4096) % U32 ∨
    (s.next_block_number * 4096) % U32 + 4096 ≤ y → t.bs y = s.bs y
  store : (s.next_block_number * 4096) % U32 < s.bs_limit → ∀ y, y < 4096 →
    t.bs ((s.next_block_number * 4096) % U32 + y) =
      s.real (4198400 + 4096 * ((s.current_page_number + d) % s.num_entries) + y)

/-- Source macro `GET_UPPER_INDEX` of `mmu.c`. -/
def MMU.GET_UPPER_INDEX (addr : Nat) : Nat := (addr >>> 22) &&& 0x3ff

/-- Source macro `GET_LOWER_INDEX` of `mmu.c`. -/
def MMU.GET_LOWER_INDEX (addr : Nat) : Nat := (addr >>> 12) &&& 0x3ff

/-- Source macro `GET_OFFSET` of `mmu.c`. -/
def MMU.GET_OFFSET (addr : Nat) : Nat := addr &&& 0xfff

/-- The default configuration after a write to page 1 and reads of pages 2, 3
and 4; the last read finds no free frame. -/
def written_then_evicted : State :=
  after_accesses (init_state none none)
    [(0x1000, true), (0x2000, false), (0x3000, false), (0x4000, false)]

/-- The state `written_then_evicted` after a read of page 1. -/
def reloaded_by_read : State := after_accesses written_then_evicted [(0x1000, false)]

/-- The difference between `s` and `t` made by the first part of a fault on
an address whose upper index `u0` has no lower table: a zero-filled table is
taken at the page-table cursor and entered in the root table. -/
structure NewTable (s t : State) (u0 : Nat) : Prop where
  fixed : Fixed s t
  pfa : t.pt_free_addr = s.pt_free_addr + 4096
  rfa : t.real_free_addr = s.real_free_addr
  hand : t.current_page_number = s.current_page_number
  nbn : t.next_block_number = s.next_block_number
  evicted : t.evicted = s.evicted
  dir : t.entries = s.entries
  bs : t.bs = s.bs
  tab_new : t.real.table u0 = s.pt_free_addr
  tab : ∀ u, u < 1024 → u ≠ u0 → t.real.table u = s.real.table u
  low_new : ∀ l, l < 1024 → t.real.entry u0 l = 0
  low : ∀ u l, u < 1024 → l < 1024 → s.real.table u ≠ 0 →
    t.real.entry u l = s.real.entry u l
  data : ∀ x, 4198400 ≤ x → t.real x = s.real x

/-- The difference between `s` and `t` made by giving frame `i` to the page
with indices `(u0, l0)`: its entry becomes `v`, slot `i` of the directory
points at the entry, and the root table, the other entries and the other
slots are as they were. -/
structure Given (s t : State) (u0 l0 i v : Nat) : Prop where
  fixed : Fixed s t
  pfa : t.pt_free_addr = s.pt_free_addr
  hand : t.current_page_number = s.current_page_number
  nbn : t.next_block_number = s.next_block_number
  evicted : t.evicted = s.evicted
  bs : t.bs = s.bs
  tab : ∀ u, u < 1024 → t.real.table u = s.real.table u
  new : t.real.entry u0 l0 = v
  low : ∀ u l, u < 1024 → l < 1024 → s.real.table u ≠ 0 → ¬ (u = u0 ∧ l = l0) →
    t.real.entry u l = s.real.entry u l
  dir : ∀ j, t.entries j = if j = i then some (s.real.table u0 + l0 * 4) else s.entries j

/-- The difference between `s` and `t` made by the translation of an address
whose page `(u0, l0)` is resident: the entry gets REFERENCED (and DIRTY for a
write), nothing else changes. -/
structure Hit (s t : State) (u0 l0 : Nat) (w : Bool) : Prop where
  fixed : Fixed s t
  pfa : t.pt_free_addr = s.pt_free_addr
  rfa : t.real_free_addr = s.real_free_addr
  hand : t.current_page_number = s.current_page_number
  nbn : t.next_block_number = s.next_block_number
  evicted : t.evicted = s.evicted
  dir : t.entries = s.entries
  bs : t.bs = s.bs
  tab : ∀ u, u < 1024 → t.real.table u = s.real.table u
  new : t.real.entry u0 l0 =
    if w = true then SET_DIRTY (SET_REFERENCED (s.real.entry u0 l0))
    else SET_REFERENCED (s.real.entry u0 l0)
  low : ∀ u l, u < 1024 → l < 1024 → s.real.table u ≠ 0 → ¬ (u = u0 ∧ l = l0) →
    t.real.entry u l = s.real.entry u l
  data : ∀ x, 4198400 ≤ x → t.real x = s.real x

/-- The difference between `s` and `t` made by the first part of a fault on
an address with upper index `u0`: none when the lower table exists, the new
table otherwise. -/
structure Tabled (s t : State) (u0 : Nat) : Prop where
  fixed : Fixed s t
  rfa : t.real_free_addr = s.real_free_addr
  hand : t.current_page_number = s.current_page_number
  nbn : t.next_block_number = s.next_block_number
  evicted : t.evicted = s.evicted
  dir : t.entries = s.entries
  bs : t.bs = s.bs
  tab_keep : ∀ u, u < 1024 → s.real.table u ≠ 0 → t.real.table u = s.real.table u
  tab_new : t.real.table u0 ≠ 0
  tab_zero : ∀ u, u < 1024 → u ≠ u0 → s.real.table u = 0 → t.real.table u = 0
  low : ∀ u l, u < 1024 → l < 1024 → s.real.table u ≠ 0 →
    t.real.entry u l = s.real.entry u l
  low_new : s.real.table u0 = 0 → ∀ l, l < 1024 → t.real.entry u0 l = 0
  data : ∀ x, 4198400 ≤ x → t.real x = s.real x

/-- The difference between `s` and `t` made by the translation of an address
whose page `(u0, l0)` was never mapped, while a frame is free: the page gets
the zero-filled frame at the cursor, after its lower table was allocated if
there was none. -/
structure Fresh (s t : State) (u0 l0 : Nat) (w : Bool) : Prop where
  fixed : Fixed s t
  rfa : t.real_free_addr = s.real_free_addr + 4096
  hand : t.current_page_number = s.current_page_number
  nbn : t.next_block_number = s.next_block_number
  evicted : t.evicted = s.evicted
  bs : t.bs = s.bs
  tab_keep : ∀ u, u < 1024 → s.real.table u ≠ 0 → t.real.table u = s.real.table u
  tab_new : t.real.table u0 ≠ 0
  tab_zero : ∀ u, u < 1024 → u ≠ u0 → s.real.table u = 0 → t.real.table u = 0
  new : t.real.entry u0 l0 = s.real_free_addr + (if w = true then 7 else 3)
  low : ∀ u l, u < 1024 → l < 1024 → s.real.table u ≠ 0 → ¬ (u = u0 ∧ l = l0) →
    t.real.entry u l = s.real.entry u l
  low_new : s.real.table u0 = 0 → ∀ l, l < 1024 → l ≠ l0 → t.real.entry u0 l = 0
  dir : ∀ j, t.entries j =
    if j = (s.real_free_addr - 4198400) / 4096 then some (t.real.table u0 + l0 * 4)
    else s.entries j
  data : ∀ x, 4198400 ≤ x → t.real x =
    if s.real_free_addr ≤ x ∧ x < s.real_free_addr + 4096 then 0 else s.real x

/-- The difference between `s` and `t` made by the translation of an address
whose page `(u0, l0)` was never mapped, while no frame is free: the victim
search passes `d` slots, the page in the slot it stops at is evicted, and the
new page gets that frame, zero-filled. -/
structure Replaced (s t : State) (u0 l0 : Nat) (w : Bool) (d : Nat) : Prop where
  fixed : Fixed s t
  rfa : t.real_free_addr = s.real_free_addr + 4096
  hand : t.current_page_number = (s.current_page_number + d) % s.num_entries
  nbn : t.next_block_number = s.next_block_number + 1
  evicted : t.evicted = s.evicted ++ [s.next_block_number]
  tab_keep : ∀ u, u < 1024 → s.real.table u ≠ 0 → t.real.table u = s.real.table u
  tab_new : t.real.table u0 ≠ 0
  tab_zero : ∀ u, u < 1024 → u ≠ u0 → s.real.table u = 0 → t.real.table u = 0
  new : t.real.entry u0 l0 =
    4198400 + 4096 * ((s.current_page_number + d) % s.num_entries) +
      (if w = true then 7 else 3)
  low_new : s.real.table u0 = 0 → ∀ l, l < 1024 → l ≠ l0 → t.real.entry u0 l = 0
  victim : ∀ u l, u < 1024 → l < 1024 → s.real.table u ≠ 0 →
    s.entries ((s.current_page_number + d) % s.num_entries) = some (s.real.table u + l * 4) →
    t.real.entry u l =
      (s.next_block_number % 4194304) * 1024 + s.real.entry u l % 1024 / 4 * 4
  swept : ∀ u l j, u < 1024 → l < 1024 → s.real.table u ≠ 0 → j < d →
    (s.current_page_number + j) % s.num_entries ≠
      (s.current_page_number + d) % s.num_entries →
    s.entries ((s.current_page_number + j) % s.num_entries) = some (s.real.table u + l * 4) →
    t.real.entry u l = CLEAR_REFERENCED (s.real.entry u l)
  low : ∀ u l, u < 1024 → l < 1024 → s.real.table u ≠ 0 → ¬ (u = u0 ∧ l = l0) →
    (∀ j, j ≤ d →
      s.entries ((s.current_page_number + j) % s.num_entries) ≠
        some (s.real.table u + l * 4)) →
    t.real.entry u l = s.real.entry u l
  dir : ∀ j, t.entries j =
    if j = (s.current_page_number + d) % s.num_entries
    then some (t.real.table u0 + l0 * 4) else s.entries j
  data : ∀ x, 4198400 ≤ x → t.real x =
    if 4198400 + 4096 * ((s.current_page_number + d) % s.num_entries) ≤ x ∧
        x < 4198400 + 4096 * ((s.current_page_number + d) % s.num_entries) + 4096
      then 0 else s.real x
  store_keep : ∀ y, y < (s.next_block_number * 4096) % U32 ∨
    (s.next_block_number * 4096) % U32 + 4096 ≤ y → t.bs y = s.bs y
  store : (s.next_block_number * 4096) % U32 < s.bs_limit → ∀ y, y < 4096 →
    t.bs ((s.next_block_number * 4096) % U32 + y) =
      s.real (4198400 + 4096 * ((s.current_page_number + d) % s.num_entries) + y)

/-- The difference between `s` and `t` made by the translation of an address
whose page `(u0, l0)` is swapped out: the victim search passes `d` slots, the
page in the slot it stops at is evicted, and the page is loaded into that
frame from the block numbered by bits 10..23 of its entry. -/
structure Swapped (s t : State) (u0 l0 : Nat) (w : Bool) (d : Nat) : Prop where
  fixed : Fixed s t
  rfa : t.real_free_addr = s.real_free_addr
  hand : t.current_page_number = (s.current_page_number + d) % s.num_entries
  nbn : t.next_block_number = s.next_block_number + 1
  evicted : t.evicted = s.evicted ++ [s.next_block_number]
  tab : ∀ u, u < 1024 → t.real.table u = s.real.table u
  new_frame : t.real.entry u0 l0 / 4096 * 4096 =
    4198400 + 4096 * ((s.current_page_number + d) % s.num_entries)
  new_bits : t.real.entry u0 l0 % 8 =
    if w = true then 7 else s.real.entry u0 l0 % 8 / 4 * 4 + 3
  victim : ∀ u l, u < 1024 → l < 1024 → s.real.table u ≠ 0 →
    s.entries ((s.current_page_number + d) % s.num_entries) = some (s.real.table u + l * 4) →
    t.real.entry u l =
      (s.next_block_number % 4194304) * 1024 + s.real.entry u l % 1024 / 4 * 4
  swept : ∀ u l j, u < 1024 → l < 1024 → s.real.table u ≠ 0 → j < d →
    (s.current_page_number + j) % s.num_entries ≠
      (s.current_page_number + d) % s.num_entries →
    s.entries ((s.current_page_number + j) % s.num_entries) = some (s.real.table u + l * 4) →
    t.real.entry u l = CLEAR_REFERENCED (s.real.entry u l)
  low : ∀ u l, u < 1024 → l < 1024 → s.real.table u ≠ 0 → ¬ (u = u0 ∧ l = l0) →
    (∀ j, j ≤ d →
      s.entries ((s.current_page_number + j) % s.num_entries) ≠
        some (s.real.table u + l * 4)) →
    t.real.entry u l = s.real.entry u l
  dir : ∀ j, t.entries j =
    if j = (s.current_page_number + d) % s.num_entries
    then some (s.real.table u0 + l0 * 4) else s.entries j
  data : ∀ x, 4198400 ≤ x →
    x < 4198400 + 4096 * ((s.current_page_number + d) % s.num_entries) ∨
      4198400 + 4096 * ((s.current_page_number + d) % s.num_entries) + 4096 ≤ x →
    t.real x = s.real x
  load : (s.real.entry u0 l0 / 1024 % 16384) * 4096 < s.bs_limit → ∀ y, y < 4096 →
    t.real (4198400 + 4096 * ((s.current_page_number + d) % s.num_entries) + y) =
      t.bs ((s.real.entry u0 l0 / 1024 % 16384) * 4096 + y)
  store_keep : ∀ y, y < (s.next_block_number * 4096) % U32 ∨
    (s.next_block_number * 4096) % U32 + 4096 ≤ y → t.bs y = s.bs y
  store : (s.next_block_number * 4096) % U32 < s.bs_limit → ∀ y, y < 4096 →
    t.bs ((s.next_block_number * 4096) % U32 + y) =
      s.real (4198400 + 4096 * ((s.current_page_number + d) % s.num_entries) + y)

end VMSim

set_option maxRecDepth 10000

namespace VMSim

/-- Whether the page of `sim_addr` is resident, by the test `mmu_translate`
makes before it calls the fault handler: the upper entry is not zero and the
lower entry has RESIDENT set. -/
def State.is_resident (s : State) (sim_addr : Nat) : Bool :=
  s.upper_pte sim_addr != 0 && IS_RESIDENT (s.lower_pte sim_addr)

/-- The simulator after the pages `pg 0`, ..., `pg (j - 1)` were touched in
this order from the initial state `s0` and no other page was: page `pg i` is
in frame slot `i` with RESIDENT and REFERENCED set, no page was evicted, and
the clock hand is at slot 0. -/
structure Filled (pg : Nat → Nat) (j : Nat) (s0 s : State) : Prop where
  inv : InvG s none
  fixed : Fixed s0 s
  rfa : s.real_free_addr = 4198400 + 4096 * j
  hand : s.current_page_number = 0
  nbn : s.next_block_number = 1
  evicted : s.evicted = []
  tabs : ∀ u, u < 1024 → s.real.table u ≠ 0 → ∃ i, i < j ∧ pg i / 1024 = u
  ents : ∀ u l, u < 1024 → l < 1024 → s.real.table u ≠ 0 → s.real.entry u l ≠ 0 →
    ∃ i, i < j ∧ pg i = u * 1024 + l
  pages : ∀ i, i < j → s.real.table (pg i / 1024) ≠ 0 ∧
    s.real.entry (pg i / 1024) (pg i % 1024) % 4 = 3 ∧
    s.entries i = some (s.real.table (pg i / 1024) + pg i % 1024 * 4)

end VMSim

set_option maxRecDepth 10000

namespace VMSim

/-- The simulator right after initialisation with `VMSIM_REAL_MEM_SIZE` set
to `PT_AREA_SIZE`: real memory holds the page-table area and no frame, the
directory has no slot. -/
def no_frames : State := init_state (some PT_AREA_SIZE) none

/-- One call of `vmsim_read` or `vmsim_write`: its kind, the simulated
address, the size and the caller's buffer. -/
structure Call where
  write : Bool
  addr : Nat
  size : Nat
  buffer : Nat → Byte

/-- The calls of a list made in order on the simulator through `vmsim_write`
and `vmsim_read`, each with the bound `fuel`; what the reads return is
dropped, and the run stops at the first call that does not return. -/
def sim_calls (fuel : Nat) (s : State) : List Call → Except Fault State
  | [] => .ok s
  | c :: l =>
    if c.write then do
      let s1 ← vmsim_write fuel s c.buffer c.addr c.size
      sim_calls fuel s1 l
    else do
      let (_, s1) ← vmsim_read fuel s c.buffer c.addr c.size
      sim_calls fuel s1 l

/-- Modelled from the spec: the flat byte memory that the simulator is said to
refine, after the calls of a list: a write stores its bytes at its addresses,
a read changes nothing. A read of the simulator should return the bytes this
memory holds at its addresses. -/
def flat_calls (m : Nat → Byte) : List Call → (Nat → Byte)
  | [] => m
  | c :: l => flat_calls (if c.write then Mem.copy_in m c.addr c.buffer c.size else m) l

/-- The call that reads one byte at the start of page `p`. -/
def read_page (p : Nat) : Call := ⟨false, p * 4096, 1, fun _ => 0⟩

/-- The call that writes the byte 171 at the start of page `p`. -/
def write_page (p : Nat) : Call := ⟨true, p * 4096, 1, fun _ => 171⟩

/-- The calls: page 1 is read, the byte 171 is written at the start of page
2, and then, `j` times, page 1 is read and page 2 is read. -/
def ping_pong : Nat → List Call
  | 0 => [read_page 1, write_page 2]
  | j + 1 => ping_pong j ++ [read_page 1, read_page 2]

/-- A state of the simulator with one frame in which two pages of the first
lower table take turns: page `lr` is resident (in the one frame), page `ls` is
swapped out with block number `n - 1` in its entry, the block counter is `n`,
and no other lower table exists. The store is the default one of 1 GiB. -/
structure Swing (s : State) (n lr ls : Nat) : Prop where
  inv : InvG s none
  size : s.real_size = 4202496
  bsb : s.bs_base = true
  bsl : s.bs_limit = 1073741824
  bsz : s.bs_size = 1073741824
  rfa : s.real_free_addr = 4206592
  nbn : s.next_block_number = n
  two : 2 ≤ n
  tab : s.real.table 0 ≠ 0
  tabs : ∀ u, u < 1024 → s.real.table u ≠ 0 → u = 0
  res : s.real.entry 0 lr % 2 = 1
  out : s.real.entry 0 ls % 2 = 0
  blk : s.real.entry 0 ls / 1024 = n - 1

end VMSim

set_option maxRecDepth 10000

namespace VMSim

/-- The default configuration after one page, the one at simulated address
0x1000, was written: frame 0 is in use. -/
def one_page : State := after_accesses (init_state none none) [(0x1000, true)]

/-- The simulator right after initialisation with `VMSIM_REAL_MEM_SIZE` set
to 8192: real memory ends where the root table ends, there is no room for a
lower table. -/
def tiny_memory : State := init_state (some 8192) none

/-- The simulator right after initialisation with `VMSIM_REAL_MEM_SIZE` set
to `PT_AREA_SIZE + 2048`: real memory ends in the middle of the first frame,
so the pool has no frame and the directory no slot. -/
def half_frame : State := init_state (some (PT_AREA_SIZE + 2048)) none

/-- Whether the page of `sim_addr` has a lower-table entry with DIRTY set: the
upper entry is not zero and the lower entry, resident or not, has DIRTY
set. -/
def State.is_dirty (s : State) (sim_addr : Nat) : Bool :=
  s.upper_pte sim_addr != 0 && IS_DIRTY (s.lower_pte sim_addr)

end VMSim

namespace VMSim

theorem and_split (k x m c : Nat) (hc : c < 2 ^ k) :
    x &&& (2 ^ k * m + c) = 2 ^ k * ((x / 2 ^ k) &&& m) + ((x % 2 ^ k) &&& c) := by
  have hx : x = 2 ^ k * (x / 2 ^ k) + x % 2 ^ k := (Nat.div_add_mod x (2 ^ k)).symm
  have hr : x % 2 ^ k < 2 ^ k := Nat.mod_lt _ (Nat.two_pow_pos k)
  have hrc : (x % 2 ^ k) &&& c < 2 ^ k := Nat.and_lt_two_pow _ hc
  apply Nat.eq_of_testBit_eq
  intro i
  rw [Nat.testBit_and, Nat.testBit_mul_pow_two_add _ hc, Nat.testBit_mul_pow_two_add _ hrc]
  conv_lhs => rw [hx, Nat.testBit_mul_pow_two_add _ hr]
  by_cases h : i < k <;> simp [h, Nat.testBit_and]

theorem or_split (k x m c : Nat) (hc : c < 2 ^ k) :
    x ||| (2 ^ k * m + c) = 2 ^ k * ((x / 2 ^ k) ||| m) + ((x % 2 ^ k) ||| c) := by
  have hx : x = 2 ^ k * (x / 2 ^ k) + x % 2 ^ k := (Nat.div_add_mod x (2 ^ k)).symm
  have hr : x % 2 ^ k < 2 ^ k := Nat.mod_lt _ (Nat.two_pow_pos k)
  have hrc : (x % 2 ^ k) ||| c < 2 ^ k := Nat.or_lt_two_pow hr hc
  apply Nat.eq_of_testBit_eq
  intro i
  rw [Nat.testBit_or, Nat.testBit_mul_pow_two_add _ hc, Nat.testBit_mul_pow_two_add _ hrc]
  conv_lhs => rw [hx, Nat.testBit_mul_pow_two_add _ hr]
  by_cases h : i < k <;> simp [h, Nat.testBit_or]

theorem and_page_mask (x : Nat) : x &&& 4294963200 = x % 4294967296 / 4096 * 4096 := by
  have h := and_split 12 x (2 ^ 20 - 1) 0 (by norm_num)
  rw [Nat.and_pow_two_sub_one_eq_mod] at h
  norm_num at h
  rw [h]; omega

theorem and_offset_mask (x : Nat) : x &&& 4095 = x % 4096 :=
  Nat.and_pow_two_sub_one_eq_mod x 12

theorem and_1023 (x : Nat) : x &&& 1023 = x % 1024 :=
  Nat.and_pow_two_sub_one_eq_mod x 10

theorem and_one (x : Nat) : x &&& 1 = x % 2 :=
  Nat.and_pow_two_sub_one_eq_mod x 1

theorem and_two (x : Nat) : x &&& 2 = x / 2 % 2 * 2 := by
  have h := and_split 1 x 1 0 (by norm_num)
  have h1 : x / 2 &&& 1 = x / 2 % 2 := Nat.and_pow_two_sub_one_eq_mod (x / 2) 1
  simp only [pow_one, Nat.and_zero, Nat.add_zero, h1] at h
  rw [h]; omega

theorem and_four (x : Nat) : x &&& 4 = x / 4 % 2 * 4 := by
  have h := and_split 2 x 1 0 (by norm_num)
  have h1 : x / 4 &&& 1 = x / 4 % 2 := Nat.and_pow_two_sub_one_eq_mod (x / 4) 1
  have e : (2 : Nat) ^ 2 = 4 := by norm_num
  simp only [e, Nat.and_zero, Nat.add_zero, h1] at h
  rw [h]; omega

theorem or_one (x : Nat) : x ||| 1 = x / 2 * 2 + 1 := by
  have h := or_split 1 x 0 1 (by norm_num)
  have h2 : ∀ r < 2, r ||| 1 = 1 := by decide
  have h3 := h2 (x % 2) (Nat.mod_lt _ (by norm_num))
  norm_num at h
  rw [h, h3]; omega

theorem or_two (x : Nat) : x ||| 2 = x / 4 * 4 + 2 + x % 2 := by
  have h := or_split 2 x 0 2 (by norm_num)
  have h2 : ∀ r < 4, r ||| 2 = 2 + r % 2 := by decide
  have h3 := h2 (x % 4) (Nat.mod_lt _ (by norm_num))
  norm_num at h
  rw [h, h3]; omega

theorem or_four (x : Nat) : x ||| 4 = x / 8 * 8 + 4 + x % 4 := by
  have h := or_split 3 x 0 4 (by norm_num)
  have h2 : ∀ r < 8, r ||| 4 = 4 + r % 4 := by decide
  have h3 := h2 (x % 8) (Nat.mod_lt _ (by norm_num))
  norm_num at h
  rw [h, h3]; omega

theorem and_clear_one (x : Nat) : x &&& 4294967294 = x % 4294967296 / 2 * 2 := by
  have h := and_split 1 x (2 ^ 31 - 1) 0 (by norm_num)
  rw [Nat.and_pow_two_sub_one_eq_mod] at h
  norm_num at h
  rw [h]; omega

theorem and_clear_two (x : Nat) : x &&& 4294967293 = x % 4294967296 / 4 * 4 + x % 2 := by
  have h := and_split 2 x (2 ^ 30 - 1) 1 (by norm_num)
  rw [Nat.and_pow_two_sub_one_eq_mod] at h
  have h2 : ∀ r < 4, r &&& 1 = r % 2 := by decide
  have h3 := h2 (x % 4) (Nat.mod_lt _ (by norm_num))
  have e : (2 : Nat) ^ 2 = 4 := by norm_num
  have e2 : (2 : Nat) ^ 30 = 1073741824 := by norm_num
  simp only [e, e2, h3] at h
  rw [h]; omega

theorem and_block_mask (x : Nat) : (x &&& 16776192) >>> 10 = x / 1024 % 16384 := by
  have h := and_split 10 x (2 ^ 14 - 1) 0 (by norm_num)
  rw [Nat.and_pow_two_sub_one_eq_mod] at h
  norm_num at h
  rw [h, Nat.shiftRight_eq_div_pow]; omega

theorem upper_index_eq (x : Nat) : (x >>> 22) &&& 1023 = x / 4194304 % 1024 := by
  rw [Nat.shiftRight_eq_div_pow, and_1023]

theorem lower_index_eq (x : Nat) : (x >>> 12) &&& 1023 = x / 4096 % 1024 := by
  rw [Nat.shiftRight_eq_div_pow, and_1023]

theorem or_disjoint (k a b : Nat) (ha : a % 2 ^ k = 0) (hb : b < 2 ^ k) : a ||| b = a + b := by
  have h := Nat.mul_add_lt_is_or hb (a / 2 ^ k)
  have e : 2 ^ k * (a / 2 ^ k) = a := by
    have := Nat.div_add_mod a (2 ^ k); omega
  rw [e] at h; exact h.symm



@[simp] theorem U32_eq : U32 = 4294967296 := rfl

@[simp] theorem PAGESIZE_eq : PAGESIZE = 4096 := rfl

@[simp] theorem BLOCK_SIZE_eq : BLOCK_SIZE = 4096 := rfl

@[simp] theorem PT_AREA_SIZE_eq : PT_AREA_SIZE = 4198400 := rfl

@[simp] theorem DEFAULT_REAL_MEMORY_SIZE_eq : DEFAULT_REAL_MEMORY_SIZE = 4210688 := rfl

@[simp] theorem DEFAULT_BACKING_STORE_SIZE_eq : DEFAULT_BACKING_STORE_SIZE = 1073741824 := rfl

theorem GET_PAGE_ADDR_eq (x : Nat) : GET_PAGE_ADDR x = x % 4294967296 / 4096 * 4096 := by
  unfold GET_PAGE_ADDR; exact and_page_mask x

theorem GET_OFFSET_eq (x : Nat) : GET_OFFSET x = x % 4096 := by
  unfold GET_OFFSET; exact and_offset_mask x

theorem GET_UPPER_INDEX_eq (x : Nat) : GET_UPPER_INDEX x = x / 4194304 % 1024 := by
  unfold GET_UPPER_INDEX; exact upper_index_eq x

theorem GET_LOWER_INDEX_eq (x : Nat) : GET_LOWER_INDEX x = x / 4096 % 1024 := by
  unfold GET_LOWER_INDEX; exact lower_index_eq x

theorem IS_ALIGNED_eq (x : Nat) : IS_ALIGNED x = decide (x % 4096 = 0) := by
  unfold IS_ALIGNED
  have h : x &&& OFFSET_MASK = x % 4096 := and_offset_mask x
  rw [h]
  by_cases h0 : x % 4096 = 0 <;> simp [h0]

theorem IS_RESIDENT_eq (x : Nat) : IS_RESIDENT x = decide (x % 2 = 1) := by
  unfold IS_RESIDENT
  have h : x &&& PTE_RESIDENT_BIT = x % 2 := and_one x
  rw [h]
  rcases Nat.mod_two_eq_zero_or_one x with h0 | h0 <;> simp [h0]

theorem IS_REFERENCED_eq (x : Nat) : IS_REFERENCED x = decide (x / 2 % 2 = 1) := by
  unfold IS_REFERENCED
  have h : x &&& PTE_REFERENCED_BIT = x / 2 % 2 * 2 := and_two x
  rw [h]
  rcases Nat.mod_two_eq_zero_or_one (x / 2) with h0 | h0 <;> simp [h0]

theorem IS_DIRTY_eq (x : Nat) : IS_DIRTY x = decide (x / 4 % 2 = 1) := by
  unfold IS_DIRTY
  have h : x &&& PTE_DIRTY_BIT = x / 4 % 2 * 4 := and_four x
  rw [h]
  rcases Nat.mod_two_eq_zero_or_one (x / 4) with h0 | h0 <;> simp [h0]

theorem SET_RESIDENT_eq (x : Nat) : SET_RESIDENT x = x / 2 * 2 + 1 := by
  unfold SET_RESIDENT; exact or_one x

theorem SET_REFERENCED_eq (x : Nat) : SET_REFERENCED x = x / 4 * 4 + 2 + x % 2 := by
  unfold SET_REFERENCED; exact or_two x

theorem SET_DIRTY_eq (x : Nat) : SET_DIRTY x = x / 8 * 8 + 4 + x % 4 := by
  unfold SET_DIRTY; exact or_four x

theorem CLEAR_RESIDENT_eq (x : Nat) : CLEAR_RESIDENT x = x % 4294967296 / 2 * 2 := by
  unfold CLEAR_RESIDENT; exact and_clear_one x

theorem CLEAR_REFERENCED_eq (x : Nat) :
    CLEAR_REFERENCED x = x % 4294967296 / 4 * 4 + x % 2 := by
  unfold CLEAR_REFERENCED; exact and_clear_two x

theorem le32_lt (buf : Nat → Byte) : le32 buf < 4294967296 := by
  show le32 buf < 4294967296
  unfold le32
  have h0 := (buf 0).isLt
  have h1 := (buf 1).isLt
  have h2 := (buf 2).isLt
  have h3 := (buf 3).isLt
  omega

theorem bytes32_val (v i : Nat) : (bytes32 v i).val = v / 256 ^ i % 256 := rfl

theorem le32_bytes32 (v : Nat) : le32 (bytes32 v) = v % 4294967296 := by
  show _ = v % 4294967296
  unfold le32
  simp only [bytes32_val]
  norm_num
  omega

theorem le32_congr (b c : Nat → Byte) (h : ∀ i < 4, b i = c i) : le32 b = le32 c := by
  unfold le32
  rw [h 0 (by norm_num), h 1 (by norm_num), h 2 (by norm_num), h 3 (by norm_num)]

theorem pte_lt (m : Mem) (a : Nat) : m.pte a < 4294967296 := le32_lt _

theorem pte_congr (m n : Mem) (a : Nat) (h : ∀ i < 4, m (a + i) = n (a + i)) :
    m.pte a = n.pte a :=
  le32_congr _ _ h

theorem copy_in_out (m : Mem) (a : Nat) (buf : Nat → Byte) (n x : Nat)
    (h : x < a ∨ a + n ≤ x) : (m.copy_in a buf n) x = m x := by
  unfold Mem.copy_in
  rw [if_neg]; omega

theorem copy_in_in (m : Mem) (a : Nat) (buf : Nat → Byte) (n x : Nat)
    (h1 : a ≤ x) (h2 : x < a + n) : (m.copy_in a buf n) x = buf (x - a) := by
  unfold Mem.copy_in
  rw [if_pos]; exact ⟨h1, h2⟩

theorem zero_out (m : Mem) (a n x : Nat) (h : x < a ∨ a + n ≤ x) : (m.zero a n) x = m x := by
  unfold Mem.zero
  rw [if_neg]; omega

theorem zero_in (m : Mem) (a n x : Nat) (h1 : a ≤ x) (h2 : x < a + n) :
    (m.zero a n) x = 0 := by
  unfold Mem.zero
  rw [if_pos]; exact ⟨h1, h2⟩

theorem pte_copy_in_same (m : Mem) (a v : Nat) :
    (m.copy_in a (bytes32 v) 4).pte a = v % 4294967296 := by
  rw [← le32_bytes32]
  apply le32_congr
  intro i hi
  show (m.copy_in a (bytes32 v) 4) (a + i) = _
  rw [copy_in_in _ _ _ _ _ (by omega) (by omega)]
  congr 1; omega

theorem pte_copy_in_other (m : Mem) (a : Nat) (buf : Nat → Byte) (n b : Nat)
    (h : b + 4 ≤ a ∨ a + n ≤ b) : (m.copy_in a buf n).pte b = m.pte b := by
  apply pte_congr
  intro i hi
  apply copy_in_out; omega

theorem pte_zero_other (m : Mem) (a n b : Nat) (h : b + 4 ≤ a ∨ a + n ≤ b) :
    (m.zero a n).pte b = m.pte b := by
  apply pte_congr
  intro i hi
  apply zero_out; omega

theorem pte_zero_in (m : Mem) (a n b : Nat) (h1 : a ≤ b) (h2 : b + 4 ≤ a + n) :
    (m.zero a n).pte b = 0 := by
  unfold Mem.pte le32 Mem.at
  rw [zero_in _ _ _ _ (by omega) (by omega), zero_in _ _ _ _ (by omega) (by omega),
    zero_in _ _ _ _ (by omega) (by omega), zero_in _ _ _ _ (by omega) (by omega)]
  rfl

/-- The raw read, with the test on the offsets first: inside real memory the
pointer sum does not pass `real_limit`, whether it wraps or not. -/
theorem vmsim_read_real_eq (s : State) (buf : Nat → Byte) (a n : Nat) :
    vmsim_read_real s buf a n =
      if a + n ≤ s.real_limit then
        .ok (fun i => if i < n then s.real (a + i) else buf i)
      else if (s.real_map_addr.val + a + n) % U64 ≤ s.real_map_addr.val + s.real_limit then
        .error .undefined
      else .error .assertion := by
  unfold vmsim_read_real
  by_cases h : a + n ≤ s.real_limit
  · have hm := Nat.mod_le (s.real_map_addr.val + a + n) U64
    have hp : (s.real_map_addr.val + a + n) % U64 ≤ s.real_map_addr.val + s.real_limit := by
      omega
    simp only [h, hp, if_true]
  · simp only [h, if_false]

theorem vmsim_write_real_eq (s : State) (buf : Nat → Byte) (a n : Nat) :
    vmsim_write_real s buf a n =
      if a + n ≤ s.real_limit then
        .ok { s with real := s.real.copy_in a buf n }
      else if (s.real_map_addr.val + a + n) % U64 ≤ s.real_map_addr.val + s.real_limit then
        .error .undefined
      else .error .assertion := by
  unfold vmsim_write_real
  by_cases h : a + n ≤ s.real_limit
  · have hm := Nat.mod_le (s.real_map_addr.val + a + n) U64
    have hp : (s.real_map_addr.val + a + n) % U64 ≤ s.real_map_addr.val + s.real_limit := by
      omega
    simp only [h, hp, if_true]
  · simp only [h, if_false]

theorem read_pte_eq (s : State) (init a : Nat) :
    read_pte s init a =
      if a + 4 ≤ s.real_limit then .ok (s.real.pte a)
      else if (s.real_map_addr.val + a + 4) % U64 ≤ s.real_map_addr.val + s.real_limit then
        .error .undefined
      else .error .assertion := by
  unfold read_pte
  rw [vmsim_read_real_eq]
  by_cases h : a + 4 ≤ s.real_limit
  · simp only [h, if_true, bind, Except.bind, pure, Except.pure]
    congr 1
  · simp only [h, if_false]
    by_cases h2 : (s.real_map_addr.val + a + 4) % U64 ≤ s.real_map_addr.val + s.real_limit
    · simp only [h2, if_true, bind, Except.bind]
    · simp only [h2, if_false, bind, Except.bind]

theorem write_pte_eq (s : State) (v a : Nat) :
    write_pte s v a =
      if a + 4 ≤ s.real_limit then
        .ok { s with real := s.real.copy_in a (bytes32 v) 4 }
      else if (s.real_map_addr.val + a + 4) % U64 ≤ s.real_map_addr.val + s.real_limit then
        .error .undefined
      else .error .assertion :=
  vmsim_write_real_eq s (bytes32 v) a 4

theorem vmsim_read_real_in (s : State) (buf : Nat → Byte) (a n : Nat)
    (h : a + n ≤ s.real_limit) :
    vmsim_read_real s buf a n = .ok (fun i => if i < n then s.real (a + i) else buf i) := by
  rw [vmsim_read_real_eq, if_pos h]

theorem vmsim_write_real_in (s : State) (buf : Nat → Byte) (a n : Nat)
    (h : a + n ≤ s.real_limit) :
    vmsim_write_real s buf a n = .ok { s with real := s.real.copy_in a buf n } := by
  rw [vmsim_write_real_eq, if_pos h]

theorem vmsim_read_real_ok (s : State) (buf out : Nat → Byte) (a n : Nat)
    (h : vmsim_read_real s buf a n = .ok out) :
    out = (fun i => if i < n then s.real (a + i) else buf i) ∧ a + n ≤ s.real_limit := by
  rw [vmsim_read_real_eq] at h
  split at h
  · cases h; exact ⟨rfl, by assumption⟩
  · split at h
    · cases h
    · cases h

theorem vmsim_write_real_ok (s t : State) (buf : Nat → Byte) (a n : Nat)
    (h : vmsim_write_real s buf a n = .ok t) :
    t = { s with real := s.real.copy_in a buf n } ∧ a + n ≤ s.real_limit := by
  rw [vmsim_write_real_eq] at h
  split at h
  · cases h; exact ⟨rfl, by assumption⟩
  · split at h
    · cases h
    · cases h

end VMSim

namespace VMSim

theorem mapped_len_ge (n : Nat) : n ≤ mapped_len n := by
  unfold mapped_len; omega

theorem mapped_len_aligned (n a : Nat) (ha : a % 4096 = 0) (h : a < n) :
    a + 4096 ≤ mapped_len n := by
  unfold mapped_len; omega

theorem get_block_ptr_eq (s : State) (b : Nat) :
    get_block_ptr s b =
      if s.bs_limit ≤ (b * 4096) % 4294967296 then none else some ((b * 4096) % 4294967296) := rfl

theorem bs_read_out (s : State) (r b : Nat) (h : s.bs_limit ≤ (b * 4096) % 4294967296) :
    bs_read s r b = .ok (false, s) := by
  unfold bs_read
  rw [get_block_ptr_eq, if_pos h]

theorem bs_write_out (s : State) (r b : Nat) (h : s.bs_limit ≤ (b * 4096) % 4294967296) :
    bs_write s r b = .ok (false, s) := by
  unfold bs_write
  rw [get_block_ptr_eq, if_pos h]

theorem bs_read_in (s : State) (r b : Nat) (hb : s.bs_base = true)
    (hl : s.bs_limit ≤ mapped_len s.bs_size)
    (h : (b * 4096) % 4294967296 < s.bs_limit) (hr : r + 4096 ≤ s.real_limit) :
    bs_read s r b = .ok (true,
      { s with real := s.real.copy_in r (s.bs.at ((b * 4096) % 4294967296)) 4096 }) := by
  have hm : (b * 4096) % 4294967296 + 4096 ≤ s.bs_mapped := by
    unfold State.bs_mapped
    rw [hb, if_pos rfl]
    unfold mapped_len at *
    omega
  unfold bs_read
  rw [get_block_ptr_eq, if_neg (by omega)]
  simp only [BLOCK_SIZE_eq, hm, if_true]
  rw [vmsim_write_real_in s _ r 4096 hr]
  rfl

theorem bs_write_in (s : State) (r b : Nat) (hb : s.bs_base = true)
    (hl : s.bs_limit ≤ mapped_len s.bs_size)
    (h : (b * 4096) % 4294967296 < s.bs_limit) (hr : r + 4096 ≤ s.real_limit) :
    bs_write s r b = .ok (true,
      { s with bs := s.bs.copy_in ((b * 4096) % 4294967296) (s.real.at r) 4096 }) := by
  have hm : (b * 4096) % 4294967296 + 4096 ≤ s.bs_mapped := by
    unfold State.bs_mapped
    rw [hb, if_pos rfl]
    unfold mapped_len at *
    omega
  unfold bs_write
  rw [get_block_ptr_eq, if_neg (by omega)]
  simp only [BLOCK_SIZE_eq, hm, if_true]
  rw [vmsim_read_real_in s _ r 4096 hr]
  simp only [bind, Except.bind, pure, Except.pure]
  congr 3
  funext x
  unfold Mem.copy_in Mem.at
  by_cases hx : (b * 4096) % 4294967296 ≤ x ∧ x < (b * 4096) % 4294967296 + 4096
  · rw [if_pos hx, if_pos hx]
    show (if x - b * 4096 % 4294967296 < 4096 then _ else _) = _
    rw [if_pos (by omega)]
  · rw [if_neg hx, if_neg hx]

end VMSim
namespace VMSim

theorem memset_page_eq (s : State) (a : Nat) (h : a + 4096 ≤ s.real_mapped) :
    memset_page s a = .ok { s with real := s.real.zero a 4096 } := by
  unfold memset_page
  simp only [PAGESIZE_eq]
  rw [if_pos h]

theorem allocate_pt_eq (s : State) (h1 : s.pt_free_addr % 4096 = 0)
    (h2 : s.pt_free_addr + 4096 ≤ 4198400) (h3 : s.pt_free_addr + 4096 ≤ s.real_mapped) :
    allocate_pt s = .ok (s.pt_free_addr,
      { s with pt_free_addr := s.pt_free_addr + 4096,
               real := s.real.zero s.pt_free_addr 4096 }) := by
  have e : (s.pt_free_addr + 4096) % 4294967296 = s.pt_free_addr + 4096 :=
    Nat.mod_eq_of_lt (by omega)
  unfold allocate_pt
  simp only [IS_ALIGNED_eq, h1, decide_True, Bool.not_true, Bool.false_eq_true, if_false,
    PAGESIZE_eq, U32_eq, PT_AREA_SIZE_eq, e]
  rw [if_neg (by omega)]
  rw [memset_page_eq]
  · rfl
  · exact h3

theorem vmsim_init_boot (er eb : Option Nat) (h : 4096 < er.getD DEFAULT_REAL_MEMORY_SIZE) :
    vmsim_init (boot er eb) = .ok (init_state er eb) := by
  have hm : 8192 ≤ mapped_len (er.getD DEFAULT_REAL_MEMORY_SIZE) := by
    unfold mapped_len; omega
  unfold vmsim_init
  rw [if_neg (by simp [boot])]
  dsimp only
  rw [allocate_pt_eq]
  · cases er <;> cases eb <;> rfl
  · simp [boot]
  · simp [boot]
  · simp only [State.real_mapped, boot]
    cases er <;> simpa using hm

end VMSim
namespace VMSim

theorem get_entry_eq (s : State) (i p : Nat) (hb : s.entries_base = true)
    (hi : i < s.num_entries) (hp : s.entries i = some p) : get_entry s i = .ok p := by
  unfold get_entry
  simp [hb, hi, hp]

theorem deref_pte_eq (s : State) (p : Nat) (h : p + 4 ≤ s.real_mapped) :
    deref_pte s p = .ok (s.real.pte p) := by
  unfold deref_pte
  rw [if_pos h]

theorem real_mapped_ge (s : State) (hb : s.real_base = true) : s.real_size ≤ s.real_mapped := by
  unfold State.real_mapped
  rw [hb, if_pos rfl]
  exact mapped_len_ge _

theorem add_mod_ne (h t n : Nat) (hh : h < n) (h0 : 0 < t) (ht : t < n) : (h + t) % n ≠ h := by
  rcases Nat.lt_or_ge (h + t) n with hl | hl
  · rw [Nat.mod_eq_of_lt hl]; omega
  · rw [Nat.mod_eq_sub_mod hl, Nat.mod_eq_of_lt (by omega)]; omega

theorem succ_mod_add (h j n : Nat) : ((h + 1) % n + j) % n = (h + (j + 1)) % n := by
  rw [Nat.mod_add_mod]; congr 1; omega

theorem slot_pte_eq (s : State) (i p : Nat) (hp : s.entries i = some p) :
    s.slot_pte i = s.real.pte p := by
  unfold State.slot_pte
  rw [hp]

theorem DirOK.ptr {s : State} (hdir : DirOK s) (i : Nat) (hi : i < s.num_entries) :
    ∃ p, s.entries i = some p ∧ p + 4 ≤ s.real_limit := by
  obtain ⟨p, hp, hl⟩ := hdir.slots i hi
  exact ⟨p, hp, hl⟩

theorem DirOK.disj {s : State} (hdir : DirOK s) (i j p q : Nat) (hi : i < s.num_entries)
    (hj : j < s.num_entries) (hij : i ≠ j) (hp : s.entries i = some p)
    (hq : s.entries j = some q) : p + 4 ≤ q ∨ q + 4 ≤ p :=
  hdir.apart i hi j hj hij p hp q hq

theorem find_lru_eq (fuel : Nat) (s : State) (hdir : DirOK s)
    (hh : s.current_page_number < s.num_entries) :
    find_lru fuel s = find_lru_loop fuel s (s.slot_pte s.current_page_number) := by
  obtain ⟨p, hp, hpl⟩ := hdir.ptr _ hh
  unfold find_lru
  rw [get_entry_eq s _ p hdir.ebase hh hp]
  have := real_mapped_ge s hdir.rbase
  have := hdir.limit
  simp only [bind, Except.bind]
  rw [deref_pte_eq s p (by omega), slot_pte_eq s _ p hp]

theorem find_lru_loop_stop (fuel : Nat) (s : State) (e p : Nat)
    (he : IS_REFERENCED e = false) (hb : s.entries_base = true)
    (hh : s.current_page_number < s.num_entries)
    (hp : s.entries s.current_page_number = some p) :
    find_lru_loop fuel s e = .ok (p, s) := by
  unfold find_lru_loop
  rw [he]
  simp only [Bool.false_eq_true, if_false, bind, Except.bind]
  rw [get_entry_eq s _ p hb hh hp]
  rfl

theorem find_lru_loop_step (fuel : Nat) (s : State) (e p q : Nat) (hdir : DirOK s)
    (he : IS_REFERENCED e = true) 
    (hh : s.current_page_number < s.num_entries)
    (hp : s.entries s.current_page_number = some p)
    (hq : s.entries ((s.current_page_number + 1) % s.num_entries) = some q) :
    find_lru_loop (fuel + 1) s e =
      find_lru_loop fuel
        { s with real := s.real.copy_in p (bytes32 (CLEAR_REFERENCED e)) 4,
                 current_page_number := (s.current_page_number + 1) % s.num_entries }
        ((s.real.copy_in p (bytes32 (CLEAR_REFERENCED e)) 4).pte q) := by
  obtain ⟨p', hp', hpl⟩ := hdir.ptr _ hh
  rw [hp] at hp'
  cases hp'
  have hN : s.num_entries ≠ 0 := by omega
  have hh2 : (s.current_page_number + 1) % s.num_entries < s.num_entries :=
    Nat.mod_lt _ (by omega)
  obtain ⟨q', hq', hql⟩ := hdir.ptr _ hh2
  rw [hq] at hq'
  cases hq'
  have := real_mapped_ge s hdir.rbase
  have := hdir.limit
  conv_lhs => unfold find_lru_loop
  rw [he]
  simp only [if_true, bind, Except.bind]
  rw [get_entry_eq s _ p hdir.ebase hh hp]
  simp only [write_pte_eq, hpl, if_true, hN, if_false]
  have hqm : q + 4 ≤ mapped_len s.real_size := by
    have := mapped_len_ge s.real_size
    omega
  simp only [get_entry, hdir.ebase, hh2, hq, deref_pte, State.real_mapped, hdir.rbase, hqm,
    decide_True, Bool.and_self, if_true]

theorem CLEAR_REFERENCED_lt (e : Nat) : CLEAR_REFERENCED e < 4294967296 := by
  rw [CLEAR_REFERENCED_eq]; omega

theorem DirOK_step (s : State) (m : Mem) (c : Nat) (hdir : DirOK s) :
    DirOK { s with real := m, current_page_number := c } :=
  ⟨hdir.ebase, hdir.rbase, hdir.limit, hdir.slots, hdir.apart⟩

theorem slot_pte_step (s : State) (m : Mem) (c i p : Nat) (hp : s.entries i = some p) :
    State.slot_pte { s with real := m, current_page_number := c } i = m.pte p :=
  slot_pte_eq _ _ p hp

theorem find_lru_loop_spec (d : Nat) : ∀ (s : State) (fuel : Nat), DirOK s →
    s.current_page_number < s.num_entries → d ≤ s.num_entries → d ≤ fuel →
    (∀ j, j < d →
      IS_REFERENCED (s.slot_pte ((s.current_page_number + j) % s.num_entries)) = true) →
    (d < s.num_entries →
      IS_REFERENCED (s.slot_pte ((s.current_page_number + d) % s.num_entries)) = false) →
    ∃ p m, s.entries ((s.current_page_number + d) % s.num_entries) = some p ∧
      find_lru_loop fuel s (s.slot_pte s.current_page_number) = .ok (p,
        { s with real := m,
                 current_page_number := (s.current_page_number + d) % s.num_entries }) ∧
      (∀ i q, i < s.num_entries → s.entries i = some q →
        ((∃ j, j < d ∧ i = (s.current_page_number + j) % s.num_entries) →
          m.pte q = CLEAR_REFERENCED (s.real.pte q)) ∧
        ((¬ ∃ j, j < d ∧ i = (s.current_page_number + j) % s.num_entries) →
          m.pte q = s.real.pte q)) ∧
      (∀ x, (∀ j q, j < d →
          s.entries ((s.current_page_number + j) % s.num_entries) = some q →
          x < q ∨ q + 4 ≤ x) → m x = s.real x) := by
  induction d with
  | zero =>
    intro s fuel hdir hh _ _ _ hclear
    obtain ⟨p, hp, _⟩ := hdir.ptr _ hh
    have e0 : (s.current_page_number + 0) % s.num_entries = s.current_page_number := by
      rw [Nat.add_zero, Nat.mod_eq_of_lt hh]
    rw [e0] at hclear ⊢
    refine ⟨p, s.real, hp, ?_, ?_, ?_⟩
    · exact find_lru_loop_stop fuel s _ p (hclear (by omega)) hdir.ebase hh hp
    · intro i q _ _
      refine ⟨fun ⟨j, hj, _⟩ => absurd hj (by omega), fun _ => rfl⟩
    · intro x _; rfl
  | succ d ih =>
    intro s fuel hdir hh hd hfuel href hclear
    obtain ⟨fuel, rfl⟩ : ∃ f, fuel = f + 1 := ⟨fuel - 1, by omega⟩
    have hN : 0 < s.num_entries := by omega
    obtain ⟨p, hp, hpl⟩ := hdir.ptr _ hh
    have hh2 : (s.current_page_number + 1) % s.num_entries < s.num_entries :=
      Nat.mod_lt _ hN
    obtain ⟨q, hq, hql⟩ := hdir.ptr _ hh2
    have e0 : (s.current_page_number + 0) % s.num_entries = s.current_page_number := by
      rw [Nat.add_zero, Nat.mod_eq_of_lt hh]
    have href0 := href 0 (by omega)
    rw [e0] at href0
    have hsp : s.slot_pte s.current_page_number = s.real.pte p := slot_pte_eq s _ p hp
    -- the memory after the first clearing
    have hm1 : ∀ i r, i < s.num_entries → s.entries i = some r →
        (s.real.copy_in p (bytes32 (CLEAR_REFERENCED (s.real.pte p))) 4).pte r =
          if i = s.current_page_number then CLEAR_REFERENCED (s.real.pte p)
          else s.real.pte r := by
      intro i r hi hr
      by_cases hih : i = s.current_page_number
      · subst hih
        rw [hp] at hr; cases hr
        rw [if_pos rfl, pte_copy_in_same, Nat.mod_eq_of_lt (CLEAR_REFERENCED_lt _)]
      · rw [if_neg hih]
        apply pte_copy_in_other
        have := hdir.disj i _ r p hi hh hih hr hp
        omega
    rw [find_lru_loop_step fuel s _ p q hdir href0 hh hp hq, hsp]
    have hdir2 := DirOK_step s (s.real.copy_in p (bytes32 (CLEAR_REFERENCED (s.real.pte p))) 4)
      ((s.current_page_number + 1) % s.num_entries) hdir
    have hne : ∀ t, 0 < t → t < s.num_entries →
        (s.current_page_number + t) % s.num_entries ≠ s.current_page_number :=
      fun t h0 ht => add_mod_ne _ t _ hh h0 ht
    obtain ⟨v, m, hv, hrun, hpte, hout⟩ := ih _ fuel hdir2 hh2 (by
        show d ≤ s.num_entries
        omega) (by omega) (by
        intro j hj
        show IS_REFERENCED (State.slot_pte _ (((s.current_page_number + 1) % s.num_entries + j)
          % s.num_entries)) = true
        rw [succ_mod_add]
        have hi : (s.current_page_number + (j + 1)) % s.num_entries < s.num_entries :=
          Nat.mod_lt _ hN
        obtain ⟨r, hr, _⟩ := hdir.ptr _ hi
        rw [slot_pte_step s _ _ _ r hr]
        rw [hm1 _ r hi hr, if_neg (hne (j + 1) (by omega) (by omega))]
        have := href (j + 1) (by omega)
        rw [slot_pte_eq s _ r hr] at this
        exact this) (by
        intro hdN
        show IS_REFERENCED (State.slot_pte _ (((s.current_page_number + 1) % s.num_entries + d)
          % s.num_entries)) = false
        rw [succ_mod_add]
        have hi : (s.current_page_number + (d + 1)) % s.num_entries < s.num_entries :=
          Nat.mod_lt _ hN
        obtain ⟨r, hr, _⟩ := hdir.ptr _ hi
        rw [slot_pte_step s _ _ _ r hr]
        rw [hm1 _ r hi hr]
        by_cases hlast : d + 1 < s.num_entries
        · rw [if_neg (hne (d + 1) (by omega) hlast)]
          have := hclear hlast
          rw [slot_pte_eq s _ r hr] at this
          exact this
        · have hdn : d + 1 = s.num_entries := by omega
          have : (s.current_page_number + (d + 1)) % s.num_entries = s.current_page_number := by
            rw [hdn, Nat.add_mod_right, Nat.mod_eq_of_lt hh]
          rw [if_pos this, IS_REFERENCED_eq, CLEAR_REFERENCED_eq]
          simp only [decide_eq_false_iff_not]
          omega)
    have hv2 : s.entries ((s.current_page_number + (d + 1)) % s.num_entries) = some v := by
      have := hv
      simp only [succ_mod_add] at this
      exact this
    refine ⟨v, m, hv2, ?_, ?_, ?_⟩
    · have e : State.slot_pte
          { s with real := s.real.copy_in p (bytes32 (CLEAR_REFERENCED (s.real.pte p))) 4,
                   current_page_number := (s.current_page_number + 1) % s.num_entries }
          ((s.current_page_number + 1) % s.num_entries) =
          (s.real.copy_in p (bytes32 (CLEAR_REFERENCED (s.real.pte p))) 4).pte q :=
        slot_pte_eq _ _ q hq
      rw [← e]
      simp only [succ_mod_add] at hrun
      exact hrun
    · intro i r hi hr
      have hpi := hpte i r hi hr
      simp only [succ_mod_add] at hpi
      have h1 := hm1 i r hi hr
      by_cases hih : i = s.current_page_number
      · subst hih
        rw [hp] at hr; cases hr
        rw [if_pos rfl] at h1
        constructor
        · intro _
          rw [hpi.2 (by
            rintro ⟨j, hj, hji⟩
            exact hne (j + 1) (by omega) (by omega) hji.symm)]
          exact h1
        · intro hn
          exact absurd ⟨0, by omega, e0.symm⟩ hn
      · rw [if_neg hih] at h1
        constructor
        · rintro ⟨j, hj, hji⟩
          have hj0 : j ≠ 0 := by
            rintro rfl
            rw [e0] at hji
            exact hih hji
          obtain ⟨j, rfl⟩ : ∃ k, j = k + 1 := ⟨j - 1, by omega⟩
          rw [hpi.1 ⟨j, by omega, hji⟩, h1]
        · intro hn
          rw [hpi.2 (by
            rintro ⟨j, hj, hji⟩
            exact hn ⟨j + 1, by omega, hji⟩)]
          exact h1
    · intro x hx
      rw [hout x (by
        intro j r hj hr
        simp only [succ_mod_add] at hr
        exact hx (j + 1) r (by omega) hr)]
      apply copy_in_out
      have := hx 0 p (by omega) (by rw [e0]; exact hp)
      omega


end VMSim
set_option maxRecDepth 10000

namespace VMSim

theorem bind_ok {ε α β : Type} (x : Except ε α) (f : α → Except ε β) (b : β) :
    (x >>= f) = .ok b ↔ ∃ a, x = .ok a ∧ f a = .ok b := by
  cases x with
  | error e => simp [bind, Except.bind]
  | ok a => simp [bind, Except.bind]

theorem Evicts.refl (s : State) : Evicts s s 0 := by
  simp [Evicts]

theorem Evicts.trans {s t u : State} {n m : Nat} (h1 : Evicts s t n) (h2 : Evicts t u m) :
    Evicts s u (n + m) := by
  obtain ⟨a, b⟩ := h1
  obtain ⟨c, d⟩ := h2
  refine ⟨?_, by omega⟩
  rw [c, a, b, List.append_assoc, List.range'_append_1, Nat.add_comm m n]

theorem Evicts.same {s t : State} (h1 : t.evicted = s.evicted)
    (h2 : t.next_block_number = s.next_block_number) : Evicts s t 0 := by
  simp [Evicts, h1, h2]

theorem vmsim_write_real_evicts (s t : State) (buf : Nat → Byte) (a n : Nat)
    (h : vmsim_write_real s buf a n = .ok t) : Evicts s t 0 := by
  obtain ⟨e, _⟩ := vmsim_write_real_ok s t buf a n h
  rw [e]
  exact Evicts.refl _

theorem write_pte_evicts (s t : State) (v a : Nat) (h : write_pte s v a = .ok t) :
    Evicts s t 0 :=
  vmsim_write_real_evicts s t _ a 4 h

theorem memset_page_evicts (s t : State) (a : Nat) (h : memset_page s a = .ok t) :
    Evicts s t 0 := by
  unfold memset_page at h
  split at h
  · cases h; exact Evicts.refl _
  · cases h

theorem set_entry_evicts (s t : State) (i p : Nat) (h : set_entry s i p = .ok t) :
    Evicts s t 0 := by
  unfold set_entry at h
  split at h
  · cases h; exact Evicts.refl _
  · cases h

theorem bs_read_evicts (s t : State) (a b : Nat) (r : Bool) (h : bs_read s a b = .ok (r, t)) :
    Evicts s t 0 := by
  unfold bs_read at h
  split at h
  · cases h; exact Evicts.refl _
  · split at h
    · simp only [bind_ok, pure, Except.pure] at h
      obtain ⟨s1, h1, h2⟩ := h
      cases h2
      exact vmsim_write_real_evicts _ _ _ _ _ h1
    · cases h

theorem bs_write_evicts (s t : State) (a b : Nat) (r : Bool)
    (h : bs_write s a b = .ok (r, t)) : Evicts s t 0 := by
  unfold bs_write at h
  split at h
  · cases h; exact Evicts.refl _
  · split at h
    · simp only [bind_ok, pure, Except.pure] at h
      obtain ⟨buf, h1, h2⟩ := h
      cases h2
      exact Evicts.refl _
    · cases h

theorem allocate_pt_evicts (s t : State) (a : Nat) (h : allocate_pt s = .ok (a, t)) :
    Evicts s t 0 := by
  unfold allocate_pt at h
  dsimp only at h
  split at h
  · cases h
  · split at h
    · cases h
    · simp only [bind_ok, pure, Except.pure] at h
      obtain ⟨s1, h1, h2⟩ := h
      cases h2
      have h3 := memset_page_evicts _ _ _ h1
      exact ⟨h3.1, h3.2⟩

theorem find_lru_loop_evicts (fuel : Nat) : ∀ (s t : State) (e p : Nat),
    find_lru_loop fuel s e = .ok (p, t) → Evicts s t 0 := by
  induction fuel with
  | zero =>
    intro s t e p h
    unfold find_lru_loop at h
    split at h
    · cases h
    · simp only [bind_ok, pure, Except.pure] at h
      obtain ⟨q, _, h2⟩ := h
      cases h2
      exact Evicts.refl _
  | succ fuel ih =>
    intro s t e p h
    unfold find_lru_loop at h
    split at h
    · simp only [bind_ok] at h
      obtain ⟨q, _, s1, h1, h2⟩ := h
      split at h2
      · cases h2
      · simp only [bind_ok] at h2
        obtain ⟨q2, _, e2, _, h3⟩ := h2
        have h4 := ih _ _ _ _ h3
        have h5 := write_pte_evicts _ _ _ _ h1
        simp only [Evicts, List.range'_zero, List.append_nil, Nat.add_zero] at h4 h5 ⊢
        exact ⟨h4.1.trans h5.1, h4.2.trans h5.2⟩
    · simp only [bind_ok, pure, Except.pure] at h
      obtain ⟨q, _, h2⟩ := h
      cases h2
      exact Evicts.refl _

theorem find_lru_evicts (fuel : Nat) (s t : State) (p : Nat)
    (h : find_lru fuel s = .ok (p, t)) : Evicts s t 0 := by
  unfold find_lru at h
  simp only [bind_ok] at h
  obtain ⟨q, _, e, _, h3⟩ := h
  exact find_lru_loop_evicts fuel _ _ _ _ h3

theorem from_mm_to_bs_evicts (s t : State) (p f : Nat)
    (h : from_mm_to_bs s p = .ok (f, t)) : Evicts s t 1 := by
  unfold from_mm_to_bs at h
  simp only [bind_ok, pure, Except.pure] at h
  obtain ⟨e, _, ⟨r, s1⟩, h1, s3, h3, s4, h4, h5⟩ := h
  cases h5
  have a1 := bs_write_evicts _ _ _ _ _ h1
  have a3 := memset_page_evicts _ _ _ h3
  have a4 := write_pte_evicts _ _ _ _ h4
  simp only [Evicts, List.range'_zero, List.append_nil, Nat.add_zero] at a1 a3 a4
  constructor
  · rw [a4.1, a3.1]
    show s1.evicted ++ [s1.next_block_number] = _
    rw [a1.1, a1.2]
    rfl
  · rw [a4.2, a3.2]
    show s1.next_block_number + 1 = _
    rw [a1.2]

theorem from_bs_to_mm_evicts (s t : State) (a r : Nat)
    (h : from_bs_to_mm s a r = .ok t) : Evicts s t 0 := by
  unfold from_bs_to_mm at h
  simp only [bind_ok] at h
  obtain ⟨e, _, ⟨b, s1⟩, h1, s2, h2, h3⟩ := h
  have a1 := bs_read_evicts _ _ _ _ _ h1
  have a2 := write_pte_evicts _ _ _ _ h2
  have a3 := set_entry_evicts _ _ _ _ h3
  exact (a1.trans a2).trans a3

theorem swap_pages_evicts (s t : State) (a p : Nat)
    (h : swap_pages s a p = .ok t) : Evicts s t 1 := by
  unfold swap_pages at h
  simp only [bind_ok] at h
  obtain ⟨⟨f, s1⟩, h1, h2⟩ := h
  exact (from_mm_to_bs_evicts _ _ _ _ h1).trans (from_bs_to_mm_evicts _ _ _ _ h2)

theorem allocate_real_page_evicts (fuel : Nat) (s t : State) (a : Nat)
    (h : allocate_real_page fuel s = .ok (a, t)) : Evicts s t 0 ∨ Evicts s t 1 := by
  unfold allocate_real_page at h
  dsimp only at h
  split at h
  · cases h
  · split at h
    · simp only [bind_ok] at h
      obtain ⟨⟨e, s2⟩, h1, h2⟩ := h
      have a1 := find_lru_evicts _ _ _ _ h1
      have a2 := from_mm_to_bs_evicts _ _ _ _ h2
      have a3 := a1.trans a2
      exact Or.inr ⟨a3.1, a3.2⟩
    · simp only [bind_ok, pure, Except.pure] at h
      obtain ⟨s2, h1, h2⟩ := h
      cases h2
      have a1 := memset_page_evicts _ _ _ h1
      exact Or.inl ⟨a1.1, a1.2⟩

theorem c_assert_ok (c : Bool) (u : Unit) : c_assert c = .ok u ↔ c = true := by
  unfold c_assert
  cases c <;> simp

theorem Evicts.zero_iff (s t : State) :
    Evicts s t 0 ↔ t.evicted = s.evicted ∧ t.next_block_number = s.next_block_number := by
  simp [Evicts]

theorem vmsim_map_fault_evicts (fuel : Nat) (s t : State) (a : Nat)
    (h : vmsim_map_fault fuel s a = .ok t) : Evicts s t 0 ∨ Evicts s t 1 := by
  unfold vmsim_map_fault at h
  simp only [bind_ok] at h
  obtain ⟨_, _, e1, _, ⟨up, s1⟩, h1, e2, _, ⟨lp, s2⟩, h2, h3⟩ := h
  dsimp only at h1 h2 h3
  -- the upper table
  have a1 : Evicts s s1 0 := by
    split at h1
    · simp only [bind_ok, pure, Except.pure] at h1
      obtain ⟨⟨pt, sa⟩, b1, _, _, sb, b2, b3⟩ := h1
      cases b3
      exact (allocate_pt_evicts _ _ _ b1).trans (write_pte_evicts _ _ _ _ b2)
    · cases h1
      exact Evicts.refl _
  -- the lower entry
  by_cases hl : e2 = 0
  · rw [if_pos hl] at h2
    simp only [bind_ok, pure, Except.pure] at h2
    obtain ⟨⟨ra, sa⟩, b1, sb, b2, sc, b3, b4⟩ := h2
    cases b4
    have hres : (!IS_RESIDENT (SET_RESIDENT ra)) = false := by
      rw [IS_RESIDENT_eq, SET_RESIDENT_eq]
      simp only [Bool.not_eq_false', decide_eq_true_eq]
      omega
    rw [hres] at h3
    simp only [Bool.false_eq_true, if_false, pure, Except.pure] at h3
    cases h3
    have a2 := (write_pte_evicts _ _ _ _ b2).trans (set_entry_evicts _ _ _ _ b3)
    rcases allocate_real_page_evicts _ _ _ _ b1 with a3 | a3
    · exact Or.inl ((a1.trans a3).trans a2)
    · exact Or.inr ((a1.trans a3).trans a2)
  · rw [if_neg hl] at h2
    cases h2
    split at h3
    · simp only [bind_ok] at h3
      obtain ⟨⟨lru, s3⟩, b1, b2⟩ := h3
      exact Or.inr ((a1.trans (find_lru_evicts _ _ _ _ b1)).trans (swap_pages_evicts _ _ _ _ b2))
    · cases h3
      exact Or.inl a1

theorem mmu_translate_evicts (fuel : Nat) : ∀ (s t : State) (a : Nat) (w : Bool) (r : Nat),
    mmu_translate fuel s a w = .ok (r, t) → ∃ n, Evicts s t n := by
  induction fuel with
  | zero =>
    intro s t a w r h
    unfold mmu_translate at h
    cases h
  | succ fuel ih =>
    intro s t a w r h
    unfold mmu_translate at h
    simp only [bind_ok] at h
    obtain ⟨_, _, up, _, h1⟩ := h
    split at h1
    · simp only [bind_ok] at h1
      obtain ⟨s1, b1, b2⟩ := h1
      obtain ⟨n, hn⟩ := ih _ _ _ _ _ b2
      rcases vmsim_map_fault_evicts _ _ _ _ b1 with c | c
      · exact ⟨_, c.trans hn⟩
      · exact ⟨_, c.trans hn⟩
    · simp only [bind_ok] at h1
      obtain ⟨lp, _, h2⟩ := h1
      split at h2
      · simp only [bind_ok] at h2
        obtain ⟨s1, b1, b2⟩ := h2
        obtain ⟨n, hn⟩ := ih _ _ _ _ _ b2
        rcases vmsim_map_fault_evicts _ _ _ _ b1 with c | c
        · exact ⟨_, c.trans hn⟩
        · exact ⟨_, c.trans hn⟩
      · simp only [bind_ok, pure, Except.pure] at h2
        obtain ⟨s1, b1, b2⟩ := h2
        cases b2
        exact ⟨0, write_pte_evicts _ _ _ _ b1⟩

theorem vmsim_init_evicts (s t : State) (h : vmsim_init s = .ok t) : Evicts s t 0 := by
  unfold vmsim_init at h
  split at h
  · cases h; exact Evicts.refl _
  · dsimp only at h
    simp only [bind_ok, pure, Except.pure] at h
    obtain ⟨⟨pt, s2⟩, h1, h2⟩ := h
    cases h2
    have a1 := allocate_pt_evicts _ _ _ h1
    rw [Evicts.zero_iff] at a1 ⊢
    unfold bs_init mmu_init
    dsimp only
    split
    · exact a1
    · exact a1

theorem vmsim_map_evicts (fuel : Nat) (s t : State) (a : Nat) (w : Bool) (r : Nat)
    (h : vmsim_map fuel s a w = .ok (r, t)) : ∃ n, Evicts s t n := by
  unfold vmsim_map at h
  simp only [bind_ok] at h
  obtain ⟨s1, h1, _, _, h2⟩ := h
  obtain ⟨n, hn⟩ := mmu_translate_evicts _ _ _ _ _ _ h2
  exact ⟨_, (vmsim_init_evicts _ _ h1).trans hn⟩

theorem vmsim_read_evicts (fuel : Nat) (s t : State) (buf out : Nat → Byte) (a n : Nat)
    (h : vmsim_read fuel s buf a n = .ok (out, t)) : ∃ k, Evicts s t k := by
  unfold vmsim_read at h
  simp only [bind_ok, pure, Except.pure] at h
  obtain ⟨⟨r, s1⟩, h1, b, _, h2⟩ := h
  cases h2
  exact vmsim_map_evicts _ _ _ _ _ _ h1

theorem vmsim_write_evicts (fuel : Nat) (s t : State) (buf : Nat → Byte) (a n : Nat)
    (h : vmsim_write fuel s buf a n = .ok t) : ∃ k, Evicts s t k := by
  unfold vmsim_write at h
  simp only [bind_ok] at h
  obtain ⟨⟨r, s1⟩, h1, h2⟩ := h
  obtain ⟨k, hk⟩ := vmsim_map_evicts _ _ _ _ _ _ h1
  exact ⟨_, hk.trans (vmsim_write_real_evicts _ _ _ _ _ h2)⟩

theorem vmsim_alloc_evicts (s t : State) (n a : Nat)
    (h : vmsim_alloc s n = .ok (a, t)) : Evicts s t 0 := by
  unfold vmsim_alloc at h
  simp only [bind_ok, pure, Except.pure] at h
  obtain ⟨s1, h1, h2⟩ := h
  cases h2
  have a1 := vmsim_init_evicts _ _ h1
  exact ⟨a1.1, a1.2⟩

/-- The blocks given out so far are 1, 2, ..., and the counter is one past
the last of them. -/
theorem reachable_blocks (s : State) (h : Reachable s) :
    s.evicted = List.range' 1 s.evicted.length ∧
    s.next_block_number = s.evicted.length + 1 := by
  have step : ∀ (s t : State) (n : Nat), Evicts s t n →
      (s.evicted = List.range' 1 s.evicted.length ∧
        s.next_block_number = s.evicted.length + 1) →
      (t.evicted = List.range' 1 t.evicted.length ∧
        t.next_block_number = t.evicted.length + 1) := by
    intro s t n ⟨e1, e2⟩ ⟨i1, i2⟩
    have hl : t.evicted.length = s.evicted.length + n := by
      rw [e1, List.length_append, List.length_range']
    constructor
    · rw [hl, e1, i2, Nat.add_comm s.evicted.length 1, Nat.add_comm s.evicted.length n,
        ← List.range'_append_1, ← i1]
    · rw [e2, i2, hl]; omega
  induction h with
  | init er eb s hi =>
    have a := vmsim_init_evicts _ _ hi
    exact step _ _ _ a ⟨rfl, rfl⟩
  | reinit s s1 _ hi ih => exact step _ _ _ (vmsim_init_evicts _ _ hi) ih
  | translate fuel s a w r s1 _ _ ht ih =>
    obtain ⟨n, hn⟩ := mmu_translate_evicts _ _ _ _ _ _ ht
    exact step _ _ _ hn ih
  | map fuel s a w r s1 _ _ ht ih =>
    obtain ⟨n, hn⟩ := vmsim_map_evicts _ _ _ _ _ _ ht
    exact step _ _ _ hn ih
  | read fuel s buf a n out s1 _ _ ht ih =>
    obtain ⟨k, hk⟩ := vmsim_read_evicts _ _ _ _ _ _ _ ht
    exact step _ _ _ hk ih
  | write fuel s buf a n s1 _ _ ht ih =>
    obtain ⟨k, hk⟩ := vmsim_write_evicts _ _ _ _ _ _ ht
    exact step _ _ _ hk ih
  | alloc s n a s1 _ ht ih => exact step _ _ _ (vmsim_alloc_evicts _ _ _ _ ht) ih
  | free s p _ ih => exact ih


theorem reachable_init (er eb : Option Nat) (h : 4096 < er.getD DEFAULT_REAL_MEMORY_SIZE) :
    Reachable (init_state er eb) :=
  Reachable.init er eb _ (vmsim_init_boot er eb h)

theorem after_accesses_cons (s : State) (aw : Nat × Bool) (l : List (Nat × Bool)) :
    after_accesses s (aw :: l) =
      after_accesses (match vmsim_map 8 s aw.1 aw.2 with
        | .ok (_, s1) => s1
        | .error _ => s) l := rfl

theorem reachable_after_accesses (l : List (Nat × Bool)) : ∀ (s : State), Reachable s →
    (∀ aw, aw ∈ l → aw.1 < U32) → Reachable (after_accesses s l) := by
  induction l with
  | nil => intro s h _; exact h
  | cons aw l ih =>
    intro s h hl
    rw [after_accesses_cons]
    apply ih
    · cases hm : vmsim_map 8 s aw.1 aw.2 with
      | error e => exact h
      | ok v => exact Reachable.map 8 s aw.1 aw.2 v.1 v.2 h (hl aw (List.mem_cons_self _ _)) hm
    · intro x hx
      exact hl x (List.mem_cons_of_mem _ hx)

theorem reachable_three_pages : Reachable three_pages := by
  unfold three_pages
  apply reachable_after_accesses
  · exact reachable_init none none (by decide)
  · intro aw haw
    simp only [List.mem_cons, List.mem_singleton, List.not_mem_nil, or_false] at haw
    rcases haw with h | h | h <;> subst h <;> decide

theorem reachable_four_pages : Reachable four_pages := by
  unfold four_pages
  apply reachable_after_accesses
  · exact reachable_three_pages
  · intro aw haw
    simp only [List.mem_cons, List.mem_singleton, List.not_mem_nil, or_false] at haw
    subst haw
    decide

end VMSim

set_option maxRecDepth 10000

namespace VMSim

theorem Fixed.self (s : State) : Fixed s s := by
  simp [Fixed]

theorem Fixed.chain {s t u : State} (h1 : Fixed s t) (h2 : Fixed t u) : Fixed s u := by
  unfold Fixed at *
  obtain ⟨a1, a2, a3, a4, a5, a6, a7, a8, a9, a10, a11, a12⟩ := h1
  obtain ⟨b1, b2, b3, b4, b5, b6, b7, b8, b9, b10, b11, b12⟩ := h2
  exact ⟨b1.trans a1, b2.trans a2, b3.trans a3, b4.trans a4, b5.trans a5, b6.trans a6,
    b7.trans a7, b8.trans a8, b9.trans a9, b10.trans a10, b11.trans a11, b12.trans a12⟩

theorem vmsim_write_real_fixed (s t : State) (buf : Nat → Byte) (a n : Nat)
    (h : vmsim_write_real s buf a n = .ok t) : Fixed s t := by
  obtain ⟨e, _⟩ := vmsim_write_real_ok s t buf a n h
  rw [e]
  simp [Fixed]

theorem write_pte_fixed (s t : State) (v a : Nat) (h : write_pte s v a = .ok t) :
    Fixed s t :=
  vmsim_write_real_fixed s t _ a 4 h

theorem memset_page_fixed (s t : State) (a : Nat) (h : memset_page s a = .ok t) :
    Fixed s t := by
  unfold memset_page at h
  split at h
  · cases h; simp [Fixed]
  · cases h

theorem set_entry_fixed (s t : State) (i p : Nat) (h : set_entry s i p = .ok t) :
    Fixed s t := by
  unfold set_entry at h
  split at h
  · cases h; simp [Fixed]
  · cases h

theorem bs_read_fixed (s t : State) (a b : Nat) (r : Bool) (h : bs_read s a b = .ok (r, t)) :
    Fixed s t := by
  unfold bs_read at h
  split at h
  · cases h; exact Fixed.self _
  · split at h
    · simp only [bind_ok, pure, Except.pure] at h
      obtain ⟨s1, h1, h2⟩ := h
      cases h2
      exact vmsim_write_real_fixed _ _ _ _ _ h1
    · cases h

theorem bs_write_fixed (s t : State) (a b : Nat) (r : Bool)
    (h : bs_write s a b = .ok (r, t)) : Fixed s t := by
  unfold bs_write at h
  split at h
  · cases h; exact Fixed.self _
  · split at h
    · simp only [bind_ok, pure, Except.pure] at h
      obtain ⟨buf, h1, h2⟩ := h
      cases h2
      simp [Fixed]
    · cases h

theorem allocate_pt_fixed (s t : State) (a : Nat) (h : allocate_pt s = .ok (a, t)) :
    Fixed s t := by
  unfold allocate_pt at h
  dsimp only at h
  split at h
  · cases h
  · split at h
    · cases h
    · simp only [bind_ok, pure, Except.pure] at h
      obtain ⟨s1, h1, h2⟩ := h
      cases h2
      have h3 := memset_page_fixed _ _ _ h1
      unfold Fixed at h3 ⊢
      exact h3

theorem find_lru_loop_fixed (fuel : Nat) : ∀ (s t : State) (e p : Nat),
    find_lru_loop fuel s e = .ok (p, t) → Fixed s t := by
  induction fuel with
  | zero =>
    intro s t e p h
    unfold find_lru_loop at h
    split at h
    · cases h
    · simp only [bind_ok, pure, Except.pure] at h
      obtain ⟨q, _, h2⟩ := h
      cases h2
      exact Fixed.self _
  | succ fuel ih =>
    intro s t e p h
    unfold find_lru_loop at h
    split at h
    · simp only [bind_ok] at h
      obtain ⟨q, _, s1, h1, h2⟩ := h
      split at h2
      · cases h2
      · simp only [bind_ok] at h2
        obtain ⟨q2, _, e2, _, h3⟩ := h2
        have h4 := ih _ _ _ _ h3
        have h5 := write_pte_fixed _ _ _ _ h1
        unfold Fixed at h4 h5 ⊢
        simp only at h4
        obtain ⟨a1, a2, a3, a4, a5, a6, a7, a8, a9, a10, a11, a12⟩ := h5
        obtain ⟨b1, b2, b3, b4, b5, b6, b7, b8, b9, b10, b11, b12⟩ := h4
        exact ⟨b1.trans a1, b2.trans a2, b3.trans a3, b4.trans a4, b5.trans a5, b6.trans a6,
          b7.trans a7, b8.trans a8, b9.trans a9, b10.trans a10, b11.trans a11, b12.trans a12⟩
    · simp only [bind_ok, pure, Except.pure] at h
      obtain ⟨q, _, h2⟩ := h
      cases h2
      exact Fixed.self _

theorem find_lru_fixed (fuel : Nat) (s t : State) (p : Nat)
    (h : find_lru fuel s = .ok (p, t)) : Fixed s t := by
  unfold find_lru at h
  simp only [bind_ok] at h
  obtain ⟨q, _, e, _, h3⟩ := h
  exact find_lru_loop_fixed fuel _ _ _ _ h3

theorem from_mm_to_bs_fixed (s t : State) (p f : Nat)
    (h : from_mm_to_bs s p = .ok (f, t)) : Fixed s t := by
  unfold from_mm_to_bs at h
  simp only [bind_ok, pure, Except.pure] at h
  obtain ⟨e, _, ⟨r, s1⟩, h1, s3, h3, s4, h4, h5⟩ := h
  cases h5
  have a1 := bs_write_fixed _ _ _ _ _ h1
  have a3 := memset_page_fixed _ _ _ h3
  have a4 := write_pte_fixed _ _ _ _ h4
  have a13 : Fixed s s3 := by
    unfold Fixed at a1 a3 ⊢
    simp only at a3
    obtain ⟨a1, a2, a3', a4, a5, a6, a7, a8, a9, a10, a11, a12⟩ := a1
    obtain ⟨b1, b2, b3, b4, b5, b6, b7, b8, b9, b10, b11, b12⟩ := a3
    exact ⟨b1.trans a1, b2.trans a2, b3.trans a3', b4.trans a4, b5.trans a5, b6.trans a6,
      b7.trans a7, b8.trans a8, b9.trans a9, b10.trans a10, b11.trans a11, b12.trans a12⟩
  exact a13.chain a4

theorem from_bs_to_mm_fixed (s t : State) (a r : Nat)
    (h : from_bs_to_mm s a r = .ok t) : Fixed s t := by
  unfold from_bs_to_mm at h
  simp only [bind_ok] at h
  obtain ⟨e, _, ⟨b, s1⟩, h1, s2, h2, h3⟩ := h
  exact ((bs_read_fixed _ _ _ _ _ h1).chain (write_pte_fixed _ _ _ _ h2)).chain
    (set_entry_fixed _ _ _ _ h3)

theorem swap_pages_fixed (s t : State) (a p : Nat)
    (h : swap_pages s a p = .ok t) : Fixed s t := by
  unfold swap_pages at h
  simp only [bind_ok] at h
  obtain ⟨⟨f, s1⟩, h1, h2⟩ := h
  exact (from_mm_to_bs_fixed _ _ _ _ h1).chain (from_bs_to_mm_fixed _ _ _ _ h2)

theorem allocate_real_page_fixed (fuel : Nat) (s t : State) (a : Nat)
    (h : allocate_real_page fuel s = .ok (a, t)) : Fixed s t := by
  unfold allocate_real_page at h
  dsimp only at h
  split at h
  · cases h
  · split at h
    · simp only [bind_ok] at h
      obtain ⟨⟨e, s2⟩, h1, h2⟩ := h
      have a1 := find_lru_fixed _ _ _ _ h1
      have a2 := from_mm_to_bs_fixed _ _ _ _ h2
      have a3 := a1.chain a2
      unfold Fixed at a3 ⊢
      exact a3
    · simp only [bind_ok, pure, Except.pure] at h
      obtain ⟨s2, h1, h2⟩ := h
      cases h2
      have a1 := memset_page_fixed _ _ _ h1
      unfold Fixed at a1 ⊢
      exact a1

theorem vmsim_map_fault_fixed (fuel : Nat) (s t : State) (a : Nat)
    (h : vmsim_map_fault fuel s a = .ok t) : Fixed s t := by
  unfold vmsim_map_fault at h
  simp only [bind_ok] at h
  obtain ⟨_, _, e1, _, ⟨up, s1⟩, h1, e2, _, ⟨lp, s2⟩, h2, h3⟩ := h
  dsimp only at h1 h2 h3
  have a1 : Fixed s s1 := by
    split at h1
    · simp only [bind_ok, pure, Except.pure] at h1
      obtain ⟨⟨pt, sa⟩, b1, _, _, sb, b2, b3⟩ := h1
      cases b3
      exact (allocate_pt_fixed _ _ _ b1).chain (write_pte_fixed _ _ _ _ b2)
    · cases h1
      exact Fixed.self _
  have a2 : Fixed s1 s2 := by
    split at h2
    · simp only [bind_ok, pure, Except.pure] at h2
      obtain ⟨⟨ra, sa⟩, b1, sb, b2, sc, b3, b4⟩ := h2
      cases b4
      exact ((allocate_real_page_fixed _ _ _ _ b1).chain (write_pte_fixed _ _ _ _ b2)).chain
        (set_entry_fixed _ _ _ _ b3)
    · cases h2
      exact Fixed.self _
  split at h3
  · simp only [bind_ok] at h3
    obtain ⟨⟨lru, s3⟩, b1, b2⟩ := h3
    exact ((a1.chain a2).chain (find_lru_fixed _ _ _ _ b1)).chain (swap_pages_fixed _ _ _ _ b2)
  · cases h3
    exact a1.chain a2

theorem mmu_translate_fixed (fuel : Nat) : ∀ (s t : State) (a : Nat) (w : Bool) (r : Nat),
    mmu_translate fuel s a w = .ok (r, t) → Fixed s t := by
  induction fuel with
  | zero =>
    intro s t a w r h
    unfold mmu_translate at h
    cases h
  | succ fuel ih =>
    intro s t a w r h
    unfold mmu_translate at h
    simp only [bind_ok] at h
    obtain ⟨_, _, up, _, h1⟩ := h
    split at h1
    · simp only [bind_ok] at h1
      obtain ⟨s1, b1, b2⟩ := h1
      exact (vmsim_map_fault_fixed _ _ _ _ b1).chain (ih _ _ _ _ _ b2)
    · simp only [bind_ok] at h1
      obtain ⟨lp, _, h2⟩ := h1
      split at h2
      · simp only [bind_ok] at h2
        obtain ⟨s1, b1, b2⟩ := h2
        exact (vmsim_map_fault_fixed _ _ _ _ b1).chain (ih _ _ _ _ _ b2)
      · simp only [bind_ok, pure, Except.pure] at h2
        obtain ⟨s1, b1, b2⟩ := h2
        cases b2
        exact write_pte_fixed _ _ _ _ b1

theorem vmsim_init_id (s : State) (h : s.real_base = true) : vmsim_init s = .ok s := by
  unfold vmsim_init
  rw [if_pos h]

theorem vmsim_map_eq (fuel : Nat) (s : State) (a : Nat) (w : Bool) (h : s.real_base = true) :
    vmsim_map fuel s a w = mmu_translate fuel s a w := by
  unfold vmsim_map
  rw [vmsim_init_id s h]
  simp only [bind, Except.bind, c_assert, h, if_true]

theorem init_state_base (er eb : Option Nat) : (init_state er eb).real_base = true := rfl

/-- Every reachable state is initialised. -/
theorem reachable_base (s : State) (h : Reachable s) : s.real_base = true := by
  induction h with
  | init er eb s hi =>
    unfold vmsim_init at hi
    split at hi
    · rename_i hb
      simp [boot] at hb
    · dsimp only at hi
      simp only [bind_ok, pure, Except.pure] at hi
      obtain ⟨⟨pt, s2⟩, h1, h2⟩ := hi
      cases h2
      have a1 := allocate_pt_fixed _ _ _ h1
      have a2 : s2.real_base = true := a1.2.2.1
      unfold bs_init mmu_init
      dsimp only
      split <;> exact a2
  | reinit s s1 _ hi ih =>
    rw [vmsim_init_id s ih] at hi
    cases hi
    exact ih
  | translate fuel s a w r s1 _ _ ht ih =>
    rw [(mmu_translate_fixed _ _ _ _ _ _ ht).2.2.1]; exact ih
  | map fuel s a w r s1 _ _ ht ih =>
    rw [vmsim_map_eq _ _ _ _ ih] at ht
    rw [(mmu_translate_fixed _ _ _ _ _ _ ht).2.2.1]; exact ih
  | read fuel s buf a n out s1 _ _ ht ih =>
    unfold vmsim_read at ht
    simp only [bind_ok, pure, Except.pure] at ht
    obtain ⟨⟨r, s2⟩, h1, b, _, h2⟩ := ht
    cases h2
    rw [vmsim_map_eq _ _ _ _ ih] at h1
    rw [(mmu_translate_fixed _ _ _ _ _ _ h1).2.2.1]; exact ih
  | write fuel s buf a n s1 _ _ ht ih =>
    unfold vmsim_write at ht
    simp only [bind_ok] at ht
    obtain ⟨⟨r, s2⟩, h1, h2⟩ := ht
    rw [vmsim_map_eq _ _ _ _ ih] at h1
    rw [(vmsim_write_real_fixed _ _ _ _ _ h2).2.2.1,
      (mmu_translate_fixed _ _ _ _ _ _ h1).2.2.1]; exact ih
  | alloc s n a s1 _ ht ih =>
    unfold vmsim_alloc at ht
    rw [vmsim_init_id s ih] at ht
    simp only [bind, Except.bind, pure, Except.pure] at ht
    cases ht
    exact ih
  | free s p _ ih => exact ih

end VMSim

set_option maxRecDepth 10000

namespace VMSim

theorem vmsim_init_boot_ok (er eb : Option Nat) (s : State)
    (h : vmsim_init (boot er eb) = .ok s) :
    4096 < er.getD DEFAULT_REAL_MEMORY_SIZE ∧ s = init_state er eb := by
  by_cases hs : 4096 < er.getD DEFAULT_REAL_MEMORY_SIZE
  · rw [vmsim_init_boot er eb hs] at h
    cases h
    exact ⟨hs, rfl⟩
  · exfalso
    have hm : ¬ 8192 ≤ mapped_len (er.getD DEFAULT_REAL_MEMORY_SIZE) := by
      unfold mapped_len; omega
    unfold vmsim_init at h
    rw [if_neg (by simp [boot])] at h
    dsimp only at h
    simp only [bind_ok] at h
    obtain ⟨⟨pt, s2⟩, h1, _⟩ := h
    unfold allocate_pt at h1
    dsimp only at h1
    split at h1
    · cases h1
    · split at h1
      · cases h1
      · simp only [bind_ok] at h1
        obtain ⟨s3, h3, _⟩ := h1
        unfold memset_page at h3
        split at h3
        · rename_i hc
          apply hm
          cases er <;> simpa [State.real_mapped, boot, PAGESIZE_eq] using hc
        · cases h3

theorem vmsim_map_fixed (fuel : Nat) (s t : State) (a : Nat) (w : Bool) (r : Nat)
    (hb : s.real_base = true) (h : vmsim_map fuel s a w = .ok (r, t)) : Fixed s t := by
  rw [vmsim_map_eq _ _ _ _ hb] at h
  exact mmu_translate_fixed _ _ _ _ _ _ h

theorem vmsim_read_fixed (fuel : Nat) (s t : State) (buf out : Nat → Byte) (a n : Nat)
    (hb : s.real_base = true) (h : vmsim_read fuel s buf a n = .ok (out, t)) : Fixed s t := by
  unfold vmsim_read at h
  simp only [bind_ok, pure, Except.pure] at h
  obtain ⟨⟨r, s2⟩, h1, b, _, h2⟩ := h
  cases h2
  exact vmsim_map_fixed _ _ _ _ _ _ hb h1

theorem vmsim_write_fixed (fuel : Nat) (s t : State) (buf : Nat → Byte) (a n : Nat)
    (hb : s.real_base = true) (h : vmsim_write fuel s buf a n = .ok t) : Fixed s t := by
  unfold vmsim_write at h
  simp only [bind_ok] at h
  obtain ⟨⟨r, s2⟩, h1, h2⟩ := h
  exact (vmsim_map_fixed _ _ _ _ _ _ hb h1).chain (vmsim_write_real_fixed _ _ _ _ _ h2)

theorem vmsim_alloc_eq (s : State) (n : Nat) (hb : s.real_base = true) :
    vmsim_alloc s n =
      .ok (s.sim_free_addr, { s with sim_free_addr := (s.sim_free_addr + n) % U32 }) := by
  unfold vmsim_alloc
  rw [vmsim_init_id s hb]
  rfl

/-- The variables set by initialisation keep, in every reachable state, the
values the first `vmsim_init` gave them. -/
theorem reachable_fixed (s : State) (h : Reachable s) :
    ∃ er eb, 4096 < er.getD DEFAULT_REAL_MEMORY_SIZE ∧ Fixed (init_state er eb) s := by
  induction h with
  | init er eb s hi =>
    obtain ⟨h1, h2⟩ := vmsim_init_boot_ok er eb s hi
    exact ⟨er, eb, h1, by rw [h2]; exact Fixed.self _⟩
  | reinit s s1 hr hi ih =>
    rw [vmsim_init_id s (reachable_base s hr)] at hi
    cases hi
    exact ih
  | translate fuel s a w r s1 _ _ ht ih =>
    obtain ⟨er, eb, h1, h2⟩ := ih
    exact ⟨er, eb, h1, h2.chain (mmu_translate_fixed _ _ _ _ _ _ ht)⟩
  | map fuel s a w r s1 hr _ ht ih =>
    obtain ⟨er, eb, h1, h2⟩ := ih
    exact ⟨er, eb, h1, h2.chain (vmsim_map_fixed _ _ _ _ _ _ (reachable_base s hr) ht)⟩
  | read fuel s buf a n out s1 hr _ ht ih =>
    obtain ⟨er, eb, h1, h2⟩ := ih
    exact ⟨er, eb, h1, h2.chain (vmsim_read_fixed _ _ _ _ _ _ _ (reachable_base s hr) ht)⟩
  | write fuel s buf a n s1 hr _ ht ih =>
    obtain ⟨er, eb, h1, h2⟩ := ih
    exact ⟨er, eb, h1, h2.chain (vmsim_write_fixed _ _ _ _ _ _ (reachable_base s hr) ht)⟩
  | alloc s n a s1 hr ht ih =>
    obtain ⟨er, eb, h1, h2⟩ := ih
    rw [vmsim_alloc_eq s n (reachable_base s hr)] at ht
    cases ht
    exact ⟨er, eb, h1, h2⟩
  | free s p _ ih => exact ih

theorem reachable_limit (s : State) (h : Reachable s) : s.real_limit = s.real_size := by
  obtain ⟨er, eb, _, hf⟩ := reachable_fixed s h
  rw [hf.2.2.2.1, hf.2.2.2.2.1]
  rfl

theorem pte_bit1 (m : Mem) (q : Nat) : m.pte q / 2 % 2 = (m q).val / 2 % 2 := by
  unfold Mem.pte le32 Mem.at
  have h0 := (m (q + 0)).isLt
  have e : m (q + 0) = m q := rfl
  rw [e] at h0 ⊢
  omega

theorem clear_ref_other (m : Mem) (p x : Nat) (hx : x ≠ p) :
    (m.copy_in p (bytes32 (CLEAR_REFERENCED (m.pte p))) 4) x = m x := by
  by_cases h : x < p ∨ p + 4 ≤ x
  · exact copy_in_out _ _ _ _ _ h
  · rw [copy_in_in _ _ _ _ _ (by omega) (by omega)]
    apply Fin.ext
    rw [bytes32_val]
    have h0 := (m (p + 0)).isLt
    have h1 := (m (p + 1)).isLt
    have h2 := (m (p + 2)).isLt
    have h3 := (m (p + 3)).isLt
    have e : m.pte p = (m (p + 0)).val + 256 * (m (p + 1)).val + 65536 * (m (p + 2)).val
        + 16777216 * (m (p + 3)).val := rfl
    have hv : CLEAR_REFERENCED (m.pte p) / 256 =
        (m (p + 1)).val + 256 * (m (p + 2)).val + 65536 * (m (p + 3)).val := by
      rw [CLEAR_REFERENCED_eq, e]; omega
    have hv2 : CLEAR_REFERENCED (m.pte p) / 65536 =
        (m (p + 2)).val + 256 * (m (p + 3)).val := by
      omega
    have hv3 : CLEAR_REFERENCED (m.pte p) / 16777216 = (m (p + 3)).val := by
      omega
    have hc : x - p = 1 ∨ x - p = 2 ∨ x - p = 3 := by omega
    rcases hc with c | c | c
    · have ex : x = p + 1 := by omega
      rw [c, ex]; norm_num; omega
    · have ex : x = p + 2 := by omega
      rw [c, ex]; norm_num; omega
    · have ex : x = p + 3 := by omega
      rw [c, ex]; norm_num; omega

theorem clear_ref_same (m : Mem) (p : Nat) :
    ((m.copy_in p (bytes32 (CLEAR_REFERENCED (m.pte p))) 4) p).val / 2 % 2 = 0 := by
  rw [copy_in_in _ _ _ _ _ (Nat.le_refl p) (by omega), bytes32_val, CLEAR_REFERENCED_eq]
  norm_num
  omega

/-- Clearing REFERENCED in the entry at `p` sets REFERENCED in no entry, and
leaves it clear in the entry at `p`. -/
theorem clear_ref_mono (m : Mem) (p q : Nat)
    (h : IS_REFERENCED ((m.copy_in p (bytes32 (CLEAR_REFERENCED (m.pte p))) 4).pte q) = true) :
    IS_REFERENCED (m.pte q) = true ∧ q ≠ p := by
  rw [IS_REFERENCED_eq, decide_eq_true_eq, pte_bit1] at h
  have hne : q ≠ p := by
    intro e
    rw [e, clear_ref_same] at h
    omega
  rw [clear_ref_other m p q hne] at h
  rw [IS_REFERENCED_eq, decide_eq_true_eq, pte_bit1]
  exact ⟨h, hne⟩

theorem SlotsOK.slot_ptr {s : State} (hs : SlotsOK s) (i : Nat) (hi : i < s.num_entries) :
    ∃ p, s.entries i = some p ∧ p + 4 ≤ s.real_limit := by
  obtain ⟨p, hp, hpl⟩ := hs.slots i hi
  exact ⟨p, hp, hpl⟩

theorem SlotsOK_step (s : State) (m : Mem) (c : Nat) (hs : SlotsOK s) :
    SlotsOK { s with real := m, current_page_number := c } :=
  ⟨hs.ebase, hs.rbase, hs.limit, hs.slots⟩

theorem find_lru_eq_slots (fuel : Nat) (s : State) (hs : SlotsOK s)
    (hh : s.current_page_number < s.num_entries) :
    find_lru fuel s = find_lru_loop fuel s (s.slot_pte s.current_page_number) := by
  obtain ⟨p, hp, hpl⟩ := hs.slot_ptr _ hh
  have := real_mapped_ge s hs.rbase
  have := hs.limit
  unfold find_lru
  rw [get_entry_eq s _ p hs.ebase hh hp]
  simp only [bind, Except.bind]
  rw [deref_pte_eq s p (by omega), slot_pte_eq s _ p hp]

theorem find_lru_loop_step_slots (fuel : Nat) (s : State) (e p q : Nat) (hs : SlotsOK s)
    (he : IS_REFERENCED e = true)
    (hh : s.current_page_number < s.num_entries)
    (hp : s.entries s.current_page_number = some p)
    (hq : s.entries ((s.current_page_number + 1) % s.num_entries) = some q) :
    find_lru_loop (fuel + 1) s e =
      find_lru_loop fuel
        { s with real := s.real.copy_in p (bytes32 (CLEAR_REFERENCED e)) 4,
                 current_page_number := (s.current_page_number + 1) % s.num_entries }
        ((s.real.copy_in p (bytes32 (CLEAR_REFERENCED e)) 4).pte q) := by
  obtain ⟨p', hp', hpl⟩ := hs.slot_ptr _ hh
  rw [hp] at hp'
  cases hp'
  have hN : s.num_entries ≠ 0 := by omega
  have hh2 : (s.current_page_number + 1) % s.num_entries < s.num_entries :=
    Nat.mod_lt _ (by omega)
  obtain ⟨q', hq', hql⟩ := hs.slot_ptr _ hh2
  rw [hq] at hq'
  cases hq'
  have := real_mapped_ge s hs.rbase
  have := hs.limit
  conv_lhs => unfold find_lru_loop
  rw [he]
  simp only [if_true, bind, Except.bind]
  rw [get_entry_eq s _ p hs.ebase hh hp]
  simp only [write_pte_eq, hpl, if_true, hN, if_false]
  have hqm : q + 4 ≤ mapped_len s.real_size := by
    have := mapped_len_ge s.real_size
    omega
  simp only [get_entry, hs.ebase, hh2, hq, deref_pte, State.real_mapped, hs.rbase, hqm,
    decide_True, Bool.and_self, if_true]

theorem find_lru_loop_out (s : State) (e : Nat) (he : IS_REFERENCED e = true) :
    find_lru_loop 0 s e = .error .fuel := by
  unfold find_lru_loop
  rw [he]
  rfl

/-- The loop of `find_lru` stops within the number of slots not yet passed:
`k` slots behind the hand were already met and are clear, `m` are left. -/
theorem find_lru_loop_total (m : Nat) : ∀ (s : State) (k h0 : Nat), SlotsOK s →
    1 ≤ s.num_entries → k + m = s.num_entries →
    s.current_page_number = (h0 + k) % s.num_entries →
    (∀ j, j < k → IS_REFERENCED (s.slot_pte ((h0 + j) % s.num_entries)) = false) →
    ∃ d p mem, d ≤ m ∧
      s.entries ((s.current_page_number + d) % s.num_entries) = some p ∧
      (∀ fuel, d ≤ fuel →
        find_lru_loop fuel s (s.slot_pte s.current_page_number) = .ok (p,
          { s with real := mem,
                   current_page_number := (s.current_page_number + d) % s.num_entries })) ∧
      (∀ fuel, fuel < d →
        find_lru_loop fuel s (s.slot_pte s.current_page_number) = .error .fuel) := by
  induction m with
  | zero =>
    intro s k h0 hs hN hk hh hinv
    have hlt : s.current_page_number < s.num_entries := by
      rw [hh]; exact Nat.mod_lt _ (by omega)
    obtain ⟨p, hp, _⟩ := hs.slot_ptr _ hlt
    have e0 : (s.current_page_number + 0) % s.num_entries = s.current_page_number := by
      rw [Nat.add_zero, Nat.mod_eq_of_lt hlt]
    have hc : IS_REFERENCED (s.slot_pte s.current_page_number) = false := by
      have h1 := hinv 0 (by omega)
      have e1 : (h0 + 0) % s.num_entries = s.current_page_number := by
        rw [hh, Nat.add_zero]
        have : k = s.num_entries := by omega
        rw [this, Nat.add_mod_right]
      rw [e1] at h1
      exact h1
    refine ⟨0, p, s.real, Nat.le_refl 0, by rw [e0]; exact hp, fun fuel _ => ?_,
      fun fuel hf => absurd hf (Nat.not_lt_zero _)⟩
    rw [e0]
    exact find_lru_loop_stop fuel s _ p hc hs.ebase hlt hp
  | succ m ih =>
    intro s k h0 hs hN hk hh hinv
    have hlt : s.current_page_number < s.num_entries := by
      rw [hh]; exact Nat.mod_lt _ (by omega)
    obtain ⟨p, hp, _⟩ := hs.slot_ptr _ hlt
    have e0 : (s.current_page_number + 0) % s.num_entries = s.current_page_number := by
      rw [Nat.add_zero, Nat.mod_eq_of_lt hlt]
    by_cases hc : IS_REFERENCED (s.slot_pte s.current_page_number) = true
    · have hlt2 : (s.current_page_number + 1) % s.num_entries < s.num_entries :=
        Nat.mod_lt _ (by omega)
      obtain ⟨q, hq, _⟩ := hs.slot_ptr _ hlt2
      have hstep := fun fuel =>
        find_lru_loop_step_slots fuel s (s.slot_pte s.current_page_number) p q hs hc hlt hp hq
      have hsl : s.slot_pte s.current_page_number = s.real.pte p := slot_pte_eq s _ p hp
      have hh2 : (s.current_page_number + 1) % s.num_entries = (h0 + (k + 1)) % s.num_entries := by
        rw [hh, Nat.mod_add_mod, Nat.add_assoc]
      have hinv2 : ∀ j, j < k + 1 → IS_REFERENCED (State.slot_pte
          { s with real := s.real.copy_in p (bytes32 (CLEAR_REFERENCED (s.slot_pte
                     s.current_page_number))) 4,
                   current_page_number := (s.current_page_number + 1) % s.num_entries }
          ((h0 + j) % s.num_entries)) = false := by
        intro j hj
        have hjl : (h0 + j) % s.num_entries < s.num_entries := Nat.mod_lt _ (by omega)
        obtain ⟨r, hr, _⟩ := hs.slot_ptr _ hjl
        rw [slot_pte_step s _ _ _ r hr, hsl]
        rw [Bool.eq_false_iff]
        intro hcon
        obtain ⟨c1, c2⟩ := clear_ref_mono s.real p r hcon
        by_cases hjk : j < k
        · have := hinv j hjk
          rw [slot_pte_eq s _ r hr, c1] at this
          cases this
        · have ej : j = k := by omega
          rw [ej, ← hh, hp] at hr
          cases hr
          exact c2 rfl
      obtain ⟨d, p2, mem, hd, hp2, hok, hout⟩ :=
        ih { s with real := s.real.copy_in p (bytes32 (CLEAR_REFERENCED (s.slot_pte
                      s.current_page_number))) 4,
                    current_page_number := (s.current_page_number + 1) % s.num_entries }
          (k + 1) h0 (SlotsOK_step s _ _ hs) hN (by show k + 1 + m = s.num_entries; omega)
          hh2 hinv2
      have ed : ((s.current_page_number + 1) % s.num_entries + d) % s.num_entries =
          (s.current_page_number + (d + 1)) % s.num_entries := by
        rw [Nat.mod_add_mod]
        congr 1
        omega
      have esl : State.slot_pte
          { s with real := s.real.copy_in p (bytes32 (CLEAR_REFERENCED (s.slot_pte
                     s.current_page_number))) 4,
                   current_page_number := (s.current_page_number + 1) % s.num_entries }
          ((s.current_page_number + 1) % s.num_entries) =
          (s.real.copy_in p (bytes32 (CLEAR_REFERENCED (s.slot_pte
            s.current_page_number))) 4).pte q := slot_pte_step s _ _ _ q hq
      dsimp only at hp2 hok hout
      rw [esl] at hok hout
      rw [ed] at hp2 hok
      refine ⟨d + 1, p2, mem, by omega, hp2, fun fuel hf => ?_, fun fuel hf => ?_⟩
      · obtain ⟨f, rfl⟩ : ∃ f, fuel = f + 1 := ⟨fuel - 1, by omega⟩
        rw [hstep f]
        exact hok f (by omega)
      · cases fuel with
        | zero => exact find_lru_loop_out s _ hc
        | succ f =>
          rw [hstep f]
          exact hout f (by omega)
    · rw [Bool.not_eq_true] at hc
      refine ⟨0, p, s.real, Nat.zero_le _, by rw [e0]; exact hp, fun fuel _ => ?_,
        fun fuel hf => absurd hf (Nat.not_lt_zero _)⟩
      rw [e0]
      exact find_lru_loop_stop fuel s _ p hc hs.ebase hlt hp

theorem find_lru_total (s : State) (hs : SlotsOK s) (hN : 1 ≤ s.num_entries)
    (hh : s.current_page_number < s.num_entries) :
    ∃ d p m, d ≤ s.num_entries ∧
      s.entries ((s.current_page_number + d) % s.num_entries) = some p ∧
      (∀ fuel, d ≤ fuel → find_lru fuel s = .ok (p,
        { s with real := m,
                 current_page_number := (s.current_page_number + d) % s.num_entries })) ∧
      (∀ fuel, fuel < d → find_lru fuel s = .error .fuel) := by
  have h := find_lru_loop_total s.num_entries s 0 s.current_page_number hs hN (by omega)
    (by rw [Nat.add_zero, Nat.mod_eq_of_lt hh]) (fun j hj => absurd hj (Nat.not_lt_zero _))
  simp only [find_lru_eq_slots _ s hs hh]
  exact h

/-- What `from_mm_to_bs` does, given what its call of `bs_write` did to the
backing store (`bs1`) and whatever that call returned (`r`). -/
theorem from_mm_to_bs_eq (s : State) (p : Nat) (r : Bool) (bs1 : Mem)
    (hp : p + 4 ≤ s.real_limit) (hm : s.real_limit ≤ s.real_mapped)
    (hf : GET_PAGE_ADDR (s.real.pte p) + 4096 ≤ s.real_mapped)
    (hw : bs_write s (GET_PAGE_ADDR (s.real.pte p)) (s.next_block_number % U32) =
      .ok (r, { s with bs := bs1 })) :
    from_mm_to_bs s p = .ok (GET_PAGE_ADDR (s.real.pte p),
      { s with
        bs := bs1
        next_block_number := s.next_block_number + 1
        evicted := s.evicted ++ [s.next_block_number]
        real := (s.real.zero (GET_PAGE_ADDR (s.real.pte p)) 4096).copy_in p
          (bytes32 (CLEAR_RESIDENT ((s.real.pte p &&& 0x3ff) |||
            ((s.next_block_number <<< 10) % U32)))) 4 }) := by
  unfold from_mm_to_bs
  rw [deref_pte_eq s p (by omega)]
  simp only [bind, Except.bind, hw, pure, Except.pure]
  rw [memset_page_eq _ _ (by exact hf)]
  simp only [write_pte_eq]
  rw [if_pos (by exact hp)]

end VMSim

set_option maxRecDepth 10000

namespace VMSim

/-! ### Results of the primitive steps, read off a successful run -/

theorem read_pte_ok (s : State) (init a v : Nat) (h : read_pte s init a = .ok v) :
    v = s.real.pte a ∧ a + 4 ≤ s.real_limit := by
  rw [read_pte_eq] at h
  split at h
  · cases h; exact ⟨rfl, by assumption⟩
  · split at h <;> cases h

theorem write_pte_ok (s t : State) (v a : Nat) (h : write_pte s v a = .ok t) :
    t = { s with real := s.real.copy_in a (bytes32 v) 4 } ∧ a + 4 ≤ s.real_limit := by
  rw [write_pte_eq] at h
  split at h
  · cases h; exact ⟨rfl, by assumption⟩
  · split at h <;> cases h

theorem memset_page_ok (s t : State) (a : Nat) (h : memset_page s a = .ok t) :
    t = { s with real := s.real.zero a 4096 } ∧ a + 4096 ≤ s.real_mapped := by
  unfold memset_page at h
  simp only [PAGESIZE_eq] at h
  split at h
  · cases h; exact ⟨rfl, by assumption⟩
  · cases h

theorem get_entry_ok (s : State) (i p : Nat) (h : get_entry s i = .ok p) :
    s.entries i = some p ∧ i < s.num_entries ∧ s.entries_base = true := by
  unfold get_entry at h
  split at h
  · rename_i hc
    simp only [Bool.and_eq_true, decide_eq_true_eq] at hc
    split at h
    · cases h; exact ⟨by assumption, hc.2, hc.1⟩
    · cases h
  · cases h

theorem set_entry_ok (s t : State) (i p : Nat) (h : set_entry s i p = .ok t) :
    t = { s with entries := fun j => if j = i then some p else s.entries j } ∧
    i < s.num_entries := by
  unfold set_entry at h
  split at h
  · rename_i hc
    simp only [Bool.and_eq_true, decide_eq_true_eq] at hc
    cases h; exact ⟨rfl, hc.2⟩
  · cases h

theorem deref_pte_ok (s : State) (p e : Nat) (h : deref_pte s p = .ok e) :
    e = s.real.pte p ∧ p + 4 ≤ s.real_mapped := by
  unfold deref_pte at h
  split at h
  · cases h; exact ⟨rfl, by assumption⟩
  · cases h

theorem bs_write_ok (s t : State) (a b : Nat) (r : Bool) (h : bs_write s a b = .ok (r, t)) :
    ∃ m, t = { s with bs := m } := by
  unfold bs_write at h
  split at h
  · cases h; exact ⟨s.bs, rfl⟩
  · split at h
    · simp only [bind_ok, pure, Except.pure] at h
      obtain ⟨buf, _, h2⟩ := h
      cases h2
      exact ⟨_, rfl⟩
    · cases h

theorem bs_read_ok (s t : State) (a b : Nat) (r : Bool) (h : bs_read s a b = .ok (r, t)) :
    t = s ∨ ∃ buf, t = { s with real := s.real.copy_in a buf 4096 } ∧
      a + 4096 ≤ s.real_limit := by
  unfold bs_read at h
  split at h
  · cases h; exact Or.inl rfl
  · split at h
    · simp only [bind_ok, pure, Except.pure] at h
      obtain ⟨s1, h1, h2⟩ := h
      cases h2
      simp only [BLOCK_SIZE_eq] at h1
      obtain ⟨e, hle⟩ := vmsim_write_real_ok _ _ _ _ _ h1
      exact Or.inr ⟨_, e, hle⟩
    · cases h

/-! ### The page-table view of real memory under writes -/

theorem table_copy_in (m : Mem) (p : Nat) (buf : Nat → Byte) (n u : Nat)
    (h : 4096 + u * 4 + 4 ≤ p ∨ p + n ≤ 4096 + u * 4) :
    (m.copy_in p buf n).table u = m.table u :=
  pte_copy_in_other m p buf n _ h

theorem table_zero (m : Mem) (p n u : Nat)
    (h : 4096 + u * 4 + 4 ≤ p ∨ p + n ≤ 4096 + u * 4) :
    (m.zero p n).table u = m.table u :=
  pte_zero_other m p n _ h

theorem entry_copy_in (m : Mem) (p : Nat) (buf : Nat → Byte) (n u l : Nat)
    (ht : (m.copy_in p buf n).table u = m.table u)
    (h : m.table u + l * 4 + 4 ≤ p ∨ p + n ≤ m.table u + l * 4) :
    (m.copy_in p buf n).entry u l = m.entry u l := by
  unfold Mem.entry
  rw [ht]
  exact pte_copy_in_other m p buf n _ h

theorem entry_zero (m : Mem) (p n u l : Nat)
    (ht : (m.zero p n).table u = m.table u)
    (h : m.table u + l * 4 + 4 ≤ p ∨ p + n ≤ m.table u + l * 4) :
    (m.zero p n).entry u l = m.entry u l := by
  unfold Mem.entry
  rw [ht]
  exact pte_zero_other m p n _ h

theorem entry_copy_in_same (m : Mem) (u l v : Nat)
    (ht : (m.copy_in (m.table u + l * 4) (bytes32 v) 4).table u = m.table u) :
    (m.copy_in (m.table u + l * 4) (bytes32 v) 4).entry u l = v % 4294967296 := by
  unfold Mem.entry
  rw [ht]
  exact pte_copy_in_same m _ v

/-! ### The scalar part of the invariant under updates -/

theorem CfgOK_real (s : State) (m : Mem) (h : CfgOK s) : CfgOK { s with real := m } :=
  ⟨h.rbase, h.limit, h.size_hi, h.upt, h.upta, h.ebase, h.nent, h.pfa_al, h.pfa_lo, h.pfa_hi,
    h.pfa_map, h.rfa_al, h.rfa_lo, h.rfa_hi, h.small, h.hand, h.nbn⟩

theorem CfgOK_entries (s : State) (e : Nat → Option Nat) (h : CfgOK s) :
    CfgOK { s with entries := e } :=
  ⟨h.rbase, h.limit, h.size_hi, h.upt, h.upta, h.ebase, h.nent, h.pfa_al, h.pfa_lo, h.pfa_hi,
    h.pfa_map, h.rfa_al, h.rfa_lo, h.rfa_hi, h.small, h.hand, h.nbn⟩

theorem CfgOK_bs (s : State) (m : Mem) (h : CfgOK s) : CfgOK { s with bs := m } :=
  ⟨h.rbase, h.limit, h.size_hi, h.upt, h.upta, h.ebase, h.nent, h.pfa_al, h.pfa_lo, h.pfa_hi,
    h.pfa_map, h.rfa_al, h.rfa_lo, h.rfa_hi, h.small, h.hand, h.nbn⟩

theorem CfgOK_sfa (s : State) (a : Nat) (h : CfgOK s) : CfgOK { s with sim_free_addr := a } :=
  ⟨h.rbase, h.limit, h.size_hi, h.upt, h.upta, h.ebase, h.nent, h.pfa_al, h.pfa_lo, h.pfa_hi,
    h.pfa_map, h.rfa_al, h.rfa_lo, h.rfa_hi, h.small, h.hand, h.nbn⟩

theorem CfgOK_nbn (s : State) (l : List Nat) (h : CfgOK s) :
    CfgOK { s with next_block_number := s.next_block_number + 1, evicted := l } :=
  ⟨h.rbase, h.limit, h.size_hi, h.upt, h.upta, h.ebase, h.nent, h.pfa_al, h.pfa_lo, h.pfa_hi,
    h.pfa_map, h.rfa_al, h.rfa_lo, h.rfa_hi, h.small, h.hand, Nat.le_succ_of_le h.nbn⟩

theorem CfgOK_hand (s : State) (c : Nat) (h : CfgOK s) (hc : c < s.num_entries) :
    CfgOK { s with current_page_number := c } :=
  ⟨h.rbase, h.limit, h.size_hi, h.upt, h.upta, h.ebase, h.nent, h.pfa_al, h.pfa_lo, h.pfa_hi,
    h.pfa_map, h.rfa_al, h.rfa_lo, h.rfa_hi, h.small, Or.inl hc, h.nbn⟩

theorem CfgOK_pfa (s : State) (h : CfgOK s) (h1 : s.pt_free_addr + 4096 ≤ 4198400)
    (h2 : s.pt_free_addr + 4096 ≤ s.real_mapped) :
    CfgOK { s with pt_free_addr := s.pt_free_addr + 4096 } :=
  ⟨h.rbase, h.limit, h.size_hi, h.upt, h.upta, h.ebase, h.nent,
    (by have := h.pfa_al; show (s.pt_free_addr + 4096) % 4096 = 0; omega),
    (by have := h.pfa_lo; show 8192 ≤ s.pt_free_addr + 4096; omega), h1, h2,
    h.rfa_al, h.rfa_lo, h.rfa_hi, h.small, h.hand, h.nbn⟩

theorem CfgOK_rfa (s : State) (h : CfgOK s) (h1 : s.real_free_addr + 8192 ≤ 4294967296)
    (h2 : 4198400 ≤ s.real_size) :
    CfgOK { s with real_free_addr := s.real_free_addr + 4096 } :=
  ⟨h.rbase, h.limit, h.size_hi, h.upt, h.upta, h.ebase, h.nent, h.pfa_al, h.pfa_lo, h.pfa_hi,
    h.pfa_map,
    (by have := h.rfa_al; show (s.real_free_addr + 4096) % 4096 = 0; omega),
    (by have := h.rfa_lo; show 4198400 ≤ s.real_free_addr + 4096; omega), h1,
    Or.inl h2, h.hand, h.nbn⟩

/-- With the page-table area inside real memory, the number of slots is the
number of whole frames above the area, and the frames handed out fit. -/
theorem CfgOK.slots {s : State} (h : CfgOK s) (hs : 4198400 ≤ s.real_size) :
    s.num_entries = (s.real_size - 4198400) / 4096 := by
  rw [h.nent, U64]
  have := h.size_hi
  have e : (s.real_size + 18446744073709551616 - 4198400) % 18446744073709551616 =
      s.real_size - 4198400 := by omega
  rw [e]

theorem CfgOK.frames_eq {s : State} (_ : CfgOK s) :
    s.frames = min ((s.real_free_addr - 4198400) / 4096) s.num_entries := rfl

theorem CfgOK.fit {s : State} (h : CfgOK s) (i : Nat) (hi : i < s.frames) :
    4198400 + 4096 * i + 4096 ≤ s.real_size := by
  rw [h.frames_eq] at hi
  rcases h.small with c | c
  · have := h.slots c
    omega
  · rw [c] at hi
    simp at hi

end VMSim

set_option maxRecDepth 10000

namespace VMSim

/-! ### The table part of the invariant under changes of the view -/

theorem TabOK.addr_inj {s : State} {hole : Option Nat} (h : TabOK s hole) (u v l k : Nat)
    (hu : u < 1024) (hv : v < 1024) (hl : l < 1024) (hk : k < 1024)
    (hu0 : s.real.table u ≠ 0) (hv0 : s.real.table v ≠ 0)
    (he : s.real.table u + l * 4 = s.real.table v + k * 4) : u = v ∧ l = k := by
  have h1 := h.tab_rng u hu hu0
  have h2 := h.tab_rng v hv hv0
  have e : s.real.table u = s.real.table v := by omega
  exact ⟨h.tab_inj u v hu hv hu0 e, by omega⟩

theorem TabOK_view (s t : State) (hole : Option Nat) (h : TabOK s hole)
    (hpfa : t.pt_free_addr = s.pt_free_addr) (hfr : t.frames = s.frames)
    (hnbn : s.next_block_number ≤ t.next_block_number) (hent : t.entries = s.entries)
    (htab : ∀ u, u < 1024 → t.real.table u = s.real.table u)
    (hlow : ∀ u l, u < 1024 → l < 1024 → s.real.table u ≠ 0 →
      t.real.entry u l = s.real.entry u l ∨
      (s.real.entry u l % 2 = 1 ∧ t.real.entry u l % 2 = 1 ∧
        t.real.entry u l / 8 = s.real.entry u l / 8)) :
    TabOK t hole := by
  refine ⟨?_, ?_, ?_, ?_, ?_, ?_, ?_, ?_⟩
  · intro u hu h0
    rw [htab u hu] at h0 ⊢
    rw [hpfa]
    exact h.tab_rng u hu h0
  · intro u v hu hv h0 he
    rw [htab u hu] at h0 he
    rw [htab v hv] at he
    exact h.tab_inj u v hu hv h0 he
  · intro a h1 h2 h3
    rw [hpfa] at h2
    obtain ⟨u, hu, e⟩ := h.tab_all a h1 h2 h3
    exact ⟨u, hu, by rw [htab u hu]; exact e⟩
  · intro u l hu hl h0 hr
    rw [htab u hu] at h0 ⊢
    rw [hfr, hent]
    rcases hlow u l hu hl h0 with c | ⟨c1, c2, c3⟩
    · rw [c] at hr ⊢
      exact h.ent u l hu hl h0 hr
    · obtain ⟨i, hi, hh, hf, hd⟩ := h.ent u l hu hl h0 c1
      exact ⟨i, hi, hh, by omega, hd⟩
  · intro u l hu hl h0 hne hr
    rw [htab u hu] at h0
    rcases hlow u l hu hl h0 with c | ⟨c1, c2, c3⟩
    · rw [c] at hne hr ⊢
      obtain ⟨b, hb1, hb2, hb3⟩ := h.swp u l hu hl h0 hne hr
      exact ⟨b, hb1, by omega, hb3⟩
    · omega
  · intro i hi hh
    rw [hfr] at hi
    obtain ⟨u, l, hu, hl, h0, hd, hr, hf⟩ := h.dir i hi hh
    refine ⟨u, l, hu, hl, by rw [htab u hu]; exact h0, by rw [hent, htab u hu]; exact hd, ?_, ?_⟩
    · rcases hlow u l hu hl h0 with c | ⟨c1, c2, c3⟩
      · rw [c]; exact hr
      · exact c2
    · rcases hlow u l hu hl h0 with c | ⟨c1, c2, c3⟩
      · rw [c]; exact hf
      · omega
  · intro i hi
    rw [hfr] at hi
    rw [hent]
    exact h.dir_none i hi
  · intro i hi
    rw [hfr]
    exact h.hole_lt i hi

/-- The victim's entry `(u1, l1)`, resident with frame `i0`, is rewritten as
swapped out to the block of the counter, and the counter advances: frame `i0`
is the hole. -/
theorem TabOK_evict (s t : State) (u1 l1 i0 : Nat) (h : TabOK s none) (hc : 1 ≤ s.next_block_number)
    (hu1 : u1 < 1024) (hl1 : l1 < 1024) (h10 : s.real.table u1 ≠ 0)
    (hi0 : i0 < s.frames)
    (hd0 : s.entries i0 = some (s.real.table u1 + l1 * 4))
    (hf0 : s.real.entry u1 l1 / 4096 * 4096 = 4198400 + 4096 * i0)
    (hpfa : t.pt_free_addr = s.pt_free_addr) (hfr : t.frames = s.frames)
    (hnbn : t.next_block_number = s.next_block_number + 1) (hent : t.entries = s.entries)
    (htab : ∀ u, u < 1024 → t.real.table u = s.real.table u)
    (hnew : t.real.entry u1 l1 % 2 = 0 ∧
      t.real.entry u1 l1 / 1024 = s.next_block_number % 4194304)
    (hlow : ∀ u l, u < 1024 → l < 1024 → s.real.table u ≠ 0 → ¬ (u = u1 ∧ l = l1) →
      t.real.entry u l = s.real.entry u l) :
    TabOK t (some i0) := by
  refine ⟨?_, ?_, ?_, ?_, ?_, ?_, ?_, ?_⟩
  · intro u hu h0
    rw [htab u hu] at h0 ⊢
    rw [hpfa]
    exact h.tab_rng u hu h0
  · intro u v hu hv h0 he
    rw [htab u hu] at h0 he
    rw [htab v hv] at he
    exact h.tab_inj u v hu hv h0 he
  · intro a h1 h2 h3
    rw [hpfa] at h2
    obtain ⟨u, hu, e⟩ := h.tab_all a h1 h2 h3
    exact ⟨u, hu, by rw [htab u hu]; exact e⟩
  · intro u l hu hl h0 hr
    rw [htab u hu] at h0 ⊢
    rw [hfr, hent]
    by_cases c : u = u1 ∧ l = l1
    · obtain ⟨c1, c2⟩ := c
      subst c1; subst c2
      omega
    · rw [hlow u l hu hl h0 c] at hr ⊢
      obtain ⟨i, hi, _, hf, hd⟩ := h.ent u l hu hl h0 hr
      refine ⟨i, hi, ?_, hf, hd⟩
      intro e
      cases e
      rw [hd0] at hd
      have e2 := Option.some.inj hd
      exact c (h.addr_inj u u1 l l1 hu hu1 hl hl1 h0 h10 e2.symm)
  · intro u l hu hl h0 hne hr
    rw [htab u hu] at h0
    by_cases c : u = u1 ∧ l = l1
    · obtain ⟨c1, c2⟩ := c
      subst c1; subst c2
      exact ⟨s.next_block_number, hc, by omega, hnew.2⟩
    · rw [hlow u l hu hl h0 c] at hne hr ⊢
      obtain ⟨b, hb1, hb2, hb3⟩ := h.swp u l hu hl h0 hne hr
      exact ⟨b, hb1, by omega, hb3⟩
  · intro i hi hh
    rw [hfr] at hi
    obtain ⟨u, l, hu, hl, h0, hd, hr, hf⟩ := h.dir i hi (by simp)
    have c : ¬ (u = u1 ∧ l = l1) := by
      rintro ⟨c1, c2⟩
      subst c1; subst c2
      apply hh
      congr 1
      omega
    refine ⟨u, l, hu, hl, by rw [htab u hu]; exact h0, by rw [hent, htab u hu]; exact hd, ?_, ?_⟩
    · rw [hlow u l hu hl h0 c]; exact hr
    · rw [hlow u l hu hl h0 c]; exact hf
  · intro i hi
    rw [hfr] at hi
    rw [hent]
    exact h.dir_none i hi
  · intro i hi
    cases hi
    rw [hfr]
    exact hi0

/-- The frame of the hole `i0` is given to the entry `(u0, l0)`, which was
not resident, and slot `i0` is pointed at that entry. -/
theorem TabOK_install (s t : State) (u0 l0 i0 : Nat) (h : TabOK s (some i0))
    (hu0 : u0 < 1024) (hl0 : l0 < 1024) (h00 : s.real.table u0 ≠ 0)
    (hold : s.real.entry u0 l0 % 2 = 0)
    (hpfa : t.pt_free_addr = s.pt_free_addr) (hfr : t.frames = s.frames)
    (hnbn : t.next_block_number = s.next_block_number)
    (hent : t.entries = fun j => if j = i0 then some (s.real.table u0 + l0 * 4) else s.entries j)
    (htab : ∀ u, u < 1024 → t.real.table u = s.real.table u)
    (hnew : t.real.entry u0 l0 % 2 = 1 ∧
      t.real.entry u0 l0 / 4096 * 4096 = 4198400 + 4096 * i0)
    (hlow : ∀ u l, u < 1024 → l < 1024 → s.real.table u ≠ 0 → ¬ (u = u0 ∧ l = l0) →
      t.real.entry u l = s.real.entry u l) :
    TabOK t none := by
  have hi0 := h.hole_lt i0 rfl
  refine ⟨?_, ?_, ?_, ?_, ?_, ?_, ?_, ?_⟩
  · intro u hu h0
    rw [htab u hu] at h0 ⊢
    rw [hpfa]
    exact h.tab_rng u hu h0
  · intro u v hu hv h0 he
    rw [htab u hu] at h0 he
    rw [htab v hv] at he
    exact h.tab_inj u v hu hv h0 he
  · intro a h1 h2 h3
    rw [hpfa] at h2
    obtain ⟨u, hu, e⟩ := h.tab_all a h1 h2 h3
    exact ⟨u, hu, by rw [htab u hu]; exact e⟩
  · intro u l hu hl h0 hr
    rw [htab u hu] at h0 ⊢
    rw [hfr, hent]
    by_cases c : u = u0 ∧ l = l0
    · obtain ⟨c1, c2⟩ := c
      subst c1; subst c2
      exact ⟨i0, hi0, by simp, hnew.2, by simp⟩
    · rw [hlow u l hu hl h0 c] at hr ⊢
      obtain ⟨i, hi, hh, hf, hd⟩ := h.ent u l hu hl h0 hr
      have hne : i ≠ i0 := fun e => hh (by rw [e])
      exact ⟨i, hi, by simp, hf, by simp only [hne, if_false]; exact hd⟩
  · intro u l hu hl h0 hne hr
    rw [htab u hu] at h0
    by_cases c : u = u0 ∧ l = l0
    · obtain ⟨c1, c2⟩ := c
      subst c1; subst c2
      omega
    · rw [hlow u l hu hl h0 c] at hne hr ⊢
      obtain ⟨b, hb1, hb2, hb3⟩ := h.swp u l hu hl h0 hne hr
      exact ⟨b, hb1, by omega, hb3⟩
  · intro i hi _
    rw [hfr] at hi
    by_cases ci : i = i0
    · subst ci
      exact ⟨u0, l0, hu0, hl0, by rw [htab u0 hu0]; exact h00,
        by rw [hent, htab u0 hu0]; simp, hnew.1, hnew.2⟩
    · obtain ⟨u, l, hu, hl, h0, hd, hr, hf⟩ := h.dir i hi (by simp; exact ci)
      have c : ¬ (u = u0 ∧ l = l0) := by
        rintro ⟨c1, c2⟩
        subst c1; subst c2
        omega
      refine ⟨u, l, hu, hl, by rw [htab u hu]; exact h0,
        by rw [hent, htab u hu]; simp only [ci, if_false]; exact hd, ?_, ?_⟩
      · rw [hlow u l hu hl h0 c]; exact hr
      · rw [hlow u l hu hl h0 c]; exact hf
  · intro i hi
    rw [hfr] at hi
    have ci : i ≠ i0 := by omega
    rw [hent]
    simp only [ci, if_false]
    exact h.dir_none i hi
  · intro i hi
    cases hi

/-- A fresh frame is taken from the pool: it becomes the hole. -/
theorem TabOK_fresh (s t : State) (h : TabOK s none)
    (hpfa : t.pt_free_addr = s.pt_free_addr) (hfr : t.frames = s.frames + 1)
    (hnbn : t.next_block_number = s.next_block_number) (hent : t.entries = s.entries)
    (htab : ∀ u, u < 1024 → t.real.table u = s.real.table u)
    (hlow : ∀ u l, u < 1024 → l < 1024 → s.real.table u ≠ 0 →
      t.real.entry u l = s.real.entry u l) :
    TabOK t (some s.frames) := by
  refine ⟨?_, ?_, ?_, ?_, ?_, ?_, ?_, ?_⟩
  · intro u hu h0
    rw [htab u hu] at h0 ⊢
    rw [hpfa]
    exact h.tab_rng u hu h0
  · intro u v hu hv h0 he
    rw [htab u hu] at h0 he
    rw [htab v hv] at he
    exact h.tab_inj u v hu hv h0 he
  · intro a h1 h2 h3
    rw [hpfa] at h2
    obtain ⟨u, hu, e⟩ := h.tab_all a h1 h2 h3
    exact ⟨u, hu, by rw [htab u hu]; exact e⟩
  · intro u l hu hl h0 hr
    rw [htab u hu] at h0 ⊢
    rw [hfr, hent]
    rw [hlow u l hu hl h0] at hr ⊢
    obtain ⟨i, hi, _, hf, hd⟩ := h.ent u l hu hl h0 hr
    refine ⟨i, by omega, ?_, hf, hd⟩
    intro e
    cases e
    omega
  · intro u l hu hl h0 hne hr
    rw [htab u hu] at h0
    rw [hlow u l hu hl h0] at hne hr ⊢
    obtain ⟨b, hb1, hb2, hb3⟩ := h.swp u l hu hl h0 hne hr
    exact ⟨b, hb1, by omega, hb3⟩
  · intro i hi hh
    rw [hfr] at hi
    have ci : i < s.frames := by
      have : i ≠ s.frames := fun e => hh (by rw [e])
      omega
    obtain ⟨u, l, hu, hl, h0, hd, hr, hf⟩ := h.dir i ci (by simp)
    refine ⟨u, l, hu, hl, by rw [htab u hu]; exact h0, by rw [hent, htab u hu]; exact hd, ?_, ?_⟩
    · rw [hlow u l hu hl h0]; exact hr
    · rw [hlow u l hu hl h0]; exact hf
  · intro i hi
    rw [hfr] at hi
    rw [hent]
    exact h.dir_none i (by omega)
  · intro i hi
    cases hi
    rw [hfr]
    omega

/-- A lower table is allocated at the cursor for the index `u0`, which had
none. -/
theorem TabOK_new_table (s t : State) (hole : Option Nat) (u0 : Nat) (h : TabOK s hole)
    (hc : CfgOK s) (hu0 : u0 < 1024) (h00 : s.real.table u0 = 0)
    (hpfa : t.pt_free_addr = s.pt_free_addr + 4096) (hfr : t.frames = s.frames)
    (hnbn : t.next_block_number = s.next_block_number) (hent : t.entries = s.entries)
    (htab0 : t.real.table u0 = s.pt_free_addr)
    (htab : ∀ u, u < 1024 → u ≠ u0 → t.real.table u = s.real.table u)
    (hnew : ∀ l, l < 1024 → t.real.entry u0 l = 0)
    (hlow : ∀ u l, u < 1024 → l < 1024 → s.real.table u ≠ 0 →
      t.real.entry u l = s.real.entry u l) :
    TabOK t hole := by
  have hl := hc.pfa_lo
  have ha := hc.pfa_al
  have hne : ∀ u, u < 1024 → s.real.table u ≠ 0 → u ≠ u0 := by
    intro u _ h0 e
    rw [e] at h0
    exact h0 h00
  have httab : ∀ u, u < 1024 → t.real.table u ≠ 0 → u ≠ u0 → s.real.table u ≠ 0 := by
    intro u hu h0 e
    rw [htab u hu e] at h0
    exact h0
  refine ⟨?_, ?_, ?_, ?_, ?_, ?_, ?_, ?_⟩
  · intro u hu h0
    by_cases c : u = u0
    · subst c
      rw [htab0, hpfa]
      omega
    · have h0s := httab u hu h0 c
      rw [htab u hu c, hpfa]
      have := h.tab_rng u hu h0s
      omega
  · intro u v hu hv h0 he
    by_cases c : u = u0
    · subst c
      by_cases d : v = u
      · exact d.symm
      · exfalso
        rw [htab0, htab v hv d] at he
        have h0v : s.real.table v ≠ 0 := by omega
        have := h.tab_rng v hv h0v
        omega
    · have h0s := httab u hu h0 c
      by_cases d : v = u0
      · subst d
        exfalso
        rw [htab0, htab u hu c] at he
        have := h.tab_rng u hu h0s
        omega
      · rw [htab u hu c, htab v hv d] at he
        exact h.tab_inj u v hu hv h0s he
  · intro a h1 h2 h3
    rw [hpfa] at h2
    by_cases c : a = s.pt_free_addr
    · exact ⟨u0, hu0, by rw [htab0, c]⟩
    · obtain ⟨u, hu, e⟩ := h.tab_all a h1 (by omega) h3
      have h0 : s.real.table u ≠ 0 := by omega
      exact ⟨u, hu, by rw [htab u hu (hne u hu h0)]; exact e⟩
  · intro u l hu hl h0 hr
    by_cases c : u = u0
    · subst c
      rw [hnew l hl] at hr
      omega
    · have h0s := httab u hu h0 c
      rw [htab u hu c, hfr, hent]
      rw [hlow u l hu hl h0s] at hr ⊢
      exact h.ent u l hu hl h0s hr
  · intro u l hu hl h0 hne2 hr
    by_cases c : u = u0
    · subst c
      exact absurd (hnew l hl) hne2
    · have h0s := httab u hu h0 c
      rw [hlow u l hu hl h0s] at hne2 hr ⊢
      obtain ⟨b, hb1, hb2, hb3⟩ := h.swp u l hu hl h0s hne2 hr
      exact ⟨b, hb1, by omega, hb3⟩
  · intro i hi hh
    rw [hfr] at hi
    obtain ⟨u, l, hu, hl, h0, hd, hr, hf⟩ := h.dir i hi hh
    have c := hne u hu h0
    refine ⟨u, l, hu, hl, by rw [htab u hu c]; exact h0,
      by rw [hent, htab u hu c]; exact hd, ?_, ?_⟩
    · rw [hlow u l hu hl h0]; exact hr
    · rw [hlow u l hu hl h0]; exact hf
  · intro i hi
    rw [hfr] at hi
    rw [hent]
    exact h.dir_none i hi
  · intro i hi
    rw [hfr]
    exact h.hole_lt i hi

end VMSim

set_option maxRecDepth 10000

namespace VMSim

/-! ### Touching the status bits of resident entries -/

theorem touch_self (s : State) : Touch s s :=
  ⟨Fixed.self s, rfl, rfl, rfl, rfl, rfl, rfl, rfl, fun _ _ => rfl,
    fun _ _ _ _ _ => Or.inl rfl, fun _ _ => rfl⟩

theorem touch_hand (s : State) (c : Nat) : Touch s { s with current_page_number := c } :=
  ⟨Fixed.self s, rfl, rfl, rfl, rfl, rfl, rfl, rfl, fun _ _ => rfl,
    fun _ _ _ _ _ => Or.inl rfl, fun _ _ => rfl⟩

theorem touch_chain {s t r : State} (h1 : Touch s t) (h2 : Touch t r) : Touch s r := by
  refine ⟨h1.fixed.chain h2.fixed, h2.pfa.trans h1.pfa, h2.rfa.trans h1.rfa,
    h2.sfa.trans h1.sfa, h2.nbn.trans h1.nbn, h2.ent.trans h1.ent, h2.bs.trans h1.bs,
    h2.evicted.trans h1.evicted, fun u hu => (h2.tab u hu).trans (h1.tab u hu), ?_,
    fun x hx => (h2.data x hx).trans (h1.data x hx)⟩
  intro u l hu hl h0
  have h0t : t.real.table u ≠ 0 := by rw [h1.tab u hu]; exact h0
  rcases h1.low u l hu hl h0 with c | ⟨c1, c2, c3⟩
  · rcases h2.low u l hu hl h0t with d | ⟨d1, d2, d3⟩
    · exact Or.inl (d.trans c)
    · rw [c] at d1 d3
      exact Or.inr ⟨d1, d2, d3⟩
  · rcases h2.low u l hu hl h0t with d | ⟨d1, d2, d3⟩
    · rw [d]
      exact Or.inr ⟨c1, c2, c3⟩
    · exact Or.inr ⟨c1, d2, d3.trans c3⟩

theorem touch_frames {s t : State} (h : Touch s t) : t.frames = s.frames := by
  unfold State.frames
  rw [h.rfa, h.fixed.2.2.2.2.2.2.2.2.1]

theorem touch_mapped {s t : State} (h : Touch s t) : t.real_mapped = s.real_mapped := by
  unfold State.real_mapped
  rw [h.fixed.2.2.1, h.fixed.2.2.2.2.1]

theorem CfgOK_touch (s t : State) (h : CfgOK s) (ht : Touch s t)
    (hh : t.current_page_number < t.num_entries ∨ t.current_page_number = 0) : CfgOK t := by
  obtain ⟨f1, f2, f3, f4, f5, f6, f7, f8, f9, f10, f11, f12⟩ := ht.fixed
  refine ⟨f3.trans h.rbase, ?_, ?_, f6.trans h.upt, f7.trans h.upta, f8.trans h.ebase, ?_,
    ?_, ?_, ?_, ?_, ?_, ?_, ?_, ?_, hh, ?_⟩
  · rw [f4, f5]; exact h.limit
  · rw [f5]; exact h.size_hi
  · rw [f9, f5]; exact h.nent
  · rw [ht.pfa]; exact h.pfa_al
  · rw [ht.pfa]; exact h.pfa_lo
  · rw [ht.pfa]; exact h.pfa_hi
  · rw [ht.pfa, touch_mapped ht]; exact h.pfa_map
  · rw [ht.rfa]; exact h.rfa_al
  · rw [ht.rfa]; exact h.rfa_lo
  · rw [ht.rfa]; exact h.rfa_hi
  · rw [ht.rfa, f5]; exact h.small
  · rw [ht.nbn]; exact h.nbn

theorem InvG_touch (s t : State) (hole : Option Nat) (h : InvG s hole) (ht : Touch s t)
    (hh : t.current_page_number < t.num_entries ∨ t.current_page_number = 0) :
    InvG t hole :=
  ⟨CfgOK_touch s t h.cfg ht hh,
    TabOK_view s t hole h.tab ht.pfa (touch_frames ht) (by rw [ht.nbn]) ht.ent ht.tab ht.low⟩

/-- The address of a lower-table entry lies in the page-table area, below the
cursor, and is a multiple of 4. -/
theorem InvG.addr {s : State} {hole : Option Nat} (h : InvG s hole) (u l : Nat)
    (hu : u < 1024) (hl : l < 1024) (h0 : s.real.table u ≠ 0) :
    8192 ≤ s.real.table u + l * 4 ∧ s.real.table u + l * 4 + 4 ≤ s.pt_free_addr ∧
    s.real.table u + l * 4 + 4 ≤ 4198400 ∧ (s.real.table u + l * 4) % 4 = 0 := by
  have := h.tab.tab_rng u hu h0
  have := h.cfg.pfa_hi
  omega

/-- Rewriting one lower-table entry leaves the root table and all other
lower-table entries as they were. -/
theorem entry_write (s : State) (hole : Option Nat) (h : InvG s hole) (u0 l0 v : Nat)
    (hu0 : u0 < 1024) (hl0 : l0 < 1024) (h00 : s.real.table u0 ≠ 0) :
    (∀ u, u < 1024 →
      (s.real.copy_in (s.real.table u0 + l0 * 4) (bytes32 v) 4).table u = s.real.table u) ∧
    (s.real.copy_in (s.real.table u0 + l0 * 4) (bytes32 v) 4).entry u0 l0 = v % 4294967296 ∧
    (∀ u l, u < 1024 → l < 1024 → s.real.table u ≠ 0 → ¬ (u = u0 ∧ l = l0) →
      (s.real.copy_in (s.real.table u0 + l0 * 4) (bytes32 v) 4).entry u l = s.real.entry u l) ∧
    (∀ x, 4198400 ≤ x →
      (s.real.copy_in (s.real.table u0 + l0 * 4) (bytes32 v) 4) x = s.real x) := by
  have ha := h.addr u0 l0 hu0 hl0 h00
  have htab : ∀ u, u < 1024 →
      (s.real.copy_in (s.real.table u0 + l0 * 4) (bytes32 v) 4).table u = s.real.table u :=
    fun u hu => table_copy_in _ _ _ _ _ (by omega)
  refine ⟨htab, entry_copy_in_same _ _ _ _ (htab u0 hu0), ?_, ?_⟩
  · intro u l hu hl h0 hne
    apply entry_copy_in _ _ _ _ _ _ (htab u hu)
    have hb := h.addr u l hu hl h0
    have hd : s.real.table u + l * 4 ≠ s.real.table u0 + l0 * 4 := fun e =>
      hne (h.tab.addr_inj u u0 l l0 hu hu0 hl hl0 h0 h00 e)
    omega
  · intro x hx
    exact copy_in_out _ _ _ _ _ (by omega)

theorem touch_write_entry (s : State) (hole : Option Nat) (h : InvG s hole) (u0 l0 v : Nat)
    (hu0 : u0 < 1024) (hl0 : l0 < 1024) (h00 : s.real.table u0 ≠ 0)
    (hres : s.real.entry u0 l0 % 2 = 1) (hv : v < 4294967296) (hv1 : v % 2 = 1)
    (hv2 : v / 8 = s.real.entry u0 l0 / 8) :
    Touch s { s with real := s.real.copy_in (s.real.table u0 + l0 * 4) (bytes32 v) 4 } := by
  obtain ⟨e1, e2, e3, e4⟩ := entry_write s hole h u0 l0 v hu0 hl0 h00
  refine ⟨Fixed.self s, rfl, rfl, rfl, rfl, rfl, rfl, rfl, e1, ?_, e4⟩
  intro u l hu hl h0
  by_cases c : u = u0 ∧ l = l0
  · obtain ⟨c1, c2⟩ := c
    subst c1; subst c2
    right
    show _ ∧ (s.real.copy_in _ _ 4).entry u l % 2 = 1 ∧
      (s.real.copy_in _ _ 4).entry u l / 8 = _
    rw [e2, Nat.mod_eq_of_lt hv]
    exact ⟨hres, hv1, hv2⟩
  · exact Or.inl (e3 u l hu hl h0 c)

/-- A directory slot that holds a pointer is the slot of a frame handed out,
and the pointer is the address of a resident entry naming that frame. -/
theorem InvG.slot {s : State} (h : InvG s none) (i p : Nat) (hp : s.entries i = some p) :
    i < s.frames ∧ ∃ u l, u < 1024 ∧ l < 1024 ∧ s.real.table u ≠ 0 ∧
      p = s.real.table u + l * 4 ∧ s.real.entry u l % 2 = 1 ∧
      s.real.entry u l / 4096 * 4096 = 4198400 + 4096 * i ∧ s.real.pte p = s.real.entry u l := by
  have hi : i < s.frames := by
    by_contra c
    rw [h.tab.dir_none i (by omega)] at hp
    cases hp
  obtain ⟨u, l, hu, hl, h0, hd, hr, hf⟩ := h.tab.dir i hi (by simp)
  rw [hp] at hd
  have e := Option.some.inj hd
  exact ⟨hi, u, l, hu, hl, h0, e, hr, hf, by rw [e]; rfl⟩

theorem find_lru_loop_inv (fuel : Nat) : ∀ (s t : State) (e p : Nat), InvG s none →
    (∃ q, s.entries s.current_page_number = some q ∧ e = s.real.pte q) →
    find_lru_loop fuel s e = .ok (p, t) →
    Touch s t ∧ InvG t none ∧ t.entries t.current_page_number = some p ∧
      t.current_page_number < t.num_entries := by
  induction fuel with
  | zero =>
    intro s t e p h _ hr
    unfold find_lru_loop at hr
    split at hr
    · cases hr
    · simp only [bind_ok, pure, Except.pure] at hr
      obtain ⟨q, h1, h2⟩ := hr
      cases h2
      obtain ⟨g1, g2, _⟩ := get_entry_ok _ _ _ h1
      exact ⟨touch_self s, h, g1, g2⟩
  | succ fuel ih =>
    intro s t e p h hq hr
    unfold find_lru_loop at hr
    split at hr
    · rename_i href
      simp only [bind_ok] at hr
      obtain ⟨q, h1, s1, h2, h3⟩ := hr
      split at h3
      · cases h3
      · rename_i hN
        simp only [bind_ok] at h3
        obtain ⟨q2, h4, e2, h5, h6⟩ := h3
        obtain ⟨g1, g2, _⟩ := get_entry_ok _ _ _ h1
        obtain ⟨q', hq1, hq2⟩ := hq
        rw [g1] at hq1
        cases hq1
        obtain ⟨hi, u, l, hu, hl, h0, ea, hres, hf, hpte⟩ := h.slot _ q g1
        obtain ⟨w1, _⟩ := write_pte_ok _ _ _ _ h2
        subst w1
        subst ea
        rw [hpte] at hq2
        have hlt := pte_lt s.real (s.real.table u + l * 4)
        have hlt2 : s.real.entry u l < 4294967296 := hlt
        rw [IS_REFERENCED_eq, decide_eq_true_eq] at href
        have ht1 : Touch s { s with real := (s.real.copy_in (s.real.table u + l * 4)
            (bytes32 (CLEAR_REFERENCED e)) 4) } := by
          apply touch_write_entry s none h u l _ hu hl h0 hres (CLEAR_REFERENCED_lt e)
          · rw [CLEAR_REFERENCED_eq, hq2]; omega
          · rw [CLEAR_REFERENCED_eq, hq2]; omega
        have hNpos : 0 < s.num_entries := by
          have : s.num_entries ≠ 0 := hN
          omega
        have hh2 : (s.current_page_number + 1) % s.num_entries < s.num_entries :=
          Nat.mod_lt _ hNpos
        have ht2 := touch_chain ht1 (touch_hand _ ((s.current_page_number + 1) % s.num_entries))
        have hinv2 := InvG_touch _ _ none h ht2 (Or.inl hh2)
        obtain ⟨g3, _, _⟩ := get_entry_ok _ _ _ h4
        obtain ⟨d1, _⟩ := deref_pte_ok _ _ _ h5
        obtain ⟨r1, r2, r3, r4⟩ := ih _ t e2 p hinv2 ⟨q2, g3, d1⟩ h6
        exact ⟨touch_chain ht2 r1, r2, r3, r4⟩
    · simp only [bind_ok, pure, Except.pure] at hr
      obtain ⟨q, h1, h2⟩ := hr
      cases h2
      obtain ⟨g1, g2, _⟩ := get_entry_ok _ _ _ h1
      exact ⟨touch_self s, h, g1, g2⟩

theorem find_lru_inv (fuel : Nat) (s t : State) (p : Nat) (h : InvG s none)
    (hr : find_lru fuel s = .ok (p, t)) :
    Touch s t ∧ InvG t none ∧ t.entries t.current_page_number = some p ∧
      t.current_page_number < t.num_entries := by
  unfold find_lru at hr
  simp only [bind_ok] at hr
  obtain ⟨q, h1, e, h2, h3⟩ := hr
  obtain ⟨g1, _, _⟩ := get_entry_ok _ _ _ h1
  obtain ⟨d1, _⟩ := deref_pte_ok _ _ _ h2
  exact find_lru_loop_inv fuel s t e p h ⟨q, g1, d1⟩ h3

end VMSim

set_option maxRecDepth 10000

namespace VMSim

theorem evict_entry_val (e b : Nat) :
    CLEAR_RESIDENT ((e &&& 0x3ff) ||| ((b <<< 10) % U32)) =
      (b % 4194304) * 1024 + e % 1024 / 2 * 2 := by
  have e1 : e &&& 1023 = e % 1024 := and_1023 _
  have e2 : (b <<< 10) % U32 = (b % 4194304) * 1024 := by
    rw [Nat.shiftLeft_eq, U32_eq]; omega
  have e3 : e % 1024 ||| (b % 4194304) * 1024 = (b % 4194304) * 1024 + e % 1024 := by
    rw [Nat.lor_comm]
    exact or_disjoint 10 _ _ (by omega) (by omega)
  rw [e1, e2, e3, CLEAR_RESIDENT_eq]
  omega

theorem install_entry_val (e f : Nat) (hf : f % 4096 = 0) :
    SET_RESIDENT ((e &&& 0x3ff) ||| f) = f + e % 1024 / 2 * 2 + 1 := by
  have e1 : e &&& 1023 = e % 1024 := and_1023 _
  have e3 : e % 1024 ||| f = f + e % 1024 := by
    rw [Nat.lor_comm]
    exact or_disjoint 10 _ _ (by omega) (by omega)
  rw [e1, e3, SET_RESIDENT_eq]
  omega

theorem CfgOK_of_eq (s t : State) (h : CfgOK s) (hf : Fixed s t)
    (hpfa : t.pt_free_addr = s.pt_free_addr) (hrfa : t.real_free_addr = s.real_free_addr)
    (hh : t.current_page_number = s.current_page_number)
    (hnbn : s.next_block_number ≤ t.next_block_number) : CfgOK t := by
  obtain ⟨f1, f2, f3, f4, f5, f6, f7, f8, f9, f10, f11, f12⟩ := hf
  have hm : t.real_mapped = s.real_mapped := by
    unfold State.real_mapped
    rw [f3, f5]
  refine ⟨f3.trans h.rbase, ?_, ?_, f6.trans h.upt, f7.trans h.upta, f8.trans h.ebase, ?_,
    ?_, ?_, ?_, ?_, ?_, ?_, ?_, ?_, ?_, ?_⟩
  · rw [f4, f5]; exact h.limit
  · rw [f5]; exact h.size_hi
  · rw [f9, f5]; exact h.nent
  · rw [hpfa]; exact h.pfa_al
  · rw [hpfa]; exact h.pfa_lo
  · rw [hpfa]; exact h.pfa_hi
  · rw [hpfa, hm]; exact h.pfa_map
  · rw [hrfa]; exact h.rfa_al
  · rw [hrfa]; exact h.rfa_lo
  · rw [hrfa]; exact h.rfa_hi
  · rw [hrfa, f5]; exact h.small
  · rw [hh, f9]; exact h.hand
  · have := h.nbn; omega

theorem InvG_eq_view (s t : State) (hole : Option Nat) (h : InvG s hole) (hf : Fixed s t)
    (hpfa : t.pt_free_addr = s.pt_free_addr) (hrfa : t.real_free_addr = s.real_free_addr)
    (hh : t.current_page_number = s.current_page_number)
    (hnbn : s.next_block_number ≤ t.next_block_number) (hent : t.entries = s.entries)
    (htab : ∀ u, u < 1024 → t.real.table u = s.real.table u)
    (hlow : ∀ u l, u < 1024 → l < 1024 → s.real.table u ≠ 0 →
      t.real.entry u l = s.real.entry u l) :
    InvG t hole := by
  refine ⟨CfgOK_of_eq s t h.cfg hf hpfa hrfa hh hnbn, TabOK_view s t hole h.tab hpfa ?_ hnbn hent
    htab (fun u l hu hl h0 => Or.inl (hlow u l hu hl h0))⟩
  unfold State.frames
  rw [hrfa, hf.2.2.2.2.2.2.2.2.1]

/-- Memory that agrees with `m` below the general pool has the same root
table and the same lower-table entries. -/
theorem view_agree (m n : Mem) (h : ∀ x, x < 4198400 → n x = m x) :
    (∀ u, u < 1024 → n.table u = m.table u) ∧
    (∀ u l, u < 1024 → m.table u + l * 4 + 4 ≤ 4198400 → n.entry u l = m.entry u l) := by
  have ht : ∀ u, u < 1024 → n.table u = m.table u := by
    intro u hu
    apply pte_congr
    intro i hi
    exact h _ (by omega)
  refine ⟨ht, fun u l hu hl => ?_⟩
  unfold Mem.entry
  rw [ht u hu]
  apply pte_congr
  intro i hi
  exact h _ (by omega)

theorem InvG_frame (s : State) (hole : Option Nat) (n : Mem) (h : InvG s hole)
    (ha : ∀ x, x < 4198400 → n x = s.real x) :
    InvG { s with real := n } hole ∧
    (∀ u, u < 1024 → n.table u = s.real.table u) ∧
    (∀ u l, u < 1024 → l < 1024 → s.real.table u ≠ 0 → n.entry u l = s.real.entry u l) := by
  obtain ⟨v1, v2⟩ := view_agree s.real n ha
  have v3 : ∀ u l, u < 1024 → l < 1024 → s.real.table u ≠ 0 →
      n.entry u l = s.real.entry u l :=
    fun u l hu hl h0 => v2 u l hu (h.addr u l hu hl h0).2.2.1
  exact ⟨InvG_eq_view s _ hole h (Fixed.self s) rfl rfl rfl (Nat.le_refl _) rfl v1 v3, v1, v3⟩

theorem allocate_pt_ok (s t : State) (a : Nat) (hc : CfgOK s) (h : allocate_pt s = .ok (a, t)) :
    a = s.pt_free_addr ∧
    t = { s with pt_free_addr := s.pt_free_addr + 4096,
                 real := s.real.zero s.pt_free_addr 4096 } ∧
    s.pt_free_addr + 4096 ≤ 4198400 ∧ s.pt_free_addr + 4096 ≤ s.real_mapped := by
  have e : (s.pt_free_addr + 4096) % 4294967296 = s.pt_free_addr + 4096 :=
    Nat.mod_eq_of_lt (by have := hc.pfa_hi; omega)
  unfold allocate_pt at h
  simp only [PAGESIZE_eq, U32_eq, PT_AREA_SIZE_eq, e] at h
  split at h
  · cases h
  · split at h
    · cases h
    · rename_i hle
      simp only [bind_ok, pure, Except.pure] at h
      obtain ⟨s2, h1, h2⟩ := h
      obtain ⟨m1, m2⟩ := memset_page_ok _ _ _ h1
      cases h2
      exact ⟨rfl, m1, by simpa using hle, m2⟩

/-- Eviction of the page that directory slot `i0` points at: the slot's frame
becomes the hole, the entry is no longer resident, entries that were not
resident are as they were. -/
theorem from_mm_to_bs_inv (s t : State) (i0 p f : Nat) (h : InvG s none)
    (hp : s.entries i0 = some p) (hr : from_mm_to_bs s p = .ok (f, t)) :
    InvG t (some i0) ∧ f = 4198400 + 4096 * i0 ∧
    (∀ u, u < 1024 → t.real.table u = s.real.table u) ∧
    (∀ u l, u < 1024 → l < 1024 → s.real.table u ≠ 0 → s.real.entry u l % 2 = 0 →
      t.real.entry u l = s.real.entry u l) ∧
    t.current_page_number = s.current_page_number := by
  obtain ⟨hi, u1, l1, hu1, hl1, h10, ea, hres, hfr, hpte⟩ := h.slot i0 p hp
  unfold from_mm_to_bs at hr
  simp only [bind_ok, pure, Except.pure] at hr
  obtain ⟨e, h1, ⟨r, s1⟩, h2, s3, h3, s4, h4, h5⟩ := hr
  obtain ⟨d1, _⟩ := deref_pte_ok _ _ _ h1
  obtain ⟨m, b1⟩ := bs_write_ok _ _ _ _ _ h2
  subst b1
  obtain ⟨m1, _⟩ := memset_page_ok _ _ _ h3
  subst m1
  obtain ⟨w1, _⟩ := write_pte_ok _ _ _ _ h4
  subst w1
  dsimp only at h5
  have hlt : s.real.entry u1 l1 < 4294967296 := pte_lt _ _
  rw [hpte] at d1
  have ef : GET_PAGE_ADDR e = 4198400 + 4096 * i0 := by
    rw [GET_PAGE_ADDR_eq, d1, Nat.mod_eq_of_lt hlt, hfr]
  rw [ef, evict_entry_val] at h5
  obtain ⟨h5a, h5b⟩ := Prod.mk.inj (Except.ok.inj h5)
  subst h5b
  have hagree : ∀ x, x < 4198400 → (s.real.zero (4198400 + 4096 * i0) 4096) x = s.real x :=
    fun x hx => zero_out _ _ _ _ (by omega)
  obtain ⟨_, v1, v2⟩ := InvG_frame s none _ h hagree
  have hi3 : InvG { s with
      bs := m
      next_block_number := s.next_block_number + 1
      evicted := s.evicted ++ [s.next_block_number]
      real := s.real.zero (4198400 + 4096 * i0) 4096 } none :=
    InvG_eq_view s _ none h (Fixed.self s) rfl rfl rfl (Nat.le_succ _) rfl v1 v2
  have h10' : (s.real.zero (4198400 + 4096 * i0) 4096).table u1 ≠ 0 := by
    rw [v1 u1 hu1]; exact h10
  obtain ⟨w1, w2, w3, _⟩ := entry_write _ none hi3 u1 l1
    ((s.next_block_number % 4194304) * 1024 + e % 1024 / 2 * 2) hu1 hl1 h10'
  dsimp only at w1 w2 w3
  rw [v1 u1 hu1, ← ea] at w1 w2 w3
  have htab : ∀ u, u < 1024 →
      ((s.real.zero (4198400 + 4096 * i0) 4096).copy_in p
        (bytes32 ((s.next_block_number % 4194304) * 1024 + e % 1024 / 2 * 2)) 4).table u =
      s.real.table u := fun u hu => (w1 u hu).trans (v1 u hu)
  have hlow : ∀ u l, u < 1024 → l < 1024 → s.real.table u ≠ 0 → ¬ (u = u1 ∧ l = l1) →
      ((s.real.zero (4198400 + 4096 * i0) 4096).copy_in p
        (bytes32 ((s.next_block_number % 4194304) * 1024 + e % 1024 / 2 * 2)) 4).entry u l =
      s.real.entry u l := by
    intro u l hu hl h0 hne
    rw [w3 u l hu hl (by rw [v1 u hu]; exact h0) hne]
    exact v2 u l hu hl h0
  have hval : ((s.next_block_number % 4194304) * 1024 + e % 1024 / 2 * 2) % 4294967296 =
      (s.next_block_number % 4194304) * 1024 + e % 1024 / 2 * 2 :=
    Nat.mod_eq_of_lt (by omega)
  rw [hval] at w2
  refine ⟨⟨?_, ?_⟩, h5a.symm, htab, ?_, rfl⟩
  · exact CfgOK_of_eq s _ h.cfg (Fixed.self s) rfl rfl rfl (Nat.le_succ _)
  · refine TabOK_evict s _ u1 l1 i0 h.tab h.cfg.nbn hu1 hl1 h10 hi (by rw [hp, ea]) hfr ?_ ?_
      ?_ ?_ htab ?_ hlow
    · rfl
    · rfl
    · rfl
    · rfl
    show ((s.real.zero (4198400 + 4096 * i0) 4096).copy_in p _ 4).entry u1 l1 % 2 = 0 ∧
      ((s.real.zero (4198400 + 4096 * i0) 4096).copy_in p _ 4).entry u1 l1 / 1024 = _
    rw [w2]
    omega
  · intro u l hu hl h0 hnr
    apply hlow u l hu hl h0
    rintro ⟨c1, c2⟩
    subst c1; subst c2
    omega

end VMSim

set_option maxRecDepth 10000

namespace VMSim

theorem upper_addr (a : Nat) :
    (4096 + GET_UPPER_INDEX a * 4) % U32 = 4096 + a / 4194304 % 1024 * 4 := by
  rw [GET_UPPER_INDEX_eq, U32_eq]
  omega

theorem lower_addr (T a : Nat) (h1 : T % 4096 = 0) (h2 : T + 4096 ≤ 4198400) :
    (GET_PAGE_ADDR T + GET_LOWER_INDEX a * 4) % U32 = T + a / 4096 % 1024 * 4 := by
  rw [GET_PAGE_ADDR_eq, GET_LOWER_INDEX_eq, U32_eq]
  omega

theorem slot_number (i : Nat) (h : 4198400 + 4096 * i + 4096 ≤ 4294967296) :
    ((4198400 + 4096 * i + U32 - PT_AREA_SIZE) % U32) / PAGESIZE = i := by
  rw [U32_eq, PT_AREA_SIZE_eq, PAGESIZE_eq]
  omega

theorem mapped_le (s : State) (h : CfgOK s) : s.real_mapped + 4096 ≤ 4294967296 + 4095 := by
  unfold State.real_mapped
  rw [h.rbase, if_pos rfl]
  unfold mapped_len
  have := h.size_hi
  omega

/-- A frame is taken for a page: fresh from the pool, or from a victim. -/
theorem allocate_real_page_inv (fuel : Nat) (s t : State) (f : Nat) (h : InvG s none)
    (hr : allocate_real_page fuel s = .ok (f, t)) :
    ∃ i0, InvG t (some i0) ∧ f = 4198400 + 4096 * i0 ∧
      (∀ u, u < 1024 → t.real.table u = s.real.table u) ∧
      (∀ u l, u < 1024 → l < 1024 → s.real.table u ≠ 0 → s.real.entry u l % 2 = 0 →
        t.real.entry u l = s.real.entry u l) := by
  have hal := h.cfg.rfa_al
  have hlo := h.cfg.rfa_lo
  have hhi := h.cfg.rfa_hi
  have hsz := h.cfg.size_hi
  have hmp := mapped_le s h.cfg
  unfold allocate_real_page at hr
  simp only [PAGESIZE_eq, U32_eq] at hr
  split at hr
  · cases hr
  · split at hr
    · rename_i hgt
      simp only [bind_ok] at hr
      obtain ⟨⟨entry, s2⟩, h1, h2⟩ := hr
      dsimp only at hgt h2
      have hnw : s.real_free_addr + 4096 < 4294967296 := by
        by_contra c
        have e : s.real_free_addr + 4096 = 4294967296 := by omega
        rw [e] at hgt
        simp at hgt
      have e : (s.real_free_addr + 4096) % 4294967296 = s.real_free_addr + 4096 :=
        Nat.mod_eq_of_lt hnw
      rw [e] at hgt h1
      rcases h.cfg.small with c | c
      · have hN := h.cfg.slots c
        have hfr : State.frames { s with real_free_addr := s.real_free_addr + 4096 } =
            s.frames := by
          show min ((s.real_free_addr + 4096 - PT_AREA_SIZE) / PAGESIZE) s.num_entries =
            min ((s.real_free_addr - PT_AREA_SIZE) / PAGESIZE) s.num_entries
          rw [PT_AREA_SIZE_eq, PAGESIZE_eq, hN]
          omega
        have hi1 : InvG { s with real_free_addr := s.real_free_addr + 4096 } none :=
          ⟨CfgOK_rfa s h.cfg (by omega) c,
            TabOK_view s _ none h.tab rfl hfr (Nat.le_refl _) rfl (fun _ _ => rfl)
              (fun _ _ _ _ _ => Or.inl rfl)⟩
        obtain ⟨t1, i2, i3, _⟩ := find_lru_inv fuel _ s2 entry hi1 h1
        obtain ⟨j1, j2, j3, j4, _⟩ := from_mm_to_bs_inv s2 t _ entry f i2 i3 h2
        refine ⟨s2.current_page_number, j1, j2, fun u hu => (j3 u hu).trans (t1.tab u hu), ?_⟩
        intro u l hu hl h0 hnr
        have h0' : s2.real.table u ≠ 0 := by rw [t1.tab u hu]; exact h0
        rcases t1.low u l hu hl h0 with d | ⟨d1, _, _⟩
        · rw [j4 u l hu hl h0' (by rw [d]; exact hnr), d]
        · exfalso
          have d1' : s.real.entry u l % 2 = 1 := d1
          omega
      · exfalso
        unfold find_lru at h1
        simp only [bind_ok] at h1
        obtain ⟨q, g1, _⟩ := h1
        obtain ⟨g2, _, _⟩ := get_entry_ok _ _ _ g1
        have hz : s.frames = 0 := by
          rw [h.cfg.frames_eq, c]
          simp
        have := h.tab.dir_none s.current_page_number (by omega)
        rw [this] at g2
        cases g2
    · rename_i hle
      simp only [bind_ok, pure, Except.pure] at hr
      obtain ⟨s2, h1, h2⟩ := hr
      obtain ⟨m1, m2⟩ := memset_page_ok _ _ _ h1
      subst m1
      obtain ⟨h2a, h2b⟩ := Prod.mk.inj (Except.ok.inj h2)
      subst h2b
      have m2' : s.real_free_addr + 4096 ≤ s.real_mapped := m2
      have hnw : s.real_free_addr + 4096 < 4294967296 := by omega
      have e : (s.real_free_addr + 4096) % 4294967296 = s.real_free_addr + 4096 :=
        Nat.mod_eq_of_lt hnw
      rw [e] at hle ⊢
      have c : 4198400 ≤ s.real_size := by omega
      have hN := h.cfg.slots c
      have hfs : s.frames = (s.real_free_addr - 4198400) / 4096 := by
        rw [h.cfg.frames_eq, hN]
        have : (s.real_free_addr - 4198400) / 4096 ≤ (s.real_size - 4198400) / 4096 := by
          omega
        exact Nat.min_eq_left this
      have hagree : ∀ x, x < 4198400 → (s.real.zero s.real_free_addr 4096) x = s.real x :=
        fun x hx => zero_out _ _ _ _ (by omega)
      obtain ⟨_, v1, v2⟩ := InvG_frame s none _ h hagree
      refine ⟨s.frames, ⟨CfgOK_real _ _ (CfgOK_rfa s h.cfg (by omega) c), ?_⟩, ?_, v1,
        fun u l hu hl h0 _ => v2 u l hu hl h0⟩
      · refine TabOK_fresh s _ h.tab ?_ ?_ ?_ ?_ v1 v2
        · rfl
        · show min ((s.real_free_addr + 4096 - PT_AREA_SIZE) / PAGESIZE) s.num_entries =
            s.frames + 1
          rw [PT_AREA_SIZE_eq, PAGESIZE_eq, hN, hfs]
          have : (s.real_free_addr + 4096 - 4198400) / 4096 ≤ (s.real_size - 4198400) / 4096 := by
            omega
          rw [Nat.min_eq_left this]
          omega
        · rfl
        · rfl
      · rw [← h2a, hfs]
        omega

/-- The frame of the hole is given to the entry `(u0, l0)`. -/
theorem install_inv (s : State) (u0 l0 i0 v : Nat) (h : InvG s (some i0))
    (hu0 : u0 < 1024) (hl0 : l0 < 1024) (h00 : s.real.table u0 ≠ 0)
    (hold : s.real.entry u0 l0 % 2 = 0) (hv : v < 4294967296) (hv1 : v % 2 = 1)
    (hv2 : v / 4096 * 4096 = 4198400 + 4096 * i0) :
    InvG { s with
      real := s.real.copy_in (s.real.table u0 + l0 * 4) (bytes32 v) 4
      entries := fun j => if j = i0 then some (s.real.table u0 + l0 * 4) else s.entries j }
      none ∧
    (∀ u, u < 1024 →
      (s.real.copy_in (s.real.table u0 + l0 * 4) (bytes32 v) 4).table u = s.real.table u) ∧
    (s.real.copy_in (s.real.table u0 + l0 * 4) (bytes32 v) 4).entry u0 l0 = v := by
  obtain ⟨w1, w2, w3, _⟩ := entry_write s (some i0) h u0 l0 v hu0 hl0 h00
  rw [Nat.mod_eq_of_lt hv] at w2
  refine ⟨⟨CfgOK_of_eq s _ h.cfg (Fixed.self s) rfl rfl rfl (Nat.le_refl _), ?_⟩, w1, w2⟩
  refine TabOK_install s _ u0 l0 i0 h.tab hu0 hl0 h00 hold ?_ ?_ ?_ ?_ w1 ?_ w3
  · rfl
  · rfl
  · rfl
  · rfl
  · show (s.real.copy_in _ _ 4).entry u0 l0 % 2 = 1 ∧
      (s.real.copy_in _ _ 4).entry u0 l0 / 4096 * 4096 = _
    rw [w2]
    exact ⟨hv1, hv2⟩

end VMSim

set_option maxRecDepth 10000

namespace VMSim

/-- The memory after a new lower table was zeroed at `a` and entered in the
root table for index `u0`. -/
theorem new_table_view (m : Mem) (a u0 : Nat) (hu0 : u0 < 1024) (ha : 8192 ≤ a)
    (ha2 : a < 4294967296) :
    ((m.zero a 4096).copy_in (4096 + u0 * 4) (bytes32 a) 4).table u0 = a ∧
    (∀ u, u < 1024 → u ≠ u0 →
      ((m.zero a 4096).copy_in (4096 + u0 * 4) (bytes32 a) 4).table u = m.table u) ∧
    (∀ l, l < 1024 →
      ((m.zero a 4096).copy_in (4096 + u0 * 4) (bytes32 a) 4).entry u0 l = 0) ∧
    (∀ u l, u < 1024 → l < 1024 → u ≠ u0 → 8192 ≤ m.table u → m.table u + l * 4 + 4 ≤ a →
      ((m.zero a 4096).copy_in (4096 + u0 * 4) (bytes32 a) 4).entry u l = m.entry u l) := by
  have t0 : ((m.zero a 4096).copy_in (4096 + u0 * 4) (bytes32 a) 4).table u0 = a := by
    unfold Mem.table
    rw [pte_copy_in_same, Nat.mod_eq_of_lt ha2]
  have t1 : ∀ u, u < 1024 → u ≠ u0 →
      ((m.zero a 4096).copy_in (4096 + u0 * 4) (bytes32 a) 4).table u = m.table u := by
    intro u hu hne
    rw [table_copy_in _ _ _ _ _ (by omega), table_zero _ _ _ _ (by omega)]
  refine ⟨t0, t1, ?_, ?_⟩
  · intro l hl
    unfold Mem.entry
    rw [t0, pte_copy_in_other _ _ _ _ _ (by omega), pte_zero_in _ _ _ _ (by omega) (by omega)]
  · intro u l hu hl hne h8 hb
    unfold Mem.entry
    rw [t1 u hu hne, pte_copy_in_other _ _ _ _ _ (by omega),
      pte_zero_other _ _ _ _ (by omega)]

/-- The first part of `vmsim_map_fault`: the lower table for the upper index
exists afterwards. -/
theorem fault_table_inv (s sa sb : State) (u0 pt : Nat) (h : InvG s none) (hu0 : u0 < 1024)
    (h00 : s.real.table u0 = 0) (b1 : allocate_pt s = .ok (pt, sa))
    (b2 : write_pte sa pt (4096 + u0 * 4) = .ok sb) :
    InvG sb none ∧ sb.real.table u0 = pt ∧ pt ≠ 0 ∧
    (∀ l, l < 1024 → sb.real.entry u0 l = 0) := by
  obtain ⟨a1, a2, a3, a4⟩ := allocate_pt_ok s sa pt h.cfg b1
  subst a1; subst a2
  obtain ⟨w1, _⟩ := write_pte_ok _ _ _ _ b2
  subst w1
  have hlo := h.cfg.pfa_lo
  obtain ⟨v0, v1, v2, v3⟩ := new_table_view s.real s.pt_free_addr u0 hu0 hlo (by omega)
  have hlow : ∀ u l, u < 1024 → l < 1024 → s.real.table u ≠ 0 →
      ((s.real.zero s.pt_free_addr 4096).copy_in (4096 + u0 * 4)
        (bytes32 s.pt_free_addr) 4).entry u l = s.real.entry u l := by
    intro u l hu hl h0
    have hne : u ≠ u0 := fun e => h0 (by rw [e]; exact h00)
    have := h.tab.tab_rng u hu h0
    exact v3 u l hu hl hne (by omega) (by omega)
  refine ⟨⟨CfgOK_real _ _ (CfgOK_real _ _ (CfgOK_pfa s h.cfg a3 a4)), ?_⟩, v0, by omega, v2⟩
  refine TabOK_new_table s _ none u0 h.tab h.cfg hu0 h00 ?_ ?_ ?_ ?_ v0 v1 v2 hlow
  · rfl
  · rfl
  · rfl
  · rfl

/-- The page part of `vmsim_map_fault` for a page never mapped: it is given a
frame. -/
theorem fault_new_page_inv (fuel : Nat) (s sa sb sc : State) (u0 l0 ra : Nat)
    (h : InvG s none) (hu0 : u0 < 1024) (hl0 : l0 < 1024) (h00 : s.real.table u0 ≠ 0)
    (hz : s.real.entry u0 l0 = 0)
    (b1 : allocate_real_page fuel s = .ok (ra, sa))
    (b2 : write_pte sa (SET_RESIDENT ra) (s.real.table u0 + l0 * 4) = .ok sb)
    (b3 : set_entry sb (((ra + U32 - PT_AREA_SIZE) % U32) / PAGESIZE)
      (s.real.table u0 + l0 * 4) = .ok sc) :
    InvG sc none ∧ sc.real.table u0 = s.real.table u0 ∧ sc.real.entry u0 l0 = ra + 1 ∧
    ra % 4096 = 0 := by
  obtain ⟨i0, a1, a2, a3, a4⟩ := allocate_real_page_inv fuel s sa ra h b1
  obtain ⟨w1, _⟩ := write_pte_ok _ _ _ _ b2
  subst w1
  obtain ⟨w2, _⟩ := set_entry_ok _ _ _ _ b3
  subst w2
  have hfit := a1.cfg.fit i0 (a1.tab.hole_lt i0 rfl)
  have hsz := a1.cfg.size_hi
  have hsn : ((ra + U32 - PT_AREA_SIZE) % U32) / PAGESIZE = i0 := by
    rw [a2]; exact slot_number i0 (by omega)
  have hv : SET_RESIDENT ra = ra + 1 := by
    rw [SET_RESIDENT_eq, a2]; omega
  have ht : sa.real.table u0 = s.real.table u0 := a3 u0 hu0
  have he : sa.real.entry u0 l0 = 0 := by
    rw [a4 u0 l0 hu0 hl0 h00 (by rw [hz]), hz]
  obtain ⟨j1, j2, j3⟩ := install_inv sa u0 l0 i0 (ra + 1) a1 hu0 hl0 (by rw [ht]; exact h00)
    (by rw [he]) (by omega) (by omega) (by omega)
  rw [hsn, hv, ← ht]
  exact ⟨j1, (j2 u0 hu0), j3, by omega⟩

/-- The page part of `vmsim_map_fault` for a page that is swapped out: a
victim is evicted and the page takes its frame. -/
theorem fault_swap_inv (fuel : Nat) (s s3 t : State) (u0 l0 lru : Nat)
    (h : InvG s none) (hu0 : u0 < 1024) (hl0 : l0 < 1024) (h00 : s.real.table u0 ≠ 0)
    (hnr : s.real.entry u0 l0 % 2 = 0)
    (b1 : find_lru fuel s = .ok (lru, s3))
    (b2 : swap_pages s3 (s.real.table u0 + l0 * 4) lru = .ok t) :
    InvG t none ∧ t.real.table u0 = s.real.table u0 ∧ t.real.entry u0 l0 % 2 = 1 ∧
    t.real.entry u0 l0 / 4 % 2 = s.real.entry u0 l0 / 4 % 2 := by
  obtain ⟨t1, i2, i3, _⟩ := find_lru_inv fuel s s3 lru h b1
  unfold swap_pages at b2
  simp only [bind_ok] at b2
  obtain ⟨⟨fr, s4⟩, c1, c2⟩ := b2
  obtain ⟨j1, j2, j3, j4, _⟩ := from_mm_to_bs_inv s3 s4 _ lru fr i2 i3 c1
  have h00' : s3.real.table u0 ≠ 0 := by rw [t1.tab u0 hu0]; exact h00
  have e3 : s3.real.entry u0 l0 = s.real.entry u0 l0 := by
    rcases t1.low u0 l0 hu0 hl0 h00 with d | ⟨d1, _, _⟩
    · exact d
    · omega
  have e4 : s4.real.entry u0 l0 = s.real.entry u0 l0 := by
    rw [j4 u0 l0 hu0 hl0 h00' (by rw [e3]; exact hnr), e3]
  have t4 : s4.real.table u0 = s.real.table u0 := (j3 u0 hu0).trans (t1.tab u0 hu0)
  have h00'' : s4.real.table u0 ≠ 0 := by rw [t4]; exact h00
  unfold from_bs_to_mm at c2
  simp only [bind_ok] at c2
  obtain ⟨e, d1, ⟨r, s5⟩, d2, s6, d3, d4⟩ := c2
  dsimp only at d3 d4
  obtain ⟨x1, _⟩ := read_pte_ok _ _ _ _ d1
  have xe : e = s.real.entry u0 l0 := by
    rw [x1, ← e4]
    show s4.real.pte _ = s4.real.pte _
    rw [t4]
  have hfit := j1.cfg.fit _ (j1.tab.hole_lt _ rfl)
  have hsz := j1.cfg.size_hi
  have hs5 : InvG s5 (some s3.current_page_number) ∧
      (∀ u, u < 1024 → s5.real.table u = s4.real.table u) ∧
      (∀ u l, u < 1024 → l < 1024 → s4.real.table u ≠ 0 →
        s5.real.entry u l = s4.real.entry u l) := by
    rcases bs_read_ok _ _ _ _ _ d2 with c | ⟨buf, c, _⟩
    · rw [c]
      exact ⟨j1, fun _ _ => rfl, fun _ _ _ _ _ => rfl⟩
    · rw [c]
      apply InvG_frame s4 _ _ j1
      intro x hx
      exact copy_in_out _ _ _ _ _ (by omega)
  obtain ⟨k1, k2, k3⟩ := hs5
  obtain ⟨w1, _⟩ := write_pte_ok _ _ _ _ d3
  subst w1
  obtain ⟨w2, _⟩ := set_entry_ok _ _ _ _ d4
  subst w2
  have hsn : ((fr + U32 - PT_AREA_SIZE) % U32) / PAGESIZE = s3.current_page_number := by
    rw [j2]; exact slot_number _ (by omega)
  have hv : SET_RESIDENT ((e &&& 0x3ff) ||| fr) = fr + e % 1024 / 2 * 2 + 1 :=
    install_entry_val e fr (by omega)
  have t5 : s5.real.table u0 = s.real.table u0 := (k2 u0 hu0).trans t4
  have e5 : s5.real.entry u0 l0 = s.real.entry u0 l0 := (k3 u0 l0 hu0 hl0 h00'').trans e4
  obtain ⟨m1, m2, m3⟩ := install_inv s5 u0 l0 s3.current_page_number
    (fr + e % 1024 / 2 * 2 + 1) k1 hu0 hl0 (by rw [t5]; exact h00)
    (by rw [e5]; exact hnr) (by omega) (by omega) (by omega)
  rw [hsn, hv, ← t5]
  refine ⟨m1, m2 u0 hu0, ?_, ?_⟩
  · show (s5.real.copy_in _ _ 4).entry u0 l0 % 2 = 1
    rw [m3]; omega
  · show (s5.real.copy_in _ _ 4).entry u0 l0 / 4 % 2 = _
    rw [m3, ← xe]; omega

end VMSim

set_option maxRecDepth 10000

namespace VMSim

/-- A fault leaves the page of the address resident; its DIRTY bit is set
afterwards only if it was set, in an existing entry, before. -/
theorem vmsim_map_fault_inv (fuel : Nat) (s t : State) (a : Nat) (h : InvG s none)
    (hr : vmsim_map_fault fuel s a = .ok t) :
    InvG t none ∧ t.real.table (a / 4194304 % 1024) ≠ 0 ∧
    t.real.entry (a / 4194304 % 1024) (a / 4096 % 1024) % 2 = 1 ∧
    (t.real.entry (a / 4194304 % 1024) (a / 4096 % 1024) / 4 % 2 = 1 →
      s.real.table (a / 4194304 % 1024) ≠ 0 ∧
      s.real.entry (a / 4194304 % 1024) (a / 4096 % 1024) / 4 % 2 = 1) := by
  have hu0 : a / 4194304 % 1024 < 1024 := Nat.mod_lt _ (by norm_num)
  have hl0 : a / 4096 % 1024 < 1024 := Nat.mod_lt _ (by norm_num)
  unfold vmsim_map_fault at hr
  simp only [bind_ok] at hr
  obtain ⟨_, _, e1, hr1, ⟨up, s1⟩, h1, e2, hr2, ⟨lp, s2⟩, h2, h3⟩ := hr
  dsimp only at h1 hr2 h2 h3
  rw [h.cfg.upt, upper_addr] at hr1 h1
  obtain ⟨x1, _⟩ := read_pte_ok _ _ _ _ hr1
  have x1' : e1 = s.real.table (a / 4194304 % 1024) := x1
  have st1 : InvG s1 none ∧ s1.real.table (a / 4194304 % 1024) = up ∧ up ≠ 0 ∧
      (s.real.table (a / 4194304 % 1024) ≠ 0 → s1 = s) ∧
      (s.real.table (a / 4194304 % 1024) = 0 →
        ∀ l, l < 1024 → s1.real.entry (a / 4194304 % 1024) l = 0) := by
    split at h1
    · rename_i hz
      simp only [bind_ok, pure, Except.pure] at h1
      obtain ⟨⟨pt, sa⟩, b1, _, _, sb, b2, b3⟩ := h1
      have b3' : pt = up ∧ sb = s1 := by cases b3; exact ⟨rfl, rfl⟩
      rw [← b3'.1, ← b3'.2]
      rw [x1'] at hz
      obtain ⟨q1, q2, q3, q4⟩ := fault_table_inv s sa sb _ pt h hu0 hz b1 b2
      exact ⟨q1, q2, q3, fun c => absurd hz c, fun _ => q4⟩
    · rename_i hz
      have h1' : e1 = up ∧ s = s1 := by cases h1; exact ⟨rfl, rfl⟩
      rw [← h1'.1, ← h1'.2]
      rw [x1'] at hz ⊢
      exact ⟨h, rfl, hz, fun _ => rfl, fun c => absurd c hz⟩
  obtain ⟨i1, i2, i3, i4, i5⟩ := st1
  have hT := i1.tab.tab_rng _ hu0 (by rw [i2]; exact i3)
  rw [i2] at hT
  have hpf := i1.cfg.pfa_hi
  have la := lower_addr up a hT.2.2 (by omega)
  rw [la] at hr2 h2 h3
  obtain ⟨y1, _⟩ := read_pte_ok _ _ _ _ hr2
  have y1' : e2 = s1.real.entry (a / 4194304 % 1024) (a / 4096 % 1024) := by
    rw [y1]
    unfold Mem.entry
    rw [i2]
  have h00 : s1.real.table (a / 4194304 % 1024) ≠ 0 := by rw [i2]; exact i3
  have hdirty : e2 ≠ 0 → e2 / 4 % 2 = 1 →
      s.real.table (a / 4194304 % 1024) ≠ 0 ∧
      s.real.entry (a / 4194304 % 1024) (a / 4096 % 1024) / 4 % 2 = 1 := by
    intro hne hd
    by_cases c : s.real.table (a / 4194304 % 1024) = 0
    · exfalso
      apply hne
      rw [y1']
      exact i5 c _ hl0
    · have := i4 c
      rw [this] at y1'
      rw [y1'] at hd
      exact ⟨c, hd⟩
  split at h2
  · rename_i hz
    simp only [bind_ok, pure, Except.pure] at h2
    obtain ⟨⟨ra, sa⟩, c1, sb, c2, sc, c3, c4⟩ := h2
    have c4' : SET_RESIDENT ra = lp ∧ sc = s2 := by cases c4; exact ⟨rfl, rfl⟩
    rw [← c4'.1] at h3
    rw [← c4'.2] at h3
    rw [← i2] at c2 c3
    rw [y1'] at hz
    obtain ⟨q1, q2, q3, q4⟩ := fault_new_page_inv fuel s1 sa sb sc _ _ ra i1 hu0 hl0 h00 hz
      c1 c2 c3
    have hres : IS_RESIDENT (SET_RESIDENT ra) = true := by
      rw [SET_RESIDENT_eq, IS_RESIDENT_eq, decide_eq_true_eq]
      omega
    rw [hres] at h3
    cases h3
    refine ⟨q1, by rw [q2]; exact h00, by rw [q3]; omega, fun hd => ?_⟩
    rw [q3] at hd
    omega
  · rename_i hz
    have h2' : e2 = lp ∧ s1 = s2 := by cases h2; exact ⟨rfl, rfl⟩
    rw [← h2'.1, ← h2'.2] at h3
    split at h3
    · rename_i hnr
      simp only [bind_ok] at h3
      obtain ⟨⟨lru, s3⟩, c1, c2⟩ := h3
      rw [← i2] at c2
      have hnr' : s1.real.entry (a / 4194304 % 1024) (a / 4096 % 1024) % 2 = 0 := by
        rw [← y1']
        rw [IS_RESIDENT_eq] at hnr
        simp only [Bool.not_eq_true', decide_eq_false_iff_not] at hnr
        omega
      obtain ⟨q1, q2, q3, q4⟩ := fault_swap_inv fuel s1 s3 t _ _ lru i1 hu0 hl0 h00 hnr' c1 c2
      refine ⟨q1, by rw [q2]; exact h00, q3, fun hd => ?_⟩
      rw [q4, ← y1'] at hd
      exact hdirty hz hd
    · rename_i hres
      cases h3
      refine ⟨i1, h00, ?_, fun hd => ?_⟩
      · rw [← y1']
        rw [IS_RESIDENT_eq] at hres
        simp only [Bool.not_eq_true', decide_eq_false_iff_not, not_not] at hres
        exact hres
      · rw [← y1'] at hd
        exact hdirty hz hd

end VMSim

set_option maxRecDepth 10000

namespace VMSim

theorem translate_value (e2 : Nat) (w : Bool) (he : e2 < 4294967296) (hres : e2 % 2 = 1) :
    (if w = true then SET_DIRTY (SET_REFERENCED e2) else SET_REFERENCED e2) < 4294967296 ∧
    (if w = true then SET_DIRTY (SET_REFERENCED e2) else SET_REFERENCED e2) % 2 = 1 ∧
    (if w = true then SET_DIRTY (SET_REFERENCED e2) else SET_REFERENCED e2) / 8 = e2 / 8 ∧
    (if w = true then SET_DIRTY (SET_REFERENCED e2) else SET_REFERENCED e2) / 2 % 2 = 1 ∧
    (w = true →
      (if w = true then SET_DIRTY (SET_REFERENCED e2) else SET_REFERENCED e2) / 4 % 2 = 1) ∧
    (w = false →
      (if w = true then SET_DIRTY (SET_REFERENCED e2) else SET_REFERENCED e2) / 4 % 2 =
        e2 / 4 % 2) := by
  obtain ⟨c, d, hd, rfl⟩ : ∃ c d, d < 8 ∧ e2 = 8 * c + d :=
    ⟨e2 / 8, e2 % 8, Nat.mod_lt _ (by norm_num), (Nat.div_add_mod e2 8).symm⟩
  have k1 : SET_REFERENCED (8 * c + d) = 8 * c + (d / 4 * 4 + 2 + d % 2) := by
    rw [SET_REFERENCED_eq]; omega
  have k2 : SET_DIRTY (8 * c + (d / 4 * 4 + 2 + d % 2)) = 8 * c + (4 + (2 + d % 2)) := by
    rw [SET_DIRTY_eq]; omega
  cases w
  · simp only [Bool.false_eq_true, if_false, k1]
    refine ⟨?_, ?_, ?_, ?_, fun hw => absurd hw (by simp), fun _ => ?_⟩ <;>
      interval_cases d <;> omega
  · simp only [if_true, k1, k2]
    refine ⟨?_, ?_, ?_, ?_, fun _ => ?_, fun hw => absurd hw (by simp)⟩ <;>
      interval_cases d <;> omega

theorem real_addr_value (v a : Nat) (hv : v < 4294967296) :
    GET_PAGE_ADDR v ||| GET_OFFSET a = v / 4096 * 4096 + a % 4096 := by
  rw [GET_PAGE_ADDR_eq, GET_OFFSET_eq, Nat.mod_eq_of_lt hv]
  exact or_disjoint 12 _ _ (by omega) (by omega)

/-- A translation leaves the page of the address resident and referenced
(and dirty after a write), and returns the frame of its entry plus the
offset. A read sets DIRTY in no entry. -/
theorem mmu_translate_inv (fuel : Nat) : ∀ (s t : State) (a : Nat) (w : Bool) (r : Nat),
    InvG s none → mmu_translate fuel s a w = .ok (r, t) →
    InvG t none ∧ t.real.table (a / 4194304 % 1024) ≠ 0 ∧
    t.real.entry (a / 4194304 % 1024) (a / 4096 % 1024) % 2 = 1 ∧
    t.real.entry (a / 4194304 % 1024) (a / 4096 % 1024) / 2 % 2 = 1 ∧
    (w = true → t.real.entry (a / 4194304 % 1024) (a / 4096 % 1024) / 4 % 2 = 1) ∧
    (w = false → t.real.entry (a / 4194304 % 1024) (a / 4096 % 1024) / 4 % 2 = 1 →
      s.real.table (a / 4194304 % 1024) ≠ 0 ∧
      s.real.entry (a / 4194304 % 1024) (a / 4096 % 1024) / 4 % 2 = 1) ∧
    r = t.real.entry (a / 4194304 % 1024) (a / 4096 % 1024) / 4096 * 4096 + a % 4096 := by
  induction fuel with
  | zero =>
    intro s t a w r _ hr
    unfold mmu_translate at hr
    cases hr
  | succ fuel ih =>
    intro s t a w r h hr
    have hu0 : a / 4194304 % 1024 < 1024 := Nat.mod_lt _ (by norm_num)
    have hl0 : a / 4096 % 1024 < 1024 := Nat.mod_lt _ (by norm_num)
    have viafault : ∀ s1, vmsim_map_fault (fuel + 1) s a = .ok s1 →
        mmu_translate fuel s1 a w = .ok (r, t) →
        InvG t none ∧ t.real.table (a / 4194304 % 1024) ≠ 0 ∧
        t.real.entry (a / 4194304 % 1024) (a / 4096 % 1024) % 2 = 1 ∧
        t.real.entry (a / 4194304 % 1024) (a / 4096 % 1024) / 2 % 2 = 1 ∧
        (w = true → t.real.entry (a / 4194304 % 1024) (a / 4096 % 1024) / 4 % 2 = 1) ∧
        (w = false → t.real.entry (a / 4194304 % 1024) (a / 4096 % 1024) / 4 % 2 = 1 →
          s.real.table (a / 4194304 % 1024) ≠ 0 ∧
          s.real.entry (a / 4194304 % 1024) (a / 4096 % 1024) / 4 % 2 = 1) ∧
        r = t.real.entry (a / 4194304 % 1024) (a / 4096 % 1024) / 4096 * 4096 + a % 4096 := by
      intro s1 b1 b2
      obtain ⟨f1, _, _, f4⟩ := vmsim_map_fault_inv _ s s1 a h b1
      obtain ⟨g1, g2, g3, g4, g5, g6, g7⟩ := ih s1 t a w r f1 b2
      exact ⟨g1, g2, g3, g4, g5, fun hw hd => f4 (g6 hw hd).2, g7⟩
    unfold mmu_translate at hr
    simp only [bind_ok] at hr
    obtain ⟨_, _, e1, hr1, h1⟩ := hr
    rw [h.cfg.upta, upper_addr] at hr1
    obtain ⟨x1, _⟩ := read_pte_ok _ _ _ _ hr1
    have x1' : e1 = s.real.table (a / 4194304 % 1024) := x1
    split at h1
    · simp only [bind_ok] at h1
      obtain ⟨s1, b1, b2⟩ := h1
      exact viafault s1 b1 b2
    · rename_i hz
      simp only [bind_ok] at h1
      obtain ⟨e2, hr2, h2⟩ := h1
      rw [x1'] at hz
      have hT := h.tab.tab_rng _ hu0 hz
      have hpf := h.cfg.pfa_hi
      have la := lower_addr e1 a (by rw [x1']; exact hT.2.2) (by rw [x1']; omega)
      rw [la] at hr2 h2
      obtain ⟨y1, _⟩ := read_pte_ok _ _ _ _ hr2
      have y1' : e2 = s.real.entry (a / 4194304 % 1024) (a / 4096 % 1024) := by
        rw [y1, x1']
        rfl
      split at h2
      · simp only [bind_ok] at h2
        obtain ⟨s1, b1, b2⟩ := h2
        exact viafault s1 b1 b2
      · rename_i hc
        simp only [bind_ok, pure, Except.pure] at h2
        obtain ⟨s1, b1, b2⟩ := h2
        have hres : e2 % 2 = 1 := by
          simp only [Bool.or_eq_true, decide_eq_true_eq, Bool.not_eq_true', not_or,
            Bool.not_eq_false, IS_RESIDENT_eq] at hc
          exact hc.2
        have he2 : e2 < 4294967296 := by rw [y1]; exact pte_lt _ _
        obtain ⟨v1, v2, v3, v4, v5, v6⟩ := translate_value e2 w he2 hres
        obtain ⟨w1, _⟩ := write_pte_ok _ _ _ _ b1
        have b2' : GET_PAGE_ADDR (if w = true then SET_DIRTY (SET_REFERENCED e2)
            else SET_REFERENCED e2) ||| GET_OFFSET a = r ∧ s1 = t := by
          cases b2; exact ⟨rfl, rfl⟩
        rw [← b2'.2, w1, x1']
        rw [y1'] at hres
        have v3' : (if w = true then SET_DIRTY (SET_REFERENCED e2) else SET_REFERENCED e2) / 8 =
            s.real.entry (a / 4194304 % 1024) (a / 4096 % 1024) / 8 := by
          rw [← y1']; exact v3
        have ht := touch_write_entry s none h _ _ _ hu0 hl0 hz hres v1 v2 v3' 
        have hi := InvG_touch s _ none h ht h.cfg.hand
        obtain ⟨z1, z2, _, _⟩ := entry_write s none h (a / 4194304 % 1024) (a / 4096 % 1024)
          (if w = true then SET_DIRTY (SET_REFERENCED e2) else SET_REFERENCED e2) hu0 hl0 hz
        rw [Nat.mod_eq_of_lt v1] at z2
        refine ⟨hi, ?_, ?_, ?_, ?_, ?_, ?_⟩
        · show (s.real.copy_in _ _ 4).table _ ≠ 0
          rw [z1 _ hu0]; exact hz
        · show (s.real.copy_in _ _ 4).entry _ _ % 2 = 1
          rw [z2]; exact v2
        · show (s.real.copy_in _ _ 4).entry _ _ / 2 % 2 = 1
          rw [z2]; exact v4
        · intro hw
          show (s.real.copy_in _ _ 4).entry _ _ / 4 % 2 = 1
          rw [z2]; exact v5 hw
        · intro hw hd
          have hd' : (s.real.copy_in _ _ 4).entry _ _ / 4 % 2 = 1 := hd
          rw [z2, v6 hw, y1'] at hd'
          exact ⟨hz, hd'⟩
        · show r = (s.real.copy_in _ _ 4).entry _ _ / 4096 * 4096 + a % 4096
          rw [z2, ← b2'.1]
          exact real_addr_value _ a v1

theorem zero_mem_pte (a n x : Nat) : (Mem.zero (fun _ => 0) a n).pte x = 0 := by
  unfold Mem.pte le32 Mem.at Mem.zero
  simp

/-- The state after the first initialisation satisfies the invariant. -/
theorem init_inv (er eb : Option Nat) (h1 : 4096 < er.getD DEFAULT_REAL_MEMORY_SIZE)
    (h2 : er.getD DEFAULT_REAL_MEMORY_SIZE + 4096 ≤ 4294967296) :
    InvG (init_state er eb) none := by
  have ht : ∀ u, (init_state er eb).real.table u = 0 := fun u => zero_mem_pte _ _ _
  have hf : (init_state er eb).frames = 0 := by
    show min ((4198400 - PT_AREA_SIZE) / PAGESIZE) _ = 0
    simp
  have hm : 8192 ≤ (init_state er eb).real_mapped := by
    unfold State.real_mapped
    rw [init_state_base, if_pos rfl]
    show 8192 ≤ mapped_len (er.getD DEFAULT_REAL_MEMORY_SIZE)
    unfold mapped_len
    omega
  refine ⟨⟨rfl, rfl, h2, rfl, rfl, rfl, rfl, (by decide : 8192 % 4096 = 0),
    (by decide : 8192 ≤ 8192), (by decide : 8192 ≤ 4198400), hm,
    (by decide : 4198400 % 4096 = 0), (by decide : 4198400 ≤ 4198400),
    (by decide : 4198400 + 4096 ≤ 4294967296), Or.inr rfl, Or.inr rfl,
    (by decide : 1 ≤ 1)⟩, ⟨?_, ?_, ?_, ?_, ?_, ?_, ?_, ?_⟩⟩
  · intro u _ h0; exact absurd (ht u) h0
  · intro u _ _ _ h0; exact absurd (ht u) h0
  · intro a h8 h9 _
    have : (init_state er eb).pt_free_addr = 8192 := rfl
    omega
  · intro u _ _ _ h0; exact absurd (ht u) h0
  · intro u _ _ _ h0; exact absurd (ht u) h0
  · intro i hi
    rw [hf] at hi
    omega
  · intro i _; rfl
  · intro i hi; cases hi

end VMSim

set_option maxRecDepth 10000

namespace VMSim

theorem vmsim_write_inv (fuel : Nat) (s t : State) (buf : Nat → Byte) (a n : Nat)
    (h : InvG s none) (hr : vmsim_write fuel s buf a n = .ok t) : InvG t none := by
  unfold vmsim_write at hr
  simp only [bind_ok] at hr
  obtain ⟨⟨r, s2⟩, h1, h2⟩ := hr
  rw [vmsim_map_eq _ _ _ _ h.cfg.rbase] at h1
  obtain ⟨i1, i2, i3, _, _, _, i7⟩ := mmu_translate_inv fuel s s2 a true r h h1
  rw [vmsim_write_real_eq] at h2
  split at h2
  · cases h2
    have hu0 : a / 4194304 % 1024 < 1024 := Nat.mod_lt _ (by norm_num)
    have hl0 : a / 4096 % 1024 < 1024 := Nat.mod_lt _ (by norm_num)
    obtain ⟨i, _, _, hf, _⟩ := i1.tab.ent _ _ hu0 hl0 i2 i3
    apply (InvG_frame s2 none _ i1 _).1
    intro x hx
    exact copy_in_out _ _ _ _ _ (by omega)
  · split at h2 <;> cases h2

/-- In every reachable state of a simulator whose real memory is at most
`2^32 - 4096` bytes the invariant holds. -/
theorem reachable_inv (s : State) (h : Reachable s) :
    s.real_size + 4096 ≤ 4294967296 → InvG s none := by
  induction h with
  | init er eb s hi =>
    intro hs
    obtain ⟨h1, h2⟩ := vmsim_init_boot_ok er eb s hi
    subst h2
    exact init_inv er eb h1 hs
  | reinit s s1 hr hi ih =>
    rw [vmsim_init_id s (reachable_base s hr)] at hi
    cases hi
    exact ih
  | translate fuel s a w r s1 _ _ ht ih =>
    intro hs
    have hf := mmu_translate_fixed _ _ _ _ _ _ ht
    exact (mmu_translate_inv fuel s s1 a w r (ih (by rw [← hf.2.2.2.2.1]; exact hs)) ht).1
  | map fuel s a w r s1 hr _ ht ih =>
    intro hs
    rw [vmsim_map_eq _ _ _ _ (reachable_base s hr)] at ht
    have hf := mmu_translate_fixed _ _ _ _ _ _ ht
    exact (mmu_translate_inv fuel s s1 a w r (ih (by rw [← hf.2.2.2.2.1]; exact hs)) ht).1
  | read fuel s buf a n out s1 hr _ ht ih =>
    intro hs
    unfold vmsim_read at ht
    simp only [bind_ok, pure, Except.pure] at ht
    obtain ⟨⟨r, s2⟩, h1, b, _, h2⟩ := ht
    have h2' : s2 = s1 := by cases h2; rfl
    rw [h2'] at h1
    rw [vmsim_map_eq _ _ _ _ (reachable_base s hr)] at h1
    have hf := mmu_translate_fixed _ _ _ _ _ _ h1
    exact (mmu_translate_inv fuel s s1 a false r (ih (by rw [← hf.2.2.2.2.1]; exact hs)) h1).1
  | write fuel s buf a n s1 hr _ ht ih =>
    intro hs
    have hf := vmsim_write_fixed _ _ _ _ _ _ (reachable_base s hr) ht
    exact vmsim_write_inv fuel s s1 buf a n (ih (by rw [← hf.2.2.2.2.1]; exact hs)) ht
  | alloc s n a s1 hr ht ih =>
    intro hs
    rw [vmsim_alloc_eq s n (reachable_base s hr)] at ht
    cases ht
    exact InvG_eq_view s _ none (ih hs) (Fixed.self s) rfl rfl rfl (Nat.le_refl _) rfl
      (fun _ _ => rfl) (fun _ _ _ _ _ => rfl)
  | free s p _ ih => exact ih

/-! ### The page-table walk of the translator, in terms of the invariant's view -/

theorem upper_pte_eq (s : State) (hole : Option Nat) (h : InvG s hole) (a : Nat) :
    s.upper_pte a = s.real.table (a / 4194304 % 1024) := by
  unfold State.upper_pte
  rw [h.cfg.upta, upper_addr]
  rfl

theorem lower_pte_addr_eq (s : State) (hole : Option Nat) (h : InvG s hole) (a : Nat)
    (h0 : s.upper_pte a ≠ 0) :
    s.lower_pte_addr a = s.real.table (a / 4194304 % 1024) + a / 4096 % 1024 * 4 := by
  have hu0 : a / 4194304 % 1024 < 1024 := Nat.mod_lt _ (by norm_num)
  unfold State.lower_pte_addr
  rw [upper_pte_eq s hole h a] at h0 ⊢
  have hT := h.tab.tab_rng _ hu0 h0
  have := h.cfg.pfa_hi
  exact lower_addr _ a hT.2.2 (by omega)

theorem lower_pte_eq (s : State) (hole : Option Nat) (h : InvG s hole) (a : Nat)
    (h0 : s.upper_pte a ≠ 0) :
    s.lower_pte a = s.real.entry (a / 4194304 % 1024) (a / 4096 % 1024) := by
  unfold State.lower_pte
  rw [lower_pte_addr_eq s hole h a h0]
  rfl

theorem page_of_indices (u l : Nat) (hu : u < 1024) (hl : l < 1024) :
    (u * 4194304 + l * 4096) / 4194304 % 1024 = u ∧
    (u * 4194304 + l * 4096) / 4096 % 1024 = l ∧ u * 4194304 + l * 4096 < 4294967296 := by
  omega

end VMSim

set_option maxRecDepth 10000

namespace VMSim

theorem ok_of_some {α : Type} (x : Except Fault α) (h : x.toOption.isSome = true) :
    ∃ v, x = .ok v := by
  cases x with
  | error e => simp [Except.toOption] at h
  | ok v => exact ⟨v, rfl⟩

/-- With a frame handed out, the page-table area lies inside real memory. -/
theorem InvG.area {s : State} {hole : Option Nat} (h : InvG s hole) (u l : Nat)
    (hu : u < 1024) (hl : l < 1024) (h0 : s.real.table u ≠ 0)
    (hres : s.real.entry u l % 2 = 1) : 4198400 + 4096 ≤ s.real_size := by
  obtain ⟨i, hi, _, _, _⟩ := h.tab.ent u l hu hl h0 hres
  have := h.cfg.fit i hi
  omega

/-- The translation of an address whose page is resident: no fault, one
write of the entry with REFERENCED (and DIRTY for a write) set. -/
theorem mmu_translate_resident (fuel : Nat) (s : State) (a : Nat) (w : Bool) (h : InvG s none)
    (h0 : s.real.table (a / 4194304 % 1024) ≠ 0)
    (hres : s.real.entry (a / 4194304 % 1024) (a / 4096 % 1024) % 2 = 1) :
    mmu_translate (fuel + 1) s a w = .ok
      (GET_PAGE_ADDR (if w = true
          then SET_DIRTY (SET_REFERENCED (s.real.entry (a / 4194304 % 1024) (a / 4096 % 1024)))
          else SET_REFERENCED (s.real.entry (a / 4194304 % 1024) (a / 4096 % 1024))) |||
        GET_OFFSET a,
      { s with real := (s.real.copy_in
          (s.real.table (a / 4194304 % 1024) + a / 4096 % 1024 * 4)
          (bytes32 (if w = true
            then SET_DIRTY (SET_REFERENCED (s.real.entry (a / 4194304 % 1024) (a / 4096 % 1024)))
            else SET_REFERENCED (s.real.entry (a / 4194304 % 1024) (a / 4096 % 1024)))) 4) }) := by
  have hu0 : a / 4194304 % 1024 < 1024 := Nat.mod_lt _ (by norm_num)
  have hl0 : a / 4096 % 1024 < 1024 := Nat.mod_lt _ (by norm_num)
  have har := h.area _ _ hu0 hl0 h0 hres
  have hT := h.tab.tab_rng _ hu0 h0
  have hpf := h.cfg.pfa_hi
  have hlim := h.cfg.limit
  have la := lower_addr (s.real.table (a / 4194304 % 1024)) a hT.2.2 (by omega)
  have e1 : s.real.pte (4096 + a / 4194304 % 1024 * 4) = s.real.table (a / 4194304 % 1024) :=
    rfl
  have e2 : s.real.pte (s.real.table (a / 4194304 % 1024) + a / 4096 % 1024 * 4) =
      s.real.entry (a / 4194304 % 1024) (a / 4096 % 1024) := rfl
  have hne : s.real.entry (a / 4194304 % 1024) (a / 4096 % 1024) ≠ 0 := by omega
  have hr : IS_RESIDENT (s.real.entry (a / 4194304 % 1024) (a / 4096 % 1024)) = true := by
    rw [IS_RESIDENT_eq, decide_eq_true_eq]; exact hres
  unfold mmu_translate
  simp only [h.cfg.upta, upper_addr, c_assert, bind, Except.bind, read_pte_eq, write_pte_eq]
  rw [if_pos (by decide), if_pos (by omega), e1]
  simp only [h0, if_false, la]
  rw [if_pos (by omega), e2]
  simp only [hne, hr, decide_False, Bool.not_true, Bool.or_self, Bool.false_eq_true, if_false]
  rw [if_pos (by omega)]
  rfl

/-- The lower tables are the pages between 8192 and the cursor, one for each
root entry that is not zero. -/
theorem table_count (s : State) (hole : Option Nat) (h : InvG s hole) :
    s.pt_free_addr =
      8192 + 4096 * ((Finset.range 1024).filter (fun u => s.real.table u ≠ 0)).card := by
  have hlo := h.cfg.pfa_lo
  have hal := h.cfg.pfa_al
  have hc : ((Finset.range 1024).filter (fun u => s.real.table u ≠ 0)).card =
      (Finset.range ((s.pt_free_addr - 8192) / 4096)).card := by
    apply Finset.card_bij (fun u _ => (s.real.table u - 8192) / 4096)
    · intro u hu
      simp only [Finset.mem_filter, Finset.mem_range] at hu
      have := h.tab.tab_rng u hu.1 hu.2
      simp only [Finset.mem_range]
      omega
    · intro u hu v hv e
      simp only [Finset.mem_filter, Finset.mem_range] at hu hv
      have h1 := h.tab.tab_rng u hu.1 hu.2
      have h2 := h.tab.tab_rng v hv.1 hv.2
      exact h.tab.tab_inj u v hu.1 hv.1 hu.2 (by omega)
    · intro k hk
      simp only [Finset.mem_range] at hk
      obtain ⟨u, hu, e⟩ := h.tab.tab_all (8192 + 4096 * k) (by omega) (by omega) (by omega)
      refine ⟨u, ?_, ?_⟩
      · simp only [Finset.mem_filter, Finset.mem_range]
        exact ⟨hu, by omega⟩
      · rw [e]; omega
  rw [hc, Finset.card_range]
  omega

/-- When the page-table cursor has reached the end of the area, a fault on an
address whose upper index has no table fails the assertion of `allocate_pt`. -/
theorem fault_table_full (fuel : Nat) (s : State) (a : Nat) (hole : Option Nat)
    (h : InvG s hole) (hsz : 4198400 ≤ s.real_size) (hfull : s.pt_free_addr = 4198400)
    (h0 : s.real.table (a / 4194304 % 1024) = 0) :
    vmsim_map_fault fuel s a = .error .assertion := by
  have hlim := h.cfg.limit
  have e1 : s.real.pte (4096 + a / 4194304 % 1024 * 4) = s.real.table (a / 4194304 % 1024) :=
    rfl
  have hap : allocate_pt s = .error .assertion := by
    unfold allocate_pt
    simp only [PAGESIZE_eq, U32_eq, PT_AREA_SIZE_eq, hfull, IS_ALIGNED_eq]
    simp
  unfold vmsim_map_fault
  simp only [h.cfg.upt, upper_addr, c_assert, bind, Except.bind, read_pte_eq]
  rw [if_pos (by decide), if_pos (by omega), e1]
  simp only [h0, if_true, hap]

theorem translate_table_full (fuel : Nat) (s : State) (a : Nat) (w : Bool) (hole : Option Nat)
    (h : InvG s hole) (hsz : 4198400 ≤ s.real_size) (hfull : s.pt_free_addr = 4198400)
    (h0 : s.real.table (a / 4194304 % 1024) = 0) :
    mmu_translate (fuel + 1) s a w = .error .assertion := by
  have hlim := h.cfg.limit
  have e1 : s.real.pte (4096 + a / 4194304 % 1024 * 4) = s.real.table (a / 4194304 % 1024) :=
    rfl
  unfold mmu_translate
  simp only [h.cfg.upta, upper_addr, c_assert, bind, Except.bind, read_pte_eq]
  rw [if_pos (by decide), if_pos (by omega), e1]
  simp only [h0, if_true, fault_table_full (fuel + 1) s a hole h hsz hfull h0]

theorem table_filter (s : State) (hole : Option Nat) (h : InvG s hole) :
    (Finset.range 1024).filter (fun u => s.upper_pte (u * 4194304) ≠ 0) =
      (Finset.range 1024).filter (fun u => s.real.table u ≠ 0) := by
  apply Finset.filter_congr
  intro u hu
  simp only [Finset.mem_range] at hu
  rw [upper_pte_eq s hole h]
  have e : u * 4194304 / 4194304 % 1024 = u := by omega
  rw [e]

end VMSim

set_option maxRecDepth 10000

namespace VMSim

/-! ### Steps that complete -/

theorem bs_mapped_fit (s : State) (hb : s.bs_base = true) (hl : s.bs_limit ≤ mapped_len s.bs_size)
    (b : Nat) (h : (b * 4096) % 4294967296 < s.bs_limit) :
    (b * 4096) % 4294967296 + 4096 ≤ s.bs_mapped := by
  unfold State.bs_mapped
  rw [hb, if_pos rfl]
  unfold mapped_len at hl ⊢
  omega

theorem bs_write_total (s : State) (f b : Nat) (hb : s.bs_base = true)
    (hl : s.bs_limit ≤ mapped_len s.bs_size) (hf : f + 4096 ≤ s.real_limit) :
    ∃ r m, bs_write s f b = .ok (r, { s with bs := m }) := by
  by_cases c : s.bs_limit ≤ (b * 4096) % 4294967296
  · exact ⟨false, s.bs, bs_write_out s f b c⟩
  · exact ⟨true, _, bs_write_in s f b hb hl (by omega) hf⟩

theorem bs_read_total (s : State) (f b : Nat) (hb : s.bs_base = true)
    (hl : s.bs_limit ≤ mapped_len s.bs_size) (hf : f + 4096 ≤ s.real_limit) :
    ∃ r m, bs_read s f b = .ok (r, { s with real := m }) ∧
      ∀ x, x < f ∨ f + 4096 ≤ x → m x = s.real x := by
  by_cases c : s.bs_limit ≤ (b * 4096) % 4294967296
  · exact ⟨false, s.real, bs_read_out s f b c, fun _ _ => rfl⟩
  · exact ⟨true, _, bs_read_in s f b hb hl (by omega) hf, fun x hx => copy_in_out _ _ _ _ _ hx⟩

/-- When every slot of the directory is in use, the directory is usable by
the victim search. -/
theorem InvG.slots_ok {s : State} (h : InvG s none) (hfull : s.frames = s.num_entries)
    (hN : 1 ≤ s.num_entries) : SlotsOK s ∧ s.current_page_number < s.num_entries ∧
    4198400 + 4096 ≤ s.real_size := by
  have hfit := h.cfg.fit 0 (by omega)
  refine ⟨⟨h.cfg.ebase, h.cfg.rbase, Nat.le_of_eq h.cfg.limit, fun i hi => ?_⟩, ?_, by omega⟩
  · obtain ⟨u, l, hu, hl, h0, hd, _, _⟩ := h.tab.dir i (by omega) (by simp)
    have ha := h.addr u l hu hl h0
    have := h.cfg.limit
    exact ⟨_, hd, by omega⟩
  · rcases h.cfg.hand with c | c
    · exact c
    · omega

/-- The swap-in of `from_bs_to_mm`, given what `bs_read` did to real memory. -/
theorem from_bs_to_mm_eq (s : State) (p f : Nat) (r : Bool) (m : Mem)
    (hp : p + 4 ≤ s.real_limit) (he : s.entries_base = true)
    (hn : ((f + U32 - PT_AREA_SIZE) % U32) / PAGESIZE < s.num_entries)
    (hr : bs_read s f ((s.real.pte p &&& 0xfffc00) >>> 10) = .ok (r, { s with real := m })) :
    from_bs_to_mm s p f = .ok { s with
      real := m.copy_in p (bytes32 (SET_RESIDENT ((s.real.pte p &&& 0x3ff) ||| f))) 4
      entries := fun j => if j = ((f + U32 - PT_AREA_SIZE) % U32) / PAGESIZE then some p
        else s.entries j } := by
  unfold from_bs_to_mm
  simp only [read_pte_eq, if_pos hp, bind, Except.bind, hr, write_pte_eq]
  unfold set_entry
  rw [if_pos (by simp only [Bool.and_eq_true, decide_eq_true_eq]; exact ⟨he, hn⟩)]

/-- A fault on a page that is swapped out, when every frame is in use and the
bound allows a full turn of the clock: the fault returns; a page that was
resident (the victim) is swapped out afterwards, with the block number the
counter had, and the counter has advanced by one. -/
theorem fault_swap_ok (fuel : Nat) (s : State) (a : Nat) (h : InvG s none)
    (hbs : s.bs_base = true) (hbl : s.bs_limit ≤ mapped_len s.bs_size)
    (hfull : s.frames = s.num_entries) (hN : 1 ≤ s.num_entries) (hfuel : s.num_entries ≤ fuel)
    (h0 : s.real.table (a / 4194304 % 1024) ≠ 0)
    (hne : s.real.entry (a / 4194304 % 1024) (a / 4096 % 1024) ≠ 0)
    (hnr : s.real.entry (a / 4194304 % 1024) (a / 4096 % 1024) % 2 = 0) :
    ∃ t u1 l1, vmsim_map_fault fuel s a = .ok t ∧ u1 < 1024 ∧ l1 < 1024 ∧
      s.real.table u1 ≠ 0 ∧ s.real.entry u1 l1 % 2 = 1 ∧
      t.real.table u1 = s.real.table u1 ∧
      t.real.entry u1 l1 % 2 = 0 ∧
      t.real.entry u1 l1 / 1024 = s.next_block_number % 4194304 ∧
      t.next_block_number = s.next_block_number + 1 ∧
      t.real_free_addr = s.real_free_addr := by
  have hu0 : a / 4194304 % 1024 < 1024 := Nat.mod_lt _ (by norm_num)
  have hl0 : a / 4096 % 1024 < 1024 := Nat.mod_lt _ (by norm_num)
  obtain ⟨hslots, hhand, hsz⟩ := h.slots_ok hfull hN
  obtain ⟨d, p, m3, hd, _, hok, _⟩ := find_lru_total s hslots hN hhand
  have hfl := hok fuel (by omega)
  generalize hs3 : ({ s with
    real := m3
    current_page_number := (s.current_page_number + d) % s.num_entries } : State) = s3 at hfl
  obtain ⟨t1, i2, i3, i4⟩ := find_lru_inv fuel s s3 p h hfl
  obtain ⟨f1, f2, f3, f4, f5, f6, f7, f8, f9, f10, f11, f12⟩ := t1.fixed
  obtain ⟨hi, u1, l1, hu1, hl1, h10, ea, hres, hfr, hpte⟩ := i2.slot _ p i3
  have hfit := i2.cfg.fit _ hi
  have hlim3 := i2.cfg.limit
  have hsz3 := i2.cfg.size_hi
  have hlt : s3.real.entry u1 l1 < 4294967296 := pte_lt _ _
  have ef : GET_PAGE_ADDR (s3.real.pte p) = 4198400 + 4096 * s3.current_page_number := by
    rw [GET_PAGE_ADDR_eq, hpte, Nat.mod_eq_of_lt hlt, hfr]
  have hb3 : s3.bs_base = true := by rw [f10]; exact hbs
  have hl3 : s3.bs_limit ≤ mapped_len s3.bs_size := by rw [f11, f12]; exact hbl
  have hmp3 : s3.real_limit ≤ s3.real_mapped := by
    rw [hlim3]; exact real_mapped_ge s3 i2.cfg.rbase
  have hap := i2.addr u1 l1 hu1 hl1 h10
  obtain ⟨r, bs1, hw⟩ := bs_write_total s3 (GET_PAGE_ADDR (s3.real.pte p))
    (s3.next_block_number % U32) hb3 hl3 (by rw [ef]; omega)
  have h4 := from_mm_to_bs_eq s3 p r bs1 (by omega) hmp3 (by rw [ef]; omega) hw
  have hv : ((s3.real.zero (GET_PAGE_ADDR (s3.real.pte p)) 4096).copy_in p
      (bytes32 (CLEAR_RESIDENT ((s3.real.pte p &&& 0x3ff) |||
        ((s3.next_block_number <<< 10) % U32)))) 4).pte p =
      (s3.next_block_number % 4194304) * 1024 + s3.real.pte p % 1024 / 2 * 2 := by
    rw [pte_copy_in_same, evict_entry_val]
    exact Nat.mod_eq_of_lt (by omega)
  generalize hs4 : ({ s3 with
    bs := bs1
    next_block_number := s3.next_block_number + 1
    evicted := s3.evicted ++ [s3.next_block_number]
    real := (s3.real.zero (GET_PAGE_ADDR (s3.real.pte p)) 4096).copy_in p
      (bytes32 (CLEAR_RESIDENT ((s3.real.pte p &&& 0x3ff) |||
        ((s3.next_block_number <<< 10) % U32)))) 4 } : State) = s4 at h4
  have hv4 : s4.real.pte p =
      (s3.next_block_number % 4194304) * 1024 + s3.real.pte p % 1024 / 2 * 2 := by
    rw [← hs4]; exact hv
  have hn4 : s4.next_block_number = s3.next_block_number + 1 := by rw [← hs4]
  have hr4 : s4.real_free_addr = s3.real_free_addr := by rw [← hs4]
  have hb4 : s4.bs_base = true := by rw [← hs4]; exact hb3
  have hl4 : s4.bs_limit ≤ mapped_len s4.bs_size := by rw [← hs4]; exact hl3
  have hN4 : s4.num_entries = s3.num_entries := by rw [← hs4]
  obtain ⟨j1, j2, j3, j4, _⟩ := from_mm_to_bs_inv s3 s4 _ p _ i2 i3 h4
  have hlim4 := j1.cfg.limit
  have hfit4 := j1.cfg.fit _ (j1.tab.hole_lt _ rfl)
  have h00' : s3.real.table (a / 4194304 % 1024) ≠ 0 := by rw [t1.tab _ hu0]; exact h0
  have e3 : s3.real.entry (a / 4194304 % 1024) (a / 4096 % 1024) =
      s.real.entry (a / 4194304 % 1024) (a / 4096 % 1024) := by
    rcases t1.low _ _ hu0 hl0 h0 with c | ⟨c1, _, _⟩
    · exact c
    · omega
  have t4 : s4.real.table (a / 4194304 % 1024) = s.real.table (a / 4194304 % 1024) :=
    (j3 _ hu0).trans (t1.tab _ hu0)
  have h00'' : s4.real.table (a / 4194304 % 1024) ≠ 0 := by rw [t4]; exact h0
  have e4 : s4.real.entry (a / 4194304 % 1024) (a / 4096 % 1024) =
      s.real.entry (a / 4194304 % 1024) (a / 4096 % 1024) := by
    rw [j4 _ _ hu0 hl0 h00' (by rw [e3]; exact hnr), e3]
  have ha4 := j1.addr _ _ hu0 hl0 h00''
  rw [t4] at ha4
  obtain ⟨r5, m5, hr5, hag⟩ := bs_read_total s4 (GET_PAGE_ADDR (s3.real.pte p))
    ((s4.real.pte (s.real.table (a / 4194304 % 1024) + a / 4096 % 1024 * 4) &&& 0xfffc00) >>> 10)
    hb4 hl4 (by rw [ef, hlim4]; omega)
  have hsn : ((GET_PAGE_ADDR (s3.real.pte p) + U32 - PT_AREA_SIZE) % U32) / PAGESIZE =
      s3.current_page_number := by
    rw [ef]; exact slot_number _ (by have := j1.cfg.size_hi; omega)
  have h5 := from_bs_to_mm_eq s4 (s.real.table (a / 4194304 % 1024) + a / 4096 % 1024 * 4)
    (GET_PAGE_ADDR (s3.real.pte p)) r5 m5 (by rw [hlim4]; omega) j1.cfg.ebase
    (by rw [hsn, hN4]; exact i4) hr5
  -- the whole fault
  have hlim := h.cfg.limit
  have hT := h.tab.tab_rng _ hu0 h0
  have hpf := h.cfg.pfa_hi
  have la := lower_addr (s.real.table (a / 4194304 % 1024)) a hT.2.2 (by omega)
  have e1 : s.real.pte (4096 + a / 4194304 % 1024 * 4) = s.real.table (a / 4194304 % 1024) :=
    rfl
  have e2 : s.real.pte (s.real.table (a / 4194304 % 1024) + a / 4096 % 1024 * 4) =
      s.real.entry (a / 4194304 % 1024) (a / 4096 % 1024) := rfl
  have hnres : IS_RESIDENT (s.real.entry (a / 4194304 % 1024) (a / 4096 % 1024)) = false := by
    rw [IS_RESIDENT_eq, decide_eq_false_iff_not]; omega
  have hfault : vmsim_map_fault fuel s a = from_bs_to_mm s4
      (s.real.table (a / 4194304 % 1024) + a / 4096 % 1024 * 4)
      (GET_PAGE_ADDR (s3.real.pte p)) := by
    unfold vmsim_map_fault
    simp only [h.cfg.upt, upper_addr, c_assert, bind, Except.bind, read_pte_eq]
    rw [if_pos (by decide), if_pos (by omega), e1]
    simp only [h0, if_false, pure, Except.pure, la]
    rw [if_pos (by omega), e2]
    simp only [hne, if_false, hnres, Bool.not_false, if_true, hfl]
    unfold swap_pages
    simp only [bind, Except.bind, h4]
  rw [h5] at hfault
  -- the victim afterwards
  have hag' : ∀ x, x < 4198400 → m5 x = s4.real x := fun x hx => hag x (by rw [ef]; omega)
  obtain ⟨k1, k2, k3⟩ := InvG_frame s4 _ m5 j1 hag'
  have hT5 : m5.table (a / 4194304 % 1024) = s.real.table (a / 4194304 % 1024) :=
    (k2 _ hu0).trans t4
  have h10' : s4.real.table u1 ≠ 0 := by rw [j3 u1 hu1]; exact h10
  have hne1 : ¬ (u1 = a / 4194304 % 1024 ∧ l1 = a / 4096 % 1024) := by
    rintro ⟨c1, c2⟩
    rw [c1, c2, e3] at hres
    omega
  obtain ⟨w1, _, w3, _⟩ := entry_write _ _ k1 (a / 4194304 % 1024) (a / 4096 % 1024)
    (SET_RESIDENT ((s4.real.pte (s.real.table (a / 4194304 % 1024) + a / 4096 % 1024 * 4)
      &&& 0x3ff) ||| GET_PAGE_ADDR (s3.real.pte p))) hu0 hl0 (by rw [hT5]; exact h0)
  dsimp only at w1 w3
  rw [hT5] at w1 w3
  have hx1 := w3 u1 l1 hu1 hl1 (by rw [k2 u1 hu1]; exact h10') hne1
  have hx2 : s4.real.entry u1 l1 = s4.real.pte p := by
    unfold Mem.entry
    rw [j3 u1 hu1, ← ea]
  refine ⟨_, u1, l1, hfault, hu1, hl1, by rw [← t1.tab u1 hu1]; exact h10, ?_, ?_, ?_, ?_, ?_, ?_⟩
  · rcases t1.low u1 l1 hu1 hl1 (by rw [← t1.tab u1 hu1]; exact h10) with c | ⟨c1, _, _⟩
    · rw [← c]; exact hres
    · exact c1
  · show (m5.copy_in _ _ 4).table u1 = _
    rw [w1 u1 hu1, k2 u1 hu1, j3 u1 hu1, t1.tab u1 hu1]
  · show (m5.copy_in _ _ 4).entry u1 l1 % 2 = 0
    rw [hx1, k3 u1 l1 hu1 hl1 h10', hx2, hv4]
    omega
  · show (m5.copy_in _ _ 4).entry u1 l1 / 1024 = _
    rw [hx1, k3 u1 l1 hu1 hl1 h10', hx2, hv4, t1.nbn]
    omega
  · show s4.next_block_number = _
    rw [hn4, t1.nbn]
  · show s4.real_free_addr = _
    rw [hr4, t1.rfa]

end VMSim

set_option maxRecDepth 10000

namespace VMSim

/-- A translation of an address whose page is swapped out, when every frame
is in use: it returns after one fault; a page that was resident is swapped
out afterwards, with the block number the counter had. -/
theorem translate_swap_ok (fuel : Nat) (s : State) (a : Nat) (w : Bool) (h : InvG s none)
    (hbs : s.bs_base = true) (hbl : s.bs_limit ≤ mapped_len s.bs_size)
    (hfull : s.frames = s.num_entries) (hN : 1 ≤ s.num_entries)
    (hfuel : s.num_entries ≤ fuel + 2)
    (h0 : s.real.table (a / 4194304 % 1024) ≠ 0)
    (hne : s.real.entry (a / 4194304 % 1024) (a / 4096 % 1024) ≠ 0)
    (hnr : s.real.entry (a / 4194304 % 1024) (a / 4096 % 1024) % 2 = 0) :
    ∃ r t u1 l1, mmu_translate (fuel + 2) s a w = .ok (r, t) ∧ u1 < 1024 ∧ l1 < 1024 ∧
      t.real.table u1 ≠ 0 ∧ t.real.entry u1 l1 % 2 = 0 ∧
      t.real.entry u1 l1 / 1024 = s.next_block_number % 4194304 ∧
      t.next_block_number = s.next_block_number + 1 ∧
      t.real_free_addr = s.real_free_addr := by
  have hu0 : a / 4194304 % 1024 < 1024 := Nat.mod_lt _ (by norm_num)
  have hl0 : a / 4096 % 1024 < 1024 := Nat.mod_lt _ (by norm_num)
  obtain ⟨t1, u1, l1, hf, hu1, hl1, g1, g2, g3, g4, g5, g6, g7⟩ :=
    fault_swap_ok (fuel + 2) s a h hbs hbl hfull hN hfuel h0 hne hnr
  obtain ⟨i1, i2, i3, _⟩ := vmsim_map_fault_inv (fuel + 2) s t1 a h hf
  have hres := mmu_translate_resident fuel t1 a w i1 i2 i3
  obtain ⟨_, _, hsz⟩ := h.slots_ok hfull hN
  have hlim := h.cfg.limit
  have hT := h.tab.tab_rng _ hu0 h0
  have hpf := h.cfg.pfa_hi
  have la := lower_addr (s.real.table (a / 4194304 % 1024)) a hT.2.2 (by omega)
  have e1 : s.real.pte (4096 + a / 4194304 % 1024 * 4) = s.real.table (a / 4194304 % 1024) :=
    rfl
  have e2 : s.real.pte (s.real.table (a / 4194304 % 1024) + a / 4096 % 1024 * 4) =
      s.real.entry (a / 4194304 % 1024) (a / 4096 % 1024) := rfl
  have hnres : IS_RESIDENT (s.real.entry (a / 4194304 % 1024) (a / 4096 % 1024)) = false := by
    rw [IS_RESIDENT_eq, decide_eq_false_iff_not]; omega
  have hwhole : mmu_translate (fuel + 2) s a w = mmu_translate (fuel + 1) t1 a w := by
    conv_lhs => unfold mmu_translate
    simp only [h.cfg.upta, upper_addr, c_assert, bind, Except.bind, read_pte_eq]
    rw [if_pos (by decide), if_pos (by omega), e1]
    simp only [h0, if_false, la]
    rw [if_pos (by omega), e2]
    simp only [hne, hnres, decide_False, Bool.not_false, Bool.or_true, if_true, hf]
  rw [hres] at hwhole
  have hne1 : ¬ (u1 = a / 4194304 % 1024 ∧ l1 = a / 4096 % 1024) := by
    rintro ⟨c1, c2⟩
    rw [c1, c2] at g4
    omega
  have g1' : t1.real.table u1 ≠ 0 := by rw [g3]; exact g1
  obtain ⟨w1, _, w3, _⟩ := entry_write t1 none i1 (a / 4194304 % 1024) (a / 4096 % 1024)
    (if w = true
      then SET_DIRTY (SET_REFERENCED (t1.real.entry (a / 4194304 % 1024) (a / 4096 % 1024)))
      else SET_REFERENCED (t1.real.entry (a / 4194304 % 1024) (a / 4096 % 1024))) hu0 hl0 i2
  have hx := w3 u1 l1 hu1 hl1 g1' hne1
  refine ⟨_, _, u1, l1, hwhole, hu1, hl1, ?_, ?_, ?_, g6, g7⟩
  · show (t1.real.copy_in _ _ 4).table u1 ≠ 0
    rw [w1 u1 hu1]; exact g1'
  · show (t1.real.copy_in _ _ 4).entry u1 l1 % 2 = 0
    rw [hx]; exact g4
  · show (t1.real.copy_in _ _ 4).entry u1 l1 / 1024 = _
    rw [hx]; exact g5

/-- The block counter of the default configuration can reach every value from
2 to `2^22`: there is a reachable state with that counter in which every frame
is in use and the page evicted last is swapped out with the counter's previous
value as its block number. -/
theorem reach_blocks (n : Nat) : n + 2 ≤ 4194304 →
    ∃ s, Reachable s ∧ s.real_size = 4210688 ∧ s.bs_base = true ∧
      s.bs_limit ≤ mapped_len s.bs_size ∧ s.frames = s.num_entries ∧ s.num_entries = 3 ∧
      s.next_block_number = n + 2 ∧
      ∃ u l, u < 1024 ∧ l < 1024 ∧ s.real.table u ≠ 0 ∧ s.real.entry u l % 2 = 0 ∧
        s.real.entry u l / 1024 = n + 1 := by
  induction n with
  | zero =>
    intro _
    exact ⟨four_pages, reachable_four_pages, by decide!, by decide!, by decide!, by decide!,
      by decide!, by decide!, 0, 1, by decide, by decide, by decide!, by decide!, by decide!⟩
  | succ n ih =>
    intro hn
    obtain ⟨s, hr, hsz, hbs, hbl, hfull, hN, hnbn, u, l, hu, hl, h0, hnr, hb⟩ := ih (by omega)
    have hinv := reachable_inv s hr (by rw [hsz]; decide)
    obtain ⟨p1, p2, p3⟩ := page_of_indices u l hu hl
    obtain ⟨r, t, u1, l1, ht, hu1, hl1, q1, q2, q3, q4, q5⟩ :=
      translate_swap_ok 3 s (u * 4194304 + l * 4096) false hinv hbs hbl hfull (by omega)
        (by omega) (by rw [p1]; exact h0) (by rw [p1, p2]; omega) (by rw [p1, p2]; exact hnr)
    have hf := mmu_translate_fixed _ _ _ _ _ _ ht
    obtain ⟨f1, f2, f3, f4, f5, f6, f7, f8, f9, f10, f11, f12⟩ := hf
    have hreach : Reachable t := Reachable.translate 5 s _ false r t hr p3 ht
    refine ⟨t, hreach, by rw [f5]; exact hsz, by rw [f10]; exact hbs,
      by rw [f11, f12]; exact hbl, ?_, by rw [f9]; exact hN, by rw [q4, hnbn],
      u1, l1, hu1, hl1, q1, q2, ?_⟩
    · unfold State.frames at hfull ⊢
      rw [q5, f9]; exact hfull
    · rw [q3, hnbn]; omega

end VMSim

set_option maxRecDepth 10000

namespace VMSim

/-- A read of the range just written returns the bytes written. -/
theorem write_read_eq (s t : State) (fuel a n : Nat) (buf buf2 : Nat → Byte)
    (h : InvG s none) (hw : vmsim_write fuel s buf a n = .ok t) :
    ∃ t2, ∀ fuel2, vmsim_read (fuel2 + 1) t buf2 a n =
      .ok (fun i => if i < n then buf i else buf2 i, t2) := by
  have hu0 : a / 4194304 % 1024 < 1024 := Nat.mod_lt _ (by norm_num)
  have hl0 : a / 4096 % 1024 < 1024 := Nat.mod_lt _ (by norm_num)
  have hinv_t := vmsim_write_inv fuel s t buf a n h hw
  unfold vmsim_write at hw
  simp only [bind_ok] at hw
  obtain ⟨⟨r, s2⟩, h1, h2⟩ := hw
  rw [vmsim_map_eq _ _ _ _ h.cfg.rbase] at h1
  obtain ⟨i1, i2, i3, _, _, _, i7⟩ := mmu_translate_inv fuel s s2 a true r h h1
  obtain ⟨i, hi, _, hf, _⟩ := i1.tab.ent _ _ hu0 hl0 i2 i3
  rw [vmsim_write_real_eq] at h2
  split at h2
  · rename_i hle
    cases h2
    have hagree : ∀ x, x < 4198400 → (s2.real.copy_in r buf n) x = s2.real x :=
      fun x hx => copy_in_out _ _ _ _ _ (by omega)
    obtain ⟨k1, k2, k3⟩ := InvG_frame s2 none _ i1 hagree
    have g2 : (s2.real.copy_in r buf n).table (a / 4194304 % 1024) ≠ 0 := by
      rw [k2 _ hu0]; exact i2
    have g3 : (s2.real.copy_in r buf n).entry (a / 4194304 % 1024) (a / 4096 % 1024) % 2 = 1 := by
      rw [k3 _ _ hu0 hl0 i2]; exact i3
    have hres := fun fuel2 => mmu_translate_resident fuel2 _ a false k1 g2 g3
    have hlt : (s2.real.copy_in r buf n).entry (a / 4194304 % 1024) (a / 4096 % 1024) <
        4294967296 := pte_lt _ _
    obtain ⟨v1, _, v3, _⟩ := translate_value _ false hlt g3
    have er : GET_PAGE_ADDR (if false = true
        then SET_DIRTY (SET_REFERENCED ((s2.real.copy_in r buf n).entry (a / 4194304 % 1024)
          (a / 4096 % 1024)))
        else SET_REFERENCED ((s2.real.copy_in r buf n).entry (a / 4194304 % 1024)
          (a / 4096 % 1024))) ||| GET_OFFSET a = r := by
      rw [real_addr_value _ a v1]
      have e_same := k3 _ _ hu0 hl0 i2
      omega
    simp only [er] at hres
    have ha := i1.addr _ _ hu0 hl0 i2
    have hk2 := k2 _ hu0
    have hex : ∃ t2 : State, (∀ fuel2, mmu_translate (fuel2 + 1)
        { s2 with real := s2.real.copy_in r buf n } a false = .ok (r, t2)) ∧
        r + n ≤ t2.real_limit ∧ ∀ j, j < n → t2.real (r + j) = buf j := by
      refine ⟨_, hres, hle, fun j hj => ?_⟩
      show ((s2.real.copy_in r buf n).copy_in _ _ 4) (r + j) = buf j
      rw [copy_in_out _ _ _ _ _ (by omega), copy_in_in _ _ _ _ _ (by omega) (by omega)]
      congr 1
      omega
    obtain ⟨t2, ht2, hl2, hd2⟩ := hex
    refine ⟨t2, fun fuel2 => ?_⟩
    unfold vmsim_read
    rw [vmsim_map_eq _ _ _ _ k1.cfg.rbase, ht2 fuel2]
    simp only [bind, Except.bind, pure, Except.pure, vmsim_read_real_in t2 buf2 r n hl2]
    have hfun : (fun i => if i < n then t2.real (r + i) else buf2 i) =
        (fun i => if i < n then buf i else buf2 i) := by
      funext j
      by_cases hj : j < n
      · simp only [hj, if_true]
        exact hd2 j hj
      · simp only [hj, if_false]
    rw [hfun]
  · split at h2 <;> cases h2

theorem error_of_match {α : Type} (x : Except Fault α) (e : Fault)
    (h : (match x with | .error e => some e | .ok _ => none) = some e) : x = .error e := by
  cases x with
  | error e2 => simp at h; rw [h]
  | ok v => simp at h

/-- The block that `from_bs_to_mm` reads for an entry carrying block number
`b`: the one numbered `b mod 2^14`. -/
theorem reload_block_eq (s : State) (p f b st : Nat)
    (hp : p + 4 ≤ s.real_limit) (he : s.entries_base = true)
    (hn : ((f + U32 - PT_AREA_SIZE) % U32) / PAGESIZE < s.num_entries)
    (hb : s.bs_base = true) (hl : s.bs_limit ≤ mapped_len s.bs_size)
    (hcap : (b % 16384) * 4096 < s.bs_limit) (hf : f + 4096 ≤ s.real_limit)
    (hpf : p + 4 ≤ f) (hst : st < 1024) (hent : s.real.pte p = (b % 4194304) * 1024 + st) :
    ∃ t, from_bs_to_mm s p f = .ok t ∧
      ∀ i, i < 4096 → t.real (f + i) = s.bs ((b % 16384) * 4096 + i) := by
  have hblk : (s.real.pte p &&& 0xfffc00) >>> 10 = b % 16384 := by
    rw [and_block_mask, hent]; omega
  have hoff : ((b % 16384) * 4096) % 4294967296 = (b % 16384) * 4096 :=
    Nat.mod_eq_of_lt (by omega)
  have hr := bs_read_in s f (b % 16384) hb hl (by rw [hoff]; exact hcap) hf
  rw [hoff, ← hblk] at hr
  have h5 := from_bs_to_mm_eq s p f true _ hp he hn hr
  refine ⟨_, h5, fun i hi => ?_⟩
  show ((s.real.copy_in f _ 4096).copy_in p _ 4) (f + i) = _
  rw [copy_in_out _ _ _ _ _ (by omega), copy_in_in _ _ _ _ _ (by omega) (by omega), hblk]
  show s.bs (_ + _) = _
  congr 1
  omega

end VMSim

set_option maxRecDepth 10000

namespace VMSim

/-! ### The victim search and the eviction, in terms of the page-table view -/

/-- With every slot of the directory in use, different slots point at
different (hence disjoint) entries. -/
theorem InvG.dir_ok {s : State} (h : InvG s none) (hfull : s.frames = s.num_entries)
    (hN : 1 ≤ s.num_entries) : DirOK s := by
  obtain ⟨hs, _, _⟩ := h.slots_ok hfull hN
  refine ⟨hs.ebase, hs.rbase, hs.limit, hs.slots, ?_⟩
  intro i hi j hj hij p hp q hq
  obtain ⟨_, u, l, hu, hl, h0, ep, _, hf, _⟩ := h.slot i p hp
  obtain ⟨_, u2, l2, hu2, hl2, h02, eq, _, hf2, _⟩ := h.slot j q hq
  have a1 := h.addr u l hu hl h0
  have a2 := h.addr u2 l2 hu2 hl2 h02
  by_contra c
  have e : s.real.table u + l * 4 = s.real.table u2 + l2 * 4 := by omega
  obtain ⟨c1, c2⟩ := h.tab.addr_inj u u2 l l2 hu hu2 hl hl2 h0 h02 e
  subst c1; subst c2
  omega

/-- The victim search that passes `d` slots, seen through the page tables. -/
theorem sweep_view (fuel : Nat) (s : State) (d : Nat) (h : InvG s none)
    (hfull : s.frames = s.num_entries) (hN : 1 ≤ s.num_entries) (hd : Passes s d)
    (hfuel : d ≤ fuel) :
    ∃ p m, find_lru fuel s = .ok (p, { s with
        real := m
        current_page_number := (s.current_page_number + d) % s.num_entries }) ∧
      s.entries ((s.current_page_number + d) % s.num_entries) = some p ∧
      (∀ u, u < 1024 → m.table u = s.real.table u) ∧
      (∀ u l j, u < 1024 → l < 1024 → s.real.table u ≠ 0 → j < d →
        s.entries ((s.current_page_number + j) % s.num_entries) =
          some (s.real.table u + l * 4) →
        m.entry u l = CLEAR_REFERENCED (s.real.entry u l)) ∧
      (∀ u l, u < 1024 → l < 1024 → s.real.table u ≠ 0 →
        (∀ j, j < d → s.entries ((s.current_page_number + j) % s.num_entries) ≠
          some (s.real.table u + l * 4)) →
        m.entry u l = s.real.entry u l) ∧
      (∀ x, 4198400 ≤ x → m x = s.real x) := by
  have hdir := h.dir_ok hfull hN
  obtain ⟨_, hhand, _⟩ := h.slots_ok hfull hN
  obtain ⟨p, m, hp, hloop, hsl, hoth⟩ :=
    find_lru_loop_spec d s fuel hdir hhand hd.le hfuel hd.refd hd.stop
  have hfl : find_lru fuel s = .ok (p, { s with
      real := m
      current_page_number := (s.current_page_number + d) % s.num_entries }) := by
    rw [find_lru_eq fuel s hdir hhand]; exact hloop
  obtain ⟨t1, _, _, _⟩ := find_lru_inv fuel s _ p h hfl
  have htab : ∀ u, u < 1024 → m.table u = s.real.table u := t1.tab
  refine ⟨p, m, hfl, hp, htab, ?_, ?_, t1.data⟩
  · intro u l j hu hl h0 hj he
    have hjl : (s.current_page_number + j) % s.num_entries < s.num_entries :=
      Nat.mod_lt _ (by omega)
    have := (hsl _ _ hjl he).1 ⟨j, hj, rfl⟩
    unfold Mem.entry
    rw [htab u hu]
    exact this
  · intro u l hu hl h0 hne
    have a1 := h.addr u l hu hl h0
    unfold Mem.entry
    rw [htab u hu]
    apply pte_congr
    intro i hi
    apply hoth
    intro j q hj hq
    obtain ⟨_, u2, l2, hu2, hl2, h02, eq, _, _, _⟩ := h.slot _ q hq
    have a2 := h.addr u2 l2 hu2 hl2 h02
    have hdiff : q ≠ s.real.table u + l * 4 := by
      intro c
      rw [c] at hq
      exact hne j hj hq
    omega

end VMSim

set_option maxRecDepth 10000

namespace VMSim

theorem bs_write_view (s : State) (f b : Nat) (hb : s.bs_base = true)
    (hl : s.bs_limit ≤ mapped_len s.bs_size) (hf : f + 4096 ≤ s.real_limit) :
    ∃ r m, bs_write s f b = .ok (r, { s with bs := m }) ∧
      (∀ y, y < (b * 4096) % 4294967296 ∨ (b * 4096) % 4294967296 + 4096 ≤ y →
        m y = s.bs y) ∧
      ((b * 4096) % 4294967296 < s.bs_limit → ∀ y, y < 4096 →
        m ((b * 4096) % 4294967296 + y) = s.real (f + y)) := by
  by_cases c : s.bs_limit ≤ (b * 4096) % 4294967296
  · exact ⟨false, s.bs, bs_write_out s f b c, fun _ _ => rfl, fun h => absurd c (by omega)⟩
  · refine ⟨true, _, bs_write_in s f b hb hl (by omega) hf,
      fun y hy => copy_in_out _ _ _ _ _ hy, fun _ y hy => ?_⟩
    rw [copy_in_in _ _ _ _ _ (by omega) (by omega)]
    show s.real (f + ((b * 4096) % 4294967296 + y - (b * 4096) % 4294967296)) = _
    rw [Nat.add_sub_cancel_left]

theorem slot_ne (c j d n : Nat) (hj : j < d) (hd : d - j < n) :
    (c + j) % n ≠ (c + d) % n := by
  have hn : 0 < n := by omega
  have h1 := add_mod_ne ((c + j) % n) (d - j) n (Nat.mod_lt _ hn) (by omega) hd
  have e2 : ((c + j) % n + (d - j)) % n = (c + d) % n := by
    rw [Nat.mod_add_mod]; congr 1; omega
  rw [e2] at h1
  exact fun e => h1 e.symm

/-- The victim search that passes `d` slots and the eviction of the page it
stops at both return, and their joint effect is `Evict`. -/
theorem evict_ok (fuel : Nat) (s : State) (d : Nat) (h : InvG s none)
    (hbs : s.bs_base = true) (hbl : s.bs_limit ≤ mapped_len s.bs_size)
    (hfull : s.frames = s.num_entries) (hN : 1 ≤ s.num_entries) (hd : Passes s d)
    (hfuel : d ≤ fuel) :
    ∃ p s3 t, find_lru fuel s = .ok (p, s3) ∧
      from_mm_to_bs s3 p =
        .ok (4198400 + 4096 * ((s.current_page_number + d) % s.num_entries), t) ∧
      Evict s t d ∧ InvG t (some ((s.current_page_number + d) % s.num_entries)) ∧
      t.real_free_addr = s.real_free_addr := by
  have hdir := h.dir_ok hfull hN
  obtain ⟨_, hhand, hsz⟩ := h.slots_ok hfull hN
  obtain ⟨p, m, hfl, hp, htab, hswept, hkeep, hdata⟩ :=
    sweep_view fuel s d h hfull hN hd hfuel
  have hvl : (s.current_page_number + d) % s.num_entries < s.num_entries :=
    Nat.mod_lt _ (by omega)
  obtain ⟨hi, u1, l1, hu1, hl1, h10, ea, hres, hfr, hpte⟩ := h.slot _ p hp
  have hother : ∀ j, (s.current_page_number + j) % s.num_entries ≠
      (s.current_page_number + d) % s.num_entries →
      s.entries ((s.current_page_number + j) % s.num_entries) ≠ some p := by
    intro j hne hq
    have := hdir.disj _ _ p p (Nat.mod_lt _ (by omega)) hvl hne hq hp
    omega
  have hle := hd.le
  -- the victim's entry after the search
  have hvict : m.entry u1 l1 % 1024 / 2 * 2 = s.real.entry u1 l1 % 1024 / 4 * 4 ∧
      m.entry u1 l1 / 4096 * 4096 = s.real.entry u1 l1 / 4096 * 4096 := by
    have hlt : s.real.entry u1 l1 < 4294967296 := pte_lt _ _
    by_cases c : d < s.num_entries
    · have e1 : m.entry u1 l1 = s.real.entry u1 l1 := by
        apply hkeep u1 l1 hu1 hl1 h10
        intro j hj
        rw [← ea]
        exact hother j (slot_ne _ j d _ hj (by omega))
      have hst := hd.stop c
      rw [slot_pte_eq s _ p hp, hpte, IS_REFERENCED_eq, decide_eq_false_iff_not] at hst
      rw [e1]
      omega
    · have ed : d = s.num_entries := by omega
      have e0 : (s.current_page_number + 0) % s.num_entries =
          (s.current_page_number + d) % s.num_entries := by
        rw [ed, Nat.add_mod_right, Nat.add_zero]
      have e1 : m.entry u1 l1 = CLEAR_REFERENCED (s.real.entry u1 l1) := by
        apply hswept u1 l1 0 hu1 hl1 h10 (by omega)
        rw [e0, ← ea]; exact hp
      rw [e1, CLEAR_REFERENCED_eq]
      omega
  generalize hs3 : ({ s with
    real := m
    current_page_number := (s.current_page_number + d) % s.num_entries } : State) = s3 at hfl
  have r3 : s3.real = m := by rw [← hs3]
  have c3 : s3.current_page_number = (s.current_page_number + d) % s.num_entries := by
    rw [← hs3]
  obtain ⟨t1, i2, i3, i4⟩ := find_lru_inv fuel s s3 p h hfl
  obtain ⟨f1, f2, f3, f4, f5, f6, f7, f8, f9, f10, f11, f12⟩ := t1.fixed
  have hap := h.addr u1 l1 hu1 hl1 h10
  have hpe : s3.real.pte p = m.entry u1 l1 := by
    rw [r3, ea]
    unfold Mem.entry
    rw [htab u1 hu1]
  have hlt3 : m.entry u1 l1 < 4294967296 := pte_lt _ _
  have ef : GET_PAGE_ADDR (s3.real.pte p) =
      4198400 + 4096 * ((s.current_page_number + d) % s.num_entries) := by
    rw [GET_PAGE_ADDR_eq, hpe, Nat.mod_eq_of_lt hlt3, hvict.2, hfr]
  have hfit := h.cfg.fit _ hi
  have hlim := h.cfg.limit
  have hlim3 := i2.cfg.limit
  have hmp3 : s3.real_limit ≤ s3.real_mapped := by
    rw [hlim3]; exact real_mapped_ge s3 i2.cfg.rbase
  obtain ⟨r, bs1, hw, hk, hst⟩ := bs_write_view s3 (GET_PAGE_ADDR (s3.real.pte p))
    (s3.next_block_number % U32) (by rw [f10]; exact hbs) (by rw [f11, f12]; exact hbl)
    (by rw [ef, f4, hlim]; omega)
  have h4 := from_mm_to_bs_eq s3 p r bs1 (by rw [f4, hlim]; omega) hmp3
    (by rw [ef]; omega) hw
  rw [ef] at h4
  have hval : CLEAR_RESIDENT ((s3.real.pte p &&& 0x3ff) |||
      ((s3.next_block_number <<< 10) % U32)) =
      (s.next_block_number % 4194304) * 1024 + s.real.entry u1 l1 % 1024 / 4 * 4 := by
    rw [evict_entry_val, hpe, hvict.1, t1.nbn]
  rw [hval] at h4
  -- the memory after the eviction
  have hagree : ∀ x, x < 4198400 →
      (s3.real.zero (4198400 + 4096 * ((s.current_page_number + d) % s.num_entries)) 4096) x =
        s3.real x :=
    fun x hx => zero_out _ _ _ _ (by omega)
  obtain ⟨k1, k2, k3⟩ := InvG_frame s3 none _ i2 hagree
  have h13 : s3.real.table u1 ≠ 0 := by rw [t1.tab u1 hu1]; exact h10
  obtain ⟨w1, w2, w3, w4⟩ := entry_write _ none k1 u1 l1
    ((s.next_block_number % 4194304) * 1024 + s.real.entry u1 l1 % 1024 / 4 * 4) hu1 hl1
    (by rw [k2 u1 hu1]; exact h13)
  dsimp only at w1 w2 w3 w4
  rw [k2 u1 hu1, t1.tab u1 hu1, ← ea] at w1 w2 w3 w4
  have hvlt : ((s.next_block_number % 4194304) * 1024 + s.real.entry u1 l1 % 1024 / 4 * 4) %
      4294967296 = (s.next_block_number % 4194304) * 1024 + s.real.entry u1 l1 % 1024 / 4 * 4 :=
    Nat.mod_eq_of_lt (by omega)
  rw [hvlt] at w2
  generalize hs4 : ({ s3 with
    bs := bs1
    next_block_number := s3.next_block_number + 1
    evicted := s3.evicted ++ [s3.next_block_number]
    real := (s3.real.zero (4198400 + 4096 * ((s.current_page_number + d) % s.num_entries))
      4096).copy_in p (bytes32 ((s.next_block_number % 4194304) * 1024 +
        s.real.entry u1 l1 % 1024 / 4 * 4)) 4 } : State) = t at h4
  have r4 : t.real = (s3.real.zero
      (4198400 + 4096 * ((s.current_page_number + d) % s.num_entries)) 4096).copy_in p
      (bytes32 ((s.next_block_number % 4194304) * 1024 +
        s.real.entry u1 l1 % 1024 / 4 * 4)) 4 := by rw [← hs4]
  have b4 : t.bs = bs1 := by rw [← hs4]
  obtain ⟨j1, _, _, _, j5⟩ := from_mm_to_bs_inv s3 t _ p _ i2 i3 h4
  rw [c3] at j1
  have htab4 : ∀ u, u < 1024 → t.real.table u = s.real.table u := by
    intro u hu
    rw [r4, w1 u hu, k2 u hu, t1.tab u hu]
  have hent4 : ∀ u l, u < 1024 → l < 1024 → s.real.table u ≠ 0 →
      s.real.table u + l * 4 ≠ p → t.real.entry u l = m.entry u l := by
    intro u l hu hl h0 hne
    have h03 : s3.real.table u ≠ 0 := by rw [t1.tab u hu]; exact h0
    rw [r4, w3 u l hu hl (by rw [k2 u hu]; exact h03), k3 u l hu hl h03, r3]
    rintro ⟨c1, c2⟩
    subst c1; subst c2
    exact hne ea.symm
  refine ⟨p, s3, t, hfl, h4, ?_, j1, by rw [← hs4]; exact t1.rfa⟩
  refine ⟨t1.fixed.chain (from_mm_to_bs_fixed _ _ _ _ h4), ?_, ?_, ?_, ?_, ?_, htab4,
    ?_, ?_, ?_, ?_, ?_, ?_⟩
  · rw [← hs4]; exact t1.pfa
  · rw [j5, c3]
  · rw [← hs4]; show s3.next_block_number + 1 = _; rw [t1.nbn]
  · rw [← hs4]; show s3.evicted ++ [s3.next_block_number] = _; rw [t1.evicted, t1.nbn]
  · rw [← hs4]; exact t1.ent
  · intro u l hu hl h0 he
    rw [hp] at he
    have e := Option.some.inj he
    obtain ⟨c1, c2⟩ := h.tab.addr_inj u u1 l l1 hu hu1 hl hl1 h0 h10 (by rw [← e, ea])
    subst c1; subst c2
    rw [r4]; exact w2
  · intro u l j hu hl h0 hj hne he
    rw [hent4 u l hu hl h0 (fun c => hother j hne (by rw [he, c]))]
    exact hswept u l j hu hl h0 hj he
  · intro u l hu hl h0 hne
    rw [hent4 u l hu hl h0 (fun c => hne d (Nat.le_refl d) (by rw [hp, c]))]
    exact hkeep u l hu hl h0 (fun j hj => hne j (by omega))
  · intro x hx
    rw [r4, w4 x hx, ← hdata x hx, ← r3]
    unfold Mem.zero
    rfl
  · intro y hy
    rw [b4, ← t1.bs]
    apply hk
    simp only [U32_eq] at hy ⊢
    rw [t1.nbn]
    omega
  · intro hc y hy
    have e : (s3.next_block_number % U32 * 4096) % 4294967296 =
        (s.next_block_number * 4096) % U32 := by
      simp only [U32_eq]
      rw [t1.nbn]
      omega
    rw [e] at hst
    rw [b4, hst (by rw [f11]; exact hc) y hy, ef, r3]
    exact hdata _ (by omega)

end VMSim

set_option maxRecDepth 10000

namespace VMSim

/-! ### Translations that complete, with their effect -/

/-- The translation of an address whose page is resident returns the frame of
the entry plus the offset, and its effect is `Hit`. -/
theorem hit_ok (fuel : Nat) (s : State) (a : Nat) (w : Bool) (h : InvG s none)
    (h0 : s.real.table (a / 4194304 % 1024) ≠ 0)
    (hres : s.real.entry (a / 4194304 % 1024) (a / 4096 % 1024) % 2 = 1) :
    ∃ t, mmu_translate (fuel + 1) s a w = .ok
        (s.real.entry (a / 4194304 % 1024) (a / 4096 % 1024) / 4096 * 4096 + a % 4096, t) ∧
      InvG t none ∧ Hit s t (a / 4194304 % 1024) (a / 4096 % 1024) w := by
  have hu0 : a / 4194304 % 1024 < 1024 := Nat.mod_lt _ (by norm_num)
  have hl0 : a / 4096 % 1024 < 1024 := Nat.mod_lt _ (by norm_num)
  have hr := mmu_translate_resident fuel s a w h h0 hres
  have hlt : s.real.entry (a / 4194304 % 1024) (a / 4096 % 1024) < 4294967296 := pte_lt _ _
  obtain ⟨v1, v2, v3, _⟩ := translate_value _ w hlt hres
  rw [real_addr_value _ a v1] at hr
  have e : (if w = true
      then SET_DIRTY (SET_REFERENCED (s.real.entry (a / 4194304 % 1024) (a / 4096 % 1024)))
      else SET_REFERENCED (s.real.entry (a / 4194304 % 1024) (a / 4096 % 1024))) / 4096 =
      s.real.entry (a / 4194304 % 1024) (a / 4096 % 1024) / 4096 := by omega
  rw [e] at hr
  obtain ⟨i1, _⟩ := mmu_translate_inv _ s _ a w _ h hr
  obtain ⟨w1, w2, w3, w4⟩ := entry_write s none h (a / 4194304 % 1024) (a / 4096 % 1024)
    (if w = true
      then SET_DIRTY (SET_REFERENCED (s.real.entry (a / 4194304 % 1024) (a / 4096 % 1024)))
      else SET_REFERENCED (s.real.entry (a / 4194304 % 1024) (a / 4096 % 1024))) hu0 hl0 h0
  rw [Nat.mod_eq_of_lt v1] at w2
  exact ⟨_, hr, i1, Fixed.self s, rfl, rfl, rfl, rfl, rfl, rfl, rfl, w1, w2, w3, w4⟩

/-- A translation of an address whose page is not resident is a fault
followed by a translation with one level of recursion less. -/
theorem translate_fault_eq (fuel : Nat) (s : State) (a : Nat) (w : Bool) (h : InvG s none)
    (hsz : 4198400 ≤ s.real_size)
    (hnr : s.real.table (a / 4194304 % 1024) = 0 ∨
      s.real.entry (a / 4194304 % 1024) (a / 4096 % 1024) % 2 = 0) :
    mmu_translate (fuel + 1) s a w =
      (vmsim_map_fault (fuel + 1) s a >>= fun s1 => mmu_translate fuel s1 a w) := by
  have hu0 : a / 4194304 % 1024 < 1024 := Nat.mod_lt _ (by norm_num)
  have hl0 : a / 4096 % 1024 < 1024 := Nat.mod_lt _ (by norm_num)
  have hlim := h.cfg.limit
  have e1 : s.real.pte (4096 + a / 4194304 % 1024 * 4) = s.real.table (a / 4194304 % 1024) :=
    rfl
  conv_lhs => unfold mmu_translate
  simp only [h.cfg.upta, upper_addr, c_assert, bind, Except.bind, read_pte_eq]
  rw [if_pos (by decide), if_pos (by omega), e1]
  by_cases h0 : s.real.table (a / 4194304 % 1024) = 0
  · simp only [h0, if_true]
  · have hnr2 : s.real.entry (a / 4194304 % 1024) (a / 4096 % 1024) % 2 = 0 := by
      rcases hnr with c | c
      · exact absurd c h0
      · exact c
    have hT := h.tab.tab_rng _ hu0 h0
    have hpf := h.cfg.pfa_hi
    have la := lower_addr (s.real.table (a / 4194304 % 1024)) a hT.2.2 (by omega)
    have e2 : s.real.pte (s.real.table (a / 4194304 % 1024) + a / 4096 % 1024 * 4) =
        s.real.entry (a / 4194304 % 1024) (a / 4096 % 1024) := rfl
    have hnres : IS_RESIDENT (s.real.entry (a / 4194304 % 1024) (a / 4096 % 1024)) = false := by
      rw [IS_RESIDENT_eq, decide_eq_false_iff_not]; omega
    simp only [h0, if_false, la]
    rw [if_pos (by omega), e2]
    simp only [hnres, Bool.not_false, Bool.or_true, if_true]

/-- The first part of a fault on an address whose upper index has no lower
table, when the page-table area has room: the table is allocated, and the fault
goes on as a fault in the state with the table. -/
theorem fault_table_step (s : State) (a : Nat) (h : InvG s none)
    (h0 : s.real.table (a / 4194304 % 1024) = 0)
    (hroom : s.pt_free_addr + 4096 ≤ 4198400) (hsz : 4198400 ≤ s.real_size) :
    ∃ s1, (∀ fuel, vmsim_map_fault fuel s a = vmsim_map_fault fuel s1 a) ∧
      InvG s1 none ∧ NewTable s s1 (a / 4194304 % 1024) := by
  have hu0 : a / 4194304 % 1024 < 1024 := Nat.mod_lt _ (by norm_num)
  have hlim := h.cfg.limit
  have hlo := h.cfg.pfa_lo
  have hmp := real_mapped_ge s h.cfg.rbase
  have b1 := allocate_pt_eq s h.cfg.pfa_al hroom (by omega)
  have b2 : write_pte { s with
      pt_free_addr := s.pt_free_addr + 4096
      real := s.real.zero s.pt_free_addr 4096 } s.pt_free_addr
      (4096 + a / 4194304 % 1024 * 4) = .ok { s with
        pt_free_addr := s.pt_free_addr + 4096
        real := (s.real.zero s.pt_free_addr 4096).copy_in (4096 + a / 4194304 % 1024 * 4)
          (bytes32 s.pt_free_addr) 4 } := by
    rw [write_pte_eq, if_pos (by show _ ≤ s.real_limit; omega)]
  obtain ⟨q1, q2, q3, q4⟩ := fault_table_inv s _ _ _ _ h hu0 h0 b1 b2
  obtain ⟨v0, v1, v2, v3⟩ := new_table_view s.real s.pt_free_addr _ hu0 hlo (by omega)
  refine ⟨_, fun fuel => ?_, q1, ?_⟩
  · have e1 : s.real.pte (4096 + a / 4194304 % 1024 * 4) =
        s.real.table (a / 4194304 % 1024) := rfl
    have e2 : ((s.real.zero s.pt_free_addr 4096).copy_in (4096 + a / 4194304 % 1024 * 4)
        (bytes32 s.pt_free_addr) 4).pte (4096 + a / 4194304 % 1024 * 4) = s.pt_free_addr := v0
    have hne : s.pt_free_addr ≠ 0 := by omega
    have eu : (s.upper_pt + GET_UPPER_INDEX a * 4) % U32 = 4096 + a / 4194304 % 1024 * 4 := by
      rw [h.cfg.upt, upper_addr]
    have hup : (s.upper_pt != 0) = true := by rw [h.cfg.upt]; decide
    conv_lhs => unfold vmsim_map_fault
    conv_rhs => unfold vmsim_map_fault
    have hr1 : 4096 + a / 4194304 % 1024 * 4 + 4 ≤ s.real_limit := by omega
    simp only [eu, hup, c_assert, bind, Except.bind, read_pte_eq, hr1, if_true, e1, e2, h0,
      b1, hne, bne_iff_ne, ne_eq, not_false_eq_true, decide_True, b2, pure, Except.pure,
      if_false]
  · refine ⟨Fixed.self s, rfl, rfl, rfl, rfl, rfl, rfl, rfl, v0, v1, v2, ?_, ?_⟩
    · intro u l hu hl hn
      have hne : u ≠ a / 4194304 % 1024 := fun e => hn (by rw [e]; exact h0)
      have := h.tab.tab_rng u hu hn
      exact v3 u l hu hl hne (by omega) (by omega)
    · intro x hx
      show ((s.real.zero s.pt_free_addr 4096).copy_in _ _ 4) x = _
      rw [copy_in_out _ _ _ _ _ (by omega), zero_out _ _ _ _ (by omega)]

end VMSim

set_option maxRecDepth 10000

namespace VMSim

theorem allocate_real_page_fresh (fuel : Nat) (s : State) (h : CfgOK s)
    (hfree : s.real_free_addr + 4096 ≤ s.real_size) :
    allocate_real_page fuel s = .ok (s.real_free_addr, { s with
      real_free_addr := s.real_free_addr + 4096
      real := s.real.zero s.real_free_addr 4096 }) := by
  have hal := h.rfa_al
  have hhi := h.size_hi
  have hmp := real_mapped_ge s h.rbase
  have e : (s.real_free_addr + 4096) % 4294967296 = s.real_free_addr + 4096 :=
    Nat.mod_eq_of_lt (by omega)
  have hmem : memset_page { s with real_free_addr := s.real_free_addr + 4096 }
      s.real_free_addr = .ok { s with
        real_free_addr := s.real_free_addr + 4096
        real := s.real.zero s.real_free_addr 4096 } :=
    memset_page_eq _ _ (by show _ ≤ s.real_mapped; omega)
  unfold allocate_real_page
  simp only [PAGESIZE_eq, U32_eq, IS_ALIGNED_eq, hal, e, decide_True, Bool.not_true,
    Bool.false_eq_true, if_false, gt_iff_lt, Nat.not_lt.mpr hfree, hmem, bind, Except.bind,
    pure, Except.pure]

/-- A fault on an address whose lower table exists and whose page was never
mapped, while a frame is free: the page gets the frame at the cursor. -/
theorem fault_fresh (s : State) (a : Nat) (h : InvG s none)
    (h0 : s.real.table (a / 4194304 % 1024) ≠ 0)
    (hz : s.real.entry (a / 4194304 % 1024) (a / 4096 % 1024) = 0)
    (hfree : s.real_free_addr + 4096 ≤ s.real_size) :
    ∃ t, (∀ fuel, vmsim_map_fault fuel s a = .ok t) ∧ InvG t none ∧
      Given s t (a / 4194304 % 1024) (a / 4096 % 1024) ((s.real_free_addr - 4198400) / 4096)
        (s.real_free_addr + 1) ∧
      t.real_free_addr = s.real_free_addr + 4096 ∧
      (∀ x, 4198400 ≤ x → t.real x =
        if s.real_free_addr ≤ x ∧ x < s.real_free_addr + 4096 then 0 else s.real x) := by
  have hu0 : a / 4194304 % 1024 < 1024 := Nat.mod_lt _ (by norm_num)
  have hl0 : a / 4096 % 1024 < 1024 := Nat.mod_lt _ (by norm_num)
  have hlim := h.cfg.limit
  have hal := h.cfg.rfa_al
  have hlo := h.cfg.rfa_lo
  have hhi := h.cfg.size_hi
  have hT := h.tab.tab_rng _ hu0 h0
  have hpf := h.cfg.pfa_hi
  have ha := h.addr _ _ hu0 hl0 h0
  have hN := h.cfg.slots (by omega)
  have la := lower_addr (s.real.table (a / 4194304 % 1024)) a hT.2.2 (by omega)
  have e1 : s.real.pte (4096 + a / 4194304 % 1024 * 4) = s.real.table (a / 4194304 % 1024) :=
    rfl
  have e2 : s.real.pte (s.real.table (a / 4194304 % 1024) + a / 4096 % 1024 * 4) =
      s.real.entry (a / 4194304 % 1024) (a / 4096 % 1024) := rfl
  have eu : (s.upper_pt + GET_UPPER_INDEX a * 4) % U32 = 4096 + a / 4194304 % 1024 * 4 := by
    rw [h.cfg.upt, upper_addr]
  have hup : (s.upper_pt != 0) = true := by rw [h.cfg.upt]; decide
  have hr1 : 4096 + a / 4194304 % 1024 * 4 + 4 ≤ s.real_limit := by omega
  have hr2 : s.real.table (a / 4194304 % 1024) + a / 4096 % 1024 * 4 + 4 ≤ s.real_limit := by
    omega
  have hap := fun fuel => allocate_real_page_fresh fuel s h.cfg hfree
  have hm : (s.real_free_addr + 1) % 4294967296 = s.real_free_addr + 1 :=
    Nat.mod_eq_of_lt (by omega)
  have hsr : SET_RESIDENT s.real_free_addr = s.real_free_addr + 1 := by
    rw [SET_RESIDENT_eq]; omega
  have hres : IS_RESIDENT (s.real_free_addr + 1) = true := by
    rw [IS_RESIDENT_eq, decide_eq_true_eq]; omega
  have hsn : ((s.real_free_addr + U32 - PT_AREA_SIZE) % U32) / PAGESIZE =
      (s.real_free_addr - 4198400) / 4096 := by
    simp only [U32_eq, PT_AREA_SIZE_eq, PAGESIZE_eq]
    omega
  have hsl : (s.real_free_addr - 4198400) / 4096 < s.num_entries := by
    rw [hN]; omega
  have hfault : ∀ fuel, vmsim_map_fault fuel s a = .ok { s with
      real_free_addr := s.real_free_addr + 4096
      real := (s.real.zero s.real_free_addr 4096).copy_in
        (s.real.table (a / 4194304 % 1024) + a / 4096 % 1024 * 4)
        (bytes32 (s.real_free_addr + 1)) 4
      entries := fun j => if j = (s.real_free_addr - 4198400) / 4096
        then some (s.real.table (a / 4194304 % 1024) + a / 4096 % 1024 * 4)
        else s.entries j } := by
    intro fuel
    unfold vmsim_map_fault
    simp only [eu, hup, c_assert, bind, Except.bind, read_pte_eq, hr1, if_true, e1, h0,
      if_false, pure, Except.pure, la, hr2, e2, hz, hap fuel, hsr, write_pte_eq, hsn, set_entry,
      h.cfg.ebase, hsl, decide_True, Bool.and_self, hres, Bool.not_true, Bool.false_eq_true]
  obtain ⟨i1, _⟩ := vmsim_map_fault_inv 0 s _ a h (hfault 0)
  have hagree : ∀ x, x < 4198400 → (s.real.zero s.real_free_addr 4096) x = s.real x :=
    fun x hx => zero_out _ _ _ _ (by omega)
  obtain ⟨k1, k2, k3⟩ := InvG_frame s none _ h hagree
  obtain ⟨w1, w2, w3, w4⟩ := entry_write _ none k1 (a / 4194304 % 1024) (a / 4096 % 1024)
    (s.real_free_addr + 1) hu0 hl0 (by rw [k2 _ hu0]; exact h0)
  dsimp only at w1 w2 w3 w4
  rw [k2 _ hu0] at w1 w2 w3 w4
  rw [hm] at w2
  refine ⟨_, hfault, i1, ?_, rfl, ?_⟩
  · refine ⟨Fixed.self s, rfl, rfl, rfl, rfl, rfl, ?_, w2, ?_, fun j => rfl⟩
    · intro u hu
      exact (w1 u hu).trans (k2 u hu)
    · intro u l hu hl hn hne
      exact (w3 u l hu hl (by rw [k2 u hu]; exact hn) hne).trans (k3 u l hu hl hn)
  · intro x hx
    show ((s.real.zero s.real_free_addr 4096).copy_in _ _ 4) x = _
    rw [w4 x hx]
    rfl

end VMSim

set_option maxRecDepth 10000

namespace VMSim

theorem bs_read_view (s : State) (f b : Nat) (hb : s.bs_base = true)
    (hl : s.bs_limit ≤ mapped_len s.bs_size) (hf : f + 4096 ≤ s.real_limit) :
    ∃ r m, bs_read s f b = .ok (r, { s with real := m }) ∧
      (∀ x, x < f ∨ f + 4096 ≤ x → m x = s.real x) ∧
      ((b * 4096) % 4294967296 < s.bs_limit → ∀ y, y < 4096 →
        m (f + y) = s.bs ((b * 4096) % 4294967296 + y)) := by
  by_cases c : s.bs_limit ≤ (b * 4096) % 4294967296
  · exact ⟨false, s.real, bs_read_out s f b c, fun _ _ => rfl, fun h => absurd c (by omega)⟩
  · refine ⟨true, _, bs_read_in s f b hb hl (by omega) hf,
      fun x hx => copy_in_out _ _ _ _ _ hx, fun _ y hy => ?_⟩
    rw [copy_in_in _ _ _ _ _ (by omega) (by omega)]
    show s.bs ((b * 4096) % 4294967296 + (f + y - f)) = _
    rw [Nat.add_sub_cancel_left]

/-- No directory slot points at an entry that is not resident. -/
theorem InvG.slot_resident {s : State} (h : InvG s none) (u l i : Nat) (hu : u < 1024)
    (hl : l < 1024) (h0 : s.real.table u ≠ 0) (hnr : s.real.entry u l % 2 = 0) :
    s.entries i ≠ some (s.real.table u + l * 4) := by
  intro he
  obtain ⟨_, u2, l2, hu2, hl2, h02, ea, hres, _, _⟩ := h.slot i _ he
  obtain ⟨c1, c2⟩ := h.tab.addr_inj u u2 l l2 hu hu2 hl hl2 h0 h02 ea
  subst c1; subst c2
  omega

/-- A fault on an address whose lower table exists and whose page was never
mapped, while no frame is free: a victim is evicted after the search passed
`d` slots, and the page gets the victim's frame. -/
theorem fault_replace (fuel : Nat) (s : State) (a d : Nat) (h : InvG s none)
    (hbs : s.bs_base = true) (hbl : s.bs_limit ≤ mapped_len s.bs_size)
    (h0 : s.real.table (a / 4194304 % 1024) ≠ 0)
    (hz : s.real.entry (a / 4194304 % 1024) (a / 4096 % 1024) = 0)
    (hN : 1 ≤ s.num_entries) (hsz : 4198400 ≤ s.real_size)
    (hfull : s.real_size < s.real_free_addr + 4096)
    (hwrap : s.real_free_addr + 8192 ≤ 4294967296)
    (hd : Passes s d) (hfuel : d ≤ fuel) :
    ∃ s4 t, vmsim_map_fault fuel s a = .ok t ∧ InvG t none ∧ Evict s s4 d ∧
      Given s4 t (a / 4194304 % 1024) (a / 4096 % 1024)
        ((s.current_page_number + d) % s.num_entries)
        (4198400 + 4096 * ((s.current_page_number + d) % s.num_entries) + 1) ∧
      t.real_free_addr = s.real_free_addr + 4096 ∧
      (∀ x, 4198400 ≤ x → t.real x = s4.real x) := by
  have hu0 : a / 4194304 % 1024 < 1024 := Nat.mod_lt _ (by norm_num)
  have hl0 : a / 4096 % 1024 < 1024 := Nat.mod_lt _ (by norm_num)
  have hlim := h.cfg.limit
  have hal := h.cfg.rfa_al
  have hlo := h.cfg.rfa_lo
  have hhi := h.cfg.size_hi
  have hT := h.tab.tab_rng _ hu0 h0
  have hpf := h.cfg.pfa_hi
  have ha := h.addr _ _ hu0 hl0 h0
  have hNe := h.cfg.slots hsz
  have hvl : (s.current_page_number + d) % s.num_entries < s.num_entries :=
    Nat.mod_lt _ (by omega)
  have hfr : State.frames { s with real_free_addr := s.real_free_addr + 4096 } =
      s.num_entries := by
    show min ((s.real_free_addr + 4096 - PT_AREA_SIZE) / PAGESIZE) s.num_entries = _
    rw [PT_AREA_SIZE_eq, PAGESIZE_eq]
    have : s.num_entries ≤ (s.real_free_addr + 4096 - 4198400) / 4096 := by
      rw [hNe]; omega
    exact Nat.min_eq_right this
  have hfr0 : s.frames = s.num_entries := by
    show min ((s.real_free_addr - PT_AREA_SIZE) / PAGESIZE) s.num_entries = _
    rw [PT_AREA_SIZE_eq, PAGESIZE_eq]
    have : s.num_entries ≤ (s.real_free_addr - 4198400) / 4096 := by
      rw [hNe]; omega
    exact Nat.min_eq_right this
  have hi1 : InvG { s with real_free_addr := s.real_free_addr + 4096 } none :=
    ⟨CfgOK_rfa s h.cfg hwrap hsz,
      TabOK_view s _ none h.tab rfl (hfr.trans hfr0.symm) (Nat.le_refl _) rfl (fun _ _ => rfl)
        (fun _ _ _ _ _ => Or.inl rfl)⟩
  have hd1 : Passes { s with real_free_addr := s.real_free_addr + 4096 } d :=
    ⟨hd.le, hd.refd, hd.stop⟩
  obtain ⟨p, s3, s4, hfl, hev, E, j1, jr⟩ :=
    evict_ok fuel _ d hi1 hbs hbl hfr hN hd1 hfuel
  have E0 : Evict s s4 d :=
    ⟨E.fixed, E.pfa, E.hand, E.nbn, E.evicted, E.dir, E.tab, E.victim, E.swept, E.low,
      E.data, E.store_keep, E.store⟩
  obtain ⟨f1, f2, f3, f4, f5, f6, f7, f8, f9, f10, f11, f12⟩ := E0.fixed
  have la := lower_addr (s.real.table (a / 4194304 % 1024)) a hT.2.2 (by omega)
  have e1 : s.real.pte (4096 + a / 4194304 % 1024 * 4) = s.real.table (a / 4194304 % 1024) :=
    rfl
  have e2 : s.real.pte (s.real.table (a / 4194304 % 1024) + a / 4096 % 1024 * 4) =
      s.real.entry (a / 4194304 % 1024) (a / 4096 % 1024) := rfl
  have eu : (s.upper_pt + GET_UPPER_INDEX a * 4) % U32 = 4096 + a / 4194304 % 1024 * 4 := by
    rw [h.cfg.upt, upper_addr]
  have hup : (s.upper_pt != 0) = true := by rw [h.cfg.upt]; decide
  have hr1 : 4096 + a / 4194304 % 1024 * 4 + 4 ≤ s.real_limit := by omega
  have hr2 : s.real.table (a / 4194304 % 1024) + a / 4096 % 1024 * 4 + 4 ≤ s.real_limit := by
    omega
  have hr4 : s.real.table (a / 4194304 % 1024) + a / 4096 % 1024 * 4 + 4 ≤ s4.real_limit := by
    rw [f4]; exact hr2
  have em : (s.real_free_addr + 4096) % 4294967296 = s.real_free_addr + 4096 :=
    Nat.mod_eq_of_lt (by omega)
  have hap : allocate_real_page fuel s =
      .ok (4198400 + 4096 * ((s.current_page_number + d) % s.num_entries), s4) := by
    unfold allocate_real_page
    simp only [PAGESIZE_eq, U32_eq, IS_ALIGNED_eq, hal, em, decide_True, Bool.not_true,
      Bool.false_eq_true, if_false, gt_iff_lt, hfull, if_true, hfl, bind, Except.bind]
    exact hev
  have hfit : 4198400 + 4096 * ((s.current_page_number + d) % s.num_entries) + 4096 ≤
      s.real_size := by
    omega
  have hsr : SET_RESIDENT (4198400 + 4096 * ((s.current_page_number + d) % s.num_entries)) =
      4198400 + 4096 * ((s.current_page_number + d) % s.num_entries) + 1 := by
    rw [SET_RESIDENT_eq]; omega
  have hres : IS_RESIDENT
      (4198400 + 4096 * ((s.current_page_number + d) % s.num_entries) + 1) = true := by
    rw [IS_RESIDENT_eq, decide_eq_true_eq]; omega
  have hsn : ((4198400 + 4096 * ((s.current_page_number + d) % s.num_entries) + U32 -
      PT_AREA_SIZE) % U32) / PAGESIZE = (s.current_page_number + d) % s.num_entries :=
    slot_number _ (by omega)
  have hsl : (s.current_page_number + d) % s.num_entries < s4.num_entries := by
    rw [f9]; exact hvl
  have hm : (4198400 + 4096 * ((s.current_page_number + d) % s.num_entries) + 1) %
      4294967296 = 4198400 + 4096 * ((s.current_page_number + d) % s.num_entries) + 1 :=
    Nat.mod_eq_of_lt (by omega)
  have he4 : s4.entries_base = true := by rw [f8]; exact h.cfg.ebase
  have hfault : vmsim_map_fault fuel s a = .ok { s4 with
      real := s4.real.copy_in (s.real.table (a / 4194304 % 1024) + a / 4096 % 1024 * 4)
        (bytes32 (4198400 + 4096 * ((s.current_page_number + d) % s.num_entries) + 1)) 4
      entries := fun j => if j = (s.current_page_number + d) % s.num_entries
        then some (s.real.table (a / 4194304 % 1024) + a / 4096 % 1024 * 4)
        else s4.entries j } := by
    unfold vmsim_map_fault
    simp only [eu, hup, c_assert, bind, Except.bind, read_pte_eq, hr1, if_true, e1, h0,
      if_false, pure, Except.pure, la, hr2, e2, hz, hap, hsr, write_pte_eq, hr4, hsn, set_entry,
      he4, hsl, decide_True, Bool.and_self, hres, Bool.not_true, Bool.false_eq_true]
  obtain ⟨i1, _⟩ := vmsim_map_fault_inv fuel s _ a h hfault
  have h04 : s4.real.table (a / 4194304 % 1024) ≠ 0 := by rw [E0.tab _ hu0]; exact h0
  obtain ⟨w1, w2, w3, w4⟩ := entry_write s4 _ j1 (a / 4194304 % 1024) (a / 4096 % 1024)
    (4198400 + 4096 * ((s.current_page_number + d) % s.num_entries) + 1) hu0 hl0 h04
  rw [hm] at w2
  rw [E0.tab _ hu0] at w1 w2 w3 w4
  refine ⟨s4, _, hfault, i1, E0, ?_, jr, w4⟩
  refine ⟨Fixed.self s4, rfl, rfl, rfl, rfl, rfl, w1, w2, w3, fun j => ?_⟩
  show (if j = _ then some (s.real.table _ + _) else _) = _
  rw [E0.tab _ hu0]

end VMSim

set_option maxRecDepth 10000

namespace VMSim

/-- A fault on an address whose page is swapped out, with every frame in
use: a victim is evicted after the search passed `d` slots, and the page is
loaded into the victim's frame from the block numbered by bits 10..23 of its
entry. -/
theorem fault_swap_in (fuel : Nat) (s : State) (a d : Nat) (h : InvG s none)
    (hbs : s.bs_base = true) (hbl : s.bs_limit ≤ mapped_len s.bs_size)
    (hfull : s.frames = s.num_entries) (hN : 1 ≤ s.num_entries)
    (h0 : s.real.table (a / 4194304 % 1024) ≠ 0)
    (hne : s.real.entry (a / 4194304 % 1024) (a / 4096 % 1024) ≠ 0)
    (hnr : s.real.entry (a / 4194304 % 1024) (a / 4096 % 1024) % 2 = 0)
    (hd : Passes s d) (hfuel : d ≤ fuel) :
    ∃ s4 t, vmsim_map_fault fuel s a = .ok t ∧ InvG t none ∧ Evict s s4 d ∧
      Given s4 t (a / 4194304 % 1024) (a / 4096 % 1024)
        ((s.current_page_number + d) % s.num_entries)
        (4198400 + 4096 * ((s.current_page_number + d) % s.num_entries) +
          s.real.entry (a / 4194304 % 1024) (a / 4096 % 1024) % 1024 / 2 * 2 + 1) ∧
      t.real_free_addr = s.real_free_addr ∧
      (∀ x, 4198400 ≤ x →
        x < 4198400 + 4096 * ((s.current_page_number + d) % s.num_entries) ∨
          4198400 + 4096 * ((s.current_page_number + d) % s.num_entries) + 4096 ≤ x →
        t.real x = s4.real x) ∧
      ((s.real.entry (a / 4194304 % 1024) (a / 4096 % 1024) / 1024 % 16384) * 4096 <
          s.bs_limit → ∀ y, y < 4096 →
        t.real (4198400 + 4096 * ((s.current_page_number + d) % s.num_entries) + y) =
          s4.bs ((s.real.entry (a / 4194304 % 1024) (a / 4096 % 1024) / 1024 % 16384) * 4096
            + y)) := by
  have hu0 : a / 4194304 % 1024 < 1024 := Nat.mod_lt _ (by norm_num)
  have hl0 : a / 4096 % 1024 < 1024 := Nat.mod_lt _ (by norm_num)
  obtain ⟨_, _, hsz⟩ := h.slots_ok hfull hN
  have hlim := h.cfg.limit
  have hhi := h.cfg.size_hi
  have hT := h.tab.tab_rng _ hu0 h0
  have hpf := h.cfg.pfa_hi
  have ha := h.addr _ _ hu0 hl0 h0
  have hNe := h.cfg.slots (by omega)
  have hvl : (s.current_page_number + d) % s.num_entries < s.num_entries :=
    Nat.mod_lt _ (by omega)
  obtain ⟨p, s3, s4, hfl, hev, E, j1, jr⟩ := evict_ok fuel s d h hbs hbl hfull hN hd hfuel
  obtain ⟨f1, f2, f3, f4, f5, f6, f7, f8, f9, f10, f11, f12⟩ := E.fixed
  have hfit : 4198400 + 4096 * ((s.current_page_number + d) % s.num_entries) + 4096 ≤
      s.real_size := by
    omega
  -- the page's entry is as it was
  have e4 : s4.real.entry (a / 4194304 % 1024) (a / 4096 % 1024) =
      s.real.entry (a / 4194304 % 1024) (a / 4096 % 1024) :=
    E.low _ _ hu0 hl0 h0 (fun j _ => h.slot_resident _ _ _ hu0 hl0 h0 hnr)
  have h04 : s4.real.table (a / 4194304 % 1024) ≠ 0 := by rw [E.tab _ hu0]; exact h0
  have hp4 : s4.real.pte (s.real.table (a / 4194304 % 1024) + a / 4096 % 1024 * 4) =
      s.real.entry (a / 4194304 % 1024) (a / 4096 % 1024) := by
    rw [← e4]
    unfold Mem.entry
    rw [E.tab _ hu0]
  have hblk : (s4.real.pte (s.real.table (a / 4194304 % 1024) + a / 4096 % 1024 * 4) &&&
      0xfffc00) >>> 10 =
      s.real.entry (a / 4194304 % 1024) (a / 4096 % 1024) / 1024 % 16384 := by
    rw [hp4]; exact and_block_mask _
  obtain ⟨r5, m5, hr5, hag, hld⟩ := bs_read_view s4
    (4198400 + 4096 * ((s.current_page_number + d) % s.num_entries))
    ((s4.real.pte (s.real.table (a / 4194304 % 1024) + a / 4096 % 1024 * 4) &&& 0xfffc00)
      >>> 10)
    (by rw [f10]; exact hbs) (by rw [f11, f12]; exact hbl) (by rw [f4, hlim]; exact hfit)
  have hsn : ((4198400 + 4096 * ((s.current_page_number + d) % s.num_entries) + U32 -
      PT_AREA_SIZE) % U32) / PAGESIZE = (s.current_page_number + d) % s.num_entries :=
    slot_number _ (by omega)
  have h5 := from_bs_to_mm_eq s4 (s.real.table (a / 4194304 % 1024) + a / 4096 % 1024 * 4)
    (4198400 + 4096 * ((s.current_page_number + d) % s.num_entries)) r5 m5
    (by rw [f4, hlim]; omega) (by rw [f8]; exact h.cfg.ebase) (by rw [hsn, f9]; exact hvl) hr5
  rw [hsn, hp4, install_entry_val _ _ (by omega)] at h5
  -- the whole fault
  have la := lower_addr (s.real.table (a / 4194304 % 1024)) a hT.2.2 (by omega)
  have e1 : s.real.pte (4096 + a / 4194304 % 1024 * 4) = s.real.table (a / 4194304 % 1024) :=
    rfl
  have e2 : s.real.pte (s.real.table (a / 4194304 % 1024) + a / 4096 % 1024 * 4) =
      s.real.entry (a / 4194304 % 1024) (a / 4096 % 1024) := rfl
  have eu : (s.upper_pt + GET_UPPER_INDEX a * 4) % U32 = 4096 + a / 4194304 % 1024 * 4 := by
    rw [h.cfg.upt, upper_addr]
  have hup : (s.upper_pt != 0) = true := by rw [h.cfg.upt]; decide
  have hr1 : 4096 + a / 4194304 % 1024 * 4 + 4 ≤ s.real_limit := by omega
  have hr2 : s.real.table (a / 4194304 % 1024) + a / 4096 % 1024 * 4 + 4 ≤ s.real_limit := by
    omega
  have hnres : IS_RESIDENT (s.real.entry (a / 4194304 % 1024) (a / 4096 % 1024)) = false := by
    rw [IS_RESIDENT_eq, decide_eq_false_iff_not]; omega
  have hfault : vmsim_map_fault fuel s a = from_bs_to_mm s4
      (s.real.table (a / 4194304 % 1024) + a / 4096 % 1024 * 4)
      (4198400 + 4096 * ((s.current_page_number + d) % s.num_entries)) := by
    unfold vmsim_map_fault
    simp only [eu, hup, c_assert, bind, Except.bind, read_pte_eq, hr1, if_true, e1, h0,
      if_false, pure, Except.pure, la, hr2, e2, hne, hnres, Bool.not_false, hfl]
    unfold swap_pages
    simp only [bind, Except.bind, hev]
  rw [h5] at hfault
  obtain ⟨i1, _⟩ := vmsim_map_fault_inv fuel s _ a h hfault
  have hag' : ∀ x, x < 4198400 → m5 x = s4.real x := fun x hx => hag x (by omega)
  obtain ⟨k1, k2, k3⟩ := InvG_frame s4 _ m5 j1 hag'
  obtain ⟨w1, w2, w3, w4⟩ := entry_write _ _ k1 (a / 4194304 % 1024) (a / 4096 % 1024)
    (4198400 + 4096 * ((s.current_page_number + d) % s.num_entries) +
      s.real.entry (a / 4194304 % 1024) (a / 4096 % 1024) % 1024 / 2 * 2 + 1) hu0 hl0
    (by rw [k2 _ hu0]; exact h04)
  dsimp only at w1 w2 w3 w4
  have hm : (4198400 + 4096 * ((s.current_page_number + d) % s.num_entries) +
      s.real.entry (a / 4194304 % 1024) (a / 4096 % 1024) % 1024 / 2 * 2 + 1) % 4294967296 =
      4198400 + 4096 * ((s.current_page_number + d) % s.num_entries) +
      s.real.entry (a / 4194304 % 1024) (a / 4096 % 1024) % 1024 / 2 * 2 + 1 :=
    Nat.mod_eq_of_lt (by omega)
  rw [hm] at w2
  rw [k2 _ hu0, E.tab _ hu0] at w1 w2 w3 w4
  refine ⟨s4, _, hfault, i1, E, ?_, jr, ?_, ?_⟩
  · refine ⟨Fixed.self s4, rfl, rfl, rfl, rfl, rfl, ?_, w2, ?_, fun j => ?_⟩
    · intro u hu
      exact (w1 u hu).trans (k2 u hu)
    · intro u l hu hl hn hne2
      exact (w3 u l hu hl (by rw [k2 u hu]; exact hn) hne2).trans (k3 u l hu hl hn)
    · show (if j = _ then some (s.real.table _ + _) else _) = _
      rw [E.tab _ hu0]
  · intro x hx hout
    show (m5.copy_in _ _ 4) x = _
    rw [w4 x hx]
    exact hag x hout
  · intro hc y hy
    show (m5.copy_in _ _ 4) _ = _
    rw [w4 _ (by omega)]
    rw [hblk] at hld
    have eo : (s.real.entry (a / 4194304 % 1024) (a / 4096 % 1024) / 1024 % 16384 * 4096) %
        4294967296 =
        s.real.entry (a / 4194304 % 1024) (a / 4096 % 1024) / 1024 % 16384 * 4096 :=
      Nat.mod_eq_of_lt (by omega)
    rw [eo] at hld
    exact hld (by rw [f11]; exact hc) y hy

end VMSim

set_option maxRecDepth 10000

namespace VMSim

/-- The first part of a fault, whether or not the lower table exists. -/
theorem table_ready (s : State) (a : Nat) (h : InvG s none) (hsz : 4198400 ≤ s.real_size)
    (hroom : s.real.table (a / 4194304 % 1024) = 0 → s.pt_free_addr + 4096 ≤ 4198400) :
    ∃ s1, (∀ fuel, vmsim_map_fault fuel s a = vmsim_map_fault fuel s1 a) ∧
      InvG s1 none ∧ Tabled s s1 (a / 4194304 % 1024) ∧
      (∀ i, s1.slot_pte i = s.slot_pte i) := by
  have hu0 : a / 4194304 % 1024 < 1024 := Nat.mod_lt _ (by norm_num)
  by_cases h0 : s.real.table (a / 4194304 % 1024) = 0
  · obtain ⟨s1, hf, i1, T⟩ := fault_table_step s a h h0 (hroom h0) hsz
    have hpf := h.cfg.pfa_lo
    have hkeep : ∀ u, u < 1024 → s.real.table u ≠ 0 → s1.real.table u = s.real.table u :=
      fun u hu hn => T.tab u hu (fun e => hn (by rw [e]; exact h0))
    refine ⟨s1, hf, i1, ⟨T.fixed, T.rfa, T.hand, T.nbn, T.evicted, T.dir, T.bs, hkeep,
      by rw [T.tab_new]; omega, fun u hu hne hz => by rw [T.tab u hu hne]; exact hz, T.low,
      fun _ => T.low_new, T.data⟩, fun i => ?_⟩
    unfold State.slot_pte
    rw [T.dir]
    cases he : s.entries i with
    | none => rfl
    | some p =>
      obtain ⟨_, u, l, hu, hl, hn, ea, _, _, hpte⟩ := h.slot i p he
      show s1.real.pte p = s.real.pte p
      rw [hpte, ← T.low u l hu hl hn, ea]
      unfold Mem.entry
      rw [hkeep u hu hn]
  · exact ⟨s, fun _ => rfl, h, ⟨Fixed.self s, rfl, rfl, rfl, rfl, rfl, rfl, fun _ _ _ => rfl,
      h0, fun _ _ _ hz => hz, fun _ _ _ _ _ => rfl, fun c => absurd c h0, fun _ _ => rfl⟩,
      fun _ => rfl⟩

/-- The value of an entry after REFERENCED (and DIRTY for a write) is set in
an entry that holds a page-aligned frame address and RESIDENT only. -/
theorem hit_value_new (f : Nat) (w : Bool) (hf : f % 4096 = 0) :
    (if w = true then SET_DIRTY (SET_REFERENCED (f + 1)) else SET_REFERENCED (f + 1)) =
      f + (if w = true then 7 else 3) := by
  cases w
  · simp only [Bool.false_eq_true, if_false]
    rw [SET_REFERENCED_eq]; omega
  · simp only [if_true]
    rw [SET_DIRTY_eq, SET_REFERENCED_eq]; omega

/-- The translation of an address whose page was never mapped, while a frame
is free and the page-table area has room for the lower table if it is
missing: it returns, after one fault, the address in the frame at the cursor;
its effect is `Fresh`. -/
theorem translate_fresh (fuel : Nat) (s : State) (a : Nat) (w : Bool) (h : InvG s none)
    (hroom : s.real.table (a / 4194304 % 1024) = 0 → s.pt_free_addr + 4096 ≤ 4198400)
    (hz : s.real.table (a / 4194304 % 1024) ≠ 0 →
      s.real.entry (a / 4194304 % 1024) (a / 4096 % 1024) = 0)
    (hfree : s.real_free_addr + 4096 ≤ s.real_size) :
    ∃ t1 t, vmsim_map_fault (fuel + 2) s a = .ok t1 ∧
      mmu_translate (fuel + 1) t1 a w = .ok (s.real_free_addr + a % 4096, t) ∧
      mmu_translate (fuel + 2) s a w = .ok (s.real_free_addr + a % 4096, t) ∧
      InvG t none ∧ Fresh s t (a / 4194304 % 1024) (a / 4096 % 1024) w := by
  have hu0 : a / 4194304 % 1024 < 1024 := Nat.mod_lt _ (by norm_num)
  have hl0 : a / 4096 % 1024 < 1024 := Nat.mod_lt _ (by norm_num)
  have hlo := h.cfg.rfa_lo
  have hal := h.cfg.rfa_al
  have hsz : 4198400 ≤ s.real_size := by omega
  obtain ⟨s1, hf1, i1, T, _⟩ := table_ready s a h hsz hroom
  have hz1 : s1.real.entry (a / 4194304 % 1024) (a / 4096 % 1024) = 0 := by
    by_cases c : s.real.table (a / 4194304 % 1024) = 0
    · exact T.low_new c _ hl0
    · rw [T.low _ _ hu0 hl0 c]; exact hz c
  obtain ⟨f1, f2, f3, f4, f5, f6, f7, f8, f9, f10, f11, f12⟩ := T.fixed
  obtain ⟨t1, hf2, i2, G, gr, gd⟩ := fault_fresh s1 a i1 T.tab_new hz1
    (by rw [T.rfa, f5]; exact hfree)
  rw [T.rfa] at G gr gd
  have h01 : t1.real.table (a / 4194304 % 1024) ≠ 0 := by rw [G.tab _ hu0]; exact T.tab_new
  obtain ⟨t, ht, i3, H⟩ := hit_ok fuel t1 a w i2 h01 (by rw [G.new]; omega)
  have er : t1.real.entry (a / 4194304 % 1024) (a / 4096 % 1024) / 4096 * 4096 =
      s.real_free_addr := by rw [G.new]; omega
  rw [er] at ht
  have hfa : vmsim_map_fault (fuel + 2) s a = .ok t1 := by rw [hf1]; exact hf2 _
  have hwhole : mmu_translate (fuel + 2) s a w = .ok (s.real_free_addr + a % 4096, t) := by
    rw [translate_fault_eq (fuel + 1) s a w h hsz (by
      by_cases c : s.real.table (a / 4194304 % 1024) = 0
      · exact Or.inl c
      · exact Or.inr (by rw [hz c])), hfa]
    exact ht
  refine ⟨t1, t, hfa, ht, hwhole, i3, ?_⟩
  have hnew : t.real.entry (a / 4194304 % 1024) (a / 4096 % 1024) =
      s.real_free_addr + (if w = true then 7 else 3) := by
    rw [H.new, G.new]; exact hit_value_new _ w hal
  have htk : ∀ u, u < 1024 → t.real.table u = s1.real.table u := fun u hu =>
    (H.tab u hu).trans (G.tab u hu)
  refine ⟨(T.fixed.chain G.fixed).chain H.fixed, ?_, ?_, ?_, ?_, ?_, ?_, ?_, ?_, hnew, ?_, ?_,
    ?_, ?_⟩
  · rw [H.rfa, gr]
  · rw [H.hand, G.hand, T.hand]
  · rw [H.nbn, G.nbn, T.nbn]
  · rw [H.evicted, G.evicted, T.evicted]
  · rw [H.bs, G.bs, T.bs]
  · intro u hu hn
    rw [htk u hu, T.tab_keep u hu hn]
  · rw [htk _ hu0]; exact T.tab_new
  · intro u hu hne hzz
    rw [htk u hu]; exact T.tab_zero u hu hne hzz
  · intro u l hu hl hn hne
    have hn1 : s1.real.table u ≠ 0 := by rw [T.tab_keep u hu hn]; exact hn
    have hn2 : t1.real.table u ≠ 0 := by rw [G.tab u hu]; exact hn1
    rw [H.low u l hu hl hn2 hne, G.low u l hu hl hn1 hne, T.low u l hu hl hn]
  · intro c l hl hne
    have hne2 : ¬ (a / 4194304 % 1024 = a / 4194304 % 1024 ∧ l = a / 4096 % 1024) :=
      fun e => hne e.2
    rw [H.low _ l hu0 hl h01 hne2, G.low _ l hu0 hl T.tab_new hne2]
    exact T.low_new c l hl
  · intro j
    rw [H.dir, G.dir j, htk _ hu0, T.dir]
  · intro x hx
    rw [H.data x hx, gd x hx, T.data x hx]

end VMSim

set_option maxRecDepth 10000

namespace VMSim

/-- The translation of an address whose page was never mapped, while no frame
is free: it returns, after one fault in which the victim search passes `d`
slots, the address in the victim's frame; its effect is `Replaced`. -/
theorem translate_replace (fuel : Nat) (s : State) (a d : Nat) (w : Bool) (h : InvG s none)
    (hbs : s.bs_base = true) (hbl : s.bs_limit ≤ mapped_len s.bs_size)
    (hroom : s.real.table (a / 4194304 % 1024) = 0 → s.pt_free_addr + 4096 ≤ 4198400)
    (hz : s.real.table (a / 4194304 % 1024) ≠ 0 →
      s.real.entry (a / 4194304 % 1024) (a / 4096 % 1024) = 0)
    (hN : 1 ≤ s.num_entries) (hsz : 4198400 ≤ s.real_size)
    (hfull : s.real_size < s.real_free_addr + 4096)
    (hwrap : s.real_free_addr + 8192 ≤ 4294967296)
    (hd : Passes s d) (hfuel : d ≤ fuel + 2) :
    ∃ t1 t, vmsim_map_fault (fuel + 2) s a = .ok t1 ∧
      mmu_translate (fuel + 1) t1 a w = .ok
        (4198400 + 4096 * ((s.current_page_number + d) % s.num_entries) + a % 4096, t) ∧
      mmu_translate (fuel + 2) s a w = .ok
        (4198400 + 4096 * ((s.current_page_number + d) % s.num_entries) + a % 4096, t) ∧
      InvG t none ∧ Replaced s t (a / 4194304 % 1024) (a / 4096 % 1024) w d := by
  have hu0 : a / 4194304 % 1024 < 1024 := Nat.mod_lt _ (by norm_num)
  have hl0 : a / 4096 % 1024 < 1024 := Nat.mod_lt _ (by norm_num)
  obtain ⟨s1, hf1, i1, T, hslot⟩ := table_ready s a h hsz hroom
  have hz1 : s1.real.entry (a / 4194304 % 1024) (a / 4096 % 1024) = 0 := by
    by_cases c : s.real.table (a / 4194304 % 1024) = 0
    · exact T.low_new c _ hl0
    · rw [T.low _ _ hu0 hl0 c]; exact hz c
  obtain ⟨f1, f2, f3, f4, f5, f6, f7, f8, f9, f10, f11, f12⟩ := T.fixed
  have hd1 : Passes s1 d := by
    refine ⟨by rw [f9]; exact hd.le, fun j hj => ?_, fun hlt => ?_⟩
    · rw [hslot, T.hand, f9]; exact hd.refd j hj
    · rw [hslot, T.hand, f9]; exact hd.stop (by rw [← f9]; exact hlt)
  obtain ⟨s4, t1, hf2, i2, E, G, gr, gd⟩ := fault_replace (fuel + 2) s1 a d i1
    (by rw [f10]; exact hbs) (by rw [f11, f12]; exact hbl) T.tab_new hz1
    (by rw [f9]; exact hN) (by rw [f5]; exact hsz) (by rw [f5, T.rfa]; exact hfull)
    (by rw [T.rfa]; exact hwrap) hd1 hfuel
  rw [T.hand, f9] at G
  rw [T.rfa] at gr
  have hE := E
  obtain ⟨Ef, Ep, Eh, En, Ee, Ed, Et, Ev, Es, El, Eda, Esk, Est⟩ := hE
  rw [T.hand, f9] at Eh Ev Es El Eda Est
  rw [T.nbn] at En Ee Ev Esk Est
  rw [T.evicted] at Ee
  rw [T.dir] at Ed Ev Es El
  rw [T.bs] at Esk
  rw [f11] at Est
  have hvl : (s.current_page_number + d) % s.num_entries < s.num_entries :=
    Nat.mod_lt _ (by omega)
  have h04 : s4.real.table (a / 4194304 % 1024) ≠ 0 := by rw [Et _ hu0]; exact T.tab_new
  have h01 : t1.real.table (a / 4194304 % 1024) ≠ 0 := by rw [G.tab _ hu0]; exact h04
  obtain ⟨t, ht, i3, H⟩ := hit_ok fuel t1 a w i2 h01 (by rw [G.new]; omega)
  have er : t1.real.entry (a / 4194304 % 1024) (a / 4096 % 1024) / 4096 * 4096 =
      4198400 + 4096 * ((s.current_page_number + d) % s.num_entries) := by
    rw [G.new]; omega
  rw [er] at ht
  have hfa : vmsim_map_fault (fuel + 2) s a = .ok t1 := by rw [hf1]; exact hf2
  have hwhole : mmu_translate (fuel + 2) s a w = .ok
      (4198400 + 4096 * ((s.current_page_number + d) % s.num_entries) + a % 4096, t) := by
    rw [translate_fault_eq (fuel + 1) s a w h hsz (by
      by_cases c : s.real.table (a / 4194304 % 1024) = 0
      · exact Or.inl c
      · exact Or.inr (by rw [hz c])), hfa]
    exact ht
  refine ⟨t1, t, hfa, ht, hwhole, i3, ?_⟩
  have hnew : t.real.entry (a / 4194304 % 1024) (a / 4096 % 1024) =
      4198400 + 4096 * ((s.current_page_number + d) % s.num_entries) +
        (if w = true then 7 else 3) := by
    rw [H.new, G.new]; exact hit_value_new _ w (by omega)
  have htk : ∀ u, u < 1024 → t.real.table u = s1.real.table u := fun u hu =>
    ((H.tab u hu).trans (G.tab u hu)).trans (Et u hu)
  -- entries other than the new page's, from the eviction to the end
  have hrest : ∀ u l, u < 1024 → l < 1024 → s1.real.table u ≠ 0 →
      ¬ (u = a / 4194304 % 1024 ∧ l = a / 4096 % 1024) →
      t.real.entry u l = s4.real.entry u l := by
    intro u l hu hl hn hne
    have hn4 : s4.real.table u ≠ 0 := by rw [Et u hu]; exact hn
    have hn1 : t1.real.table u ≠ 0 := by rw [G.tab u hu]; exact hn4
    rw [H.low u l hu hl hn1 hne, G.low u l hu hl hn4 hne]
  -- no slot points at the new page's entry
  have hnot : ∀ u l i, u < 1024 → l < 1024 → s.real.table u ≠ 0 →
      s.entries i = some (s.real.table u + l * 4) →
      ¬ (u = a / 4194304 % 1024 ∧ l = a / 4096 % 1024) := by
    rintro u l i hu hl hn he ⟨c1, c2⟩
    subst c1; subst c2
    exact h.slot_resident _ _ i hu hl hn (by rw [hz hn]) he
  refine ⟨(T.fixed.chain (Ef.chain G.fixed)).chain H.fixed, ?_, ?_, ?_, ?_, ?_, ?_, ?_, hnew,
    ?_, ?_, ?_, ?_, ?_, ?_, ?_, ?_⟩
  · rw [H.rfa, gr]
  · rw [H.hand, G.hand, Eh]
  · rw [H.nbn, G.nbn, En]
  · rw [H.evicted, G.evicted, Ee]
  · intro u hu hn
    rw [htk u hu, T.tab_keep u hu hn]
  · rw [htk _ hu0]; exact T.tab_new
  · intro u hu hne hzz
    rw [htk u hu]; exact T.tab_zero u hu hne hzz
  · intro c l hl hne
    have hne2 : ¬ (a / 4194304 % 1024 = a / 4194304 % 1024 ∧ l = a / 4096 % 1024) :=
      fun e => hne e.2
    rw [hrest _ l hu0 hl T.tab_new hne2]
    have : s4.real.entry (a / 4194304 % 1024) l = s1.real.entry (a / 4194304 % 1024) l := by
      apply El _ l hu0 hl T.tab_new
      intro j _ he
      obtain ⟨_, u2, l2, hu2, hl2, h02, ea, _, _, _⟩ := h.slot _ _ he
      have h12 : s1.real.table u2 ≠ 0 := by rw [T.tab_keep u2 hu2 h02]; exact h02
      rw [← T.tab_keep u2 hu2 h02] at ea
      obtain ⟨c1, _⟩ := i1.tab.addr_inj _ u2 l l2 hu0 hu2 hl hl2 T.tab_new h12 ea
      rw [← c1] at h02
      exact h02 c
    rw [this]
    exact T.low_new c l hl
  · intro u l hu hl hn he
    have hn1 : s1.real.table u ≠ 0 := by rw [T.tab_keep u hu hn]; exact hn
    rw [hrest u l hu hl hn1 (hnot u l _ hu hl hn he),
      Ev u l hu hl hn1 (by rw [T.tab_keep u hu hn]; exact he), T.low u l hu hl hn]
  · intro u l j hu hl hn hj hne he
    have hn1 : s1.real.table u ≠ 0 := by rw [T.tab_keep u hu hn]; exact hn
    rw [hrest u l hu hl hn1 (hnot u l _ hu hl hn he),
      Es u l j hu hl hn1 hj hne (by rw [T.tab_keep u hu hn]; exact he), T.low u l hu hl hn]
  · intro u l hu hl hn hne hall
    have hn1 : s1.real.table u ≠ 0 := by rw [T.tab_keep u hu hn]; exact hn
    rw [hrest u l hu hl hn1 hne,
      El u l hu hl hn1 (by rw [T.tab_keep u hu hn]; exact hall), T.low u l hu hl hn]
  · intro j
    rw [H.dir, G.dir j, htk _ hu0, Et _ hu0, Ed]
  · intro x hx
    rw [H.data x hx, gd x hx, Eda x hx, T.data x hx]
  · intro y hy
    rw [H.bs, G.bs]; exact Esk y hy
  · intro hc y hy
    rw [H.bs, G.bs, Est hc y hy]
    exact T.data _ (by omega)

/-- The translation of an address whose page is swapped out, with every frame
in use: it returns, after one fault in which the victim search passes `d`
slots, the address in the victim's frame; its effect is `Swapped`. -/
theorem translate_swap_in (fuel : Nat) (s : State) (a d : Nat) (w : Bool) (h : InvG s none)
    (hbs : s.bs_base = true) (hbl : s.bs_limit ≤ mapped_len s.bs_size)
    (hfull : s.frames = s.num_entries) (hN : 1 ≤ s.num_entries)
    (h0 : s.real.table (a / 4194304 % 1024) ≠ 0)
    (hne : s.real.entry (a / 4194304 % 1024) (a / 4096 % 1024) ≠ 0)
    (hnr : s.real.entry (a / 4194304 % 1024) (a / 4096 % 1024) % 2 = 0)
    (hd : Passes s d) (hfuel : d ≤ fuel + 2) :
    ∃ t1 t, vmsim_map_fault (fuel + 2) s a = .ok t1 ∧
      mmu_translate (fuel + 1) t1 a w = .ok
        (4198400 + 4096 * ((s.current_page_number + d) % s.num_entries) + a % 4096, t) ∧
      mmu_translate (fuel + 2) s a w = .ok
        (4198400 + 4096 * ((s.current_page_number + d) % s.num_entries) + a % 4096, t) ∧
      InvG t none ∧ Swapped s t (a / 4194304 % 1024) (a / 4096 % 1024) w d := by
  have hu0 : a / 4194304 % 1024 < 1024 := Nat.mod_lt _ (by norm_num)
  have hl0 : a / 4096 % 1024 < 1024 := Nat.mod_lt _ (by norm_num)
  obtain ⟨_, _, hsz⟩ := h.slots_ok hfull hN
  obtain ⟨s4, t1, hfa, i2, E, G, gr, gd, gl⟩ :=
    fault_swap_in (fuel + 2) s a d h hbs hbl hfull hN h0 hne hnr hd hfuel
  have hvl : (s.current_page_number + d) % s.num_entries < s.num_entries :=
    Nat.mod_lt _ (by omega)
  have h04 : s4.real.table (a / 4194304 % 1024) ≠ 0 := by rw [E.tab _ hu0]; exact h0
  have h01 : t1.real.table (a / 4194304 % 1024) ≠ 0 := by rw [G.tab _ hu0]; exact h04
  obtain ⟨t, ht, i3, H⟩ := hit_ok fuel t1 a w i2 h01 (by rw [G.new]; omega)
  have er : t1.real.entry (a / 4194304 % 1024) (a / 4096 % 1024) / 4096 * 4096 =
      4198400 + 4096 * ((s.current_page_number + d) % s.num_entries) := by
    rw [G.new]; omega
  rw [er] at ht
  have hwhole : mmu_translate (fuel + 2) s a w = .ok
      (4198400 + 4096 * ((s.current_page_number + d) % s.num_entries) + a % 4096, t) := by
    rw [translate_fault_eq (fuel + 1) s a w h (by omega) (Or.inr hnr), hfa]
    exact ht
  refine ⟨t1, t, hfa, ht, hwhole, i3, ?_⟩
  have htk : ∀ u, u < 1024 → t.real.table u = s.real.table u := fun u hu =>
    ((H.tab u hu).trans (G.tab u hu)).trans (E.tab u hu)
  have hrest : ∀ u l, u < 1024 → l < 1024 → s.real.table u ≠ 0 →
      ¬ (u = a / 4194304 % 1024 ∧ l = a / 4096 % 1024) →
      t.real.entry u l = s4.real.entry u l := by
    intro u l hu hl hn hne2
    have hn4 : s4.real.table u ≠ 0 := by rw [E.tab u hu]; exact hn
    have hn1 : t1.real.table u ≠ 0 := by rw [G.tab u hu]; exact hn4
    rw [H.low u l hu hl hn1 hne2, G.low u l hu hl hn4 hne2]
  have hnot : ∀ u l i, u < 1024 → l < 1024 → s.real.table u ≠ 0 →
      s.entries i = some (s.real.table u + l * 4) →
      ¬ (u = a / 4194304 % 1024 ∧ l = a / 4096 % 1024) := by
    rintro u l i hu hl hn he ⟨c1, c2⟩
    subst c1; subst c2
    exact h.slot_resident _ _ i hu hl hn hnr he
  have hval : t.real.entry (a / 4194304 % 1024) (a / 4096 % 1024) =
      if w = true then SET_DIRTY (SET_REFERENCED
        (4198400 + 4096 * ((s.current_page_number + d) % s.num_entries) +
          s.real.entry (a / 4194304 % 1024) (a / 4096 % 1024) % 1024 / 2 * 2 + 1))
      else SET_REFERENCED
        (4198400 + 4096 * ((s.current_page_number + d) % s.num_entries) +
          s.real.entry (a / 4194304 % 1024) (a / 4096 % 1024) % 1024 / 2 * 2 + 1) := by
    rw [H.new, G.new]
  refine ⟨(E.fixed.chain G.fixed).chain H.fixed, ?_, ?_, ?_, ?_, htk, ?_, ?_, ?_, ?_, ?_, ?_,
    ?_, ?_, ?_, ?_⟩
  · rw [H.rfa, gr]
  · rw [H.hand, G.hand, E.hand]
  · rw [H.nbn, G.nbn, E.nbn]
  · rw [H.evicted, G.evicted, E.evicted]
  · rw [hval]
    cases w
    · simp only [Bool.false_eq_true, if_false]
      rw [SET_REFERENCED_eq]; omega
    · simp only [if_true]
      rw [SET_DIRTY_eq, SET_REFERENCED_eq]; omega
  · rw [hval]
    cases w
    · simp only [Bool.false_eq_true, if_false]
      rw [SET_REFERENCED_eq]; omega
    · simp only [if_true]
      rw [SET_DIRTY_eq, SET_REFERENCED_eq]; omega
  · intro u l hu hl hn he
    rw [hrest u l hu hl hn (hnot u l _ hu hl hn he), E.victim u l hu hl hn he]
  · intro u l j hu hl hn hj hne2 he
    rw [hrest u l hu hl hn (hnot u l _ hu hl hn he), E.swept u l j hu hl hn hj hne2 he]
  · intro u l hu hl hn hne2 hall
    rw [hrest u l hu hl hn hne2, E.low u l hu hl hn hall]
  · intro j
    rw [H.dir, G.dir j, E.tab _ hu0, E.dir]
  · intro x hx hout
    rw [H.data x hx, gd x hx hout, E.data x hx, if_neg (by omega)]
  · intro hc y hy
    rw [H.data _ (by omega), gl hc y hy, H.bs, G.bs]
  · intro y hy
    rw [H.bs, G.bs]; exact E.store_keep y hy
  · intro hc y hy
    rw [H.bs, G.bs]; exact E.store hc y hy

end VMSim

set_option maxRecDepth 10000

namespace VMSim

/-! ### Runs that fill the frames -/

theorem page_idx (p : Nat) (hp : p < 1048576) :
    p * 4096 / 4194304 % 1024 = p / 1024 ∧ p * 4096 / 4096 % 1024 = p % 1024 ∧
    p * 4096 < 4294967296 ∧ p * 4096 % 4096 = 0 := by
  omega

theorem addr_idx (p o : Nat) (hp : p < 1048576) (ho : o < 4096) :
    (p * 4096 + o) / 4194304 % 1024 = p / 1024 ∧ (p * 4096 + o) / 4096 % 1024 = p % 1024 ∧
    p * 4096 + o < 4294967296 ∧ (p * 4096 + o) % 4096 = o := by
  omega

theorem is_resident_iff (s : State) (h : InvG s none) (a : Nat) :
    s.is_resident a = true ↔ s.real.table (a / 4194304 % 1024) ≠ 0 ∧
      s.real.entry (a / 4194304 % 1024) (a / 4096 % 1024) % 2 = 1 := by
  unfold State.is_resident
  rw [Bool.and_eq_true, bne_iff_ne, upper_pte_eq s none h]
  constructor
  · rintro ⟨h1, h2⟩
    rw [lower_pte_eq s none h a (by rw [upper_pte_eq s none h]; exact h1), IS_RESIDENT_eq,
      decide_eq_true_eq] at h2
    exact ⟨h1, h2⟩
  · rintro ⟨h1, h2⟩
    refine ⟨h1, ?_⟩
    rw [lower_pte_eq s none h a (by rw [upper_pte_eq s none h]; exact h1), IS_RESIDENT_eq,
      decide_eq_true_eq]
    exact h2

/-- The page-table area has room for one more lower table while the tables
in use belong to upper indices below 1023 and the index asked for is one of
those without a table. -/
theorem table_room (s : State) (h : InvG s none) (u0 : Nat) (hu0 : u0 < 1023)
    (h0 : s.real.table u0 = 0)
    (hlow : ∀ u, u < 1024 → s.real.table u ≠ 0 → u < 1023) :
    s.pt_free_addr + 4096 ≤ 4198400 := by
  have hc := table_count s none h
  have hsub : (Finset.range 1024).filter (fun u => s.real.table u ≠ 0) ⊆
      (Finset.range 1023).erase u0 := by
    intro u hu
    simp only [Finset.mem_filter, Finset.mem_range] at hu
    simp only [Finset.mem_erase, Finset.mem_range]
    exact ⟨fun e => hu.2 (by rw [e]; exact h0), hlow u hu.1 hu.2⟩
  have hcard := Finset.card_le_card hsub
  rw [Finset.card_erase_of_mem (Finset.mem_range.mpr hu0), Finset.card_range] at hcard
  omega

/-- The page-table area has room for one more lower table while at most 1022
pages were touched. -/
theorem table_room_few (pg : Nat → Nat) (j : Nat) (s0 s : State) (F : Filled pg j s0 s)
    (hj : j ≤ 1022) : s.pt_free_addr + 4096 ≤ 4198400 := by
  have hc := table_count s none F.inv
  have hsub : (Finset.range 1024).filter (fun u => s.real.table u ≠ 0) ⊆
      (Finset.range j).image (fun i => pg i / 1024) := by
    intro u hu
    simp only [Finset.mem_filter, Finset.mem_range] at hu
    obtain ⟨i, hi, e⟩ := F.tabs u hu.1 hu.2
    exact Finset.mem_image.mpr ⟨i, Finset.mem_range.mpr hi, e⟩
  have hcard := Finset.card_le_card hsub
  have himg : ((Finset.range j).image (fun i => pg i / 1024)).card ≤ (Finset.range j).card :=
    Finset.card_image_le
  rw [Finset.card_range] at himg
  omega

theorem filled_init (pg : Nat → Nat) (er eb : Option Nat)
    (h1 : 4096 < er.getD DEFAULT_REAL_MEMORY_SIZE)
    (h2 : er.getD DEFAULT_REAL_MEMORY_SIZE + 4096 ≤ 4294967296) :
    Filled pg 0 (init_state er eb) (init_state er eb) := by
  have ht : ∀ u, (init_state er eb).real.table u = 0 := fun u => zero_mem_pte _ _ _
  exact ⟨init_inv er eb h1 h2, Fixed.self _, rfl, rfl, rfl, rfl,
    fun u _ hn => absurd (ht u) hn, fun u _ _ _ hn _ => absurd (ht u) hn,
    fun i hi => absurd hi (Nat.not_lt_zero i)⟩

/-- One more page is touched, at offset `o`, while a frame is free: the
translation returns the address in frame `j`, which is zero-filled. -/
theorem filled_step_at (pg : Nat → Nat) (j o fuel : Nat) (w : Bool) (s0 s : State)
    (F : Filled pg j s0 s) (hfree : 4198400 + 4096 * j + 4096 ≤ s.real_size)
    (ho : o < 4096) (hpg : ∀ i, i ≤ j → pg i < 1048576)
    (hfew : (∀ i, i ≤ j → pg i < 1047552) ∨ j ≤ 1022)
    (hinj : ∀ i, i < j → pg i ≠ pg j) :
    ∃ t, vmsim_map (fuel + 2) s (pg j * 4096 + o) w = .ok (4198400 + 4096 * j + o, t) ∧
      Filled pg (j + 1) s0 t ∧ t.bs = s.bs ∧
      (∀ x, 4198400 ≤ x → t.real x =
        if 4198400 + 4096 * j ≤ x ∧ x < 4198400 + 4096 * j + 4096 then 0 else s.real x) := by
  obtain ⟨p1, p2, p3, p4⟩ := addr_idx (pg j) o (by have := hpg j (Nat.le_refl j); omega) ho
  have hu0 : pg j / 1024 < 1024 := by have := hpg j (Nat.le_refl j); omega
  have hl0 : pg j % 1024 < 1024 := Nat.mod_lt _ (by norm_num)
  have hal := F.inv.cfg.rfa_al
  have hroom : s.real.table ((pg j * 4096 + o) / 4194304 % 1024) = 0 →
      s.pt_free_addr + 4096 ≤ 4198400 := by
    rw [p1]
    intro h0
    rcases hfew with c | c
    · refine table_room s F.inv _ (by have := c j (Nat.le_refl j); omega) h0 ?_
      intro u hu hn
      obtain ⟨i, hi, e⟩ := F.tabs u hu hn
      have := c i (by omega)
      omega
    · exact table_room_few pg j s0 s F c
  have hz : s.real.table ((pg j * 4096 + o) / 4194304 % 1024) ≠ 0 →
      s.real.entry ((pg j * 4096 + o) / 4194304 % 1024) ((pg j * 4096 + o) / 4096 % 1024) =
        0 := by
    rw [p1, p2]
    intro hn
    by_contra c
    obtain ⟨i, hi, e⟩ := F.ents _ _ hu0 hl0 hn c
    exact hinj i hi (by omega)
  obtain ⟨t1, t, _, _, ht, i3, R⟩ := translate_fresh fuel s (pg j * 4096 + o) w F.inv hroom hz
    (by rw [F.rfa]; exact hfree)
  rw [p1, p2] at R
  rw [p4, F.rfa] at ht
  have hdata := R.data
  rw [F.rfa] at hdata
  refine ⟨t, by rw [vmsim_map_eq _ _ _ _ F.inv.cfg.rbase]; exact ht, ⟨i3,
    F.fixed.chain R.fixed, by rw [R.rfa, F.rfa]; omega, by rw [R.hand, F.hand],
    by rw [R.nbn, F.nbn], by rw [R.evicted, F.evicted], ?_, ?_, ?_⟩, R.bs, hdata⟩
  · intro u hu hn
    by_cases c : s.real.table u = 0
    · by_cases cu : u = pg j / 1024
      · exact ⟨j, by omega, cu.symm⟩
      · exact absurd (R.tab_zero u hu cu c) hn
    · obtain ⟨i, hi, e⟩ := F.tabs u hu c
      exact ⟨i, by omega, e⟩
  · intro u l hu hl hn hne
    by_cases cp : u = pg j / 1024 ∧ l = pg j % 1024
    · exact ⟨j, by omega, by omega⟩
    · by_cases c : s.real.table u = 0
      · by_cases cu : u = pg j / 1024
        · subst cu
          exact absurd (R.low_new c l hl (fun e => cp ⟨rfl, e⟩)) hne
        · exact absurd (R.tab_zero u hu cu c) hn
      · rw [R.low u l hu hl c cp] at hne
        obtain ⟨i, hi, e⟩ := F.ents u l hu hl c hne
        exact ⟨i, by omega, e⟩
  · intro i hi
    by_cases c : i = j
    · subst c
      refine ⟨R.tab_new, ?_, ?_⟩
      · rw [R.new]
        cases w <;> simp <;> omega
      · rw [R.dir, if_pos (by rw [F.rfa]; omega)]
    · have hij : i < j := by omega
      obtain ⟨q1, q2, q3⟩ := F.pages i hij
      have hne : ¬ (pg i / 1024 = pg j / 1024 ∧ pg i % 1024 = pg j % 1024) := by
        rintro ⟨e1, e2⟩
        exact hinj i hij (by omega)
      have hui : pg i / 1024 < 1024 := by have := hpg i (by omega); omega
      have hli : pg i % 1024 < 1024 := Nat.mod_lt _ (by norm_num)
      refine ⟨by rw [R.tab_keep _ hui q1]; exact q1, ?_, ?_⟩
      · rw [R.low _ _ hui hli q1 hne]; exact q2
      · rw [R.dir, if_neg (by rw [F.rfa]; omega), R.tab_keep _ hui q1]; exact q3

end VMSim

set_option maxRecDepth 10000

namespace VMSim

/-- With the `k` frames filled, all referenced, the victim search makes a
full turn. -/
theorem filled_passes (pg : Nat → Nat) (k : Nat) (s0 s : State) (F : Filled pg k s0 s)
    (hN : s.num_entries = k) : Passes s k := by
  refine ⟨by rw [hN], fun j hj => ?_, fun hlt => absurd hlt (by rw [hN]; omega)⟩
  rw [F.hand, hN, Nat.zero_add, Nat.mod_eq_of_lt hj]
  obtain ⟨_, q2, q3⟩ := F.pages j hj
  rw [slot_pte_eq s j _ q3, IS_REFERENCED_eq, decide_eq_true_eq]
  show s.real.entry (pg j / 1024) (pg j % 1024) / 2 % 2 = 1
  omega

/-- With the `k` frames filled by the pages `pg 0`, ..., `pg (k - 1)`, all
referenced, a fault on a further page, at offset `o`, sweeps the whole
directory and takes the frame of slot 0. -/
theorem filled_replace_at (pg : Nat → Nat) (k o fuel : Nat) (w : Bool) (s0 s : State)
    (F : Filled pg k s0 s) (hk : 1 ≤ k) (hsz : s.real_size = 4198400 + 4096 * k)
    (hbs : s.bs_base = true) (hbl : s.bs_limit ≤ mapped_len s.bs_size)
    (hwrap : 4198400 + 4096 * k + 8192 ≤ 4294967296) (hfuel : k ≤ fuel + 2)
    (ho : o < 4096) (hpg : ∀ i, i ≤ k → pg i < 1048576)
    (hfew : (∀ i, i ≤ k → pg i < 1047552) ∨ k ≤ 1022)
    (hinj : ∀ i, i < k → pg i ≠ pg k) :
    ∃ t, vmsim_map (fuel + 2) s (pg k * 4096 + o) w = .ok (4198400 + o, t) ∧ InvG t none ∧
      Replaced s t (pg k / 1024) (pg k % 1024) w k ∧ s.num_entries = k ∧
      (s.current_page_number + k) % s.num_entries = 0 := by
  obtain ⟨p1, p2, p3, p4⟩ := addr_idx (pg k) o (by have := hpg k (Nat.le_refl k); omega) ho
  have hu0 : pg k / 1024 < 1024 := by have := hpg k (Nat.le_refl k); omega
  have hl0 : pg k % 1024 < 1024 := Nat.mod_lt _ (by norm_num)
  have hN : s.num_entries = k := by
    rw [F.inv.cfg.slots (by omega), hsz]; omega
  have hroom : s.real.table ((pg k * 4096 + o) / 4194304 % 1024) = 0 →
      s.pt_free_addr + 4096 ≤ 4198400 := by
    rw [p1]
    intro h0
    rcases hfew with c | c
    · refine table_room s F.inv _ (by have := c k (Nat.le_refl k); omega) h0 ?_
      intro u hu hn
      obtain ⟨i, hi, e⟩ := F.tabs u hu hn
      have := c i (by omega)
      omega
    · exact table_room_few pg k s0 s F c
  have hz : s.real.table ((pg k * 4096 + o) / 4194304 % 1024) ≠ 0 →
      s.real.entry ((pg k * 4096 + o) / 4194304 % 1024) ((pg k * 4096 + o) / 4096 % 1024) =
        0 := by
    rw [p1, p2]
    intro hn
    by_contra c
    obtain ⟨i, hi, e⟩ := F.ents _ _ hu0 hl0 hn c
    exact hinj i hi (by omega)
  have hv : (s.current_page_number + k) % s.num_entries = 0 := by
    rw [F.hand, hN, Nat.zero_add, Nat.mod_self]
  obtain ⟨t1, t, _, _, ht, i3, R⟩ := translate_replace fuel s (pg k * 4096 + o) k w F.inv
    hbs hbl hroom hz (by rw [hN]; exact hk) (by omega) (by rw [hsz, F.rfa]; omega)
    (by rw [F.rfa]; omega) (filled_passes pg k s0 s F hN) hfuel
  rw [p1, p2] at R
  rw [p4, hv] at ht
  exact ⟨t, by rw [vmsim_map_eq _ _ _ _ F.inv.cfg.rbase]; exact ht, i3, R, hN, hv⟩

end VMSim

set_option maxRecDepth 10000

namespace VMSim

/-! ### Three pages in two frames -/

theorem write_via_map (fuel : Nat) (s t : State) (buf : Nat → Byte) (a n r : Nat)
    (hm : vmsim_map fuel s a true = .ok (r, t)) (hr : r + n ≤ t.real_limit) :
    vmsim_write fuel s buf a n = .ok { t with real := t.real.copy_in r buf n } := by
  unfold vmsim_write
  simp only [hm, bind, Except.bind]
  exact vmsim_write_real_in t buf r n hr

theorem read_via_map (fuel : Nat) (s t : State) (buf : Nat → Byte) (a n r : Nat)
    (hm : vmsim_map fuel s a false = .ok (r, t)) (hr : r + n ≤ t.real_limit) :
    vmsim_read fuel s buf a n =
      .ok (fun i => if i < n then t.real (r + i) else buf i, t) := by
  unfold vmsim_read
  simp only [hm, bind, Except.bind, vmsim_read_real_in t buf r n hr, pure, Except.pure]

/-- With two distinct pages resident and referenced in the two frames, a
third page is written and the first is read back: the write evicts the first
page to block 1, the read reloads it into frame 1 from that block and returns
the bytes that frame 0 held at offset `o0` before the eviction. -/
theorem third_page_written (f : Nat) (eb : Option Nat) (pg : Nat → Nat)
    (o0 o2 n0 n2 : Nat) (b0 b2 buf : Nat → Byte) (s2 : State)
    (F : Filled pg 2 (init_state (some 4206592) eb) s2)
    (hstore : 8192 ≤ eb.getD DEFAULT_BACKING_STORE_SIZE)
    (hd : ∀ i, i < n0 → s2.real (4198400 + o0 + i) = b0 i)
    (hpg : ∀ i, i ≤ 2 → pg i < 1048576) (h02 : pg 0 ≠ pg 2) (h12 : pg 1 ≠ pg 2)
    (ho0 : o0 < 4096) (hn0 : o0 + n0 ≤ 4096) (ho2 : o2 < 4096) (hn2 : o2 + n2 ≤ 4096) :
    ∃ s3 s4 out,
      vmsim_write (f + 2) s2 b2 (pg 2 * 4096 + o2) n2 = .ok s3 ∧ InvG s3 none ∧
      s3.evicted = [1] ∧
      s3.real.table (pg 0 / 1024) ≠ 0 ∧ s3.real.entry (pg 0 / 1024) (pg 0 % 1024) % 2 = 0 ∧
      s3.real.entry (pg 0 / 1024) (pg 0 % 1024) / 1024 = 1 ∧
      s3.real.table (pg 1 / 1024) ≠ 0 ∧ s3.real.entry (pg 1 / 1024) (pg 1 % 1024) % 2 = 1 ∧
      s3.real.table (pg 2 / 1024) ≠ 0 ∧ s3.real.entry (pg 2 / 1024) (pg 2 % 1024) % 2 = 1 ∧
      vmsim_read (f + 2) s3 buf (pg 0 * 4096 + o0) n0 = .ok (out, s4) ∧
      ∀ i, i < n0 → out i = b0 i := by
  obtain ⟨f1, f2, f3, f4, f5, f6, f7, f8, f9, f10, f11, f12⟩ := F.fixed
  have hsz : s2.real_size = 4198400 + 4096 * 2 := f5
  have hlim : s2.real_limit = 4206592 := f4
  have hbs : s2.bs_base = true := f10
  have hbl : s2.bs_limit = eb.getD DEFAULT_BACKING_STORE_SIZE := f11
  have hbz : s2.bs_size = eb.getD DEFAULT_BACKING_STORE_SIZE := f12
  have hu0 : pg 0 / 1024 < 1024 := by have := hpg 0 (by omega); omega
  have hl0 : pg 0 % 1024 < 1024 := Nat.mod_lt _ (by norm_num)
  have hu1 : pg 1 / 1024 < 1024 := by have := hpg 1 (by omega); omega
  have hl1 : pg 1 % 1024 < 1024 := Nat.mod_lt _ (by norm_num)
  have hu2 : pg 2 / 1024 < 1024 := by have := hpg 2 (by omega); omega
  have hl2 : pg 2 % 1024 < 1024 := Nat.mod_lt _ (by norm_num)
  obtain ⟨a1, a2, a3⟩ := F.pages 0 (by omega)
  obtain ⟨c1, c2, c3⟩ := F.pages 1 (by omega)
  -- the third page
  obtain ⟨t3, hm3, i3, R, hN, hv⟩ := filled_replace_at pg 2 o2 f true _ s2 F (by omega) hsz
    hbs (by rw [hbl, hbz]; exact mapped_len_ge _) (by omega) (by omega) ho2 hpg
    (Or.inr (by omega))
    (fun i hi => by
      have e : i = 0 ∨ i = 1 := by omega
      rcases e with e | e
      · rw [e]; exact h02
      · rw [e]; exact h12)
  obtain ⟨g1, g2, g3, g4, g5, g6, g7, g8, g9, g10, g11, g12⟩ := R.fixed
  have e0 := R.victim _ _ hu0 hl0 a1 (by rw [hv]; exact a3)
  rw [F.nbn] at e0
  have hs1 : (s2.current_page_number + 1) % s2.num_entries = 1 := by
    rw [F.hand, hN]
  have e1 := R.swept _ _ 1 hu1 hl1 c1 (by omega) (by rw [hs1, hv]; omega)
    (by rw [hs1]; exact c3)
  have e2 := R.new
  rw [hv] at e2
  simp only [if_true] at e2
  have hdir := R.dir
  rw [hv] at hdir
  have hst := R.store
  rw [F.nbn, hv] at hst
  have hst2 : ∀ y, y < 4096 → t3.bs (4096 + y) = s2.real (4198400 + y) := by
    intro y hy
    have := hst (by rw [hbl]; simp only [U32_eq]; omega) y hy
    simp only [U32_eq] at this
    exact this
  have hw3 := write_via_map (f + 2) s2 t3 b2 _ n2 _ hm3 (by rw [g4, hlim]; omega)
  have hagree : ∀ x, x < 4198400 → (t3.real.copy_in (4198400 + o2) b2 n2) x = t3.real x :=
    fun x hx => copy_in_out _ _ _ _ _ (by omega)
  obtain ⟨k1, k2, k3⟩ := InvG_frame t3 none _ i3 hagree
  generalize hs3 : ({ t3 with real := t3.real.copy_in (4198400 + o2) b2 n2 } : State) = s3
    at hw3 k1
  have r3 : s3.real = t3.real.copy_in (4198400 + o2) b2 n2 := by rw [← hs3]
  have q_bs : s3.bs = t3.bs := by rw [← hs3]
  have q_ent : s3.entries = t3.entries := by rw [← hs3]
  have q_hand : s3.current_page_number = 0 := by rw [← hs3]; exact R.hand.trans hv
  have q_N : s3.num_entries = 2 := by rw [← hs3]; exact g9.trans hN
  have q_nbn : s3.next_block_number = 2 := by rw [← hs3]; show t3.next_block_number = 2; rw [R.nbn, F.nbn]
  have q_ev : s3.evicted = [1] := by
    rw [← hs3]; show t3.evicted = [1]; rw [R.evicted, F.evicted, F.nbn]; rfl
  have q_rfa : s3.real_free_addr = 4198400 + 4096 * 2 + 4096 := by
    rw [← hs3]; show t3.real_free_addr = _; rw [R.rfa, F.rfa]
  have q_lim : s3.real_limit = 4206592 := by rw [← hs3]; exact g4.trans hlim
  have q_bsb : s3.bs_base = true := by rw [← hs3]; exact g10.trans hbs
  have q_bsl : s3.bs_limit = eb.getD DEFAULT_BACKING_STORE_SIZE := by
    rw [← hs3]; exact g11.trans hbl
  have q_bsz : s3.bs_size = eb.getD DEFAULT_BACKING_STORE_SIZE := by
    rw [← hs3]; exact g12.trans hbz
  have t0 : t3.real.table (pg 0 / 1024) ≠ 0 := by rw [R.tab_keep _ hu0 a1]; exact a1
  have t1 : t3.real.table (pg 1 / 1024) ≠ 0 := by rw [R.tab_keep _ hu1 c1]; exact c1
  have t2 : t3.real.table (pg 2 / 1024) ≠ 0 := R.tab_new
  have v0 : s3.real.table (pg 0 / 1024) ≠ 0 := by rw [r3, k2 _ hu0]; exact t0
  have v1 : s3.real.table (pg 1 / 1024) ≠ 0 := by rw [r3, k2 _ hu1]; exact t1
  have v2 : s3.real.table (pg 2 / 1024) ≠ 0 := by rw [r3, k2 _ hu2]; exact t2
  have w0 : s3.real.entry (pg 0 / 1024) (pg 0 % 1024) =
      1 % 4194304 * 1024 + s2.real.entry (pg 0 / 1024) (pg 0 % 1024) % 1024 / 4 * 4 := by
    rw [r3, k3 _ _ hu0 hl0 t0]; exact e0
  have w1 : s3.real.entry (pg 1 / 1024) (pg 1 % 1024) =
      CLEAR_REFERENCED (s2.real.entry (pg 1 / 1024) (pg 1 % 1024)) := by
    rw [r3, k3 _ _ hu1 hl1 t1]; exact e1
  have w2 : s3.real.entry (pg 2 / 1024) (pg 2 % 1024) = 4198400 + 4096 * 0 + 7 := by
    rw [r3, k3 _ _ hu2 hl2 t2]; exact e2
  have hlt1 : s2.real.entry (pg 1 / 1024) (pg 1 % 1024) < 4294967296 := pte_lt _ _
  -- the read of the first page
  obtain ⟨p1, p2, p3, p4⟩ := addr_idx (pg 0) o0 (hpg 0 (by omega)) ho0
  have hfull : s3.frames = s3.num_entries := by
    unfold State.frames
    rw [q_rfa, q_N]
    decide
  have hslot0 : s3.slot_pte 0 = 4198400 + 4096 * 0 + 7 := by
    have he : s3.entries 0 = some (s3.real.table (pg 2 / 1024) + pg 2 % 1024 * 4) := by
      rw [q_ent, hdir 0, if_pos rfl, r3, k2 _ hu2]
    rw [slot_pte_eq s3 0 _ he, ← w2]
    rfl
  have hslot1 : s3.slot_pte 1 =
      CLEAR_REFERENCED (s2.real.entry (pg 1 / 1024) (pg 1 % 1024)) := by
    have he : s3.entries 1 = some (s3.real.table (pg 1 / 1024) + pg 1 % 1024 * 4) := by
      rw [q_ent, hdir 1, if_neg (by omega), c3, r3, k2 _ hu1, R.tab_keep _ hu1 c1]
    rw [slot_pte_eq s3 1 _ he, ← w1]
    rfl
  have hd3 : Passes s3 1 := by
    refine ⟨by rw [q_N]; omega, fun j hj => ?_, fun _ => ?_⟩
    · have e : j = 0 := by omega
      rw [e, q_hand, q_N, hslot0, IS_REFERENCED_eq, decide_eq_true_eq]
    · rw [q_hand, q_N, hslot1, IS_REFERENCED_eq, decide_eq_false_iff_not,
        CLEAR_REFERENCED_eq]
      omega
  obtain ⟨_, t4, _, _, ht4, i4, S⟩ := translate_swap_in f s3 (pg 0 * 4096 + o0) 1 false k1
    q_bsb (by rw [q_bsl, q_bsz]; exact mapped_len_ge _) hfull (by rw [q_N]; omega)
    (by rw [p1]; exact v0) (by rw [p1, p2, w0]; omega) (by rw [p1, p2, w0]; omega) hd3
    (by omega)
  rw [p1, p2] at S
  rw [q_hand, q_N, p4] at ht4
  obtain ⟨h1, h2, h3, h4, h5, h6, h7, h8, h9, h10, h11, h12⟩ := S.fixed
  have hm4 : vmsim_map (f + 2) s3 (pg 0 * 4096 + o0) false =
      .ok (4198400 + 4096 * ((0 + 1) % 2) + o0, t4) := by
    rw [vmsim_map_eq _ _ _ _ k1.cfg.rbase]; exact ht4
  have hr4 := read_via_map (f + 2) s3 t4 buf _ n0 _ hm4 (by
    rw [h4, q_lim]
    have : (0 + 1) % 2 = 1 := by decide
    omega)
  have hload := S.load
  rw [q_hand, q_N, w0, q_bsl] at hload
  have hblk : (1 % 4194304 * 1024 +
      s2.real.entry (pg 0 / 1024) (pg 0 % 1024) % 1024 / 4 * 4) / 1024 % 16384 = 1 := by
    omega
  rw [hblk] at hload
  have hkeep := S.store_keep
  rw [q_nbn] at hkeep
  refine ⟨s3, t4, _, hw3, k1, q_ev, v0, by rw [w0]; omega, by rw [w0]; omega, v1,
    by rw [w1, CLEAR_REFERENCED_eq]; omega, v2, by rw [w2], hr4, ?_⟩
  intro i hi
  show (if i < n0 then t4.real (4198400 + 4096 * ((0 + 1) % 2) + o0 + i) else buf i) = _
  rw [if_pos hi]
  have e : 4198400 + 4096 * ((0 + 1) % 2) + o0 + i =
      4198400 + 4096 * ((0 + 1) % 2) + (o0 + i) := by omega
  rw [e, hload (by omega) (o0 + i) (by omega),
    hkeep _ (Or.inl (by simp only [U32_eq]; omega)), q_bs]
  have e2 : 1 * 4096 + (o0 + i) = 4096 + (o0 + i) := by omega
  rw [e2, hst2 _ (by omega)]
  have e3 : 4198400 + (o0 + i) = 4198400 + o0 + i := by omega
  rw [e3]
  exact hd i hi

end VMSim

set_option maxRecDepth 10000

namespace VMSim

/-! ### Pages are evicted only once the pool is used up -/

theorem find_lru_loop_rfa (fuel : Nat) : ∀ (s t : State) (e p : Nat),
    find_lru_loop fuel s e = .ok (p, t) → t.real_free_addr = s.real_free_addr := by
  induction fuel with
  | zero =>
    intro s t e p h
    unfold find_lru_loop at h
    split at h
    · cases h
    · simp only [bind_ok, pure, Except.pure] at h
      obtain ⟨q, _, h2⟩ := h
      cases h2
      rfl
  | succ fuel ih =>
    intro s t e p h
    unfold find_lru_loop at h
    split at h
    · simp only [bind_ok] at h
      obtain ⟨q, _, s1, h1, h2⟩ := h
      split at h2
      · cases h2
      · simp only [bind_ok] at h2
        obtain ⟨q2, _, e2, _, h3⟩ := h2
        have h4 := ih _ _ _ _ h3
        obtain ⟨w1, _⟩ := write_pte_ok _ _ _ _ h1
        rw [h4, w1]
    · simp only [bind_ok, pure, Except.pure] at h
      obtain ⟨q, _, h2⟩ := h
      cases h2
      rfl

theorem find_lru_rfa (fuel : Nat) (s t : State) (p : Nat)
    (h : find_lru fuel s = .ok (p, t)) : t.real_free_addr = s.real_free_addr := by
  unfold find_lru at h
  simp only [bind_ok] at h
  obtain ⟨q, _, e, _, h3⟩ := h
  exact find_lru_loop_rfa fuel _ _ _ _ h3

theorem from_mm_to_bs_rfa (s t : State) (p f : Nat)
    (h : from_mm_to_bs s p = .ok (f, t)) : t.real_free_addr = s.real_free_addr := by
  unfold from_mm_to_bs at h
  simp only [bind_ok, pure, Except.pure] at h
  obtain ⟨e, _, ⟨r, s1⟩, h1, s3, h3, s4, h4, h5⟩ := h
  cases h5
  obtain ⟨w1, _⟩ := write_pte_ok _ _ _ _ h4
  obtain ⟨m1, _⟩ := memset_page_ok _ _ _ h3
  obtain ⟨m, b1⟩ := bs_write_ok _ _ _ _ _ h1
  rw [w1, m1, b1]

theorem from_bs_to_mm_rfa (s t : State) (a r : Nat)
    (h : from_bs_to_mm s a r = .ok t) : t.real_free_addr = s.real_free_addr := by
  unfold from_bs_to_mm at h
  simp only [bind_ok] at h
  obtain ⟨e, _, ⟨b, s1⟩, h1, s2, h2, h3⟩ := h
  obtain ⟨w3, _⟩ := set_entry_ok _ _ _ _ h3
  obtain ⟨w2, _⟩ := write_pte_ok _ _ _ _ h2
  rw [w3, w2]
  rcases bs_read_ok _ _ _ _ _ h1 with c | ⟨buf, c, _⟩
  · rw [c]
  · rw [c]

/-- A frame taken by `allocate_real_page`: if a page was ever evicted
afterwards, the cursor is past the end of real memory. -/
theorem allocate_real_page_full (fuel : Nat) (s t : State) (f : Nat) (h : InvG s none)
    (hq : 1 < s.next_block_number → s.real_size < s.real_free_addr)
    (hr : allocate_real_page fuel s = .ok (f, t)) :
    1 < t.next_block_number → t.real_size < t.real_free_addr := by
  have hal := h.cfg.rfa_al
  have hlo := h.cfg.rfa_lo
  have hhi := h.cfg.rfa_hi
  have hsz := h.cfg.size_hi
  have hmp := mapped_le s h.cfg
  have hfx := allocate_real_page_fixed fuel s t f hr
  have hev := allocate_real_page_evicts fuel s t f hr
  unfold allocate_real_page at hr
  simp only [PAGESIZE_eq, U32_eq] at hr
  split at hr
  · cases hr
  · split at hr
    · rename_i hgt
      simp only [bind_ok] at hr
      obtain ⟨⟨entry, s2⟩, h1, h2⟩ := hr
      dsimp only at hgt h2
      have r1 := find_lru_rfa _ _ _ _ h1
      have r2 := from_mm_to_bs_rfa _ _ _ _ h2
      intro _
      rw [hfx.2.2.2.2.1, r2, r1]
      exact hgt
    · rename_i hle
      simp only [bind_ok, pure, Except.pure] at hr
      obtain ⟨s2, h1, h2⟩ := hr
      obtain ⟨m1, m2⟩ := memset_page_ok _ _ _ h1
      subst m1
      obtain ⟨h2a, h2b⟩ := Prod.mk.inj (Except.ok.inj h2)
      subst h2b
      have m2' : s.real_free_addr + 4096 ≤ s.real_mapped := m2
      have hnw : s.real_free_addr + 4096 < 4294967296 := by omega
      have e : (s.real_free_addr + 4096) % 4294967296 = s.real_free_addr + 4096 :=
        Nat.mod_eq_of_lt hnw
      rw [e] at hle
      intro hn
      have hn' : 1 < s.next_block_number := hn
      have := hq hn'
      have hle' : ¬ s.real_free_addr + 4096 > s.real_size := hle
      omega

/-- A fault keeps the property that pages are evicted only once the cursor of
the pool is past the end of real memory. -/
theorem vmsim_map_fault_full (fuel : Nat) (s t : State) (a : Nat) (h : InvG s none)
    (hq : 1 < s.next_block_number → s.real_size < s.real_free_addr)
    (hr : vmsim_map_fault fuel s a = .ok t) :
    1 < t.next_block_number → t.real_size < t.real_free_addr := by
  have hu0 : a / 4194304 % 1024 < 1024 := Nat.mod_lt _ (by norm_num)
  have hl0 : a / 4096 % 1024 < 1024 := Nat.mod_lt _ (by norm_num)
  unfold vmsim_map_fault at hr
  simp only [bind_ok] at hr
  obtain ⟨_, _, e1, hr1, ⟨up, s1⟩, h1, e2, hr2, ⟨lp, s2⟩, h2, h3⟩ := hr
  dsimp only at h1 hr2 h2 h3
  rw [h.cfg.upt, upper_addr] at hr1 h1
  obtain ⟨x1, _⟩ := read_pte_ok _ _ _ _ hr1
  have x1' : e1 = s.real.table (a / 4194304 % 1024) := x1
  have st1 : InvG s1 none ∧ s1.real.table (a / 4194304 % 1024) = up ∧ up ≠ 0 ∧
      s1.real_free_addr = s.real_free_addr ∧ s1.next_block_number = s.next_block_number ∧
      s1.real_size = s.real_size := by
    split at h1
    · rename_i hz
      simp only [bind_ok, pure, Except.pure] at h1
      obtain ⟨⟨pt, sa⟩, b1, _, _, sb, b2, b3⟩ := h1
      have b3' : pt = up ∧ sb = s1 := by cases b3; exact ⟨rfl, rfl⟩
      rw [← b3'.1, ← b3'.2]
      rw [x1'] at hz
      obtain ⟨q1, q2, q3, _⟩ := fault_table_inv s sa sb _ pt h hu0 hz b1 b2
      obtain ⟨_, a2, _, _⟩ := allocate_pt_ok s sa pt h.cfg b1
      obtain ⟨w1, _⟩ := write_pte_ok _ _ _ _ b2
      refine ⟨q1, q2, q3, ?_, ?_, ?_⟩
      · rw [w1, a2]
      · rw [w1, a2]
      · rw [w1, a2]
    · rename_i hz
      have h1' : e1 = up ∧ s = s1 := by cases h1; exact ⟨rfl, rfl⟩
      rw [← h1'.1, ← h1'.2]
      rw [x1'] at hz ⊢
      exact ⟨h, rfl, hz, rfl, rfl, rfl⟩
  obtain ⟨i1, i2, i3, i4, i5, i6⟩ := st1
  have hq1 : 1 < s1.next_block_number → s1.real_size < s1.real_free_addr := by
    rw [i4, i5, i6]; exact hq
  have hT := i1.tab.tab_rng _ hu0 (by rw [i2]; exact i3)
  rw [i2] at hT
  have hpf := i1.cfg.pfa_hi
  have la := lower_addr up a hT.2.2 (by omega)
  rw [la] at hr2 h2 h3
  obtain ⟨y1, _⟩ := read_pte_ok _ _ _ _ hr2
  have y1' : e2 = s1.real.entry (a / 4194304 % 1024) (a / 4096 % 1024) := by
    rw [y1]
    unfold Mem.entry
    rw [i2]
  have h00 : s1.real.table (a / 4194304 % 1024) ≠ 0 := by rw [i2]; exact i3
  split at h2
  · rename_i hz
    simp only [bind_ok, pure, Except.pure] at h2
    obtain ⟨⟨ra, sa⟩, c1, sb, c2, sc, c3, c4⟩ := h2
    have c4' : SET_RESIDENT ra = lp ∧ sc = s2 := by cases c4; exact ⟨rfl, rfl⟩
    rw [← c4'.1] at h3
    rw [← c4'.2] at h3
    rw [← i2] at c2 c3
    rw [y1'] at hz
    obtain ⟨_, _, _, q4⟩ := fault_new_page_inv fuel s1 sa sb sc _ _ ra i1 hu0 hl0 h00 hz
      c1 c2 c3
    have hres : IS_RESIDENT (SET_RESIDENT ra) = true := by
      rw [SET_RESIDENT_eq, IS_RESIDENT_eq, decide_eq_true_eq]
      omega
    rw [hres] at h3
    cases h3
    have hfa := allocate_real_page_full fuel s1 sa ra i1 hq1 c1
    obtain ⟨w2, _⟩ := write_pte_ok _ _ _ _ c2
    obtain ⟨w3, _⟩ := set_entry_ok _ _ _ _ c3
    rw [w3, w2]
    exact hfa
  · rename_i hz
    have h2' : e2 = lp ∧ s1 = s2 := by cases h2; exact ⟨rfl, rfl⟩
    rw [← h2'.1, ← h2'.2] at h3
    split at h3
    · rename_i hnr
      simp only [bind_ok] at h3
      obtain ⟨⟨lru, s3⟩, c1, c2⟩ := h3
      have hnr2 : s1.real.entry (a / 4194304 % 1024) (a / 4096 % 1024) % 2 = 0 := by
        rw [← y1']
        rw [IS_RESIDENT_eq] at hnr
        simp only [Bool.not_eq_true', decide_eq_false_iff_not] at hnr
        omega
      obtain ⟨b, hb1, hb2, _⟩ := i1.tab.swp _ _ hu0 hl0 h00 (by rw [← y1']; exact hz) hnr2
      have hfull := hq1 (by omega)
      have f1 := find_lru_fixed _ _ _ _ c1
      have f2 := swap_pages_fixed _ _ _ _ c2
      have r1 := find_lru_rfa _ _ _ _ c1
      unfold swap_pages at c2
      simp only [bind_ok] at c2
      obtain ⟨⟨fr, s4⟩, d1, d2⟩ := c2
      have r2 := from_mm_to_bs_rfa _ _ _ _ d1
      have r3 := from_bs_to_mm_rfa _ _ _ _ d2
      intro _
      rw [f2.2.2.2.2.1, f1.2.2.2.2.1, r3, r2, r1]
      exact hfull
    · cases h3
      exact hq1

/-- A translation keeps the property that pages are evicted only once the
cursor of the pool is past the end of real memory. -/
theorem mmu_translate_full (fuel : Nat) : ∀ (s t : State) (a : Nat) (w : Bool) (r : Nat),
    InvG s none → (1 < s.next_block_number → s.real_size < s.real_free_addr) →
    mmu_translate fuel s a w = .ok (r, t) →
    1 < t.next_block_number → t.real_size < t.real_free_addr := by
  induction fuel with
  | zero =>
    intro s t a w r _ _ hr
    unfold mmu_translate at hr
    cases hr
  | succ fuel ih =>
    intro s t a w r h hq hr
    have viafault : ∀ s1, vmsim_map_fault (fuel + 1) s a = .ok s1 →
        mmu_translate fuel s1 a w = .ok (r, t) →
        1 < t.next_block_number → t.real_size < t.real_free_addr := by
      intro s1 b1 b2
      obtain ⟨f1, _⟩ := vmsim_map_fault_inv _ s s1 a h b1
      exact ih s1 t a w r f1 (vmsim_map_fault_full _ s s1 a h hq b1) b2
    unfold mmu_translate at hr
    simp only [bind_ok] at hr
    obtain ⟨_, _, e1, hr1, h1⟩ := hr
    split at h1
    · simp only [bind_ok] at h1
      obtain ⟨s1, b1, b2⟩ := h1
      exact viafault s1 b1 b2
    · simp only [bind_ok] at h1
      obtain ⟨e2, hr2, h2⟩ := h1
      split at h2
      · simp only [bind_ok] at h2
        obtain ⟨s1, b1, b2⟩ := h2
        exact viafault s1 b1 b2
      · simp only [bind_ok, pure, Except.pure] at h2
        obtain ⟨s1, b1, b2⟩ := h2
        obtain ⟨w1, _⟩ := write_pte_ok _ _ _ _ b1
        have b2' : s1 = t := by cases b2; rfl
        rw [← b2', w1]
        exact hq

/-- In every reachable state of a simulator whose real memory is at most
`2^32 - 4096` bytes: if a page was ever evicted, the cursor of the pool is past
the end of real memory (every frame was handed out). -/
theorem reachable_full (s : State) (h : Reachable s) :
    s.real_size + 4096 ≤ 4294967296 →
    1 < s.next_block_number → s.real_size < s.real_free_addr := by
  induction h with
  | init er eb s hi =>
    intro _ hn
    obtain ⟨_, h2⟩ := vmsim_init_boot_ok er eb s hi
    subst h2
    exact absurd hn (by show ¬ 1 < 1; decide)
  | reinit s s1 hr hi ih =>
    rw [vmsim_init_id s (reachable_base s hr)] at hi
    cases hi
    exact ih
  | translate fuel s a w r s1 hr _ ht ih =>
    intro hs
    have hf := mmu_translate_fixed _ _ _ _ _ _ ht
    have hs0 : s.real_size + 4096 ≤ 4294967296 := by rw [← hf.2.2.2.2.1]; exact hs
    exact mmu_translate_full fuel s s1 a w r (reachable_inv s hr hs0) (ih hs0) ht
  | map fuel s a w r s1 hr _ ht ih =>
    intro hs
    rw [vmsim_map_eq _ _ _ _ (reachable_base s hr)] at ht
    have hf := mmu_translate_fixed _ _ _ _ _ _ ht
    have hs0 : s.real_size + 4096 ≤ 4294967296 := by rw [← hf.2.2.2.2.1]; exact hs
    exact mmu_translate_full fuel s s1 a w r (reachable_inv s hr hs0) (ih hs0) ht
  | read fuel s buf a n out s1 hr _ ht ih =>
    intro hs
    unfold vmsim_read at ht
    simp only [bind_ok, pure, Except.pure] at ht
    obtain ⟨⟨r, s2⟩, h1, b, _, h2⟩ := ht
    have h2' : s2 = s1 := by cases h2; rfl
    rw [h2'] at h1
    rw [vmsim_map_eq _ _ _ _ (reachable_base s hr)] at h1
    have hf := mmu_translate_fixed _ _ _ _ _ _ h1
    have hs0 : s.real_size + 4096 ≤ 4294967296 := by rw [← hf.2.2.2.2.1]; exact hs
    exact mmu_translate_full fuel s s1 a false r (reachable_inv s hr hs0) (ih hs0) h1
  | write fuel s buf a n s1 hr _ ht ih =>
    intro hs
    have hf := vmsim_write_fixed _ _ _ _ _ _ (reachable_base s hr) ht
    have hs0 : s.real_size + 4096 ≤ 4294967296 := by rw [← hf.2.2.2.2.1]; exact hs
    unfold vmsim_write at ht
    simp only [bind_ok] at ht
    obtain ⟨⟨r, s2⟩, h1, h2⟩ := ht
    rw [vmsim_map_eq _ _ _ _ (reachable_base s hr)] at h1
    have hq2 := mmu_translate_full fuel s s2 a true r (reachable_inv s hr hs0) (ih hs0) h1
    obtain ⟨e, _⟩ := vmsim_write_real_ok _ _ _ _ _ h2
    rw [e]
    exact hq2
  | alloc s n a s1 hr ht ih =>
    intro hs
    rw [vmsim_alloc_eq s n (reachable_base s hr)] at ht
    cases ht
    exact ih hs
  | free s p _ ih => exact ih

end VMSim

set_option maxRecDepth 10000

namespace VMSim

/-! ### Every translation returns after at most one fault -/

/-- The victim search of every state with at least one slot passes some
number `d` of slots, at most all of them. -/
theorem passes_exists (s : State) : ∃ d, Passes s d := by
  by_cases hex : ∃ d, d < s.num_entries ∧
      IS_REFERENCED (s.slot_pte ((s.current_page_number + d) % s.num_entries)) = false
  · refine ⟨Nat.find hex, Nat.le_of_lt (Nat.find_spec hex).1, fun j hj => ?_,
      fun _ => (Nat.find_spec hex).2⟩
    have hmin := Nat.find_min hex hj
    have hjl : j < s.num_entries := Nat.lt_trans hj (Nat.find_spec hex).1
    cases hc : IS_REFERENCED (s.slot_pte ((s.current_page_number + j) % s.num_entries)) with
    | true => rfl
    | false => exact absurd ⟨hjl, hc⟩ hmin
  · refine ⟨s.num_entries, Nat.le_refl _, fun j hj => ?_, fun hlt => absurd hlt (by omega)⟩
    cases hc : IS_REFERENCED (s.slot_pte ((s.current_page_number + j) % s.num_entries)) with
    | true => rfl
    | false => exact absurd ⟨j, hj, hc⟩ hex

/-- With the cursor of the pool past the end of real memory, every frame has
been handed out. -/
theorem full_frames (s : State) (h : InvG s none) (hframe : 4198400 ≤ s.real_size)
    (hfull : s.real_size < s.real_free_addr) : s.frames = s.num_entries := by
  have hN := h.cfg.slots hframe
  have hal := h.cfg.rfa_al
  rw [h.cfg.frames_eq]
  apply Nat.min_eq_right
  rw [hN]
  omega

/-- After a fault that returned, the translation of the same address returns
without a further fault: it needs one level only. -/
theorem retry_hits (fuel g : Nat) (s t1 : State) (a : Nat) (w : Bool) (h : InvG s none)
    (hf : vmsim_map_fault fuel s a = .ok t1) :
    InvG t1 none ∧ t1.real.table (a / 4194304 % 1024) ≠ 0 ∧
    t1.real.entry (a / 4194304 % 1024) (a / 4096 % 1024) % 2 = 1 ∧
    mmu_translate 1 t1 a w = mmu_translate (g + 1) t1 a w := by
  obtain ⟨i1, i2, i3, _⟩ := vmsim_map_fault_inv fuel s t1 a h hf
  refine ⟨i1, i2, i3, ?_⟩
  rw [mmu_translate_resident 0 t1 a w i1 i2 i3, mmu_translate_resident g t1 a w i1 i2 i3]

/-- In a state that satisfies the invariant, with at least one frame in the
pool, room in the page-table area for a lower table if the address needs one,
and the cursor of the pool not at the end of the 32-bit range, the translation
of every address returns; either it returns without a fault, or the fault
returns and the translation retried after it returns without a further fault. -/
theorem translate_total (fuel : Nat) (s : State) (a : Nat) (w : Bool) (h : InvG s none)
    (hq : 1 < s.next_block_number → s.real_size < s.real_free_addr)
    (hbs : s.bs_base = true) (hbl : s.bs_limit ≤ mapped_len s.bs_size)
    (hframe : 4198400 + 4096 ≤ s.real_size)
    (hroom : s.real.table (a / 4194304 % 1024) = 0 → s.pt_free_addr + 4096 ≤ 4198400)
    (hwrap : s.real_free_addr + 8192 ≤ 4294967296)
    (hfuel : s.num_entries ≤ fuel + 2) :
    ∃ r t, mmu_translate (fuel + 2) s a w = .ok (r, t) ∧ InvG t none ∧
      (mmu_translate 1 s a w = .ok (r, t) ∨
        ∃ t1, vmsim_map_fault (fuel + 2) s a = .ok t1 ∧ InvG t1 none ∧
          t1.real.table (a / 4194304 % 1024) ≠ 0 ∧
          t1.real.entry (a / 4194304 % 1024) (a / 4096 % 1024) % 2 = 1 ∧
          mmu_translate 1 t1 a w = .ok (r, t)) := by
  have hu0 : a / 4194304 % 1024 < 1024 := Nat.mod_lt _ (by norm_num)
  have hl0 : a / 4096 % 1024 < 1024 := Nat.mod_lt _ (by norm_num)
  have hN : 1 ≤ s.num_entries := by
    rw [h.cfg.slots (by omega)]
    omega
  obtain ⟨d, hd⟩ := passes_exists s
  have hdf : d ≤ fuel + 2 := Nat.le_trans hd.le hfuel
  have fin : ∀ t1 r t, vmsim_map_fault (fuel + 2) s a = .ok t1 →
      mmu_translate (fuel + 1) t1 a w = .ok (r, t) →
      mmu_translate (fuel + 2) s a w = .ok (r, t) → InvG t none →
      ∃ r t, mmu_translate (fuel + 2) s a w = .ok (r, t) ∧ InvG t none ∧
        (mmu_translate 1 s a w = .ok (r, t) ∨
          ∃ t1, vmsim_map_fault (fuel + 2) s a = .ok t1 ∧ InvG t1 none ∧
            t1.real.table (a / 4194304 % 1024) ≠ 0 ∧
            t1.real.entry (a / 4194304 % 1024) (a / 4096 % 1024) % 2 = 1 ∧
            mmu_translate 1 t1 a w = .ok (r, t)) := by
    intro t1 r t hf hm1 hm2 it
    obtain ⟨i1, i2, i3, e⟩ := retry_hits (fuel + 2) fuel s t1 a w h hf
    exact ⟨r, t, hm2, it, Or.inr ⟨t1, hf, i1, i2, i3, by rw [e]; exact hm1⟩⟩
  by_cases hres : s.real.table (a / 4194304 % 1024) ≠ 0 ∧
      s.real.entry (a / 4194304 % 1024) (a / 4096 % 1024) % 2 = 1
  · have e1 := mmu_translate_resident (fuel + 1) s a w h hres.1 hres.2
    have e0 := mmu_translate_resident 0 s a w h hres.1 hres.2
    obtain ⟨i1, _⟩ := mmu_translate_inv _ s _ a w _ h e1
    exact ⟨_, _, e1, i1, Or.inl e0⟩
  · by_cases hsw : s.real.table (a / 4194304 % 1024) ≠ 0 ∧
        s.real.entry (a / 4194304 % 1024) (a / 4096 % 1024) ≠ 0
    · have hnr : s.real.entry (a / 4194304 % 1024) (a / 4096 % 1024) % 2 = 0 := by
        by_contra c
        exact hres ⟨hsw.1, by omega⟩
      obtain ⟨b, hb1, hb2, _⟩ := h.tab.swp _ _ hu0 hl0 hsw.1 hsw.2 hnr
      have hfull := full_frames s h (by omega) (hq (by omega))
      obtain ⟨t1, t, hf, hm1, hm2, it, _⟩ :=
        translate_swap_in fuel s a d w h hbs hbl hfull hN hsw.1 hsw.2 hnr hd hdf
      exact fin t1 _ t hf hm1 hm2 it
    · have hz : s.real.table (a / 4194304 % 1024) ≠ 0 →
          s.real.entry (a / 4194304 % 1024) (a / 4096 % 1024) = 0 := by
        intro c
        by_contra c2
        exact hsw ⟨c, c2⟩
      by_cases hfree : s.real_free_addr + 4096 ≤ s.real_size
      · obtain ⟨t1, t, hf, hm1, hm2, it, _⟩ := translate_fresh fuel s a w h hroom hz hfree
        exact fin t1 _ t hf hm1 hm2 it
      · obtain ⟨t1, t, hf, hm1, hm2, it, _⟩ :=
          translate_replace fuel s a d w h hbs hbl hroom hz hN (by omega) (by omega) hwrap
            hd hdf
        exact fin t1 _ t hf hm1 hm2 it

end VMSim

set_option maxRecDepth 10000

namespace VMSim

/-! ### Two pages taking turns in one frame -/

/-- In a state of `Swing` the page that is swapped out is read: the resident
page goes to the block of the counter, the page read is loaded from the block
numbered by bits 10..23 of its entry, and the two pages have changed roles. -/
theorem swing_step (f : Nat) (s : State) (n lr ls : Nat) (buf : Nat → Byte)
    (S : Swing s n lr ls) (hlr : lr < 1024) (hls : ls < 1024) (hn : n < 262144) :
    ∃ t, vmsim_read (f + 2) s buf (ls * 4096) 1 =
        .ok (fun i => if i < 1 then t.real (4198400 + i) else buf i, t) ∧
      Swing t (n + 1) ls lr ∧
      (∀ y, y < 4096 → t.bs (n * 4096 + y) = s.real (4198400 + y)) ∧
      (∀ x, x < n * 4096 ∨ n * 4096 + 4096 ≤ x → t.bs x = s.bs x) ∧
      (∀ y, y < 4096 → t.real (4198400 + y) = t.bs ((n - 1) % 16384 * 4096 + y)) := by
  have hi := S.inv
  have hsz := S.size
  have hrfa := S.rfa
  have htwo := S.two
  have hN : s.num_entries = 1 := by
    rw [hi.cfg.slots (by omega), hsz]
  have hc : s.current_page_number = 0 := by
    rcases hi.cfg.hand with c | c
    · omega
    · exact c
  have hfull : s.frames = s.num_entries := full_frames s hi (by omega) (by omega)
  obtain ⟨p1, p2, p3, p4⟩ := page_idx ls (by omega)
  have pu : ls / 1024 = 0 := by omega
  have pl : ls % 1024 = ls := by omega
  rw [pu] at p1
  rw [pl] at p2
  obtain ⟨i, hil, _, hfr, hdir⟩ := hi.tab.ent 0 lr (by omega) hlr S.tab S.res
  have hi0 : i = 0 := by omega
  rw [hi0] at hdir
  obtain ⟨d, hd⟩ := passes_exists s
  have hdl := hd.le
  have hv : (s.current_page_number + d) % s.num_entries = 0 := by
    rw [hN]; exact Nat.mod_one _
  have hblk := S.blk
  have hout := S.out
  have hbl : s.bs_limit ≤ mapped_len s.bs_size := by
    rw [S.bsl, S.bsz]; exact mapped_len_ge _
  obtain ⟨t1, t, _, _, hm2, it, W⟩ := translate_swap_in f s (ls * 4096) d false hi S.bsb hbl
    hfull (by omega) (by rw [p1]; exact S.tab) (by rw [p1, p2]; omega)
    (by rw [p1, p2]; exact hout) hd (by omega)
  rw [p1, p2] at W
  rw [hv, p4] at hm2
  obtain ⟨h1, h2, h3, h4, h5, h6, h7, h8, h9, h10, h11, h12⟩ := W.fixed
  have hm : vmsim_map (f + 2) s (ls * 4096) false = .ok (4198400, t) := by
    rw [vmsim_map_eq _ _ _ _ hi.cfg.rbase]; exact hm2
  have hlim : t.real_limit = 4202496 := by rw [h4, hi.cfg.limit, hsz]
  have hr := read_via_map (f + 2) s t buf _ 1 _ hm (by rw [hlim]; decide)
  have hvic := W.victim 0 lr (by omega) hlr S.tab (by rw [hv]; exact hdir)
  rw [S.nbn] at hvic
  have hbits := W.new_bits
  simp only [Bool.false_eq_true, if_false] at hbits
  have hst := W.store
  have hkeep := W.store_keep
  have hload := W.load
  rw [S.nbn, hv] at hst
  rw [S.nbn] at hkeep
  rw [hv, hblk] at hload
  have emod : (n * 4096) % U32 = n * 4096 := by
    rw [U32_eq]; omega
  rw [emod] at hst hkeep
  rw [S.bsl] at hst hload
  refine ⟨t, hr, ⟨it, by rw [h5]; exact hsz, by rw [h10]; exact S.bsb, by rw [h11]; exact S.bsl,
    by rw [h12]; exact S.bsz, by rw [W.rfa]; exact hrfa, by rw [W.nbn, S.nbn], by omega,
    by rw [W.tab 0 (by omega)]; exact S.tab, ?_, by omega, by rw [hvic]; omega,
    by rw [hvic]; omega⟩, ?_, hkeep, ?_⟩
  · intro u hu hne
    exact S.tabs u hu (by rw [← W.tab u hu]; exact hne)
  · intro y hy
    exact hst (by omega) y hy
  · intro y hy
    exact hload (by omega) y hy

theorem sim_calls_append (fuel : Nat) (l1 l2 : List Call) : ∀ (s t : State),
    sim_calls fuel s l1 = .ok t → sim_calls fuel s (l1 ++ l2) = sim_calls fuel t l2 := by
  induction l1 with
  | nil =>
    intro s t h
    have e : s = t := by
      unfold sim_calls at h
      exact Except.ok.inj h
    rw [e]; rfl
  | cons c l ih =>
    intro s t h
    unfold sim_calls at h
    show sim_calls fuel s (c :: (l ++ l2)) = _
    conv_lhs => unfold sim_calls
    split at h
    · rename_i hc
      simp only [bind_ok] at h
      obtain ⟨s1, h1, h2⟩ := h
      simp only [hc, if_true, bind, Except.bind, h1]
      exact ih s1 t h2
    · rename_i hc
      simp only [bind_ok] at h
      obtain ⟨⟨o, s1⟩, h1, h2⟩ := h
      simp only [hc, if_false, bind, Except.bind, h1]
      exact ih s1 t h2

theorem sim_calls_read (fuel : Nat) (s t : State) (p : Nat) (out : Nat → Byte)
    (h : vmsim_read fuel s (fun _ => 0) (p * 4096) 1 = .ok (out, t)) :
    sim_calls fuel s [read_page p] = .ok t := by
  have h' : vmsim_read fuel s (read_page p).buffer (read_page p).addr (read_page p).size =
      .ok (out, t) := h
  unfold sim_calls
  have c1 : (read_page p).write = false := rfl
  simp only [c1, Bool.false_eq_true, if_false, h', bind, Except.bind]
  rfl

theorem sim_calls_write (fuel : Nat) (s t : State) (p : Nat)
    (h : vmsim_write fuel s (fun _ => 171) (p * 4096) 1 = .ok t) :
    sim_calls fuel s [write_page p] = .ok t := by
  have h' : vmsim_write fuel s (write_page p).buffer (write_page p).addr (write_page p).size =
      .ok t := h
  unfold sim_calls
  have c1 : (write_page p).write = true := rfl
  simp only [c1, if_true, h', bind, Except.bind]
  rfl

/-- The first two calls of `ping_pong`, from the initial state of a simulator
with one frame: page 1 is read and takes the frame, the write to page 2 evicts
it to block 1; afterwards the frame starts with the byte written and block 0
of the store is zero. -/
theorem swing_base (f : Nat) :
    ∃ s, sim_calls (f + 2) (init_state (some 4202496) none) (ping_pong 0) = .ok s ∧
      Swing s 2 2 1 ∧ s.real 4198400 = 171 ∧ ∀ y, y < 4096 → s.bs y = 0 := by
  obtain ⟨pg, e0, e1⟩ : ∃ pg : Nat → Nat, pg 0 = 1 ∧ pg 1 = 2 := ⟨fun i => i + 1, rfl, rfl⟩
  have hpg : ∀ i, i ≤ 1 → pg i < 1048576 := by
    intro i hi
    have e : i = 0 ∨ i = 1 := by omega
    rcases e with e | e
    · rw [e, e0]; decide
    · rw [e, e1]; decide
  have F0 : Filled pg 0 (init_state (some 4202496) none) (init_state (some 4202496) none) :=
    filled_init pg _ none (by show 4096 < 4202496; decide)
      (by show 4202496 + 4096 ≤ 4294967296; decide)
  -- the read of page 1
  obtain ⟨t1, hm1, F1, hb1, _⟩ := filled_step_at pg 0 0 f false _ _ F0
    (by show 4198400 + 4096 * 0 + 4096 ≤ 4202496; decide) (by decide)
    (fun i hi => hpg i (by omega)) (Or.inr (by omega)) (fun i hi => absurd hi (by omega))
  rw [e0] at hm1
  obtain ⟨_, _, _, f4, f5, _, _, _, _, f10, f11, f12⟩ := F1.fixed
  have hl1 : t1.real_limit = 4202496 := f4
  have sz1 : t1.real_size = 4202496 := f5
  have hbs1 : t1.bs_base = true := f10
  have hbl1 : t1.bs_limit = 1073741824 := f11
  have hbz1 : t1.bs_size = 1073741824 := f12
  have hr1 := read_via_map (f + 2) _ t1 (fun _ => 0) _ 1 _ hm1 (by rw [hl1]; decide)
  have c1 := sim_calls_read (f + 2) _ t1 1 _ hr1
  obtain ⟨a1, a2, a3⟩ := F1.pages 0 (by omega)
  rw [e0] at a1 a2 a3
  have a1' : t1.real.table 0 ≠ 0 := a1
  have a3' : t1.entries 0 = some (t1.real.table 0 + 1 * 4) := a3
  -- the write to page 2
  obtain ⟨t2, hm2, i2, R, hN, hv⟩ := filled_replace_at pg 1 0 f true _ t1 F1 (by omega)
    (by rw [sz1]) hbs1 (by rw [hbl1, hbz1]; exact mapped_len_ge _) (by decide) (by omega)
    (by decide) hpg (Or.inr (by omega))
    (fun i hi => by
      have e : i = 0 := by omega
      rw [e, e0, e1]; decide)
  rw [e1] at hm2 R
  have R' : Replaced t1 t2 0 2 true 1 := R
  obtain ⟨g1, g2, g3, g4, g5, g6, g7, g8, g9, g10, g11, g12⟩ := R'.fixed
  have hw2 := write_via_map (f + 2) t1 t2 (fun _ => 171) _ 1 _ hm2
    (by rw [g4, hl1]; decide)
  have c2 := sim_calls_write (f + 2) t1 _ 2 hw2
  have hrun : sim_calls (f + 2) (init_state (some 4202496) none) (ping_pong 0) =
      .ok { t2 with real := t2.real.copy_in 4198400 (fun _ => 171) 1 } := by
    show sim_calls (f + 2) _ ([read_page 1] ++ [write_page 2]) = _
    rw [sim_calls_append _ _ _ _ _ c1]
    exact c2
  have hagree : ∀ x, x < 4198400 →
      (t2.real.copy_in 4198400 (fun _ => 171) 1) x = t2.real x :=
    fun x hx => copy_in_out _ _ _ _ _ (by omega)
  obtain ⟨k1, k2, k3⟩ := InvG_frame t2 none _ i2 hagree
  have t0 : t2.real.table 0 ≠ 0 := R'.tab_new
  have hvic := R'.victim 0 1 (by omega) (by omega) a1' (by rw [hv]; exact a3')
  rw [F1.nbn] at hvic
  have hnew := R'.new
  rw [hv] at hnew
  simp only [if_true] at hnew
  have hkeep := R'.store_keep
  rw [F1.nbn] at hkeep
  refine ⟨_, hrun, ⟨k1, g5.trans sz1, g10.trans hbs1, g11.trans hbl1, g12.trans hbz1, ?_, ?_,
    Nat.le_refl 2, ?_, ?_, ?_, ?_, ?_⟩, ?_, ?_⟩
  · show t2.real_free_addr = 4206592
    rw [R'.rfa, F1.rfa]
  · show t2.next_block_number = 2
    rw [R'.nbn, F1.nbn]
  · show (t2.real.copy_in 4198400 (fun _ => 171) 1).table 0 ≠ 0
    rw [k2 0 (by omega)]; exact t0
  · intro u hu hne
    have hne2 : t2.real.table u ≠ 0 := by rw [← k2 u hu]; exact hne
    by_contra c
    apply hne2
    apply R'.tab_zero u hu c
    by_contra c2
    obtain ⟨i, hi, e⟩ := F1.tabs u hu c2
    have e2 : i = 0 := by omega
    rw [e2, e0] at e
    omega
  · show (t2.real.copy_in 4198400 (fun _ => 171) 1).entry 0 2 % 2 = 1
    rw [k3 0 2 (by omega) (by omega) t0, hnew]
  · show (t2.real.copy_in 4198400 (fun _ => 171) 1).entry 0 1 % 2 = 0
    rw [k3 0 1 (by omega) (by omega) t0, hvic]
    omega
  · show (t2.real.copy_in 4198400 (fun _ => 171) 1).entry 0 1 / 1024 = 2 - 1
    rw [k3 0 1 (by omega) (by omega) t0, hvic]
    omega
  · show (t2.real.copy_in 4198400 (fun _ => 171) 1) 4198400 = 171
    rw [copy_in_in _ _ _ _ _ (Nat.le_refl _) (by omega)]
  · intro y hy
    show t2.bs y = 0
    rw [hkeep y (Or.inl (by rw [U32_eq]; omega)), hb1]
    rfl

/-- The run of `ping_pong j` from the initial state of a simulator with one
frame, for `j` up to 8191: it returns, page 2 is resident and its frame starts
with the byte written, page 1 is swapped out, the block counter is `2 j + 2`
and block 0 of the store is zero. -/
theorem swing_run (f : Nat) (j : Nat) : j ≤ 8191 →
    ∃ s, sim_calls (f + 2) (init_state (some 4202496) none) (ping_pong j) = .ok s ∧
      Swing s (2 * j + 2) 2 1 ∧ s.real 4198400 = 171 ∧ ∀ y, y < 4096 → s.bs y = 0 := by
  induction j with
  | zero =>
    intro _
    exact swing_base f
  | succ j ih =>
    intro hj
    obtain ⟨s, hrun, S, hdat, hzero⟩ := ih (by omega)
    obtain ⟨t, hr1, T, st1, keep1, _⟩ :=
      swing_step f s (2 * j + 2) 2 1 (fun _ => 0) S (by omega) (by omega) (by omega)
    obtain ⟨t2, hr2, T2, _, keep2, load2⟩ :=
      swing_step f t (2 * j + 2 + 1) 1 2 (fun _ => 0) T (by omega) (by omega) (by omega)
    have c1 := sim_calls_read (f + 2) s t 1 _ hr1
    have c2 := sim_calls_read (f + 2) t t2 2 _ hr2
    have hrun2 : sim_calls (f + 2) (init_state (some 4202496) none) (ping_pong (j + 1)) =
        .ok t2 := by
      show sim_calls (f + 2) _ (ping_pong j ++ ([read_page 1] ++ [read_page 2])) = _
      rw [sim_calls_append _ _ _ _ _ hrun, sim_calls_append _ _ _ _ _ c1]
      exact c2
    have e : 2 * (j + 1) + 2 = 2 * j + 2 + 1 + 1 := by omega
    refine ⟨t2, hrun2, by rw [e]; exact T2, ?_, ?_⟩
    · have l0 := load2 0 (by omega)
      have e1 : 4198400 + 0 = 4198400 := rfl
      rw [e1] at l0
      rw [l0]
      have e2 : (2 * j + 2 + 1 - 1) % 16384 * 4096 + 0 = (2 * j + 2) * 4096 + 0 := by omega
      rw [e2, keep2 _ (Or.inl (by omega)), st1 0 (by omega)]
      exact hdat
    · intro y hy
      rw [keep2 y (Or.inl (by omega)), keep1 y (Or.inl (by omega))]
      exact hzero y hy

/-- After the run of `ping_pong 8191` page 1 is read, which evicts page 2 to
block 16384, and then page 2 is read: the read returns, and the byte it
returns is the first byte of block 0 of the store, zero. -/
theorem swing_lost (f : Nat) (buf : Nat → Byte) :
    ∃ s out t,
      sim_calls (f + 2) (init_state (some 4202496) none) (ping_pong 8191 ++ [read_page 1]) =
        .ok s ∧
      s.pt_free_addr + 4096 ≤ 4198400 ∧ s.next_block_number = 16385 ∧
      s.bs (16384 * 4096) = 171 ∧
      vmsim_read (f + 2) s buf (2 * 4096) 1 = .ok (out, t) ∧
      t.next_block_number = 16386 ∧ t.bs_limit = 1073741824 ∧ out 0 = 0 := by
  obtain ⟨s, hrun, S, hdat, hzero⟩ := swing_run f 8191 (Nat.le_refl _)
  obtain ⟨t, hr1, T, st1, keep1, _⟩ :=
    swing_step f s (2 * 8191 + 2) 2 1 (fun _ => 0) S (by omega) (by omega) (by omega)
  obtain ⟨t2, hr2, T2, _, keep2, load2⟩ :=
    swing_step f t (2 * 8191 + 2 + 1) 1 2 buf T (by omega) (by omega) (by omega)
  have c1 := sim_calls_read (f + 2) s t 1 _ hr1
  have hroom : t.pt_free_addr + 4096 ≤ 4198400 := by
    apply table_room t T.inv 1 (by omega)
    · by_contra c
      have := T.tabs 1 (by omega) c
      omega
    · intro u hu hne
      have := T.tabs u hu hne
      omega
  refine ⟨t, _, t2, ?_, hroom, T.nbn, ?_, hr2, T2.nbn, T2.bsl, ?_⟩
  · rw [sim_calls_append _ _ _ _ _ hrun]
    exact c1
  · have := st1 0 (by omega)
    rw [hdat] at this
    exact this
  · show (if 0 < 1 then t2.real (4198400 + 0) else buf 0) = 0
    rw [if_pos (by omega), load2 0 (by omega)]
    have e2 : (2 * 8191 + 2 + 1 - 1) % 16384 * 4096 + 0 = 0 := by decide
    rw [e2, keep2 0 (Or.inl (by omega)), keep1 0 (Or.inl (by omega))]
    exact hzero 0 (by omega)

/-! ### The flat memory after the same calls -/

theorem flat_calls_append (l1 l2 : List Call) : ∀ (m : Nat → Byte),
    flat_calls m (l1 ++ l2) = flat_calls (flat_calls m l1) l2 := by
  induction l1 with
  | nil => intro m; rfl
  | cons c l ih =>
    intro m
    show flat_calls _ (l ++ l2) = flat_calls (flat_calls _ l) l2
    exact ih _

theorem flat_ping_pong (m : Nat → Byte) (j : Nat) :
    flat_calls m (ping_pong j) = Mem.copy_in m (2 * 4096) (fun _ => 171) 1 := by
  induction j with
  | zero => rfl
  | succ j ih =>
    show flat_calls m (ping_pong j ++ [read_page 1, read_page 2]) = _
    rw [flat_calls_append, ih]
    rfl

theorem ping_pong_mem (j : Nat) (c : Call) (h : c ∈ ping_pong j) :
    c = read_page 1 ∨ c = read_page 2 ∨ c = write_page 2 := by
  induction j with
  | zero =>
    have h' : c ∈ [read_page 1, write_page 2] := h
    simp only [List.mem_cons, List.mem_singleton, List.not_mem_nil, or_false] at h'
    rcases h' with e | e
    · exact Or.inl e
    · exact Or.inr (Or.inr e)
  | succ j ih =>
    have h' : c ∈ ping_pong j ++ [read_page 1, read_page 2] := h
    simp only [List.mem_append, List.mem_cons, List.mem_singleton, List.not_mem_nil,
      or_false] at h'
    rcases h' with e | e | e
    · exact ih e
    · exact Or.inl e
    · exact Or.inr (Or.inl e)

end VMSim

set_option maxRecDepth 10000

namespace VMSim

theorem reachable_one_page : Reachable one_page := by
  unfold one_page
  apply reachable_after_accesses
  · exact reachable_init none none (by decide)
  · intro aw haw
    simp only [List.mem_singleton] at haw
    subst haw
    decide

/-- A translation that needs no victim returns: when the page is resident
it returns with one level; when the page was never mapped, a frame is free
and the page-table area has room for a lower table if one is needed, the
fault returns and the translation retried after it returns with one level.
Nothing is evicted and the clock hand stays where it was. -/
theorem translate_safe (fuel : Nat) (s : State) (a : Nat) (w : Bool) (h : InvG s none)
    (hcase : (s.real.table (a / 4194304 % 1024) ≠ 0 ∧
        s.real.entry (a / 4194304 % 1024) (a / 4096 % 1024) % 2 = 1) ∨
      ((s.real.table (a / 4194304 % 1024) = 0 → s.pt_free_addr + 4096 ≤ 4198400) ∧
        (s.real.table (a / 4194304 % 1024) ≠ 0 →
          s.real.entry (a / 4194304 % 1024) (a / 4096 % 1024) = 0) ∧
        s.real_free_addr + 4096 ≤ s.real_size)) :
    ∃ r t, mmu_translate (fuel + 2) s a w = .ok (r, t) ∧ InvG t none ∧
      t.evicted = s.evicted ∧ t.current_page_number = s.current_page_number ∧
      (mmu_translate 1 s a w = .ok (r, t) ∨
        ∃ t1, vmsim_map_fault (fuel + 2) s a = .ok t1 ∧ InvG t1 none ∧
          t1.real.table (a / 4194304 % 1024) ≠ 0 ∧
          t1.real.entry (a / 4194304 % 1024) (a / 4096 % 1024) % 2 = 1 ∧
          mmu_translate 1 t1 a w = .ok (r, t)) := by
  rcases hcase with ⟨h0, hres⟩ | ⟨hroom, hz, hfree⟩
  · obtain ⟨t, ht, it, H⟩ := hit_ok (fuel + 1) s a w h h0 hres
    have e1 := mmu_translate_resident (fuel + 1) s a w h h0 hres
    have e0 := mmu_translate_resident 0 s a w h h0 hres
    refine ⟨_, t, ht, it, H.evicted, H.hand, Or.inl ?_⟩
    rw [e1] at ht
    show mmu_translate (0 + 1) s a w = _
    rw [e0]
    exact ht
  · obtain ⟨t1, t, hf, hm1, hm2, it, F⟩ := translate_fresh fuel s a w h hroom hz hfree
    obtain ⟨i1, i2, i3, e⟩ := retry_hits (fuel + 2) fuel s t1 a w h hf
    exact ⟨_, t, hm2, it, F.evicted, F.hand,
      Or.inr ⟨t1, hf, i1, i2, i3, by rw [e]; exact hm1⟩⟩

/-- The two cases of `translate_safe`, read off the entries that the
translation reads. -/
theorem safe_case (s : State) (a : Nat) (h : InvG s none)
    (hcase : s.is_resident a = true ∨
      ((s.upper_pte a = 0 → s.pt_free_addr + PAGESIZE ≤ PT_AREA_SIZE) ∧
        (s.upper_pte a ≠ 0 → s.lower_pte a = 0) ∧
        s.real_free_addr + PAGESIZE ≤ s.real_size ∧
        s.slot_allocated ((s.real_free_addr - PT_AREA_SIZE) / PAGESIZE) = true)) :
    (s.real.table (a / 4194304 % 1024) ≠ 0 ∧
        s.real.entry (a / 4194304 % 1024) (a / 4096 % 1024) % 2 = 1) ∨
      ((s.real.table (a / 4194304 % 1024) = 0 → s.pt_free_addr + 4096 ≤ 4198400) ∧
        (s.real.table (a / 4194304 % 1024) ≠ 0 →
          s.real.entry (a / 4194304 % 1024) (a / 4096 % 1024) = 0) ∧
        s.real_free_addr + 4096 ≤ s.real_size) := by
  simp only [PAGESIZE_eq, PT_AREA_SIZE_eq] at hcase
  rcases hcase with c | ⟨c1, c2, c3, _⟩
  · exact Or.inl ((is_resident_iff s h a).1 c)
  · refine Or.inr ⟨fun e => c1 (by rw [upper_pte_eq s none h]; exact e), fun e => ?_, c3⟩
    have hup : s.upper_pte a ≠ 0 := by rw [upper_pte_eq s none h]; exact e
    rw [← lower_pte_eq s none h a hup]
    exact c2 hup

/-- What `mmu_translate_inv` says of the entry after a translation that
returned, in terms of the entries a translation reads. -/
theorem translated_bits (s t : State) (fuel a r : Nat) (w : Bool) (hinv : InvG s none)
    (hr : mmu_translate fuel s a w = .ok (r, t)) :
    t.upper_pte a ≠ 0 ∧ IS_RESIDENT (t.lower_pte a) = true ∧
    IS_REFERENCED (t.lower_pte a) = true ∧
    (w = true → IS_DIRTY (t.lower_pte a) = true) ∧
    (w = false → IS_DIRTY (t.lower_pte a) = true →
      s.upper_pte a ≠ 0 ∧ IS_DIRTY (s.lower_pte a) = true) := by
  obtain ⟨i1, i2, i3, i4, i5, i6, _⟩ := mmu_translate_inv fuel s t a w r hinv hr
  have hup : t.upper_pte a ≠ 0 := by rw [upper_pte_eq t none i1]; exact i2
  rw [lower_pte_eq t none i1 a hup, IS_RESIDENT_eq, IS_REFERENCED_eq, IS_DIRTY_eq]
  simp only [decide_eq_true_eq]
  refine ⟨hup, i3, i4, i5, fun hw hd => ?_⟩
  obtain ⟨j1, j2⟩ := i6 hw hd
  have hup2 : s.upper_pte a ≠ 0 := by rw [upper_pte_eq s none hinv]; exact j1
  rw [lower_pte_eq s none hinv a hup2, IS_DIRTY_eq, decide_eq_true_eq]
  exact ⟨hup2, j2⟩

/-- The address returned by a translation, in terms of the entry as it
stands after the call. -/
theorem translated_addr (s t : State) (fuel a r : Nat) (w : Bool) (hinv : InvG s none)
    (hr : mmu_translate fuel s a w = .ok (r, t)) :
    t.upper_pte a ≠ 0 ∧ IS_RESIDENT (t.lower_pte a) = true ∧
    r = GET_PAGE_ADDR (t.lower_pte a) ||| GET_OFFSET a ∧
    GET_OFFSET r = GET_OFFSET a ∧ GET_PAGE_ADDR r = GET_PAGE_ADDR (t.lower_pte a) := by
  obtain ⟨i1, i2, i3, _, _, _, i7⟩ := mmu_translate_inv fuel s t a w r hinv hr
  have hup : t.upper_pte a ≠ 0 := by rw [upper_pte_eq t none i1]; exact i2
  have hlt : t.real.entry (a / 4194304 % 1024) (a / 4096 % 1024) < 4294967296 := pte_lt _ _
  rw [lower_pte_eq t none i1 a hup, real_addr_value _ a hlt, IS_RESIDENT_eq, decide_eq_true_eq,
    GET_OFFSET_eq, GET_OFFSET_eq, GET_PAGE_ADDR_eq, GET_PAGE_ADDR_eq, Nat.mod_eq_of_lt hlt]
  refine ⟨hup, i3, i7, by omega, ?_⟩
  rw [i7, Nat.mod_eq_of_lt (by omega)]
  omega

end VMSim

set_option maxRecDepth 10000

namespace VMSim

/-! ### The DIRTY bit along a run -/

theorem is_dirty_iff (s : State) (h : InvG s none) (a : Nat) :
    s.is_dirty a = true ↔ s.real.table (a / 4194304 % 1024) ≠ 0 ∧
      s.real.entry (a / 4194304 % 1024) (a / 4096 % 1024) / 4 % 2 = 1 := by
  unfold State.is_dirty
  rw [Bool.and_eq_true, bne_iff_ne, upper_pte_eq s none h]
  constructor
  · rintro ⟨h1, h2⟩
    rw [lower_pte_eq s none h a (by rw [upper_pte_eq s none h]; exact h1), IS_DIRTY_eq,
      decide_eq_true_eq] at h2
    exact ⟨h1, h2⟩
  · rintro ⟨h1, h2⟩
    refine ⟨h1, ?_⟩
    rw [lower_pte_eq s none h a (by rw [upper_pte_eq s none h]; exact h1), IS_DIRTY_eq,
      decide_eq_true_eq]
    exact h2

/-- The entry written by a translation has DIRTY set exactly when the
translation is a write or the entry had it. -/
theorem dirty_of_hit_value (e : Nat) (w : Bool) :
    (if w = true then SET_DIRTY (SET_REFERENCED e) else SET_REFERENCED e) / 4 % 2 = 1 ↔
      e / 4 % 2 = 1 ∨ w = true := by
  cases w
  · simp only [Bool.false_eq_true, if_false, or_false]
    rw [SET_REFERENCED_eq]; omega
  · simp only [if_true, or_true, iff_true]
    rw [SET_DIRTY_eq]; omega

/-- DIRTY after the translation of an address whose page is resident. -/
theorem dirty_hit (s t : State) (u0 l0 : Nat) (w : Bool) (H : Hit s t u0 l0 w)
    (hu0 : u0 < 1024) (h0 : s.real.table u0 ≠ 0) :
    ∀ u l, u < 1024 → l < 1024 →
      ((t.real.table u ≠ 0 ∧ t.real.entry u l / 4 % 2 = 1) ↔
        (s.real.table u ≠ 0 ∧ s.real.entry u l / 4 % 2 = 1) ∨ (w = true ∧ u = u0 ∧ l = l0)) := by
  intro u l hu hl
  rw [H.tab u hu]
  by_cases c : u = u0 ∧ l = l0
  · obtain ⟨c1, c2⟩ := c
    subst c1; subst c2
    rw [H.new, dirty_of_hit_value]
    constructor
    · rintro ⟨a1, a2 | a2⟩
      · exact Or.inl ⟨a1, a2⟩
      · exact Or.inr ⟨a2, rfl, rfl⟩
    · rintro (⟨a1, a2⟩ | ⟨a1, _, _⟩)
      · exact ⟨a1, Or.inl a2⟩
      · exact ⟨h0, Or.inr a1⟩
  · by_cases c0 : s.real.table u = 0
    · constructor
      · rintro ⟨a1, _⟩; exact absurd c0 a1
      · rintro (⟨a1, _⟩ | ⟨_, a2, a3⟩)
        · exact absurd c0 a1
        · exact absurd ⟨a2, a3⟩ c
    · rw [H.low u l hu hl c0 c]
      constructor
      · intro a; exact Or.inl a
      · rintro (a | ⟨_, a2, a3⟩)
        · exact a
        · exact absurd ⟨a2, a3⟩ c

/-- DIRTY after the translation of an address whose page was never mapped,
while a frame is free. -/
theorem dirty_fresh (s t : State) (u0 l0 : Nat) (w : Bool) (F : Fresh s t u0 l0 w)
    (hal : s.real_free_addr % 4096 = 0)
    (hz : s.real.table u0 ≠ 0 → s.real.entry u0 l0 = 0) :
    ∀ u l, u < 1024 → l < 1024 →
      ((t.real.table u ≠ 0 ∧ t.real.entry u l / 4 % 2 = 1) ↔
        (s.real.table u ≠ 0 ∧ s.real.entry u l / 4 % 2 = 1) ∨ (w = true ∧ u = u0 ∧ l = l0)) := by
  intro u l hu hl
  by_cases c : u = u0 ∧ l = l0
  · obtain ⟨c1, c2⟩ := c
    subst c1; subst c2
    rw [F.new]
    have hold : ¬ (s.real.table u ≠ 0 ∧ s.real.entry u l / 4 % 2 = 1) := by
      rintro ⟨a1, a2⟩
      rw [hz a1] at a2
      omega
    cases w
    · simp only [Bool.false_eq_true, if_false, false_and, or_false]
      constructor
      · rintro ⟨_, a2⟩; omega
      · intro a; exact absurd a hold
    · simp only [if_true, true_and, and_self, or_true, iff_true]
      exact ⟨F.tab_new, by omega⟩
  · by_cases c0 : s.real.table u = 0
    · have ht : ¬ (t.real.table u ≠ 0 ∧ t.real.entry u l / 4 % 2 = 1) := by
        rintro ⟨a1, a2⟩
        by_cases cu : u = u0
        · subst cu
          have cl : l ≠ l0 := fun e => c ⟨rfl, e⟩
          rw [F.low_new c0 l hl cl] at a2
          omega
        · exact a1 (F.tab_zero u hu cu c0)
      constructor
      · intro a; exact absurd a ht
      · rintro (⟨a1, _⟩ | ⟨_, a2, a3⟩)
        · exact absurd c0 a1
        · exact absurd ⟨a2, a3⟩ c
    · rw [F.tab_keep u hu c0, F.low u l hu hl c0 c]
      constructor
      · intro a; exact Or.inl a
      · rintro (a | ⟨_, a2, a3⟩)
        · exact a
        · exact absurd ⟨a2, a3⟩ c

/-- The entry written for a victim keeps DIRTY. -/
theorem dirty_of_victim_value (b e : Nat) :
    ((b % 4194304) * 1024 + e % 1024 / 4 * 4) / 4 % 2 = e / 4 % 2 := by
  omega

/-- An entry that loses REFERENCED keeps DIRTY. -/
theorem dirty_of_cleared_value (e : Nat) (he : e < 4294967296) :
    CLEAR_REFERENCED e / 4 % 2 = e / 4 % 2 := by
  rw [CLEAR_REFERENCED_eq]; omega

/-- DIRTY of an entry other than the one translated, after a fault that took
a frame from a victim: the victim's entry, the entries the search passed and
all others keep it. -/
theorem dirty_swept (s t : State) (d u l : Nat) (_ : u < 1024) (_ : l < 1024)
    (_ : s.real.table u ≠ 0)
    (victim : s.entries ((s.current_page_number + d) % s.num_entries) =
        some (s.real.table u + l * 4) →
      t.real.entry u l =
        (s.next_block_number % 4194304) * 1024 + s.real.entry u l % 1024 / 4 * 4)
    (swept : ∀ j, j < d →
      (s.current_page_number + j) % s.num_entries ≠
        (s.current_page_number + d) % s.num_entries →
      s.entries ((s.current_page_number + j) % s.num_entries) = some (s.real.table u + l * 4) →
      t.real.entry u l = CLEAR_REFERENCED (s.real.entry u l))
    (low : (∀ j, j ≤ d →
        s.entries ((s.current_page_number + j) % s.num_entries) ≠
          some (s.real.table u + l * 4)) →
      t.real.entry u l = s.real.entry u l) :
    t.real.entry u l / 4 % 2 = s.real.entry u l / 4 % 2 := by
  have hlt : s.real.entry u l < 4294967296 := pte_lt _ _
  by_cases hex : ∃ j, j ≤ d ∧
      s.entries ((s.current_page_number + j) % s.num_entries) = some (s.real.table u + l * 4)
  · obtain ⟨j, hj, he⟩ := hex
    by_cases hv : (s.current_page_number + j) % s.num_entries =
        (s.current_page_number + d) % s.num_entries
    · rw [hv] at he
      rw [victim he]
      exact dirty_of_victim_value _ _
    · have hjd : j < d := by
        rcases Nat.lt_or_ge j d with c | c
        · exact c
        · have e : j = d := by omega
          subst e
          exact absurd rfl hv
      rw [swept j hjd hv he]
      exact dirty_of_cleared_value _ hlt
  · rw [low (fun j hj c => hex ⟨j, hj, c⟩)]

/-- DIRTY after the translation of an address whose page was never mapped,
while no frame is free. -/
theorem dirty_replaced (s t : State) (u0 l0 d : Nat) (w : Bool)
    (R : Replaced s t u0 l0 w d)
    (hz : s.real.table u0 ≠ 0 → s.real.entry u0 l0 = 0) :
    ∀ u l, u < 1024 → l < 1024 →
      ((t.real.table u ≠ 0 ∧ t.real.entry u l / 4 % 2 = 1) ↔
        (s.real.table u ≠ 0 ∧ s.real.entry u l / 4 % 2 = 1) ∨ (w = true ∧ u = u0 ∧ l = l0)) := by
  intro u l hu hl
  by_cases c : u = u0 ∧ l = l0
  · obtain ⟨c1, c2⟩ := c
    subst c1; subst c2
    rw [R.new]
    have hold : ¬ (s.real.table u ≠ 0 ∧ s.real.entry u l / 4 % 2 = 1) := by
      rintro ⟨a1, a2⟩
      rw [hz a1] at a2
      omega
    cases w
    · simp only [Bool.false_eq_true, if_false, false_and, or_false]
      constructor
      · rintro ⟨_, a2⟩; omega
      · intro a; exact absurd a hold
    · simp only [if_true, true_and, and_self, or_true, iff_true]
      exact ⟨R.tab_new, by omega⟩
  · by_cases c0 : s.real.table u = 0
    · have ht : ¬ (t.real.table u ≠ 0 ∧ t.real.entry u l / 4 % 2 = 1) := by
        rintro ⟨a1, a2⟩
        by_cases cu : u = u0
        · subst cu
          have cl : l ≠ l0 := fun e => c ⟨rfl, e⟩
          rw [R.low_new c0 l hl cl] at a2
          omega
        · exact a1 (R.tab_zero u hu cu c0)
      constructor
      · intro a; exact absurd a ht
      · rintro (⟨a1, _⟩ | ⟨_, a2, a3⟩)
        · exact absurd c0 a1
        · exact absurd ⟨a2, a3⟩ c
    · rw [R.tab_keep u hu c0,
        dirty_swept s t d u l hu hl c0 (R.victim u l hu hl c0)
          (fun j hj hne he => R.swept u l j hu hl c0 hj hne he) (R.low u l hu hl c0 c)]
      constructor
      · intro a; exact Or.inl a
      · rintro (a | ⟨_, a2, a3⟩)
        · exact a
        · exact absurd ⟨a2, a3⟩ c

/-- DIRTY after the translation of an address whose page is swapped out. -/
theorem dirty_swapped (s t : State) (u0 l0 d : Nat) (w : Bool)
    (S : Swapped s t u0 l0 w d) (hu0 : u0 < 1024) (h0 : s.real.table u0 ≠ 0) :
    ∀ u l, u < 1024 → l < 1024 →
      ((t.real.table u ≠ 0 ∧ t.real.entry u l / 4 % 2 = 1) ↔
        (s.real.table u ≠ 0 ∧ s.real.entry u l / 4 % 2 = 1) ∨ (w = true ∧ u = u0 ∧ l = l0)) := by
  intro u l hu hl
  rw [S.tab u hu]
  by_cases c : u = u0 ∧ l = l0
  · obtain ⟨c1, c2⟩ := c
    subst c1; subst c2
    have hb := S.new_bits
    have e : t.real.entry u l / 4 % 2 = t.real.entry u l % 8 / 4 := by omega
    rw [e, hb]
    cases w
    · simp only [Bool.false_eq_true, if_false, false_and, or_false]
      constructor
      · rintro ⟨a1, a2⟩; exact ⟨a1, by omega⟩
      · rintro ⟨a1, a2⟩; exact ⟨a1, by omega⟩
    · simp only [if_true, true_and, and_self, or_true, iff_true]
      exact ⟨h0, by decide⟩
  · by_cases c0 : s.real.table u = 0
    · constructor
      · rintro ⟨a1, _⟩; exact absurd c0 a1
      · rintro (⟨a1, _⟩ | ⟨_, a2, a3⟩)
        · exact absurd c0 a1
        · exact absurd ⟨a2, a3⟩ c
    · rw [dirty_swept s t d u l hu hl c0 (S.victim u l hu hl c0)
        (fun j hj hne he => S.swept u l j hu hl c0 hj hne he) (S.low u l hu hl c0 c)]
      constructor
      · intro a; exact Or.inl a
      · rintro (a | ⟨_, a2, a3⟩)
        · exact a
        · exact absurd ⟨a2, a3⟩ c

/-- DIRTY after a translation that returned, for every entry: it is set
exactly when it was set before or the translation is a write to the page of
the entry. The cursor of the pool advances by at most one page. -/
theorem dirty_step (fuel : Nat) (s t : State) (a r : Nat) (w : Bool) (h : InvG s none)
    (hq : 1 < s.next_block_number → s.real_size < s.real_free_addr)
    (hbs : s.bs_base = true) (hbl : s.bs_limit ≤ mapped_len s.bs_size)
    (hframe : 4198400 + 4096 ≤ s.real_size)
    (hwrap : s.real_free_addr + 8192 ≤ 4294967296)
    (hfuel : s.num_entries ≤ fuel + 2)
    (hr : mmu_translate (fuel + 2) s a w = .ok (r, t)) :
    InvG t none ∧ t.real_free_addr ≤ s.real_free_addr + 4096 ∧
    ∀ u l, u < 1024 → l < 1024 →
      ((t.real.table u ≠ 0 ∧ t.real.entry u l / 4 % 2 = 1) ↔
        (s.real.table u ≠ 0 ∧ s.real.entry u l / 4 % 2 = 1) ∨
          (w = true ∧ u = a / 4194304 % 1024 ∧ l = a / 4096 % 1024)) := by
  have hu0 : a / 4194304 % 1024 < 1024 := Nat.mod_lt _ (by norm_num)
  have hl0 : a / 4096 % 1024 < 1024 := Nat.mod_lt _ (by norm_num)
  have hN : 1 ≤ s.num_entries := by
    rw [h.cfg.slots (by omega)]
    omega
  obtain ⟨d, hd⟩ := passes_exists s
  have hdf : d ≤ fuel + 2 := Nat.le_trans hd.le hfuel
  have same : ∀ r1 t1, mmu_translate (fuel + 2) s a w = .ok (r1, t1) → t1 = t := by
    intro r1 t1 h1
    have e := Except.ok.inj (h1.symm.trans hr)
    exact (Prod.mk.inj e).2
  by_cases hres : s.real.table (a / 4194304 % 1024) ≠ 0 ∧
      s.real.entry (a / 4194304 % 1024) (a / 4096 % 1024) % 2 = 1
  · obtain ⟨t1, ht1, it, H⟩ := hit_ok (fuel + 1) s a w h hres.1 hres.2
    have e := same _ t1 ht1
    subst e
    exact ⟨it, by rw [H.rfa]; omega, dirty_hit s t1 _ _ w H hu0 hres.1⟩
  · have hroom : s.real.table (a / 4194304 % 1024) = 0 → s.pt_free_addr + 4096 ≤ 4198400 := by
      intro h0
      by_contra c
      have hp1 := h.cfg.pfa_hi
      have hp2 := h.cfg.pfa_al
      have e : mmu_translate (fuel + 2) s a w = .error .assertion :=
        translate_table_full (fuel + 1) s a w none h (by omega) (by omega) h0
      rw [e] at hr
      cases hr
    by_cases hsw : s.real.table (a / 4194304 % 1024) ≠ 0 ∧
        s.real.entry (a / 4194304 % 1024) (a / 4096 % 1024) ≠ 0
    · have hnr : s.real.entry (a / 4194304 % 1024) (a / 4096 % 1024) % 2 = 0 := by
        by_contra c
        exact hres ⟨hsw.1, by omega⟩
      obtain ⟨b, hb1, hb2, _⟩ := h.tab.swp _ _ hu0 hl0 hsw.1 hsw.2 hnr
      have hfull := full_frames s h (by omega) (hq (by omega))
      obtain ⟨_, t1, _, _, hm2, it, S⟩ :=
        translate_swap_in fuel s a d w h hbs hbl hfull hN hsw.1 hsw.2 hnr hd hdf
      have e := same _ t1 hm2
      subst e
      exact ⟨it, by rw [S.rfa]; omega, dirty_swapped s t1 _ _ d w S hu0 hsw.1⟩
    · have hz : s.real.table (a / 4194304 % 1024) ≠ 0 →
          s.real.entry (a / 4194304 % 1024) (a / 4096 % 1024) = 0 := by
        intro c
        by_contra c2
        exact hsw ⟨c, c2⟩
      by_cases hfree : s.real_free_addr + 4096 ≤ s.real_size
      · obtain ⟨_, t1, _, _, hm2, it, F⟩ := translate_fresh fuel s a w h hroom hz hfree
        have e := same _ t1 hm2
        subst e
        exact ⟨it, by rw [F.rfa], dirty_fresh s t1 _ _ w F h.cfg.rfa_al hz⟩
      · obtain ⟨_, t1, _, _, hm2, it, R⟩ :=
          translate_replace fuel s a d w h hbs hbl hroom hz hN (by omega) (by omega) hwrap
            hd hdf
        have e := same _ t1 hm2
        subst e
        exact ⟨it, by rw [R.rfa], dirty_replaced s t1 _ _ d w R hz⟩

/-- Two addresses below `2^32` have the same table indices exactly when they
lie in the same page. -/
theorem same_page_iff (a b : Nat) (ha : a < 4294967296) (hb : b < 4294967296) :
    (b / 4194304 % 1024 = a / 4194304 % 1024 ∧ b / 4096 % 1024 = a / 4096 % 1024) ↔
      a / 4096 = b / 4096 := by
  omega

/-- DIRTY after a run of translations from a reachable state: an entry has it
exactly when it had it before the run or the run has a write to its page. The
run is short enough for the cursor of the pool not to reach `2^32`. -/
theorem dirty_run (fuel : Nat) : ∀ (l : List (Nat × Bool)) (s0 s : State), Reachable s0 →
    s0.real_size + 4096 ≤ 4294967296 → 4198400 + 4096 ≤ s0.real_size →
    s0.num_entries ≤ fuel + 2 →
    s0.real_free_addr + 4096 * l.length + 4096 ≤ 4294967296 →
    (∀ x, x ∈ l → x.1 < 4294967296) →
    run_accesses (fuel + 2) s0 l = .ok s →
    ∀ b, b < 4294967296 →
      (s.is_dirty b = true ↔
        s0.is_dirty b = true ∨ ∃ x, x ∈ l ∧ x.2 = true ∧ x.1 / 4096 = b / 4096) := by
  intro l
  induction l with
  | nil =>
    intro s0 s _ _ _ _ _ _ hrun b _
    have e : s0 = s := by
      unfold run_accesses at hrun
      exact Except.ok.inj hrun
    subst e
    simp
  | cons aw l ih =>
    intro s0 s hre hs hframe hfuel hlen hl hrun b hb
    unfold run_accesses at hrun
    simp only [bind_ok] at hrun
    obtain ⟨⟨r, s1⟩, h1, h2⟩ := hrun
    dsimp only at h2
    have hinv := reachable_inv s0 hre hs
    have hq := reachable_full s0 hre hs
    obtain ⟨er, eb, _, hfx⟩ := reachable_fixed s0 hre
    obtain ⟨f1, f2, f3, f4, f5, f6, f7, f8, f9, f10, f11, f12⟩ := hfx
    have hbs : s0.bs_base = true := f10
    have hbl : s0.bs_limit ≤ mapped_len s0.bs_size := by
      rw [f11, f12]
      exact mapped_len_ge _
    have ha : aw.1 < 4294967296 := hl aw (List.mem_cons_self _ _)
    have hre1 : Reachable s1 := Reachable.map (fuel + 2) s0 aw.1 aw.2 r s1 hre ha h1
    have h1' := h1
    rw [vmsim_map_eq _ _ _ _ hinv.cfg.rbase] at h1'
    have hlen' : s0.real_free_addr + 4096 * (l.length + 1) + 4096 ≤ 4294967296 := hlen
    obtain ⟨i1, hrfa, hlaw⟩ := dirty_step fuel s0 s1 aw.1 r aw.2 hinv hq hbs hbl hframe
      (by omega) hfuel h1'
    obtain ⟨g1, g2, g3, g4, g5, g6, g7, g8, g9, _⟩ := mmu_translate_fixed _ _ _ _ _ _ h1'
    have hrest := ih s1 s hre1 (by rw [g5]; exact hs) (by rw [g5]; exact hframe)
      (by rw [g9]; exact hfuel) (by omega) (fun x hx => hl x (List.mem_cons_of_mem _ hx)) h2 b hb
    rw [hrest, is_dirty_iff s1 i1, is_dirty_iff s0 hinv,
      hlaw _ _ (Nat.mod_lt _ (by norm_num)) (Nat.mod_lt _ (by norm_num)),
      same_page_iff aw.1 b ha hb]
    constructor
    · rintro ((c | ⟨c1, c2⟩) | ⟨x, hx, c⟩)
      · exact Or.inl c
      · exact Or.inr ⟨aw, List.mem_cons_self _ _, c1, c2⟩
      · exact Or.inr ⟨x, List.mem_cons_of_mem _ hx, c⟩
    · rintro (c | ⟨x, hx, c1, c2⟩)
      · exact Or.inl (Or.inl c)
      · rcases List.mem_cons.1 hx with e | e
        · subst e
          exact Or.inl (Or.inr ⟨c1, c2⟩)
        · exact Or.inr ⟨x, e, c1, c2⟩

/-- Right after initialisation no entry has DIRTY set. -/
theorem init_not_dirty (er eb : Option Nat) (h1 : 4096 < er.getD DEFAULT_REAL_MEMORY_SIZE)
    (h2 : er.getD DEFAULT_REAL_MEMORY_SIZE + 4096 ≤ 4294967296) (b : Nat) :
    ¬ (init_state er eb).is_dirty b = true := by
  rw [is_dirty_iff _ (init_inv er eb h1 h2)]
  rintro ⟨c, _⟩
  exact c (zero_mem_pte _ _ _)

end VMSim

set_option maxRecDepth 10000

namespace VMSim

/-- C10 (as stated, refuted): with a backing store of 6000 bytes, block 1
covers bytes 4096..8191 and so is not entirely inside the capacity, yet
`bs_write` and `bs_read` on block 1 return true. -/
theorem bs_accepts_cut_block :
    odd_store.bs_size = 6000 ∧ ¬ (1 * BLOCK_SIZE + BLOCK_SIZE ≤ odd_store.bs_size) ∧
    (bs_write odd_store PT_AREA_SIZE 1).toOption.map Prod.fst = some true ∧
    (bs_read odd_store PT_AREA_SIZE 1).toOption.map Prod.fst = some true := by
  decide!

/-- C10 (amended): on an initialised backing store, for a block number whose
byte offset `block_number * 4096` fits 32 bits, `bs_read` and `bs_write` return
false and change nothing when the first byte of the block lies at or past the
capacity; otherwise, when the 4096 bytes at the real address lie inside real
memory, they return true and copy exactly the 4096 bytes of that block (into
real memory, respectively into the store), changing nothing else. When the
capacity is a multiple of 4096 the first byte of a block lies inside the
capacity exactly when the whole block does. -/
theorem bs_block_bounds (s : State) (block_number r : Nat)
    (hbase : s.bs_base = true) (hlimit : s.bs_limit = s.bs_size)
    (hblock : block_number * BLOCK_SIZE < U32) :
    (s.bs_size ≤ block_number * BLOCK_SIZE →
      bs_read s r block_number = .ok (false, s) ∧
      bs_write s r block_number = .ok (false, s)) ∧
    (block_number * BLOCK_SIZE < s.bs_size → r + BLOCK_SIZE ≤ s.real_limit →
      bs_read s r block_number = .ok (true,
        { s with real := s.real.copy_in r (s.bs.at (block_number * BLOCK_SIZE)) BLOCK_SIZE }) ∧
      bs_write s r block_number = .ok (true,
        { s with bs := s.bs.copy_in (block_number * BLOCK_SIZE) (s.real.at r) BLOCK_SIZE })) ∧
    (s.bs_size % BLOCK_SIZE = 0 →
      (block_number * BLOCK_SIZE < s.bs_size ↔
        block_number * BLOCK_SIZE + BLOCK_SIZE ≤ s.bs_size)) := by
  simp only [BLOCK_SIZE_eq, U32_eq] at *
  have e : (block_number * 4096) % 4294967296 = block_number * 4096 := Nat.mod_eq_of_lt hblock
  refine ⟨fun h => ⟨?_, ?_⟩, fun h hr => ⟨?_, ?_⟩, fun h => ?_⟩
  · exact bs_read_out s r block_number (by omega)
  · exact bs_write_out s r block_number (by omega)
  · have := bs_read_in s r block_number hbase (by rw [hlimit]; exact mapped_len_ge _)
      (by omega) hr
    rw [e] at this; exact this
  · have := bs_write_in s r block_number hbase (by rw [hlimit]; exact mapped_len_ge _)
      (by omega) hr
    rw [e] at this; exact this
  · omega

/-- C10 (amended), instance: block 3 of the default store, copied at the first
frame of the default real memory. -/
theorem bs_block_bounds_witness :
    (init_state none none).bs_base = true ∧
    (init_state none none).bs_limit = (init_state none none).bs_size ∧
    3 * BLOCK_SIZE < U32 ∧
    3 * BLOCK_SIZE < (init_state none none).bs_size ∧
    PT_AREA_SIZE + BLOCK_SIZE ≤ (init_state none none).real_limit ∧
    bs_read (init_state none none) PT_AREA_SIZE 3 = .ok (true,
      { init_state none none with
        real := (init_state none none).real.copy_in PT_AREA_SIZE
          ((init_state none none).bs.at (3 * BLOCK_SIZE)) BLOCK_SIZE }) :=
  ⟨by decide, by decide, by decide, by decide, by decide,
    ((bs_block_bounds (init_state none none) 3 PT_AREA_SIZE (by decide) (by decide)
      (by decide)).2.1 (by decide) (by decide)).1⟩

/-- C6: when the directory has `N = num_entries` usable slots and the hand `h`
is below `N`, and `d ≤ N` is the number of slots from the hand on (cyclically)
that have REFERENCED set before the first one that has it clear (`d = N` when
all have it set), `find_lru` returns the pointer held in slot `(h + d) mod N`
(which is slot `h` when `d = N`), leaves the hand on that slot, replaces the
entry of each of the `d` slots it passed by the same entry with REFERENCED
cleared, leaves the entry of every other slot as it was, changes no byte of
real memory outside the entries of the passed slots, and changes no other part
of the state. -/
theorem find_lru_selects (s : State) (fuel d : Nat) (hdir : DirOK s)
    (hhand : s.current_page_number < s.num_entries) (hd : d ≤ s.num_entries)
    (hfuel : d ≤ fuel)
    (href : ∀ j, j < d →
      IS_REFERENCED (s.slot_pte ((s.current_page_number + j) % s.num_entries)) = true)
    (hclear : d < s.num_entries →
      IS_REFERENCED (s.slot_pte ((s.current_page_number + d) % s.num_entries)) = false) :
    (d = s.num_entries →
      (s.current_page_number + d) % s.num_entries = s.current_page_number) ∧
    ∃ p m, s.entries ((s.current_page_number + d) % s.num_entries) = some p ∧
      find_lru fuel s = .ok (p,
        { s with real := m,
                 current_page_number := (s.current_page_number + d) % s.num_entries }) ∧
      (∀ i q, i < s.num_entries → s.entries i = some q →
        ((∃ j, j < d ∧ i = (s.current_page_number + j) % s.num_entries) →
          m.pte q = CLEAR_REFERENCED (s.real.pte q)) ∧
        ((¬ ∃ j, j < d ∧ i = (s.current_page_number + j) % s.num_entries) →
          m.pte q = s.real.pte q)) ∧
      (∀ x, (∀ j q, j < d →
          s.entries ((s.current_page_number + j) % s.num_entries) = some q →
          x < q ∨ q + 4 ≤ x) → m x = s.real x) := by
  refine ⟨fun h => ?_, ?_⟩
  · rw [h, Nat.add_mod_right, Nat.mod_eq_of_lt hhand]
  · rw [find_lru_eq fuel s hdir hhand]
    exact find_lru_loop_spec d s fuel hdir hhand hd hfuel href hclear

/-- C6, instance: the three frames of the default configuration all hold
referenced pages and the hand is on slot 0, so the search passes all three
slots and comes back to slot 0. -/
theorem find_lru_selects_witness :
    DirOK three_pages ∧ three_pages.current_page_number < three_pages.num_entries ∧
    3 ≤ three_pages.num_entries ∧
    (∀ j, j < 3 → IS_REFERENCED (three_pages.slot_pte
      ((three_pages.current_page_number + j) % three_pages.num_entries)) = true) ∧
    ∃ p m, three_pages.entries 0 = some p ∧
      find_lru 3 three_pages = .ok (p,
        { three_pages with real := m, current_page_number := 0 }) := by
  have hdir : DirOK three_pages :=
    ⟨by decide!, by decide!, by decide!, by decide!, by decide!⟩
  have hh : three_pages.current_page_number < three_pages.num_entries := by decide!
  have hd : 3 ≤ three_pages.num_entries := by decide!
  have href : ∀ j, j < 3 → IS_REFERENCED (three_pages.slot_pte
      ((three_pages.current_page_number + j) % three_pages.num_entries)) = true := by decide!
  have e : (three_pages.current_page_number + 3) % three_pages.num_entries = 0 := by decide!
  obtain ⟨p, m, h1, h2, _⟩ :=
    (find_lru_selects three_pages 3 3 hdir hh hd (Nat.le_refl 3) href
      (fun h => absurd h (by decide!))).2
  rw [e] at h1 h2
  exact ⟨hdir, hh, hd, href, p, m, h1, h2⟩

/-- C11 (the defect): in every reachable state, for every real address `r`,
size `n` and buffer, `vmsim_read_real` and `vmsim_write_real` complete when
`r + n ≤ real_size`: the read puts the bytes `r .. r + n - 1` of real memory
in the first `n` bytes of the buffer and leaves the rest of the buffer as it
was; the write puts the first `n` bytes of the buffer at `r .. r + n - 1`,
leaves every other byte of real memory unchanged, and changes nothing else in
the state. When `real_size < r + n` and the sum of the mapping address, `r`
and `n` stays below `2^64`, both fail the bounds assertion. When
`real_size < r + n` and that sum, reduced modulo `2^64` as the 64-bit pointer
arithmetic of `(intptr_t) ptr + size` reduces it, is at most the limit
pointer, the assertion passes and `memcpy` is started on a range that leaves
real memory: the access is not rejected. -/
theorem real_access_bounds (s : State) (h : Reachable s) (buffer : Nat → Byte) (r n : Nat) :
    (r + n ≤ s.real_size →
      vmsim_read_real s buffer r n =
        .ok (fun i => if i < n then s.real (r + i) else buffer i) ∧
      (∃ m, vmsim_write_real s buffer r n = .ok { s with real := m } ∧
        (∀ i, i < n → m (r + i) = buffer i) ∧
        (∀ x, x < r ∨ r + n ≤ x → m x = s.real x))) ∧
    (s.real_size < r + n → s.real_map_addr.val + r + n < U64 →
      vmsim_read_real s buffer r n = .error .assertion ∧
      vmsim_write_real s buffer r n = .error .assertion) ∧
    (s.real_size < r + n →
      (s.real_map_addr.val + r + n) % U64 ≤ s.real_map_addr.val + s.real_size →
      vmsim_read_real s buffer r n = .error .undefined ∧
      vmsim_write_real s buffer r n = .error .undefined) := by
  have hl := reachable_limit s h
  rw [vmsim_read_real_eq, vmsim_write_real_eq, hl]
  refine ⟨fun hle => ?_, fun hlt hs => ?_, fun hlt hw => ?_⟩
  · rw [if_pos hle, if_pos hle]
    refine ⟨rfl, _, rfl, fun i hi => ?_, fun x hx => copy_in_out _ _ _ _ _ hx⟩
    rw [copy_in_in _ _ _ _ _ (by omega) (by omega)]
    congr 1
    omega
  · have h1 : ¬ r + n ≤ s.real_size := by omega
    have h2 : ¬ s.real_map_addr.val + r + n ≤ s.real_map_addr.val + s.real_size := by omega
    simp only [h1, if_false, Nat.mod_eq_of_lt hs, h2, and_self]
  · have h1 : ¬ r + n ≤ s.real_size := by omega
    simp only [h1, if_false, hw, if_true, and_self]

/-- C11, instance: in the initial state of the default configuration a read
of nine bytes from real address 4210680 (eight bytes before the end of real
memory) fails the assertion, and a read of `2^64 - 1` bytes from real address
0 passes the assertion, its end pointer having wrapped to one byte before the
mapping. -/
theorem real_access_bounds_witness :
    Reachable (init_state none none) ∧
    (init_state none none).real_size < 4210680 + 9 ∧
    vmsim_read_real (init_state none none) (fun _ => 7) 4210680 9 = .error .assertion ∧
    (init_state none none).real_size < 0 + 18446744073709551615 ∧
    vmsim_read_real (init_state none none) (fun _ => 7) 0 18446744073709551615 =
      .error .undefined ∧
    vmsim_write_real (init_state none none) (fun _ => 7) 0 18446744073709551615 =
      .error .undefined :=
  ⟨reachable_init none none (by decide), by decide,
    ((real_access_bounds (init_state none none) (reachable_init none none (by decide))
      (fun _ => 7) 4210680 9).2.1 (by decide) (by decide)).1,
    by decide,
    ((real_access_bounds (init_state none none) (reachable_init none none (by decide))
      (fun _ => 7) 0 18446744073709551615).2.2 (by decide) (by decide)).1,
    ((real_access_bounds (init_state none none) (reachable_init none none (by decide))
      (fun _ => 7) 0 18446744073709551615).2.2 (by decide) (by decide)).2⟩

/-- C12 (as stated, refuted): from the initial state, an allocation of
4294963200 bytes returns 4096 and one of 8192 bytes made next (with a
`vmsim_free` in between) returns 0, not 4096 + 4294963200; the address 4096
lies in both allocated ranges. -/
theorem alloc_ranges_overlap :
    (vmsim_alloc (init_state none none) 4294963200).toOption.map
      (fun x => (x.1, (vmsim_alloc (vmsim_free x.2 x.1) 8192).toOption.map Prod.fst)) =
      some (4096, some 0) ∧
    (4096 ≤ 4096 ∧ 4096 < 4096 + 4294963200) ∧ (0 ≤ 4096 ∧ 4096 < 0 + 8192) := by
  decide!

/-- C12 (amended): in every reachable state with cursor `a`, `vmsim_free`
changes nothing, `vmsim_alloc n1` returns `a` and changes nothing but the
cursor, which becomes `(a + n1) mod 2^32`; a following `vmsim_alloc n2`, also
after a `vmsim_free`, returns `(a + n1) mod 2^32`, which is `a + n1` when
`a + n1 < 2^32`; and the first allocation of a process returns 4096. -/
theorem alloc_bump (s : State) (h : Reachable s) (n1 n2 p : Nat) :
    vmsim_free s p = s ∧
    vmsim_alloc s n1 =
      .ok (s.sim_free_addr, { s with sim_free_addr := (s.sim_free_addr + n1) % U32 }) ∧
    vmsim_alloc (vmsim_free { s with sim_free_addr := (s.sim_free_addr + n1) % U32 } p) n2 =
      .ok ((s.sim_free_addr + n1) % U32,
        { s with sim_free_addr := ((s.sim_free_addr + n1) % U32 + n2) % U32 }) ∧
    (s.sim_free_addr + n1 < U32 → (s.sim_free_addr + n1) % U32 = s.sim_free_addr + n1) ∧
    (∀ er eb, 4096 < er.getD DEFAULT_REAL_MEMORY_SIZE →
      vmsim_alloc (boot er eb) n1 =
        .ok (4096, { init_state er eb with sim_free_addr := (4096 + n1) % U32 })) := by
  have hb := reachable_base s h
  refine ⟨rfl, vmsim_alloc_eq s n1 hb, ?_, fun hlt => Nat.mod_eq_of_lt hlt, fun er eb he => ?_⟩
  · exact vmsim_alloc_eq _ n2 hb
  · unfold vmsim_alloc
    rw [vmsim_init_boot er eb he]
    rfl

/-- C12 (amended), instance: 100 bytes, then 50 bytes, in the state with three
resident pages. -/
theorem alloc_bump_witness :
    Reachable three_pages ∧
    vmsim_alloc three_pages 100 =
      .ok (three_pages.sim_free_addr,
        { three_pages with sim_free_addr := (three_pages.sim_free_addr + 100) % U32 }) ∧
    (three_pages.sim_free_addr + 100) % U32 = 4196 :=
  ⟨reachable_three_pages, (alloc_bump three_pages reachable_three_pages 100 50 0).2.1,
    by decide!⟩

/-- C13: in every reachable state (the state left by the first `vmsim_init`
or by any sequence of public operations after it) the simulator is
initialised and `vmsim_init` returns with the whole state unchanged. -/
theorem init_idempotent (s : State) (h : Reachable s) :
    s.real_base = true ∧ vmsim_init s = .ok s :=
  ⟨reachable_base s h, vmsim_init_id s (reachable_base s h)⟩

/-- C13, instance: the state after four page faults, one of them with an
eviction. -/
theorem init_idempotent_witness :
    Reachable four_pages ∧ vmsim_init four_pages = .ok four_pages :=
  ⟨reachable_four_pages, (init_idempotent four_pages reachable_four_pages).2⟩

/-- C15: when all `N = num_entries ≥ 1` directory slots refer to entries and
the hand is below `N`, there is a number `d ≤ N` such that `find_lru` returns
after exactly `d` iterations of its loop (with a bound of `d` or more
iterations it returns, with a smaller bound the bound is reached), whatever
the REFERENCED bits are; it has then inspected `d + 1 ≤ N + 1` slots, returns
the pointer of slot `(hand + d) mod N` and leaves the hand there. -/
theorem find_lru_terminates (s : State) (hs : SlotsOK s) (hN : 1 ≤ s.num_entries)
    (hh : s.current_page_number < s.num_entries) :
    ∃ d p m, d ≤ s.num_entries ∧
      s.entries ((s.current_page_number + d) % s.num_entries) = some p ∧
      (∀ fuel, d ≤ fuel → find_lru fuel s = .ok (p,
        { s with real := m,
                 current_page_number := (s.current_page_number + d) % s.num_entries })) ∧
      (∀ fuel, fuel < d → find_lru fuel s = .error .fuel) :=
  find_lru_total s hs hN hh

/-- C15, instance: the three slots of the default configuration, all holding
referenced pages. -/
theorem find_lru_terminates_witness :
    SlotsOK three_pages ∧ 1 ≤ three_pages.num_entries ∧
    three_pages.current_page_number < three_pages.num_entries ∧
    ∃ d p m, d ≤ three_pages.num_entries ∧
      three_pages.entries
        ((three_pages.current_page_number + d) % three_pages.num_entries) = some p ∧
      (∀ fuel, d ≤ fuel → find_lru fuel three_pages = .ok (p,
        { three_pages with
          real := m
          current_page_number :=
            (three_pages.current_page_number + d) % three_pages.num_entries })) := by
  have hs : SlotsOK three_pages := ⟨by decide!, by decide!, by decide!, by decide!⟩
  have hN : 1 ≤ three_pages.num_entries := by decide!
  have hh : three_pages.current_page_number < three_pages.num_entries := by decide!
  obtain ⟨d, p, m, h1, h2, h3, _⟩ := find_lru_terminates three_pages hs hN hh
  exact ⟨hs, hN, hh, d, p, m, h1, h2, h3⟩

/-- C17 (as stated, refuted): with a backing store of 4096 bytes and the three
frames in use, block 1 is outside the store and `bs_write` returns false, yet
a fault on a fourth page completes: the victim's entry (at 8196) is rewritten
to 1028, block number 1 with RESIDENT clear, the victim's frame 4198400 is
given to the new page (entry at 8208, directory slot 0), the counter moves to
2 and nothing was stored. -/
theorem eviction_ignores_store_failure :
    get_block_ptr small_store (small_store.next_block_number % U32) = none ∧
    (bs_write small_store 4198400 (small_store.next_block_number % U32)).toOption.map
      Prod.fst = some false ∧
    small_store.real.pte 8196 = 4198407 ∧
    (allocate_real_page 8 small_store).toOption.map
      (fun x => (x.1, x.2.real.pte 8196, x.2.next_block_number)) = some (4198400, 1028, 2) ∧
    (vmsim_map_fault 8 small_store 0x4000).toOption.map
      (fun t => (t.real.pte 8196, t.real.pte 8208, t.entries 0, t.next_block_number)) =
      some (1028, 4198401, some 8208, 2) := by
  decide!

/-- C17 (amended): when the next block number is outside the backing store,
`bs_write` reports failure and changes nothing, and `from_mm_to_bs` goes on
regardless: for an entry pointer and a frame inside real memory it returns the
frame, having rewritten the entry with the block number and RESIDENT clear,
zero-filled the frame and advanced the counter; the backing store is
unchanged. -/
theorem eviction_continues_after_failure (s : State) (p : Nat)
    (hp : p + 4 ≤ s.real_limit) (hm : s.real_limit ≤ s.real_mapped)
    (hf : GET_PAGE_ADDR (s.real.pte p) + 4096 ≤ s.real_mapped)
    (hfail : get_block_ptr s (s.next_block_number % U32) = none) :
    bs_write s (GET_PAGE_ADDR (s.real.pte p)) (s.next_block_number % U32) = .ok (false, s) ∧
    from_mm_to_bs s p = .ok (GET_PAGE_ADDR (s.real.pte p),
      { s with
        next_block_number := s.next_block_number + 1
        evicted := s.evicted ++ [s.next_block_number]
        real := (s.real.zero (GET_PAGE_ADDR (s.real.pte p)) 4096).copy_in p
          (bytes32 (CLEAR_RESIDENT ((s.real.pte p &&& 0x3ff) |||
            ((s.next_block_number <<< 10) % U32)))) 4 }) := by
  have hw : bs_write s (GET_PAGE_ADDR (s.real.pte p)) (s.next_block_number % U32) =
      .ok (false, s) := by
    unfold bs_write
    rw [hfail]
  exact ⟨hw, from_mm_to_bs_eq s p false s.bs hp hm hf hw⟩

/-- C17 (amended), instance: the first entry of the full simulator with the
4096-byte store. -/
theorem eviction_continues_after_failure_witness :
    8196 + 4 ≤ small_store.real_limit ∧ small_store.real_limit ≤ small_store.real_mapped ∧
    GET_PAGE_ADDR (small_store.real.pte 8196) + 4096 ≤ small_store.real_mapped ∧
    get_block_ptr small_store (small_store.next_block_number % U32) = none ∧
    bs_write small_store (GET_PAGE_ADDR (small_store.real.pte 8196))
      (small_store.next_block_number % U32) = .ok (false, small_store) :=
  ⟨by decide!, by decide!, by decide!, by decide!,
    (eviction_continues_after_failure small_store 8196 (by decide!) (by decide!) (by decide!)
      (by decide!)).1⟩

/-- C20 (the defect): let `entry_ptr` name an entry `e` inside real memory (a
resident one in particular) whose frame field `f` names a frame inside real
memory that does not contain the entry, and let the next block number `b` lie
inside the capacity of the store. Then `from_mm_to_bs` returns `f`, zero-fills
frame `f`, changes no other byte of real memory but the entry, sets the
counter to `b + 1` and changes nothing else in the state but the store and the
log of evictions. The 4096 bytes of the frame are stored at the byte offset
`b * 4096` reduced modulo `2^32`, the `unsigned int` product of
`get_block_ptr`, and no other byte of the store changes: this is block `b`
when `b < 2^20`; when `2^20 ≤ b` block `b` is left as it was and the block
numbered `b mod 2^20` is overwritten. The entry becomes
`(e & 0x3ff with RESIDENT cleared) | (b << 10)` in 32 bits, that is
`(b mod 2^22) * 1024` plus the old status bits without RESIDENT. -/
theorem from_mm_to_bs_effect (s : State) (p : Nat)
    (hrb : s.real_base = true) (hrl : s.real_limit = s.real_size)
    (hbb : s.bs_base = true) (hbl : s.bs_limit = s.bs_size)
    (hp : p + 4 ≤ s.real_limit)
    (hf : GET_PAGE_ADDR (s.real.pte p) + 4096 ≤ s.real_limit)
    (hpf : p + 4 ≤ GET_PAGE_ADDR (s.real.pte p) ∨ GET_PAGE_ADDR (s.real.pte p) + 4096 ≤ p)
    (hcap : s.next_block_number * BLOCK_SIZE + BLOCK_SIZE ≤ s.bs_size) :
    ∃ t, from_mm_to_bs s p = .ok (GET_PAGE_ADDR (s.real.pte p), t) ∧
      (∀ i, i < 4096 →
        t.bs ((s.next_block_number * BLOCK_SIZE) % U32 + i) =
          s.real (GET_PAGE_ADDR (s.real.pte p) + i)) ∧
      (∀ x, x < (s.next_block_number * BLOCK_SIZE) % U32 ∨
          (s.next_block_number * BLOCK_SIZE) % U32 + BLOCK_SIZE ≤ x → t.bs x = s.bs x) ∧
      (s.next_block_number < 1048576 →
        (s.next_block_number * BLOCK_SIZE) % U32 = s.next_block_number * BLOCK_SIZE) ∧
      (1048576 ≤ s.next_block_number →
        (s.next_block_number * BLOCK_SIZE) % U32 =
          (s.next_block_number % 1048576) * BLOCK_SIZE ∧
        ∀ i, i < 4096 →
          t.bs (s.next_block_number * BLOCK_SIZE + i) =
            s.bs (s.next_block_number * BLOCK_SIZE + i)) ∧
      t.real.pte p =
        CLEAR_RESIDENT ((s.real.pte p &&& 0x3ff) ||| ((s.next_block_number <<< 10) % U32)) ∧
      t.real.pte p = (s.next_block_number % 4194304) * 1024 + s.real.pte p % 1024 / 2 * 2 ∧
      IS_RESIDENT (t.real.pte p) = false ∧
      (∀ i, i < 4096 → t.real (GET_PAGE_ADDR (s.real.pte p) + i) = 0) ∧
      (∀ x, (x < p ∨ p + 4 ≤ x) →
        (x < GET_PAGE_ADDR (s.real.pte p) ∨ GET_PAGE_ADDR (s.real.pte p) + 4096 ≤ x) →
        t.real x = s.real x) ∧
      t.next_block_number = s.next_block_number + 1 ∧
      t = { s with
        real := t.real
        bs := t.bs
        next_block_number := s.next_block_number + 1
        evicted := s.evicted ++ [s.next_block_number] } := by
  simp only [BLOCK_SIZE_eq, U32_eq] at *
  have hm : s.real_limit ≤ s.real_mapped := by
    rw [hrl]; exact real_mapped_ge s hrb
  have emod : (s.next_block_number % 4294967296 * 4096) % 4294967296 =
      (s.next_block_number * 4096) % 4294967296 := by omega
  have hoff : (s.next_block_number * 4096) % 4294967296 + 4096 ≤ s.bs_size := by omega
  have hw := bs_write_in s (GET_PAGE_ADDR (s.real.pte p)) (s.next_block_number % 4294967296)
    hbb (by rw [hbl]; exact mapped_len_ge _) (by rw [emod, hbl]; omega) hf
  rw [emod] at hw
  have hw2 : bs_write s (GET_PAGE_ADDR (s.real.pte p)) (s.next_block_number % U32) =
      .ok (true, { s with bs := (s.bs.copy_in ((s.next_block_number * 4096) % 4294967296)
        (s.real.at (GET_PAGE_ADDR (s.real.pte p))) 4096) }) := by
    rw [U32_eq]; exact hw
  have h := from_mm_to_bs_eq s p true _ hp hm (by omega) hw2
  have hlt := pte_lt s.real p
  have ev := evict_entry_val (s.real.pte p) s.next_block_number
  have epte : ((s.real.zero (GET_PAGE_ADDR (s.real.pte p)) 4096).copy_in p
      (bytes32 (CLEAR_RESIDENT ((s.real.pte p &&& 0x3ff) |||
        ((s.next_block_number <<< 10) % U32)))) 4).pte p =
      (s.next_block_number % 4194304) * 1024 + s.real.pte p % 1024 / 2 * 2 := by
    rw [pte_copy_in_same, ev, Nat.mod_eq_of_lt (by omega)]
  refine ⟨_, h, fun i hi => ?_, fun x hx => ?_, fun hb => by omega, fun hb => ⟨by omega,
    fun i hi => ?_⟩, ?_, epte, ?_, fun i hi => ?_, fun x hx1 hx2 => ?_, rfl, rfl⟩
  · show (s.bs.copy_in ((s.next_block_number * 4096) % 4294967296)
      (s.real.at (GET_PAGE_ADDR (s.real.pte p))) 4096)
        ((s.next_block_number * 4096) % 4294967296 + i) = _
    rw [copy_in_in _ _ _ _ _ (by omega) (by omega)]
    show s.real (_ + _) = _
    congr 1
    omega
  · exact copy_in_out _ _ _ _ _ hx
  · exact copy_in_out _ _ _ _ _ (by omega)
  · show ((s.real.zero (GET_PAGE_ADDR (s.real.pte p)) 4096).copy_in p _ 4).pte p = _
    rw [epte]
    simp only [U32_eq] at ev
    exact ev.symm
  · show IS_RESIDENT (((s.real.zero (GET_PAGE_ADDR (s.real.pte p)) 4096).copy_in p _ 4).pte p)
      = false
    rw [epte, IS_RESIDENT_eq, decide_eq_false_iff_not]; omega
  · show ((s.real.zero (GET_PAGE_ADDR (s.real.pte p)) 4096).copy_in p _ 4) _ = 0
    rw [copy_in_out _ _ _ _ _ (by omega), zero_in _ _ _ _ (by omega) (by omega)]
  · show ((s.real.zero (GET_PAGE_ADDR (s.real.pte p)) 4096).copy_in p _ 4) x = _
    rw [copy_in_out _ _ _ _ _ hx1, zero_out _ _ _ _ hx2]

/-- C20, instance: a store of 8 GiB and the counter at `b = 2^20`, a block
inside the capacity; the entry at 8196 is resident with frame 4198400, whose
first byte is 171. `from_mm_to_bs` returns the frame; afterwards the first
byte of block 0 is 171 and the first byte of block `b` is 0, as it was. -/
theorem from_mm_to_bs_effect_witness :
    wrapped_store.next_block_number = 1048576 ∧
    wrapped_store.next_block_number * BLOCK_SIZE + BLOCK_SIZE ≤ wrapped_store.bs_size ∧
    IS_RESIDENT (wrapped_store.real.pte 8196) = true ∧
    GET_PAGE_ADDR (wrapped_store.real.pte 8196) = 4198400 ∧
    wrapped_store.real 4198400 = 171 ∧ wrapped_store.bs (1048576 * 4096) = 0 ∧
    ∃ t, from_mm_to_bs wrapped_store 8196 = .ok (4198400, t) ∧
      t.bs 0 = 171 ∧ t.bs (1048576 * 4096) = 0 := by
  have hn : wrapped_store.next_block_number = 1048576 := by decide!
  have hg : GET_PAGE_ADDR (wrapped_store.real.pte 8196) = 4198400 := by decide!
  have hv : wrapped_store.real 4198400 = 171 := by decide!
  have hz : wrapped_store.bs (1048576 * 4096) = 0 := by decide!
  obtain ⟨t, h1, h2, _, _, h5, _⟩ :=
    from_mm_to_bs_effect wrapped_store 8196 (by decide!) (by decide!) (by decide!) (by decide!)
      (by decide!) (by decide!) (by decide!) (by decide!)
  rw [hg] at h1
  have e0 := h2 0 (by decide)
  have e1 := (h5 (by rw [hn])).2 0 (by decide)
  rw [hn] at e0 e1
  rw [hg] at e0
  refine ⟨hn, by decide!, by decide!, hg, hv, hz, t, h1, ?_, ?_⟩
  · have e : (1048576 * BLOCK_SIZE) % U32 + 0 = 0 := by decide
    rw [e] at e0
    rw [e0]; exact hv
  · have e : 1048576 * BLOCK_SIZE + 0 = 1048576 * 4096 := by decide
    rw [e] at e1
    rw [e1]; exact hz

/-- C16 (the defect): in a reachable state of a simulator whose real memory
holds the page-table area and is at most `2^32 - 4096` bytes, the page-table
cursor is `2 * 4096 + 4096 * n`, where `n` is the number of upper indices that
have a lower table: the area of 1025 pages holds the unused page 0, the root
table and `n` lower tables. When `n = 1023` the cursor is at the end of the
area, and a fault or a translation for an address of the one remaining upper
index fails the assertion of `allocate_pt`. -/
theorem pt_area_holds_1023_tables (s : State) (h : Reachable s)
    (hlo : PT_AREA_SIZE ≤ s.real_size) (hs : s.real_size + PAGESIZE ≤ U32) :
    s.pt_free_addr = 2 * PAGESIZE + PAGESIZE *
      ((Finset.range 1024).filter (fun u => s.upper_pte (u * 4194304) ≠ 0)).card ∧
    (((Finset.range 1024).filter (fun u => s.upper_pte (u * 4194304) ≠ 0)).card = 1023 →
      s.pt_free_addr = PT_AREA_SIZE ∧
      ∀ fuel a w, s.upper_pte a = 0 →
        vmsim_map_fault fuel s a = .error .assertion ∧
        mmu_translate (fuel + 1) s a w = .error .assertion) := by
  simp only [PAGESIZE_eq, U32_eq, PT_AREA_SIZE_eq] at *
  have hinv := reachable_inv s h hs
  have hc := table_count s none hinv
  rw [table_filter s none hinv]
  refine ⟨by omega, fun hn => ⟨by omega, fun fuel a w h0 => ?_⟩⟩
  rw [upper_pte_eq s none hinv] at h0
  exact ⟨fault_table_full fuel s a none hinv hlo (by omega) h0,
    translate_table_full fuel s a w none hinv hlo (by omega) h0⟩

/-- C16, instance: with three resident pages of one upper index the cursor is
behind the root table and one lower table. -/
theorem pt_area_holds_1023_tables_witness :
    Reachable three_pages ∧ PT_AREA_SIZE ≤ three_pages.real_size ∧
    three_pages.real_size + PAGESIZE ≤ U32 ∧
    three_pages.pt_free_addr = 2 * PAGESIZE + PAGESIZE *
      ((Finset.range 1024).filter (fun u => three_pages.upper_pte (u * 4194304) ≠ 0)).card :=
  ⟨reachable_three_pages, by decide!, by decide!,
    (pt_area_holds_1023_tables three_pages reachable_three_pages (by decide!) (by decide!)).1⟩

/-- C3 (as stated, refuted): with `VMSIM_REAL_MEM_SIZE` set to 8192 the state
after initialisation is reachable, and the read translation of address 0 does
not return: the fault handler allocates the first lower table at 8192, where
real memory ends, and zero-fills it outside the mapping. No bound on the
recursion makes the call return, so there is no state after the call in which
the entry has REFERENCED set. -/
theorem read_translation_crashes :
    Reachable tiny_memory ∧ tiny_memory.real_size = 8192 ∧
    mmu_translate 8 tiny_memory 0 false = .error .undefined ∧
    ∀ fuel r t, mmu_translate fuel tiny_memory 0 false ≠ .ok (r, t) := by
  have hr : Reachable tiny_memory := reachable_init (some 8192) none (by decide)
  refine ⟨hr, by decide!, error_of_match _ _ (by decide!), ?_⟩
  intro fuel r t ht
  have hi := reachable_inv tiny_memory hr (by decide!)
  obtain ⟨i1, i2, _⟩ := mmu_translate_inv fuel tiny_memory t 0 false r hi ht
  obtain ⟨_, hrng, _⟩ := i1.tab.tab_rng _ (by decide) i2
  have hmap := i1.cfg.pfa_map
  have hf := mmu_translate_fixed _ _ _ _ _ _ ht
  have hsz : t.real_size = 8192 := by
    rw [hf.2.2.2.2.1]
    decide!
  unfold State.real_mapped at hmap
  rw [i1.cfg.rbase, if_pos rfl, hsz] at hmap
  have e : mapped_len 8192 = 8192 := by decide
  rw [e] at hmap
  omega

/-- C3 (amended): in a reachable state of a simulator whose real memory is at
most `2^32 - 4096` bytes, whenever `mmu_translate` returns for an address,
the lower-table entry of the page is resident and has REFERENCED set; after a
write translation it has DIRTY set; after a read translation it has DIRTY set
only if the page had an entry with DIRTY set before the call (so a read sets
DIRTY in no entry, and a page never written has DIRTY clear afterwards). And
the call does return, with every bound of at least 2 on the recursion, when
the page is resident, or when the page was never mapped (its lower table is
missing and the page-table area has room for one, or its entry is zero), a
frame of the pool is free and the directory element of that frame lies inside
the block allocated for the directory. -/
theorem translate_status_bits (s : State) (fuel a : Nat) (w : Bool) (h : Reachable s)
    (hs : s.real_size + PAGESIZE ≤ U32) :
    (∀ r t, mmu_translate fuel s a w = .ok (r, t) →
      t.upper_pte a ≠ 0 ∧ IS_RESIDENT (t.lower_pte a) = true ∧
      IS_REFERENCED (t.lower_pte a) = true ∧
      (w = true → IS_DIRTY (t.lower_pte a) = true) ∧
      (w = false → IS_DIRTY (t.lower_pte a) = true →
        s.upper_pte a ≠ 0 ∧ IS_DIRTY (s.lower_pte a) = true)) ∧
    (s.is_resident a = true ∨
      ((s.upper_pte a = 0 → s.pt_free_addr + PAGESIZE ≤ PT_AREA_SIZE) ∧
        (s.upper_pte a ≠ 0 → s.lower_pte a = 0) ∧
        s.real_free_addr + PAGESIZE ≤ s.real_size ∧
        s.slot_allocated ((s.real_free_addr - PT_AREA_SIZE) / PAGESIZE) = true) →
      ∃ r t, mmu_translate (fuel + 2) s a w = .ok (r, t) ∧
        t.upper_pte a ≠ 0 ∧ IS_RESIDENT (t.lower_pte a) = true ∧
        IS_REFERENCED (t.lower_pte a) = true ∧
        (w = true → IS_DIRTY (t.lower_pte a) = true) ∧
        (w = false → IS_DIRTY (t.lower_pte a) = true →
          s.upper_pte a ≠ 0 ∧ IS_DIRTY (s.lower_pte a) = true)) := by
  have hinv := reachable_inv s h (by simpa only [PAGESIZE_eq, U32_eq] using hs)
  refine ⟨fun r t hr => translated_bits s t fuel a r w hinv hr, fun hcase => ?_⟩
  obtain ⟨r, t, ht, _⟩ := translate_safe fuel s a w hinv (safe_case s a hinv hcase)
  exact ⟨r, t, ht, translated_bits s t (fuel + 2) a r w hinv ht⟩

/-- C3 (amended), instance: a read of a page never touched, right after the
initialisation of the default configuration: frame 0 is free and element 0 of
the directory is inside its block of 12 bytes. The call returns, the entry has
REFERENCED set and DIRTY clear. -/
theorem translate_status_bits_witness :
    Reachable (init_state none none) ∧ (init_state none none).real_size + PAGESIZE ≤ U32 ∧
    (init_state none none).upper_pte 0x4000 = 0 ∧
    (init_state none none).slot_allocated
      (((init_state none none).real_free_addr - PT_AREA_SIZE) / PAGESIZE) = true ∧
    ∃ r t, mmu_translate (0 + 2) (init_state none none) 0x4000 false = .ok (r, t) ∧
      IS_REFERENCED (t.lower_pte 0x4000) = true ∧ IS_DIRTY (t.lower_pte 0x4000) = false := by
  have hre : Reachable (init_state none none) := reachable_init none none (by decide)
  have hs : (init_state none none).real_size + PAGESIZE ≤ U32 := by decide!
  have hu : (init_state none none).upper_pte 0x4000 = 0 := by decide!
  have hsl : (init_state none none).slot_allocated
      (((init_state none none).real_free_addr - PT_AREA_SIZE) / PAGESIZE) = true := by decide!
  obtain ⟨r, t, ht, _, _, h3, _, h5⟩ :=
    (translate_status_bits (init_state none none) 0 0x4000 false hre hs).2
      (Or.inr ⟨fun _ => by decide!, fun c => absurd hu c, by decide!, hsl⟩)
  refine ⟨hre, hs, hu, hsl, r, t, ht, h3, ?_⟩
  rw [Bool.eq_false_iff]
  intro hd
  exact absurd hu (h5 rfl hd).1

/-- C5 (as stated, refuted): with `VMSIM_REAL_MEM_SIZE` set to
`PT_AREA_SIZE + 2048` the state after initialisation is reachable, the pool
has no whole frame and the directory no element; the write translation of
address 0x5123 does not return: the fault handler asks for a victim and
`find_lru` reads element 0 of a directory without elements. No bound on the
recursion makes the call return, so the call returns no address. -/
theorem write_translation_crashes :
    Reachable half_frame ∧ half_frame.num_entries = 0 ∧
    mmu_translate 8 half_frame 0x5123 true = .error .undefined ∧
    ∀ fuel r t, mmu_translate fuel half_frame 0x5123 true ≠ .ok (r, t) := by
  have hr : Reachable half_frame :=
    reachable_init (some (PT_AREA_SIZE + 2048)) none (by decide)
  refine ⟨hr, by decide!, error_of_match _ _ (by decide!), ?_⟩
  intro fuel r t ht
  have hi := reachable_inv half_frame hr (by decide!)
  obtain ⟨i1, i2, i3, _⟩ := mmu_translate_inv fuel half_frame t 0x5123 true r hi ht
  obtain ⟨i, hlt, _⟩ := i1.tab.ent _ _ (by decide) (by decide) i2 i3
  have hf := mmu_translate_fixed _ _ _ _ _ _ ht
  have hN : t.num_entries = 0 := by
    rw [hf.2.2.2.2.2.2.2.2.1]
    decide!
  rw [i1.cfg.frames_eq, hN] at hlt
  simp at hlt

/-- C5 (amended): in a reachable state of a simulator whose real memory is at
most `2^32 - 4096` bytes, whenever `mmu_translate` returns `r` for an
address, the page's lower-table entry as it stands after the call is resident
and `r` is (frame field of that entry) OR (offset of the address): the low 12
bits of `r` are the offset and its page-aligned part is the frame of the
entry. And the call does return, with every bound of at least 2 on the
recursion, when the page is resident, or when the page was never mapped (its
lower table is missing and the page-table area has room for one, or its entry
is zero), a frame of the pool is free and the directory element of that frame
lies inside the block allocated for the directory. -/
theorem translate_result (s : State) (fuel a : Nat) (w : Bool) (h : Reachable s)
    (hs : s.real_size + PAGESIZE ≤ U32) :
    (∀ r t, mmu_translate fuel s a w = .ok (r, t) →
      t.upper_pte a ≠ 0 ∧ IS_RESIDENT (t.lower_pte a) = true ∧
      r = GET_PAGE_ADDR (t.lower_pte a) ||| GET_OFFSET a ∧
      GET_OFFSET r = GET_OFFSET a ∧ GET_PAGE_ADDR r = GET_PAGE_ADDR (t.lower_pte a)) ∧
    (s.is_resident a = true ∨
      ((s.upper_pte a = 0 → s.pt_free_addr + PAGESIZE ≤ PT_AREA_SIZE) ∧
        (s.upper_pte a ≠ 0 → s.lower_pte a = 0) ∧
        s.real_free_addr + PAGESIZE ≤ s.real_size ∧
        s.slot_allocated ((s.real_free_addr - PT_AREA_SIZE) / PAGESIZE) = true) →
      ∃ r t, mmu_translate (fuel + 2) s a w = .ok (r, t) ∧
        t.upper_pte a ≠ 0 ∧ IS_RESIDENT (t.lower_pte a) = true ∧
        r = GET_PAGE_ADDR (t.lower_pte a) ||| GET_OFFSET a ∧
        GET_OFFSET r = GET_OFFSET a ∧ GET_PAGE_ADDR r = GET_PAGE_ADDR (t.lower_pte a)) := by
  have hinv := reachable_inv s h (by simpa only [PAGESIZE_eq, U32_eq] using hs)
  refine ⟨fun r t hr => translated_addr s t fuel a r w hinv hr, fun hcase => ?_⟩
  obtain ⟨r, t, ht, _⟩ := translate_safe fuel s a w hinv (safe_case s a hinv hcase)
  exact ⟨r, t, ht, translated_addr s t (fuel + 2) a r w hinv ht⟩

/-- C5 (amended), instance: in the default configuration with one page
written, a write at offset 0x123 of that page, which is resident, returns the
address at offset 0x123 of frame 0. -/
theorem translate_result_witness :
    Reachable one_page ∧ one_page.real_size + PAGESIZE ≤ U32 ∧
    one_page.is_resident 0x1123 = true ∧
    ∃ r t, mmu_translate (0 + 2) one_page 0x1123 true = .ok (r, t) ∧
      r = 4198400 + 0x123 ∧
      GET_OFFSET r = GET_OFFSET 0x1123 ∧ GET_PAGE_ADDR r = GET_PAGE_ADDR (t.lower_pte 0x1123) := by
  have hs : one_page.real_size + PAGESIZE ≤ U32 := by decide!
  have hres : one_page.is_resident 0x1123 = true := by decide!
  obtain ⟨r, t, ht, _, _, _, h4, h5⟩ :=
    (translate_result one_page 0 0x1123 true reachable_one_page hs).2 (Or.inl hres)
  have hv : (mmu_translate (0 + 2) one_page 0x1123 true).toOption.map Prod.fst =
      some (4198400 + 0x123) := by decide!
  rw [ht] at hv
  exact ⟨reachable_one_page, hs, hres, r, t, ht, Option.some.inj hv, h4, h5⟩

/-- C4: in a reachable state of a simulator whose real memory is at most
`2^32 - 4096` bytes, when `mmu_translate` has returned `r1` for an address, a
second translation of the same address, of either kind, returns `r1` again,
and it does so with a recursion bound of 1, that is without a call of
`vmsim_map_fault`; it changes neither cursor, nor the block counter, the clock
hand, the directory, the backing store or the log of evictions. -/
theorem translate_twice (s t1 : State) (fuel a r1 : Nat) (w1 w2 : Bool) (h : Reachable s)
    (hs : s.real_size + PAGESIZE ≤ U32) (hr : mmu_translate fuel s a w1 = .ok (r1, t1)) :
    ∃ t2, (∀ fuel2, mmu_translate (fuel2 + 1) t1 a w2 = .ok (r1, t2)) ∧
      t2.pt_free_addr = t1.pt_free_addr ∧ t2.real_free_addr = t1.real_free_addr ∧
      t2.next_block_number = t1.next_block_number ∧
      t2.current_page_number = t1.current_page_number ∧ t2.entries = t1.entries ∧
      t2.bs = t1.bs ∧ t2.evicted = t1.evicted ∧ t2.sim_free_addr = t1.sim_free_addr := by
  simp only [PAGESIZE_eq, U32_eq] at hs
  have hinv := reachable_inv s h hs
  obtain ⟨i1, i2, i3, _, _, _, i7⟩ := mmu_translate_inv fuel s t1 a w1 r1 hinv hr
  have hlt : t1.real.entry (a / 4194304 % 1024) (a / 4096 % 1024) < 4294967296 := pte_lt _ _
  obtain ⟨v1, _, v3, _⟩ := translate_value _ w2 hlt i3
  have hres := fun fuel2 => mmu_translate_resident fuel2 t1 a w2 i1 i2 i3
  rw [real_addr_value _ a v1] at hres
  have e : (if w2 = true
      then SET_DIRTY (SET_REFERENCED (t1.real.entry (a / 4194304 % 1024) (a / 4096 % 1024)))
      else SET_REFERENCED (t1.real.entry (a / 4194304 % 1024) (a / 4096 % 1024))) / 4096 * 4096 +
      a % 4096 = r1 := by
    rw [i7]; omega
  rw [e] at hres
  exact ⟨_, hres, rfl, rfl, rfl, rfl, rfl, rfl, rfl, rfl⟩

/-- C4, instance: a read then a write of a page never touched. -/
theorem translate_twice_witness :
    Reachable three_pages ∧ three_pages.real_size + PAGESIZE ≤ U32 ∧
    ∃ r1 t1 t2, mmu_translate 8 three_pages 0x4000 false = .ok (r1, t1) ∧
      mmu_translate 1 t1 0x4000 true = .ok (r1, t2) := by
  have hs : three_pages.real_size + PAGESIZE ≤ U32 := by decide!
  obtain ⟨⟨r, t⟩, ht⟩ := ok_of_some (mmu_translate 8 three_pages 0x4000 false) (by decide!)
  obtain ⟨t2, h2, _⟩ :=
    translate_twice three_pages t 8 0x4000 r false true reachable_three_pages hs ht
  exact ⟨reachable_three_pages, hs, r, t, t2, ht, h2 0⟩

/-- C19 (as stated, refuted): there is a reachable state of the default
configuration with a lower-table entry that is not zero and has RESIDENT
clear, whose high field is nevertheless a page-aligned real address inside the
general pool: the entry of a page evicted to block 4100 holds
`4100 << 10 = 4198400 = PT_AREA_SIZE` above its status bits. -/
theorem swapped_entry_looks_like_frame :
    ∃ s a, Reachable s ∧ s.real_size + PAGESIZE ≤ U32 ∧ a < U32 ∧ s.upper_pte a ≠ 0 ∧
      s.lower_pte a ≠ 0 ∧ IS_RESIDENT (s.lower_pte a) = false ∧
      GET_PAGE_ADDR (s.lower_pte a) % PAGESIZE = 0 ∧
      PT_AREA_SIZE ≤ GET_PAGE_ADDR (s.lower_pte a) ∧
      GET_PAGE_ADDR (s.lower_pte a) + PAGESIZE ≤ s.real_size := by
  obtain ⟨s, hr, hsz, _, _, _, _, _, u, l, hu, hl, h0, hnr, hb⟩ := reach_blocks 4099 (by decide)
  have hs : s.real_size + 4096 ≤ 4294967296 := by rw [hsz]; decide
  have hinv := reachable_inv s hr hs
  obtain ⟨p1, p2, p3⟩ := page_of_indices u l hu hl
  have hup : s.upper_pte (u * 4194304 + l * 4096) ≠ 0 := by
    rw [upper_pte_eq s none hinv, p1]; exact h0
  have hlt : s.real.entry u l < 4294967296 := pte_lt _ _
  refine ⟨s, u * 4194304 + l * 4096, hr, hs, p3, hup, ?_⟩
  rw [lower_pte_eq s none hinv _ hup, p1, p2, IS_RESIDENT_eq, decide_eq_false_iff_not,
    GET_PAGE_ADDR_eq, Nat.mod_eq_of_lt hlt, PAGESIZE_eq, PT_AREA_SIZE_eq, hsz]
  omega

/-- C19 (amended): in a reachable state of a simulator whose real memory is
at most `2^32 - 4096` bytes, for a lower-table entry that is not zero: if
RESIDENT is set, its high field is a page-aligned address of a frame of the
general pool, between `PT_AREA_SIZE` and `real_size - 4096`; if RESIDENT is
clear, the field `entry >> 10` is, modulo `2^22`, a block number `b ≥ 1` that
an earlier eviction assigned, and it is `b` itself while the block counter is
at most `2^22`. A real address returned by a translation is never inside the
page-table area and is inside real memory. -/
theorem resident_bit_meaning (s : State) (h : Reachable s) (hs : s.real_size + PAGESIZE ≤ U32) :
    (∀ a, s.upper_pte a ≠ 0 → s.lower_pte a ≠ 0 →
      (IS_RESIDENT (s.lower_pte a) = true →
        GET_PAGE_ADDR (s.lower_pte a) % PAGESIZE = 0 ∧
        PT_AREA_SIZE ≤ GET_PAGE_ADDR (s.lower_pte a) ∧
        GET_PAGE_ADDR (s.lower_pte a) + PAGESIZE ≤ s.real_size) ∧
      (IS_RESIDENT (s.lower_pte a) = false →
        ∃ b, b ∈ s.evicted ∧ 1 ≤ b ∧ s.lower_pte a >>> 10 = b % 4194304 ∧
          (s.next_block_number ≤ 4194304 → s.lower_pte a >>> 10 = b))) ∧
    (∀ fuel a w r t, mmu_translate fuel s a w = .ok (r, t) →
      PT_AREA_SIZE ≤ r ∧ r < t.real_size) := by
  simp only [PAGESIZE_eq, U32_eq, PT_AREA_SIZE_eq] at *
  have hinv := reachable_inv s h hs
  refine ⟨fun a hup hne => ?_, fun fuel a w r t ht => ?_⟩
  · have hu0 : a / 4194304 % 1024 < 1024 := Nat.mod_lt _ (by norm_num)
    have hl0 : a / 4096 % 1024 < 1024 := Nat.mod_lt _ (by norm_num)
    have h0 : s.real.table (a / 4194304 % 1024) ≠ 0 := by
      rw [← upper_pte_eq s none hinv]; exact hup
    have hlt : s.real.entry (a / 4194304 % 1024) (a / 4096 % 1024) < 4294967296 := pte_lt _ _
    rw [lower_pte_eq s none hinv a hup] at hne ⊢
    rw [IS_RESIDENT_eq, GET_PAGE_ADDR_eq, Nat.mod_eq_of_lt hlt, Nat.shiftRight_eq_div_pow]
    simp only [decide_eq_true_eq, decide_eq_false_iff_not]
    refine ⟨fun hres => ?_, fun hnr => ?_⟩
    · obtain ⟨i, hi, _, hf, _⟩ := hinv.tab.ent _ _ hu0 hl0 h0 hres
      have := hinv.cfg.fit i hi
      omega
    · obtain ⟨b, hb1, hb2, hb3⟩ := hinv.tab.swp _ _ hu0 hl0 h0 hne (by omega)
      obtain ⟨e1, e2⟩ := reachable_blocks s h
      refine ⟨b, ?_, hb1, hb3, fun hle => ?_⟩
      · rw [e1, List.mem_range']
        exact ⟨b - 1, by omega, by omega⟩
      · rw [hb3]
        exact Nat.mod_eq_of_lt (by omega)
  · obtain ⟨i1, i2, i3, _, _, _, i7⟩ := mmu_translate_inv fuel s t a w r hinv ht
    have hu0 : a / 4194304 % 1024 < 1024 := Nat.mod_lt _ (by norm_num)
    have hl0 : a / 4096 % 1024 < 1024 := Nat.mod_lt _ (by norm_num)
    obtain ⟨i, hi, _, hf, _⟩ := i1.tab.ent _ _ hu0 hl0 i2 i3
    have := i1.cfg.fit i hi
    omega

/-- C19 (amended), instance: in the state with one evicted page, the entry of
the page at 0x1000 is not resident and carries block number 1. -/
theorem resident_bit_meaning_witness :
    Reachable four_pages ∧ four_pages.real_size + PAGESIZE ≤ U32 ∧
    four_pages.upper_pte 0x1000 ≠ 0 ∧ four_pages.lower_pte 0x1000 ≠ 0 ∧
    IS_RESIDENT (four_pages.lower_pte 0x1000) = false ∧
    ∃ b, b ∈ four_pages.evicted ∧ 1 ≤ b ∧ four_pages.lower_pte 0x1000 >>> 10 = b % 4194304 := by
  have hs : four_pages.real_size + PAGESIZE ≤ U32 := by decide!
  have h1 : four_pages.upper_pte 0x1000 ≠ 0 := by decide!
  have h2 : four_pages.lower_pte 0x1000 ≠ 0 := by decide!
  have h3 : IS_RESIDENT (four_pages.lower_pte 0x1000) = false := by decide!
  obtain ⟨b, hb1, hb2, hb3, _⟩ :=
    ((resident_bit_meaning four_pages reachable_four_pages hs).1 0x1000 h1 h2).2 h3
  exact ⟨reachable_four_pages, hs, h1, h2, h3, b, hb1, hb2, hb3⟩

/-- C1 (as stated, refuted): in the reachable state with three resident pages
of the default configuration, the page at 0x3000 is in the last frame and a
write of 32 bytes at 0x3ff0, which runs past the end of the page, translates
to real address 4210672 and fails the bounds assertion (real memory ends at
4210688), so the write followed by the read does not complete. -/
theorem write_past_real_memory :
    Reachable three_pages ∧ three_pages.real_size = 4210688 ∧
    (vmsim_map 8 three_pages 0x3ff0 true).toOption.map Prod.fst = some 4210672 ∧
    vmsim_write 8 three_pages (fun _ => 7) 0x3ff0 32 = .error .assertion :=
  ⟨reachable_three_pages, by decide!, by decide!, error_of_match _ _ (by decide!)⟩

/-- C1 (amended): in a reachable state of a simulator whose real memory is at
most `2^32 - 4096` bytes, whenever `vmsim_write(buf, a, n)` completes, a
`vmsim_read(buf2, a, n)` made next completes, with a recursion bound of 1
(without a fault), and leaves the first `n` bytes of `buf2` equal to those of
`buf` and the rest of `buf2` as it was. When the translation for the write
returns a real address `r` with `r + m` beyond the size of real memory,
`vmsim_write` of `m` bytes does not complete: it fails its bounds assertion
when `m < 2^63` (the end pointer of the copy does not wrap around `2^64`),
and for every `m` it either fails the assertion or starts a copy that leaves
real memory. -/
theorem write_then_read (s t : State) (fuel a n : Nat) (buf buf2 : Nat → Byte)
    (h : Reachable s) (hs : s.real_size + PAGESIZE ≤ U32)
    (hw : vmsim_write fuel s buf a n = .ok t) :
    (∃ t2, ∀ fuel2, vmsim_read (fuel2 + 1) t buf2 a n =
      .ok (fun i => if i < n then buf i else buf2 i, t2)) ∧
    (∀ b m r s2, vmsim_map fuel s a true = .ok (r, s2) → s2.real_size < r + m →
      (m < 9223372036854775808 → vmsim_write fuel s b a m = .error .assertion) ∧
      (vmsim_write fuel s b a m = .error .assertion ∨
        vmsim_write fuel s b a m = .error .undefined)) := by
  simp only [PAGESIZE_eq, U32_eq] at hs
  have hinv := reachable_inv s h hs
  refine ⟨write_read_eq s t fuel a n buf buf2 hinv hw, fun b m r s2 hm hlt => ?_⟩
  have hm2 := hm
  rw [vmsim_map_eq _ _ _ _ hinv.cfg.rbase] at hm2
  have hi := mmu_translate_inv fuel s s2 a true r hinv hm2
  have hl := hi.1.cfg.limit
  have hmap := s2.real_map_addr.isLt
  have hrs : s2.real_size ≤ 4294967296 := by
    have := (mmu_translate_fixed fuel s s2 a true r hm2).2.2.2.2.1
    omega
  have hr : r < 4294967296 + 4096 := by
    have h1 := hi.2.2.2.2.2.2
    have h2 : s2.real.entry (a / 4194304 % 1024) (a / 4096 % 1024) < 4294967296 := pte_lt _ _
    omega
  have e : vmsim_write fuel s b a m = vmsim_write_real s2 b r m := by
    unfold vmsim_write
    rw [hm]
    rfl
  rw [e, vmsim_write_real_eq, hl, if_neg (by omega)]
  refine ⟨fun hm63 => ?_, ?_⟩
  · rw [if_neg]
    simp only [U64] at *
    rw [Nat.mod_eq_of_lt (by omega)]
    omega
  · by_cases hc : (s2.real_map_addr.val + r + m) % U64 ≤ s2.real_map_addr.val + s2.real_size
    · rw [if_pos hc]; exact Or.inr rfl
    · rw [if_neg hc]; exact Or.inl rfl

/-- C1 (amended), instance: sixteen bytes written at 0x4000, a page never
touched, with the three frames in use. -/
theorem write_then_read_witness :
    Reachable three_pages ∧ three_pages.real_size + PAGESIZE ≤ U32 ∧
    ∃ t t2, vmsim_write 8 three_pages (fun i => Fin.ofNat i) 0x4000 16 = .ok t ∧
      vmsim_read 1 t (fun _ => 0) 0x4000 16 =
        .ok (fun i => if i < 16 then Fin.ofNat i else 0, t2) := by
  have hs : three_pages.real_size + PAGESIZE ≤ U32 := by decide!
  obtain ⟨t, ht⟩ :=
    ok_of_some (vmsim_write 8 three_pages (fun i => Fin.ofNat i) 0x4000 16) (by decide!)
  obtain ⟨t2, h2⟩ := (write_then_read three_pages t 8 0x4000 16 (fun i => Fin.ofNat i)
    (fun _ => 0) reachable_three_pages hs ht).1
  exact ⟨reachable_three_pages, hs, t, t2, ht, h2 0⟩

/-- C2 (the defect): `from_bs_to_mm` takes the block number from bits 10..23
of the entry (mask `0xfffc00`), so for an entry that `from_mm_to_bs` wrote for
block `b` it reads block `b mod 2^14`: with the entry at `p` (below the frame,
inside real memory) holding `b << 10` plus status bits, and block `b mod 2^14`
inside the store, `from_bs_to_mm` returns and the frame holds the 4096 bytes
of block `b mod 2^14`. For `b < 2^14` this is the block the page was evicted
to; for `b ≥ 2^14` it is another block. -/
theorem reload_reads_masked_block (s : State) (p f b st : Nat)
    (hp : p + 4 ≤ s.real_limit) (he : s.entries_base = true)
    (hn : ((f + U32 - PT_AREA_SIZE) % U32) / PAGESIZE < s.num_entries)
    (hb : s.bs_base = true) (hl : s.bs_limit ≤ mapped_len s.bs_size)
    (hcap : (b % 16384) * BLOCK_SIZE < s.bs_limit) (hf : f + PAGESIZE ≤ s.real_limit)
    (hpf : p + 4 ≤ f) (hst : st < 1024) (hent : s.real.pte p = (b % 4194304) * 1024 + st) :
    ∃ t, from_bs_to_mm s p f = .ok t ∧
      ∀ i, i < 4096 → t.real (f + i) = s.bs ((b % 16384) * BLOCK_SIZE + i) := by
  simp only [BLOCK_SIZE_eq, PAGESIZE_eq] at *
  exact reload_block_eq s p f b st hp he hn hb hl hcap hf hpf hst hent

/-- C2, instance: a page whose frame started with the byte 171 was evicted
with the counter at `2^14`; block `2^14` starts with 171, the entry holds
`2^14 << 10` plus status bits 6, and the reload fills the frame from block 0,
so the frame starts with 0. -/
theorem reload_reads_masked_block_witness :
    reload_state.real.pte 8196 = (16384 % 4194304) * 1024 + 6 ∧
    reload_state.bs (16384 * BLOCK_SIZE) = 171 ∧ reload_state.bs 0 = 0 ∧
    16384 * BLOCK_SIZE + BLOCK_SIZE ≤ reload_state.bs_size ∧
    ∃ t, from_bs_to_mm reload_state 8196 4198400 = .ok t ∧ t.real 4198400 = 0 := by
  have h1 : reload_state.real.pte 8196 = (16384 % 4194304) * 1024 + 6 := by decide!
  have h2 : reload_state.bs 0 = 0 := by decide!
  obtain ⟨t, ht, hd⟩ := reload_reads_masked_block reload_state 8196 4198400 16384 6
    (by decide!) (by decide!) (by decide!) (by decide!) (by decide!) (by decide!) (by decide!)
    (by decide) (by decide) h1
  have h3 := hd 0 (by decide)
  exact ⟨h1, by decide!, h2, by decide!, t, ht, by rw [h3]; exact h2⟩

/-- C25: for every 32-bit simulated address the upper index, the lower index
and the offset (macros of `vmsim.c`) are below 1024, 1024 and 4096, and
`(upper << 22) | (lower << 12) | offset` gives the address back; two 32-bit
addresses have the same upper and lower indices exactly when they lie in the
same 4096-byte page; the macros of `mmu.c`, used by the translator, compute
the same three values as those of `vmsim.c`, used by the fault handler. -/
theorem address_split (a b : Nat) (ha : a < U32) (hb : b < U32) :
    GET_UPPER_INDEX a < 1024 ∧ GET_LOWER_INDEX a < 1024 ∧ GET_OFFSET a < 4096 ∧
    (GET_UPPER_INDEX a <<< 22) ||| (GET_LOWER_INDEX a <<< 12) ||| GET_OFFSET a = a ∧
    ((GET_UPPER_INDEX a = GET_UPPER_INDEX b ∧ GET_LOWER_INDEX a = GET_LOWER_INDEX b) ↔
      a / 4096 = b / 4096) ∧
    MMU.GET_UPPER_INDEX a = GET_UPPER_INDEX a ∧ MMU.GET_LOWER_INDEX a = GET_LOWER_INDEX a ∧
    MMU.GET_OFFSET a = GET_OFFSET a := by
  simp only [U32_eq] at ha hb
  have e1 : MMU.GET_OFFSET a = GET_OFFSET a := rfl
  refine ⟨?_, ?_, ?_, ?_, ?_, rfl, rfl, e1⟩
  · rw [GET_UPPER_INDEX_eq]; omega
  · rw [GET_LOWER_INDEX_eq]; omega
  · rw [GET_OFFSET_eq]; omega
  · rw [GET_UPPER_INDEX_eq, GET_LOWER_INDEX_eq, GET_OFFSET_eq, Nat.shiftLeft_eq,
      Nat.shiftLeft_eq]
    have h1 : (a / 4194304 % 1024 * 2 ^ 22) ||| (a / 4096 % 1024 * 2 ^ 12) =
        a / 4194304 % 1024 * 2 ^ 22 + a / 4096 % 1024 * 2 ^ 12 :=
      or_disjoint 22 _ _ (by omega) (by omega)
    rw [h1]
    have h2 : (a / 4194304 % 1024 * 2 ^ 22 + a / 4096 % 1024 * 2 ^ 12) ||| (a % 4096) =
        a / 4194304 % 1024 * 2 ^ 22 + a / 4096 % 1024 * 2 ^ 12 + a % 4096 :=
      or_disjoint 12 _ _ (by omega) (by omega)
    rw [h2]
    omega
  · rw [GET_UPPER_INDEX_eq, GET_LOWER_INDEX_eq, GET_UPPER_INDEX_eq, GET_LOWER_INDEX_eq]
    constructor
    · rintro ⟨h1, h2⟩; omega
    · intro h; constructor <;> omega

/-- C25, instance: the address 0x00c05123 has upper index 3, lower index 5 and
offset 0x123, and shares its page with 0x00c05fff. -/
theorem address_split_witness :
    GET_UPPER_INDEX 0x00c05123 = 3 ∧ GET_LOWER_INDEX 0x00c05123 = 5 ∧
    GET_OFFSET 0x00c05123 = 0x123 ∧
    (GET_UPPER_INDEX 0x00c05123 <<< 22) ||| (GET_LOWER_INDEX 0x00c05123 <<< 12) |||
      GET_OFFSET 0x00c05123 = 0x00c05123 ∧
    GET_UPPER_INDEX 0x00c05123 = GET_UPPER_INDEX 0x00c05fff ∧
    GET_LOWER_INDEX 0x00c05123 = GET_LOWER_INDEX 0x00c05fff := by
  obtain ⟨_, _, _, h4, h5, _⟩ := address_split 0x00c05123 0x00c05fff (by decide) (by decide)
  obtain ⟨h6, h7⟩ := h5.2 (by decide)
  exact ⟨by decide, by decide, by decide, h4, h6, h7⟩

/-- C21 (the defect): the entry that `from_mm_to_bs` writes for a victim
carries the block counter `b` in the 22 bits from bit 10 up, but the
expression `(entry & 0xfffc00) >> 10` by which `from_bs_to_mm` extracts the
block number keeps only 14 of them: it yields `b mod 2^14`, which is `b`
exactly when `b < 16384`. -/
theorem block_field_extracted (s t : State) (p f : Nat)
    (h : from_mm_to_bs s p = .ok (f, t)) :
    t.real.pte p >>> 10 = s.next_block_number % 4194304 ∧
    (t.real.pte p &&& 0xfffc00) >>> 10 = s.next_block_number % 16384 ∧
    ((t.real.pte p &&& 0xfffc00) >>> 10 = s.next_block_number ↔
      s.next_block_number < 16384) := by
  unfold from_mm_to_bs at h
  simp only [bind_ok, pure, Except.pure] at h
  obtain ⟨e, h1, ⟨r, s1⟩, h2, s3, h3, s4, h4, h5⟩ := h
  obtain ⟨m, b1⟩ := bs_write_ok _ _ _ _ _ h2
  subst b1
  obtain ⟨m1, _⟩ := memset_page_ok _ _ _ h3
  subst m1
  obtain ⟨w1, _⟩ := write_pte_ok _ _ _ _ h4
  subst w1
  dsimp only at h5
  obtain ⟨_, h5b⟩ := Prod.mk.inj (Except.ok.inj h5)
  subst h5b
  have hv : ((s.real.zero (GET_PAGE_ADDR e) 4096).copy_in p
      (bytes32 (CLEAR_RESIDENT ((e &&& 0x3ff) ||| ((s.next_block_number <<< 10) % U32)))) 4).pte p =
      (s.next_block_number % 4194304) * 1024 + e % 1024 / 2 * 2 := by
    rw [pte_copy_in_same, evict_entry_val]
    exact Nat.mod_eq_of_lt (by omega)
  show ((s.real.zero (GET_PAGE_ADDR e) 4096).copy_in p _ 4).pte p >>> 10 = _ ∧
    (((s.real.zero (GET_PAGE_ADDR e) 4096).copy_in p _ 4).pte p &&& 0xfffc00) >>> 10 = _ ∧
    ((((s.real.zero (GET_PAGE_ADDR e) 4096).copy_in p _ 4).pte p &&& 0xfffc00) >>> 10 = _ ↔ _)
  rw [hv, and_block_mask, Nat.shiftRight_eq_div_pow]
  refine ⟨by omega, by omega, ?_⟩
  constructor
  · intro h; omega
  · intro h; omega

/-- C21, instance: the page at 0x1000 (entry at 8196) is evicted with the
block counter at 16384; the entry carries 16384 above bit 10 and the block
number extracted for the reload is 0. -/
theorem block_field_extracted_witness :
    ∃ f t, from_mm_to_bs { written_page with next_block_number := 16384 } 8196 = .ok (f, t) ∧
      t.real.pte 8196 >>> 10 = 16384 ∧ (t.real.pte 8196 &&& 0xfffc00) >>> 10 = 0 := by
  obtain ⟨⟨f, t⟩, ht⟩ :=
    ok_of_some (from_mm_to_bs { written_page with next_block_number := 16384 } 8196)
      (by decide!)
  obtain ⟨h1, h2, _⟩ := block_field_extracted _ t 8196 f ht
  exact ⟨f, t, ht, h1, h2⟩

/-- C22 (as stated, refuted): in the default configuration page 1 is written,
then evicted by reads of three other pages (its entry is then not resident,
with DIRTY set), then reloaded by a read; in the reachable state after that
read its entry is resident and DIRTY is set, although the page has not been
write-translated since it was loaded. -/
theorem dirty_after_reload_by_read :
    Reachable reloaded_by_read ∧
    IS_RESIDENT (written_then_evicted.lower_pte 0x1000) = false ∧
    written_then_evicted.lower_pte 0x1000 ≠ 0 ∧
    reloaded_by_read.upper_pte 0x1000 ≠ 0 ∧
    IS_RESIDENT (reloaded_by_read.lower_pte 0x1000) = true ∧
    IS_DIRTY (reloaded_by_read.lower_pte 0x1000) = true := by
  refine ⟨?_, by decide!, by decide!, by decide!, by decide!, by decide!⟩
  unfold reloaded_by_read written_then_evicted
  apply reachable_after_accesses
  · apply reachable_after_accesses
    · exact reachable_init none none (by decide)
    · intro aw haw
      simp only [List.mem_cons, List.mem_singleton, List.not_mem_nil, or_false] at haw
      rcases haw with h | h | h | h <;> subst h <;> decide
  · intro aw haw
    simp only [List.mem_singleton] at haw
    subst haw
    decide

/-- C22 (amended): a simulator with at least one frame and real memory of at
most `2^32 - 4096` bytes is initialised and a list of translations
`(address, is_write)` is run through `vmsim_map`, each of them returning (the
bound `fuel + 2` is at least the number of frames, and the list is short
enough for the cursor of the pool, which advances by at most a page with each
translation, not to reach `2^32`). In the state after the run, the page of an
address `b` has an entry with DIRTY set exactly when the list has a write
translation of an address in that page; in particular a resident entry has
DIRTY set exactly when its page was write-translated at some point of the run,
before or after it was last loaded: a write translation sets DIRTY, and no
read translation, victim search, eviction or reload clears it. -/
theorem dirty_iff_written (er eb : Option Nat) (fuel : Nat) (l : List (Nat × Bool))
    (s : State)
    (hlo : PT_AREA_SIZE + PAGESIZE ≤ er.getD DEFAULT_REAL_MEMORY_SIZE)
    (hhi : er.getD DEFAULT_REAL_MEMORY_SIZE + PAGESIZE ≤ U32)
    (hfuel : (init_state er eb).num_entries ≤ fuel + 2)
    (hlen : PT_AREA_SIZE + PAGESIZE * l.length + PAGESIZE ≤ U32)
    (hl : ∀ x, x ∈ l → x.1 < U32)
    (hrun : run_accesses (fuel + 2) (init_state er eb) l = .ok s) :
    ∀ b, b < U32 →
      (s.is_dirty b = true ↔
        ∃ x, x ∈ l ∧ x.2 = true ∧ x.1 / PAGESIZE = b / PAGESIZE) ∧
      (s.is_resident b = true →
        (IS_DIRTY (s.lower_pte b) = true ↔
          ∃ x, x ∈ l ∧ x.2 = true ∧ x.1 / PAGESIZE = b / PAGESIZE)) := by
  simp only [PAGESIZE_eq, U32_eq, PT_AREA_SIZE_eq] at *
  intro b hb
  have h1 : 4096 < er.getD DEFAULT_REAL_MEMORY_SIZE := by omega
  have key := dirty_run fuel l (init_state er eb) s (reachable_init er eb h1) hhi hlo hfuel
    (by show 4198400 + 4096 * l.length + 4096 ≤ 4294967296; exact hlen) hl hrun b hb
  have k2 : s.is_dirty b = true ↔ ∃ x, x ∈ l ∧ x.2 = true ∧ x.1 / 4096 = b / 4096 := by
    rw [key]
    constructor
    · rintro (c | c)
      · exact absurd c (init_not_dirty er eb h1 hhi b)
      · exact c
    · intro c; exact Or.inr c
  refine ⟨k2, fun hres => ?_⟩
  rw [← k2]
  unfold State.is_resident at hres
  rw [Bool.and_eq_true] at hres
  unfold State.is_dirty
  rw [Bool.and_eq_true]
  exact ⟨fun c => ⟨hres.1, c⟩, fun c => c.2⟩

/-- C22 (amended), instance: in the default configuration page 1 is written,
pages 2, 3 and 4 are read (the last read evicts page 1) and page 1 is read
again: the run returns; afterwards page 1 is resident with DIRTY set, having
been written before its reload, and page 2, never written, has DIRTY clear. -/
theorem dirty_iff_written_witness :
    ∃ s, run_accesses (1 + 2) (init_state none none)
        [(0x1000, true), (0x2000, false), (0x3000, false), (0x4000, false), (0x1000, false)] =
        .ok s ∧
      s.is_resident 0x1000 = true ∧ IS_DIRTY (s.lower_pte 0x1000) = true ∧
      s.is_dirty 0x2000 = false := by
  obtain ⟨s, hs⟩ := ok_of_some (run_accesses (1 + 2) (init_state none none)
    [(0x1000, true), (0x2000, false), (0x3000, false), (0x4000, false), (0x1000, false)])
    (by decide!)
  have hres : s.is_resident 0x1000 = true := by
    have e : (run_accesses (1 + 2) (init_state none none)
        [(0x1000, true), (0x2000, false), (0x3000, false), (0x4000, false),
          (0x1000, false)]).toOption.map (fun t => t.is_resident 0x1000) = some true := by
      decide!
    rw [hs] at e
    exact Option.some.inj e
  have key := dirty_iff_written none none 1
    [(0x1000, true), (0x2000, false), (0x3000, false), (0x4000, false), (0x1000, false)] s
    (by decide) (by decide) (by decide!) (by decide)
    (fun x hx => by
      simp only [List.mem_cons, List.mem_singleton, List.not_mem_nil, or_false] at hx
      rcases hx with h | h | h | h | h <;> subst h <;> decide)
    hs
  refine ⟨s, hs, hres, ?_, ?_⟩
  · exact ((key 0x1000 (by decide)).2 hres).2 ⟨(0x1000, true), List.mem_cons_self _ _, rfl, rfl⟩
  · rw [Bool.eq_false_iff]
    intro c
    obtain ⟨x, hx, c1, c2⟩ := (key 0x2000 (by decide)).1.1 c
    simp only [List.mem_cons, List.mem_singleton, List.not_mem_nil, or_false] at hx
    rcases hx with h | h | h | h | h <;> subst h <;> revert c1 c2 <;> decide

/-- C23 (as stated, refuted): with `VMSIM_REAL_MEM_SIZE` set to `PT_AREA_SIZE`
the state after initialisation is reachable, its page-table area has room and
its backing store is not exhausted, but the pool has no frame; the translation
of address 0 does not return: the fault handler asks for a victim and
`find_lru` reads slot 0 of a directory without slots. No bound on the
recursion makes the call return. -/
theorem no_frame_no_translation :
    Reachable no_frames ∧ no_frames.num_entries = 0 ∧
    no_frames.pt_free_addr + PAGESIZE ≤ PT_AREA_SIZE ∧
    no_frames.next_block_number * BLOCK_SIZE + BLOCK_SIZE ≤ no_frames.bs_limit ∧
    mmu_translate 8 no_frames 0 false = .error .undefined ∧
    ∀ fuel r t, mmu_translate fuel no_frames 0 false ≠ .ok (r, t) := by
  have hr : Reachable no_frames := reachable_init (some PT_AREA_SIZE) none (by decide)
  refine ⟨hr, by decide!, by decide!, by decide!, error_of_match _ _ (by decide!), ?_⟩
  intro fuel r t ht
  have hi := reachable_inv no_frames hr (by decide!)
  obtain ⟨i1, i2, i3, _⟩ := mmu_translate_inv fuel no_frames t 0 false r hi ht
  obtain ⟨i, hlt, _⟩ := i1.tab.ent _ _ (by decide) (by decide) i2 i3
  have hf := mmu_translate_fixed _ _ _ _ _ _ ht
  have hN : t.num_entries = 0 := by
    rw [hf.2.2.2.2.2.2.2.2.1]
    decide!
  rw [i1.cfg.frames_eq, hN] at hlt
  simp at hlt

/-- C23 (amended): in every reachable state of a simulator whose real memory
is at most `2^32 - 4096` bytes, for every address and access kind: when the
page is resident, or when the page was never mapped (its lower table is
missing and the page-table area has room for one, or its entry is zero), a
frame of the pool is free and the directory element of that frame lies inside
the block allocated for the directory, `mmu_translate` returns, with every
bound of at least 2 on the recursion, evicts nothing and calls
`vmsim_map_fault` at most once: either the call returns with one level (no
fault), or the fault returns, leaves the upper entry present and the lower
entry resident, and the translation retried in the state after the fault
returns the result with one level. -/
theorem translate_one_fault (fuel : Nat) (s : State) (a : Nat) (w : Bool)
    (h : Reachable s) (hs : s.real_size + PAGESIZE ≤ U32)
    (hcase : s.is_resident a = true ∨
      ((s.upper_pte a = 0 → s.pt_free_addr + PAGESIZE ≤ PT_AREA_SIZE) ∧
        (s.upper_pte a ≠ 0 → s.lower_pte a = 0) ∧
        s.real_free_addr + PAGESIZE ≤ s.real_size ∧
        s.slot_allocated ((s.real_free_addr - PT_AREA_SIZE) / PAGESIZE) = true)) :
    ∃ r t, mmu_translate (fuel + 2) s a w = .ok (r, t) ∧ t.evicted = s.evicted ∧
      (mmu_translate 1 s a w = .ok (r, t) ∨
        ∃ t1, vmsim_map_fault (fuel + 2) s a = .ok t1 ∧
          t1.upper_pte a ≠ 0 ∧ t1.lower_pte a ≠ 0 ∧ IS_RESIDENT (t1.lower_pte a) = true ∧
          mmu_translate 1 t1 a w = .ok (r, t)) := by
  have hi := reachable_inv s h (by simpa only [PAGESIZE_eq, U32_eq] using hs)
  obtain ⟨r, t, ht, _, hev, _, hc⟩ := translate_safe fuel s a w hi (safe_case s a hi hcase)
  refine ⟨r, t, ht, hev, ?_⟩
  rcases hc with c | ⟨t1, c1, c2, c3, c4, c5⟩
  · exact Or.inl c
  · have hup : t1.upper_pte a ≠ 0 := by rw [upper_pte_eq t1 none c2]; exact c3
    refine Or.inr ⟨t1, c1, hup, ?_, ?_, c5⟩
    · rw [lower_pte_eq t1 none c2 a hup]
      omega
    · rw [lower_pte_eq t1 none c2 a hup, IS_RESIDENT_eq, decide_eq_true_eq]
      exact c4

/-- C23 (amended), instance: right after the initialisation of the default
configuration, the read of address 0x4000, on a page never touched, returns
after one fault: frame 0 is free and element 0 of the directory is inside its
block of 12 bytes. -/
theorem translate_one_fault_witness :
    Reachable (init_state none none) ∧ (init_state none none).real_size + PAGESIZE ≤ U32 ∧
    (init_state none none).upper_pte 0x4000 = 0 ∧
    (init_state none none).slot_allocated
      (((init_state none none).real_free_addr - PT_AREA_SIZE) / PAGESIZE) = true ∧
    ∃ r t, mmu_translate (1 + 2) (init_state none none) 0x4000 false = .ok (r, t) ∧
      t.evicted = (init_state none none).evicted ∧
      (mmu_translate 1 (init_state none none) 0x4000 false = .ok (r, t) ∨
        ∃ t1, vmsim_map_fault (1 + 2) (init_state none none) 0x4000 = .ok t1 ∧
          t1.upper_pte 0x4000 ≠ 0 ∧ t1.lower_pte 0x4000 ≠ 0 ∧
          IS_RESIDENT (t1.lower_pte 0x4000) = true ∧
          mmu_translate 1 t1 0x4000 false = .ok (r, t)) :=
  ⟨reachable_init none none (by decide), by decide!, by decide!, by decide!,
    translate_one_fault 1 (init_state none none) 0x4000 false
      (reachable_init none none (by decide)) (by decide!)
      (Or.inr ⟨fun _ => by decide!, fun c => absurd (by decide!) c, by decide!, by decide!⟩)⟩

/-- C24 (refuted by a run): a simulator with one frame (real memory of
`PT_AREA_SIZE + 4096` bytes, default store of 1 GiB) is initialised and the
calls of `ping_pong 8191` are made, followed by a read of page 1 and a read of
page 2: one byte of page 1 is read, the byte 171 is written at the start of
page 2, and the two pages are read in turn 8192 times. Every call is confined
to one page, all calls return, the page-table area has room and the store is
not exhausted. The flat memory holds 171 at the start of page 2 after these
calls, but the last read of page 2 returns 0: page 2 was evicted to block
16384 and reloaded from block `16384 mod 2^14 = 0`. -/
theorem ping_pong_loses_page :
    (∀ c, c ∈ ping_pong 8191 ++ [read_page 1, read_page 2] →
      c.addr % PAGESIZE + c.size ≤ PAGESIZE) ∧
    flat_calls (fun _ => 0) (ping_pong 8191 ++ [read_page 1]) (2 * 4096) = 171 ∧
    ∃ s out t,
      sim_calls 3 (init_state (some 4202496) none) (ping_pong 8191 ++ [read_page 1]) =
        .ok s ∧
      s.pt_free_addr + PAGESIZE ≤ PT_AREA_SIZE ∧
      vmsim_read 3 s (read_page 2).buffer (read_page 2).addr (read_page 2).size =
        .ok (out, t) ∧
      t.next_block_number * BLOCK_SIZE + BLOCK_SIZE ≤ t.bs_limit ∧
      out 0 = 0 := by
  refine ⟨?_, ?_, ?_⟩
  · intro c hc
    simp only [List.mem_append, List.mem_cons, List.mem_singleton, List.not_mem_nil,
      or_false] at hc
    have h3 : c = read_page 1 ∨ c = read_page 2 ∨ c = write_page 2 := by
      rcases hc with e | e | e
      · exact ping_pong_mem 8191 c e
      · exact Or.inl e
      · exact Or.inr (Or.inl e)
    rcases h3 with e | e | e
    · rw [e]; decide
    · rw [e]; decide
    · rw [e]; decide
  · rw [flat_calls_append, flat_ping_pong]
    exact copy_in_in (fun _ => 0) (2 * 4096) (fun _ => 171) 1 (2 * 4096) (Nat.le_refl _)
      (by omega)
  · obtain ⟨s, out, t, h1, h2, _, _, h5, h6, h7, h8⟩ := swing_lost 1 (fun _ => 0)
    refine ⟨s, out, t, h1, ?_, h5, ?_, h8⟩
    · rw [PAGESIZE_eq, PT_AREA_SIZE_eq]; exact h2
    · rw [h6, h7]; decide

end VMSim
